import Mathlib

/-!
Main shared-memory registry of sysrepo (src/shm_main.c).

Shallow embedding of the routines of `shm_main.c` that build and query the
main SHM arena, open the main SHM file, and keep the list of connections of
the process with their lockfiles.  System calls and helpers defined outside
`shm_main.c` act on an explicit state of the file or of the process; whether
one of them fails for a reason of its own is an input of the call.

Memory model.  The arena is a mapped file addressed by byte offsets from its
base.  It is embedded as one plane per C type stored in it: the header at
offset 0, the module records that follow it (record `i` starts at
`hdr + i * sizeof(sr_mod_t)`), and, indexed by the byte offset of their first
byte, the NUL-terminated strings, the `off_t` cells, and the `sr_dep_t`,
`sr_rpc_t` and `sr_notif_t` records.  Lock members of the records are not
represented.  Counters and offsets are natural numbers: their C widths are
declared in headers outside `shm_main.c`, and the embedding covers runs in
which none of them wraps.  `assert` is embedded as a failing result, as in a
build without `NDEBUG`.
-/

namespace Sysrepo

/-- Data node of the internal sysrepo data tree (`struct lyd_node`): the name
of its schema node, its leaf value as a string, and its children in sibling
order. -/
inductive LydNode where
  | mk (name : String) (value : String) (child : List LydNode) : LydNode

/-- Schema name of a node (`node->schema->name`). -/
def LydNode.name : LydNode → String
  | .mk n _ _ => n

/-- Value of a leaf as a string (`sr_ly_leaf_value_str`). -/
def LydNode.value : LydNode → String
  | .mk _ v _ => v

/-- First-child sibling list (`node->child`). -/
def LydNode.child : LydNode → List LydNode
  | .mk _ _ c => c

/-- The assertions of the build routines. -/
inductive AssertId where
  /-- In `sr_shmmain_fill_deps`: `assert(!*dep_i)`. -/
  | dep_i_zero
  /-- In `sr_shmmain_fill_deps`: `assert(!dep_found || module || path)`. -/
  | dep_set
  /-- In `sr_shmmain_fill_module`: `assert(name)`. -/
  | name_set
  /-- In `sr_shmmain_find_module`: `assert(name)`. -/
  | name_arg
  /-- In `sr_shmmain_conn_check`: `assert(cid && conn_alive)`. -/
  | cid_arg
  /-- Start of a sub-pass: `assert(!shm_mod->dep_count)` and its like. -/
  | count_zero
  /-- End of a sub-pass: `assert(shm_end == shm_main->addr + shm_main->size)`. -/
  | exact_fit
  deriving DecidableEq, Repr

/-- Ways a routine stops without success. -/
inductive SrErr where
  /-- Error `SR_ERR_INTERNAL` (`SR_CHECK_INT_RET`). -/
  | Internal
  /-- Error `SR_ERR_NOMEM` of a failed remap. -/
  | NoMem
  /-- An `assert` failed. -/
  | Assert (a : AssertId)
  /-- A pointer that is NULL or maps nothing would be dereferenced: the
  process is stopped there. -/
  | Fault
  /-- Error `SR_ERR_SYS` of a failed system call. -/
  | Sys
  /-- Error `SR_ERR_UNSUPPORTED`. -/
  | Unsupported
  /-- Error `SR_ERR_EXISTS`. -/
  | Exists
  /-- Error `SR_ERR_INVAL_ARG`. -/
  | InvalArg
  /-- Error `SR_ERR_OPERATION_FAILED`. -/
  | OperationFailed
  /-- Exception `std::out_of_range`. -/
  | OutOfRange
  /-- Exception `std::logic_error`. -/
  | LogicError
  deriving DecidableEq, Repr

/-- Dependency type (`sr_dep_type_t`); zeroed memory reads as the first
enumerator. -/
inductive DepType where
  | REF
  | INSTID
  deriving DecidableEq, Repr

/-- Dependency record (`sr_dep_t`). -/
structure SrDep where
  type : DepType := DepType.REF
  module : Nat := 0
  path : Nat := 0
  deriving DecidableEq, Repr

/-- RPC/action record (`sr_rpc_t`), lock left out. -/
structure SrRpc where
  path : Nat := 0
  in_deps : Nat := 0
  in_dep_count : Nat := 0
  out_deps : Nat := 0
  out_dep_count : Nat := 0
  deriving DecidableEq, Repr

/-- Notification record (`sr_notif_t`). -/
structure SrNotif where
  path : Nat := 0
  deps : Nat := 0
  dep_count : Nat := 0
  deriving DecidableEq, Repr

/-- Module record (`sr_mod_t`), locks left out. -/
structure SrMod where
  ver : Nat := 0
  name : Nat := 0
  rev : String := ""
  replay_supp : Nat := 0
  features : Nat := 0
  feat_count : Nat := 0
  deps : Nat := 0
  dep_count : Nat := 0
  inv_deps : Nat := 0
  inv_dep_count : Nat := 0
  rpcs : Nat := 0
  rpc_count : Nat := 0
  notifs : Nat := 0
  notif_count : Nat := 0
  notif_subs : Nat := 0
  notif_sub_count : Nat := 0
  deriving DecidableEq, Repr

/-- Main SHM header (`sr_main_shm_t`), mutexes left out. -/
structure SrMainShm where
  shm_ver : Nat := 0
  new_sr_cid : Nat := 0
  new_sr_sid : Nat := 0
  new_sub_id : Nat := 0
  new_evpipe_num : Nat := 0
  mod_count : Nat := 0
  deriving DecidableEq, Repr

/-- Mapped main SHM (`sr_shm_t` with the content of the mapping). -/
structure Shm where
  /-- Size of the mapping, `shm->size`. -/
  size : Nat
  /-- Header at offset 0. -/
  main : SrMainShm
  /-- Module record of each index (`SR_SHM_MOD_IDX`). -/
  mods : Nat → SrMod
  /-- String starting at each byte offset. -/
  str : Nat → String
  /-- Cell of type `off_t` at each byte offset. -/
  off : Nat → Nat
  /-- Dependency record at each byte offset. -/
  dep : Nat → SrDep
  /-- RPC record at each byte offset. -/
  rpc : Nat → SrRpc
  /-- Notification record at each byte offset. -/
  notif : Nat → SrNotif

/-- What a copy that runs past the `rev` member of a module record leaves
of the items of the mapping.  The bytes it writes are those of the string,
at the addresses behind the member, so an item reads afterwards as its own
bytes with some of them replaced: for every kind of item, what the item at an
index or byte offset reads as, given what it held. -/
structure Overrun where
  /-- The module record of an index. -/
  mods : Nat → SrMod → SrMod
  /-- The string that starts at a byte offset. -/
  str : Nat → String → String
  /-- The `off_t` at a byte offset. -/
  off : Nat → Nat → Nat
  /-- The dependency record at a byte offset. -/
  dep : Nat → SrDep → SrDep
  /-- The RPC record at a byte offset. -/
  rpc : Nat → SrRpc → SrRpc
  /-- The notification record at a byte offset. -/
  notif : Nat → SrNotif → SrNotif

/-- Sizes that `shm_main.c` takes from declarations outside the file, the
largest size a mapping of the backing file can get, and what a copy that
overruns the `rev` member of a module record leaves in the mapping. -/
structure Layout where
  /-- The `sizeof(sr_main_shm_t)`. -/
  hdr : Nat
  /-- The `sizeof(sr_mod_t)`. -/
  mod : Nat
  /-- The `sizeof(sr_dep_t)`. -/
  dep : Nat
  /-- The `sizeof(sr_rpc_t)`. -/
  rpc : Nat
  /-- The `sizeof(sr_notif_t)`. -/
  notif : Nat
  /-- The `sizeof(off_t)`. -/
  off : Nat
  /-- The `sizeof` of the `rev` member of `sr_mod_t`. -/
  rev : Nat
  /-- Largest size `ftruncate`/`mmap` grant. -/
  cap : Nat
  /-- What the items of the mapping read as after `strcpy` has written a
  string of `rev` or more bytes into the `rev` member of the record with the
  given index: the bytes of the string that do not fit lie over the members
  behind `rev` and over what follows the record, and which members and items
  those are is decided by the declaration of `sr_mod_t`. -/
  overrun : Nat → String → Overrun

/-- Result of a routine that works on the arena in place: on failure the
error comes with the arena as the routine left it. -/
abbrev Res (α : Type) := Except (SrErr × Shm) α

/-- Store into module record `i`. -/
def Shm.setMod (s : Shm) (i : Nat) (m : SrMod) : Shm :=
  { s with mods := fun j => if j = i then m else s.mods j }

/-- Store a string at byte offset `a`. -/
def Shm.setStr (s : Shm) (a : Nat) (v : String) : Shm :=
  { s with str := fun x => if x = a then v else s.str x }

/-- Store an `off_t` at byte offset `a`. -/
def Shm.setOff (s : Shm) (a : Nat) (v : Nat) : Shm :=
  { s with off := fun x => if x = a then v else s.off x }

/-- Store a dependency record at byte offset `a`. -/
def Shm.setDep (s : Shm) (a : Nat) (v : SrDep) : Shm :=
  { s with dep := fun x => if x = a then v else s.dep x }

/-- Store an RPC record at byte offset `a`. -/
def Shm.setRpc (s : Shm) (a : Nat) (v : SrRpc) : Shm :=
  { s with rpc := fun x => if x = a then v else s.rpc x }

/-- Store a notification record at byte offset `a`. -/
def Shm.setNotif (s : Shm) (a : Nat) (v : SrNotif) : Shm :=
  { s with notif := fun x => if x = a then v else s.notif x }

/-- Change module record `i` in place. -/
def Shm.updMod (s : Shm) (i : Nat) (f : SrMod → SrMod) : Shm :=
  s.setMod i (f (s.mods i))

/-! ## Helpers of the arena (declared outside `shm_main.c`) -/

/-- Modelled from the spec: the macro `SR_SHM_SIZE`, which `shm_main.c` uses
and a header outside the sources defines; the size of an item in the arena
with its alignment padding, the next multiple of 8. -/
def SR_SHM_SIZE (size : Nat) : Nat := size + (8 - size % 8) % 8

/-- Length of a C string in bytes (`strlen`). -/
def strlen (str : String) : Nat := str.utf8ByteSize

/-- Modelled from the spec: `sr_strshmlen`, called by `shm_main.c` and
defined outside the sources; the arena size of a string with its NUL. -/
def sr_strshmlen (str : String) : Nat := SR_SHM_SIZE (strlen str + 1)

/-- Modelled from the spec: `sr_shmcpy` with a NULL source, called by
`shm_main.c` and defined outside the sources; reserves `size` bytes at the
write cursor and returns their offset and the new cursor, or offset 0 and the
cursor unmoved for an empty item. -/
def sr_shmcpy (size : Nat) (shm_end : Nat) : Nat × Nat :=
  if size = 0 then (0, shm_end) else (shm_end, shm_end + SR_SHM_SIZE size)

/-- Modelled from the spec: `sr_shmstrcpy`, called by `shm_main.c` and
defined outside the sources; appends a string at the write cursor and
returns the arena, the offset of the string and the new cursor. -/
def sr_shmstrcpy (shm : Shm) (str : String) (shm_end : Nat) : Shm × Nat × Nat :=
  (shm.setStr shm_end str, shm_end, shm_end + sr_strshmlen str)

/-- Modelled from the spec: `sr_shm_remap`, called by `shm_main.c` and
defined outside the sources.  With `new_size = 0` the file is mapped at its
current length; otherwise the backing file is truncated or extended to
`new_size` and mapped again.  Bytes of an extension are zero, so everything
at or past the smaller of the old and the new size reads as zero.  Fails with
`NoMem` when the size cannot be granted. -/
def sr_shm_remap (L : Layout) (shm : Shm) (new_size : Nat) : Res Shm :=
  let n := if new_size = 0 then shm.size else new_size
  if L.cap < n then .error (SrErr.NoMem, shm)
  else
    let keep := min shm.size n
    .ok { size := n
          main := if 0 < keep then shm.main else {}
          mods := fun i => if L.hdr + i * L.mod < keep then shm.mods i else {}
          str := fun a => if a < keep then shm.str a else ""
          off := fun a => if a < keep then shm.off a else 0
          dep := fun a => if a < keep then shm.dep a else {}
          rpc := fun a => if a < keep then shm.rpc a else {}
          notif := fun a => if a < keep then shm.notif a else {} }

/-! ## Lookup -/

/-- Loop of `sr_shmmain_find_module`: `n` records remain, starting at index `i`. -/
def find_module_loop (shm : Shm) (name : String) : Nat → Nat → Option Nat
  | 0, _ => none
  | n + 1, i =>
    if shm.str (shm.mods i).name = name then some i
    else find_module_loop shm name n (i + 1)

/-- Function `sr_shmmain_find_module`: index of the found module record, `none` for NULL. -/
def sr_shmmain_find_module (shm : Shm) (name : String) : Option Nat :=
  find_module_loop shm name shm.main.mod_count 0

/-- Loop of `sr_shmmain_find_rpc` over the RPC records of a module: `n`
records remain, starting at index `i` of the array at offset `shm_rpc`. -/
def find_rpc_loop (L : Layout) (shm : Shm) (shm_rpc : Nat) (path : String) : Nat → Nat → Option Nat
  | 0, _ => none
  | n + 1, i =>
    if shm.str (shm.rpc (shm_rpc + i * L.rpc)).path = path then some (shm_rpc + i * L.rpc)
    else find_rpc_loop L shm shm_rpc path n (i + 1)

/-- Function `sr_shmmain_find_rpc`: the offset of the found RPC record,
`none` for NULL.  The helper `sr_get_first_ns` is defined outside the sources
and is a parameter here; when it yields NULL, the assertion of
`sr_shmmain_find_module` on its argument fails. -/
def sr_shmmain_find_rpc (L : Layout) (sr_get_first_ns : String → Option String) (shm : Shm)
    (path : String) : Except SrErr (Option Nat) :=
  match sr_get_first_ns path with
  | none => .error (SrErr.Assert AssertId.name_arg)
  | some mod_name =>
    match sr_shmmain_find_module shm mod_name with
    | none => .ok none
    | some j => .ok (find_rpc_loop L shm (shm.mods j).rpcs path (shm.mods j).rpc_count 0)

/-! ## Build: dependencies -/

/-- Inner loop of `sr_shmmain_fill_deps` over the children of an `inst-id`
node; `cell` is the offset of `shm_deps[*dep_i]`. -/
def fill_deps_instid (cell : Nat) : List LydNode → Shm → Nat → Res (Shm × Nat)
  | [], s, e => .ok (s, e)
  | c :: cs, s, e =>
    if c.name = "path" then
      let r := sr_shmstrcpy s c.value e
      fill_deps_instid cell cs (r.1.setDep cell { r.1.dep cell with path := r.2.1 }) r.2.2
    else if c.name = "default-module" then
      match sr_shmmain_find_module s c.value with
      | none => .error (SrErr.Internal, s)
      | some j =>
        fill_deps_instid cell cs (s.setDep cell { s.dep cell with module := (s.mods j).name }) e
    else fill_deps_instid cell cs s e

/-- Loop of `sr_shmmain_fill_deps` over the children of the dependency parent. -/
def fill_deps_loop (L : Layout) (shm_deps : Nat) : List LydNode → Shm → Nat → Nat → Res (Shm × Nat × Nat)
  | [], s, dep_i, e => .ok (s, dep_i, e)
  | d :: ds, s, dep_i, e =>
    let cell := shm_deps + dep_i * L.dep
    if d.name = "module" then
      let s1 := s.setDep cell { s.dep cell with type := DepType.REF }
      match sr_shmmain_find_module s1 d.value with
      | none => .error (SrErr.Internal, s1)
      | some j =>
        let s2 := s1.setDep cell { s1.dep cell with module := (s1.mods j).name, path := 0 }
        if (s2.dep cell).module = 0 ∧ (s2.dep cell).path = 0 then
          .error (SrErr.Assert AssertId.dep_set, s2)
        else fill_deps_loop L shm_deps ds s2 (dep_i + 1) e
    else if d.name = "inst-id" then
      let s1 := s.setDep cell { s.dep cell with type := DepType.INSTID, module := 0 }
      match fill_deps_instid cell d.child s1 e with
      | .error x => .error x
      | .ok (s2, e1) =>
        if (s2.dep cell).module = 0 ∧ (s2.dep cell).path = 0 then
          .error (SrErr.Assert AssertId.dep_set, s2)
        else fill_deps_loop L shm_deps ds s2 (dep_i + 1) e1
    else fill_deps_loop L shm_deps ds s dep_i e

/-- Function `sr_shmmain_fill_deps`: fills `shm_deps` from the children of
`sr_dep_parent`; returns the arena, `*dep_i` and `*shm_end`. -/
def sr_shmmain_fill_deps (L : Layout) (shm : Shm) (sr_dep_parent : LydNode) (shm_deps : Nat)
    (dep_i : Nat) (shm_end : Nat) : Res (Shm × Nat × Nat) :=
  if dep_i ≠ 0 then .error (SrErr.Assert AssertId.dep_i_zero, shm)
  else fill_deps_loop L shm_deps sr_dep_parent.child shm dep_i shm_end

/-! ## Build: name and features of a module -/

/-- The statement `strcpy(shm_mod->rev, str)` of `sr_shmmain_fill_module`,
which tests no length.  A string of fewer bytes than the member is stored in
it.  A longer one is written on past the end of the member, and the function
goes on: the size of the mapping, the header and the records in front of
this one are as they were; this record, the records behind it and the
strings and items stored behind the array of module records read as
`L.overrun` says.  (Strings and items lie behind the array of module
records; what the arena holds at a smaller offset stands for no bytes of its
own and is left as it is.  The copy is taken to end inside the mapped pages;
one that leaves them stops the process.) -/
def strcpy_rev (L : Layout) (idx : Nat) (str : String) (s : Shm) : Shm :=
  if strlen str < L.rev then s.updMod idx fun m => { m with rev := str }
  else
    let o := L.overrun idx str
    let e := L.hdr + s.main.mod_count * L.mod
    { size := s.size
      main := s.main
      mods := fun j => if j < idx then s.mods j else o.mods j (s.mods j)
      str := fun a => if a < e then s.str a else o.str a (s.str a)
      off := fun a => if a < e then s.off a else o.off a (s.off a)
      dep := fun a => if a < e then s.dep a else o.dep a (s.dep a)
      rpc := fun a => if a < e then s.rpc a else o.rpc a (s.rpc a)
      notif := fun a => if a < e then s.notif a else o.notif a (s.notif a) }

/-- First loop of `sr_shmmain_fill_module` over the children of a module
node; threads the arena, the remembered name and `feat_names_len`.  None of
its steps fails. -/
def fill_module_scan (L : Layout) (idx : Nat) :
    List LydNode → Shm → Option String → Nat → Res (Shm × Option String × Nat)
  | [], s, name, len => .ok (s, name, len)
  | c :: cs, s, name, len =>
    if c.name = "name" then fill_module_scan L idx cs s (some c.value) len
    else if c.name = "revision" then
      fill_module_scan L idx cs (strcpy_rev L idx c.value s) name len
    else if c.name = "replay-support" then
      fill_module_scan L idx cs (s.updMod idx fun m => { m with replay_supp := 1 }) name len
    else if c.name = "enabled-feature" then
      fill_module_scan L idx cs (s.updMod idx fun m => { m with feat_count := m.feat_count + 1 })
        name (len + sr_strshmlen c.value)
    else fill_module_scan L idx cs s name len

/-- Second loop of `sr_shmmain_fill_module`: copies the feature names;
threads the arena, `feat_i` and `shm_end`. -/
def fill_module_feats (L : Layout) (shm_features : Nat) :
    List LydNode → Shm → Nat → Nat → Shm × Nat × Nat
  | [], s, feat_i, e => (s, feat_i, e)
  | c :: cs, s, feat_i, e =>
    if c.name = "enabled-feature" then
      let r := sr_shmstrcpy s c.value e
      fill_module_feats L shm_features cs (r.1.setOff (shm_features + feat_i * L.off) r.2.1)
        (feat_i + 1) r.2.2
    else fill_module_feats L shm_features cs s feat_i e

/-- Function `sr_shmmain_fill_module`. -/
def sr_shmmain_fill_module (L : Layout) (sr_mod : LydNode) (shm_mod_idx : Nat) (shm : Shm) :
    Res Shm :=
  let s0 := shm.setMod shm_mod_idx { ver := 1 }
  match fill_module_scan L shm_mod_idx sr_mod.child s0 none 0 with
  | .error x => .error x
  | .ok (s1, none, _) => .error (SrErr.Assert AssertId.name_set, s1)
  | .ok (s1, some name, feat_names_len) =>
    let old_shm_size := s1.size
    match sr_shm_remap L s1 (s1.size + sr_strshmlen name
        + SR_SHM_SIZE ((s1.mods shm_mod_idx).feat_count * L.off) + feat_names_len) with
    | .error x => .error x
    | .ok s2 =>
      let r := sr_shmstrcpy s2 name old_shm_size
      let s3 := r.1.updMod shm_mod_idx fun m => { m with name := r.2.1 }
      let a := sr_shmcpy ((s3.mods shm_mod_idx).feat_count * L.off) r.2.2
      let s4 := s3.updMod shm_mod_idx fun m => { m with features := a.1 }
      let f := fill_module_feats L (s4.mods shm_mod_idx).features sr_mod.child s4 0 a.2
      if f.2.1 ≠ (f.1.mods shm_mod_idx).feat_count then .error (SrErr.Internal, f.1)
      else if f.2.2 ≠ f.1.size then .error (SrErr.Assert AssertId.exact_fit, f.1)
      else .ok f.1

/-! ## Build: data and inverse dependencies of a module -/

/-- Counting loop over the children of an `inst-id` node: the arena size of
its `path` strings. -/
def instid_paths_len : List LydNode → Nat
  | [] => 0
  | c :: cs => (if c.name = "path" then sr_strshmlen c.value else 0) + instid_paths_len cs

/-- Counting loop over the children of a dependency parent: the arena size
of the paths of its `inst-id` children. -/
def deps_paths_len : List LydNode → Nat
  | [] => 0
  | d :: ds => (if d.name = "inst-id" then instid_paths_len d.child else 0) + deps_paths_len ds

/-- Counting loop of `sr_shmmain_add_module_deps`; threads the arena (whose
record gets `dep_count` and `inv_dep_count`) and `paths_len`. -/
def add_module_deps_count (idx : Nat) : List LydNode → Shm → Nat → Shm × Nat
  | [], s, paths_len => (s, paths_len)
  | c :: cs, s, paths_len =>
    if c.name = "deps" then
      add_module_deps_count idx cs
        (s.updMod idx fun m => { m with dep_count := m.dep_count + c.child.length })
        (paths_len + deps_paths_len c.child)
    else if c.name = "inverse-deps" then
      add_module_deps_count idx cs
        (s.updMod idx fun m => { m with inv_dep_count := m.inv_dep_count + 1 }) paths_len
    else add_module_deps_count idx cs s paths_len

/-- Filling loop of `sr_shmmain_add_module_deps`; threads the arena, `dep_i`,
`inv_dep_i` and `shm_end`. -/
def add_module_deps_fill (L : Layout) (shm_deps shm_inv_deps : Nat) :
    List LydNode → Shm → Nat → Nat → Nat → Res (Shm × Nat × Nat × Nat)
  | [], s, dep_i, inv_dep_i, e => .ok (s, dep_i, inv_dep_i, e)
  | c :: cs, s, dep_i, inv_dep_i, e =>
    if c.name = "deps" then
      match sr_shmmain_fill_deps L s c shm_deps dep_i e with
      | .error x => .error x
      | .ok (s1, dep_i1, e1) => add_module_deps_fill L shm_deps shm_inv_deps cs s1 dep_i1 inv_dep_i e1
    else if c.name = "inverse-deps" then
      match sr_shmmain_find_module s c.value with
      | none => .error (SrErr.Internal, s)
      | some j =>
        add_module_deps_fill L shm_deps shm_inv_deps cs
          (s.setOff (shm_inv_deps + inv_dep_i * L.off) (s.mods j).name) dep_i (inv_dep_i + 1) e
    else add_module_deps_fill L shm_deps shm_inv_deps cs s dep_i inv_dep_i e

/-- Function `sr_shmmain_add_module_deps`. -/
def sr_shmmain_add_module_deps (L : Layout) (sr_mod : LydNode) (shm_mod_idx : Nat) (shm : Shm) :
    Res Shm :=
  if (shm.mods shm_mod_idx).dep_count ≠ 0 ∨ (shm.mods shm_mod_idx).inv_dep_count ≠ 0 then
    .error (SrErr.Assert AssertId.count_zero, shm)
  else
    let c := add_module_deps_count shm_mod_idx sr_mod.child shm 0
    let old_shm_size := c.1.size
    match sr_shm_remap L c.1 (c.1.size + c.2
        + SR_SHM_SIZE ((c.1.mods shm_mod_idx).dep_count * L.dep)
        + SR_SHM_SIZE ((c.1.mods shm_mod_idx).inv_dep_count * L.off)) with
    | .error x => .error x
    | .ok s2 =>
      let a := sr_shmcpy ((s2.mods shm_mod_idx).dep_count * L.dep) old_shm_size
      let s3 := s2.updMod shm_mod_idx fun m => { m with deps := a.1 }
      let b := sr_shmcpy ((s3.mods shm_mod_idx).inv_dep_count * L.off) a.2
      let s4 := s3.updMod shm_mod_idx fun m => { m with inv_deps := b.1 }
      match add_module_deps_fill L (s4.mods shm_mod_idx).deps (s4.mods shm_mod_idx).inv_deps
          sr_mod.child s4 0 0 b.2 with
      | .error x => .error x
      | .ok (s5, dep_i, inv_dep_i, e) =>
        if dep_i ≠ (s5.mods shm_mod_idx).dep_count then .error (SrErr.Internal, s5)
        else if inv_dep_i ≠ (s5.mods shm_mod_idx).inv_dep_count then .error (SrErr.Internal, s5)
        else if e ≠ s5.size then .error (SrErr.Assert AssertId.exact_fit, s5)
        else .ok s5

/-! ## Build: RPCs and notifications of a module -/

/-- Counting loop over the children of an `rpc` node; threads `paths_len`
and `in_out_deps_len`. -/
def rpc_count_op (L : Layout) : List LydNode → Nat → Nat → Nat × Nat
  | [], paths_len, deps_len => (paths_len, deps_len)
  | c :: cs, paths_len, deps_len =>
    if c.name = "path" then rpc_count_op L cs (paths_len + sr_strshmlen c.value) deps_len
    else if c.name = "in" ∨ c.name = "out" then
      rpc_count_op L cs (paths_len + deps_paths_len c.child)
        (deps_len + SR_SHM_SIZE (c.child.length * L.dep))
    else rpc_count_op L cs paths_len deps_len

/-- Counting loop of `sr_shmmain_add_module_rpcs`; threads the arena (whose
record gets `rpc_count`), `paths_len` and `in_out_deps_len`. -/
def add_module_rpcs_count (L : Layout) (idx : Nat) : List LydNode → Shm → Nat → Nat → Shm × Nat × Nat
  | [], s, paths_len, deps_len => (s, paths_len, deps_len)
  | c :: cs, s, paths_len, deps_len =>
    if c.name = "rpc" then
      let r := rpc_count_op L c.child paths_len deps_len
      add_module_rpcs_count L idx cs
        (s.updMod idx fun m => { m with rpc_count := m.rpc_count + 1 }) r.1 r.2
    else add_module_rpcs_count L idx cs s paths_len deps_len

/-- Filling loop over the children of an `rpc` node; `cell` is the offset of
`shm_rpcs[rpc_i]`; threads the arena and `shm_end`. -/
def add_module_rpcs_op (L : Layout) (cell : Nat) : List LydNode → Shm → Nat → Res (Shm × Nat)
  | [], s, e => .ok (s, e)
  | op :: ops, s, e =>
    if op.name = "path" then
      let r := sr_shmstrcpy s op.value e
      add_module_rpcs_op L cell ops (r.1.setRpc cell { r.1.rpc cell with path := r.2.1 }) r.2.2
    else if op.name = "in" then
      let s1 := s.setRpc cell
        { s.rpc cell with in_dep_count := (s.rpc cell).in_dep_count + op.child.length }
      let a := sr_shmcpy ((s1.rpc cell).in_dep_count * L.dep) e
      let s2 := s1.setRpc cell { s1.rpc cell with in_deps := a.1 }
      match sr_shmmain_fill_deps L s2 op (s2.rpc cell).in_deps 0 a.2 with
      | .error x => .error x
      | .ok (s3, dep_i, e1) =>
        if dep_i ≠ (s3.rpc cell).in_dep_count then .error (SrErr.Internal, s3)
        else add_module_rpcs_op L cell ops s3 e1
    else if op.name = "out" then
      let s1 := s.setRpc cell
        { s.rpc cell with out_dep_count := (s.rpc cell).out_dep_count + op.child.length }
      let a := sr_shmcpy ((s1.rpc cell).out_dep_count * L.dep) e
      let s2 := s1.setRpc cell { s1.rpc cell with out_deps := a.1 }
      match sr_shmmain_fill_deps L s2 op (s2.rpc cell).out_deps 0 a.2 with
      | .error x => .error x
      | .ok (s3, dep_i, e1) =>
        if dep_i ≠ (s3.rpc cell).out_dep_count then .error (SrErr.Internal, s3)
        else add_module_rpcs_op L cell ops s3 e1
    else add_module_rpcs_op L cell ops s e

/-- Filling loop of `sr_shmmain_add_module_rpcs`; threads the arena, `rpc_i`
and `shm_end`. -/
def add_module_rpcs_fill (L : Layout) (shm_rpcs : Nat) :
    List LydNode → Shm → Nat → Nat → Res (Shm × Nat × Nat)
  | [], s, rpc_i, e => .ok (s, rpc_i, e)
  | c :: cs, s, rpc_i, e =>
    if c.name = "rpc" then
      match add_module_rpcs_op L (shm_rpcs + rpc_i * L.rpc) c.child s e with
      | .error x => .error x
      | .ok (s1, e1) => add_module_rpcs_fill L shm_rpcs cs s1 (rpc_i + 1) e1
    else add_module_rpcs_fill L shm_rpcs cs s rpc_i e

/-- Function `sr_shmmain_add_module_rpcs`. -/
def sr_shmmain_add_module_rpcs (L : Layout) (sr_mod : LydNode) (shm_mod_idx : Nat) (shm : Shm) :
    Res Shm :=
  if (shm.mods shm_mod_idx).rpc_count ≠ 0 then .error (SrErr.Assert AssertId.count_zero, shm)
  else
    let c := add_module_rpcs_count L shm_mod_idx sr_mod.child shm 0 0
    let old_shm_size := c.1.size
    match sr_shm_remap L c.1 (c.1.size + c.2.1
        + SR_SHM_SIZE ((c.1.mods shm_mod_idx).rpc_count * L.rpc) + c.2.2) with
    | .error x => .error x
    | .ok s2 =>
      let a := sr_shmcpy ((s2.mods shm_mod_idx).rpc_count * L.rpc) old_shm_size
      let s3 := s2.updMod shm_mod_idx fun m => { m with rpcs := a.1 }
      match add_module_rpcs_fill L (s3.mods shm_mod_idx).rpcs sr_mod.child s3 0 a.2 with
      | .error x => .error x
      | .ok (s4, rpc_i, e) =>
        if rpc_i ≠ (s4.mods shm_mod_idx).rpc_count then .error (SrErr.Internal, s4)
        else if e ≠ s4.size then .error (SrErr.Assert AssertId.exact_fit, s4)
        else .ok s4

/-- Counting loop over the children of a `notification` node; threads
`paths_len` and `deps_len`. -/
def notif_count_op (L : Layout) : List LydNode → Nat → Nat → Nat × Nat
  | [], paths_len, deps_len => (paths_len, deps_len)
  | c :: cs, paths_len, deps_len =>
    if c.name = "path" then notif_count_op L cs (paths_len + sr_strshmlen c.value) deps_len
    else if c.name = "deps" then
      notif_count_op L cs (paths_len + deps_paths_len c.child)
        (deps_len + SR_SHM_SIZE (c.child.length * L.dep))
    else notif_count_op L cs paths_len deps_len

/-- Counting loop of `sr_shmmain_add_module_notifs`; threads the arena
(whose record gets `notif_count`), `paths_len` and `deps_len`. -/
def add_module_notifs_count (L : Layout) (idx : Nat) :
    List LydNode → Shm → Nat → Nat → Shm × Nat × Nat
  | [], s, paths_len, deps_len => (s, paths_len, deps_len)
  | c :: cs, s, paths_len, deps_len =>
    if c.name = "notification" then
      let r := notif_count_op L c.child paths_len deps_len
      add_module_notifs_count L idx cs
        (s.updMod idx fun m => { m with notif_count := m.notif_count + 1 }) r.1 r.2
    else add_module_notifs_count L idx cs s paths_len deps_len

/-- Filling loop over the children of a `notification` node; `cell` is the
offset of `shm_notifs[notif_i]`; threads the arena and `shm_end`. -/
def add_module_notifs_op (L : Layout) (cell : Nat) : List LydNode → Shm → Nat → Res (Shm × Nat)
  | [], s, e => .ok (s, e)
  | op :: ops, s, e =>
    if op.name = "path" then
      let r := sr_shmstrcpy s op.value e
      add_module_notifs_op L cell ops (r.1.setNotif cell { r.1.notif cell with path := r.2.1 }) r.2.2
    else if op.name = "deps" then
      let s1 := s.setNotif cell
        { s.notif cell with dep_count := (s.notif cell).dep_count + op.child.length }
      let a := sr_shmcpy ((s1.notif cell).dep_count * L.dep) e
      let s2 := s1.setNotif cell { s1.notif cell with deps := a.1 }
      match sr_shmmain_fill_deps L s2 op (s2.notif cell).deps 0 a.2 with
      | .error x => .error x
      | .ok (s3, dep_i, e1) =>
        if dep_i ≠ (s3.notif cell).dep_count then .error (SrErr.Internal, s3)
        else add_module_notifs_op L cell ops s3 e1
    else add_module_notifs_op L cell ops s e

/-- Filling loop of `sr_shmmain_add_module_notifs`; threads the arena,
`notif_i` and `shm_end`. -/
def add_module_notifs_fill (L : Layout) (shm_notifs : Nat) :
    List LydNode → Shm → Nat → Nat → Res (Shm × Nat × Nat)
  | [], s, notif_i, e => .ok (s, notif_i, e)
  | c :: cs, s, notif_i, e =>
    if c.name = "notification" then
      match add_module_notifs_op L (shm_notifs + notif_i * L.notif) c.child s e with
      | .error x => .error x
      | .ok (s1, e1) => add_module_notifs_fill L shm_notifs cs s1 (notif_i + 1) e1
    else add_module_notifs_fill L shm_notifs cs s notif_i e

/-- Function `sr_shmmain_add_module_notifs`. -/
def sr_shmmain_add_module_notifs (L : Layout) (sr_mod : LydNode) (shm_mod_idx : Nat) (shm : Shm) :
    Res Shm :=
  if (shm.mods shm_mod_idx).notif_count ≠ 0 then .error (SrErr.Assert AssertId.count_zero, shm)
  else
    let c := add_module_notifs_count L shm_mod_idx sr_mod.child shm 0 0
    let old_shm_size := c.1.size
    match sr_shm_remap L c.1 (c.1.size + c.2.1
        + SR_SHM_SIZE ((c.1.mods shm_mod_idx).notif_count * L.notif) + c.2.2) with
    | .error x => .error x
    | .ok s2 =>
      let a := sr_shmcpy ((s2.mods shm_mod_idx).notif_count * L.notif) old_shm_size
      let s3 := s2.updMod shm_mod_idx fun m => { m with notifs := a.1 }
      match add_module_notifs_fill L (s3.mods shm_mod_idx).notifs sr_mod.child s3 0 a.2 with
      | .error x => .error x
      | .ok (s4, notif_i, e) =>
        if notif_i ≠ (s4.mods shm_mod_idx).notif_count then .error (SrErr.Internal, s4)
        else if e ≠ s4.size then .error (SrErr.Assert AssertId.exact_fit, s4)
        else .ok s4

/-! ## Build: all modules -/

/-- First loop of `sr_shmmain_store_modules`: the number of `module` nodes. -/
def count_modules : List LydNode → Nat
  | [] => 0
  | m :: ms => (if m.name = "module" then 1 else 0) + count_modules ms

/-- Second loop of `sr_shmmain_store_modules` (`while (i < mod_count)`),
which fills the module records. -/
def store_modules_fill (L : Layout) (mod_count : Nat) : List LydNode → Nat → Shm → Res Shm
  | [], i, s => if i < mod_count then .error (SrErr.Fault, s) else .ok s
  | m :: ms, i, s =>
    if i < mod_count then
      if m.name = "module" then
        match sr_shmmain_fill_module L m i s with
        | .error x => .error x
        | .ok s1 => store_modules_fill L mod_count ms (i + 1) s1
      else store_modules_fill L mod_count ms i s
    else .ok s

/-- Third loop of `sr_shmmain_store_modules`, which adds dependencies, RPCs
and notifications of every module. -/
def store_modules_deps (L : Layout) (mod_count : Nat) : List LydNode → Nat → Shm → Res Shm
  | [], i, s => if i < mod_count then .error (SrErr.Fault, s) else .ok s
  | m :: ms, i, s =>
    if i < mod_count then
      if m.name = "module" then
        match sr_shmmain_add_module_deps L m i s with
        | .error x => .error x
        | .ok s1 =>
          match sr_shmmain_add_module_rpcs L m i s1 with
          | .error x => .error x
          | .ok s2 =>
            match sr_shmmain_add_module_notifs L m i s2 with
            | .error x => .error x
            | .ok s3 => store_modules_deps L mod_count ms (i + 1) s3
      else store_modules_deps L mod_count ms i s
    else .ok s

/-- Function `sr_shmmain_store_modules` on the main SHM of the connection;
`first_sr_mod` is the sibling list it walks. -/
def sr_shmmain_store_modules (L : Layout) (shm : Shm) (first_sr_mod : List LydNode) : Res Shm :=
  let mod_count := count_modules first_sr_mod
  match sr_shm_remap L shm (L.hdr + mod_count * L.mod) with
  | .error x => .error x
  | .ok s1 =>
    let s2 : Shm := { s1 with main := { s1.main with mod_count := mod_count } }
    match store_modules_fill L mod_count first_sr_mod 0 s2 with
    | .error x => .error x
    | .ok s3 => store_modules_deps L mod_count first_sr_mod 0 s3

/-! ## What the data tree says -/

/-- Value of the last child named `nm`, if there is one: the value a loop
over the children leaves in a variable it assigns at every such child. -/
def lastValue (nm : String) : List LydNode → Option String
  | [] => none
  | c :: cs =>
    match lastValue nm cs with
    | some v => some v
    | none => if c.name = nm then some c.value else none

/-- Children of a dependency parent that are dependencies (`module` leaves
and `inst-id` nodes), in sibling order. -/
def depNodes (ds : List LydNode) : List LydNode :=
  ds.filter fun d => decide (d.name = "module" ∨ d.name = "inst-id")

/-- Children with the schema name `nm`, in sibling order. -/
def childrenNamed (nm : String) (cs : List LydNode) : List LydNode :=
  cs.filter fun c => decide (c.name = nm)

/-- Every `revision` child of the module node `m` fits the `rev` member:
it has fewer bytes than the member, so that `strcpy` writes inside it. -/
def RevFits (L : Layout) (m : LydNode) : Prop :=
  ∀ c, c ∈ m.child → c.name = "revision" → strlen c.value < L.rev

instance RevFits.decide (L : Layout) (m : LydNode) : Decidable (RevFits L m) :=
  inferInstanceAs (Decidable (∀ c, c ∈ m.child → c.name = "revision" → strlen c.value < L.rev))

/-- The revisions of all `module` nodes of the sibling list fit the `rev`
member. -/
def RevsFit (L : Layout) (t : List LydNode) : Prop :=
  ∀ m, m ∈ t → m.name = "module" → RevFits L m

instance RevsFit.decide (L : Layout) (t : List LydNode) : Decidable (RevsFit L t) :=
  inferInstanceAs (Decidable (∀ m, m ∈ t → m.name = "module" → RevFits L m))

/-- Offset `off` is the `name` member of one of the `mod_count` module
records and the string there is `v`. -/
def IsName (s : Shm) (off : Nat) (v : String) : Prop :=
  ∃ j, j < s.main.mod_count ∧ (s.mods j).name = off ∧ s.str off = v

/-- Every module name offset lies below `e`. -/
def NamesLt (s : Shm) (e : Nat) : Prop :=
  ∀ j, j < s.main.mod_count → (s.mods j).name < e

/-- Some module record below `mod_count` has the name string `v`. -/
def HasName (s : Shm) (v : String) : Prop :=
  ∃ j, j < s.main.mod_count ∧ s.str (s.mods j).name = v

/-- Dependency record `d` is what `sr_shmmain_fill_deps` stores for the
dependency node `n`, with the path string inside `[lo, hi)`; every
`default-module` child of an `inst-id` node was found among the modules. -/
def DepCellOK (s : Shm) (lo hi : Nat) (d : SrDep) (n : LydNode) : Prop :=
  if n.name = "module" then
    d.type = DepType.REF ∧ d.path = 0 ∧ d.module ≠ 0 ∧ IsName s d.module n.value
  else
    d.type = DepType.INSTID ∧ (d.module ≠ 0 ∨ d.path ≠ 0) ∧
    (match lastValue "path" n.child with
      | none => d.path = 0
      | some v => lo ≤ d.path ∧ d.path + sr_strshmlen v ≤ hi ∧ s.str d.path = v) ∧
    (match lastValue "default-module" n.child with
      | none => d.module = 0
      | some v => IsName s d.module v) ∧
    (∀ c, c ∈ n.child → c.name = "default-module" → HasName s c.value)

/-- Arena `s2` differs from `s` at most in dependency records and in strings
at or past offset `e`. -/
structure DepFrame (e : Nat) (s s2 : Shm) : Prop where
  size : s2.size = s.size
  main : s2.main = s.main
  mods : s2.mods = s.mods
  off : s2.off = s.off
  rpc : s2.rpc = s.rpc
  notif : s2.notif = s.notif
  str : ∀ a, a < e → s2.str a = s.str a

/-- Children of the children named `nm`, concatenated in sibling order. -/
def grandChildren (nm : String) : List LydNode → List LydNode
  | [] => []
  | c :: cs => (if c.name = nm then c.child else []) ++ grandChildren nm cs

/-- Arena `s2` has the size, header and module records of `s` and its
strings below offset `e`. -/
structure Frame (e : Nat) (s s2 : Shm) : Prop where
  size : s2.size = s.size
  main : s2.main = s.main
  mods : s2.mods = s.mods
  str : ∀ a, a < e → s2.str a = s.str a

/-- The sizes of the layout are positive. -/
structure LayoutOK (L : Layout) : Prop where
  hdr : 0 < L.hdr
  mod : 0 < L.mod
  dep : 0 < L.dep
  rpc : 0 < L.rpc
  notif : 0 < L.notif
  off : 0 < L.off

/-- The header and the `mod_count` module records lie inside the mapping. -/
def Fits (L : Layout) (s : Shm) : Prop :=
  L.hdr + s.main.mod_count * L.mod ≤ s.size

/-- Arena `s2` is `s` grown: the header is the same and nothing stored
below the old size has changed. -/
structure Keeps (s s2 : Shm) : Prop where
  size : s.size ≤ s2.size
  main : s2.main = s.main
  str : ∀ a, a < s.size → s2.str a = s.str a
  off : ∀ a, a < s.size → s2.off a = s.off a
  dep : ∀ a, a < s.size → s2.dep a = s.dep a
  rpc : ∀ a, a < s.size → s2.rpc a = s.rpc a
  notif : ∀ a, a < s.size → s2.notif a = s.notif a

/-- An array of `count` items of `elt` bytes at offset `base` lies inside
`[lo, hi)`; an empty array has offset 0. -/
def ArrOK (lo hi base count elt : Nat) : Prop :=
  if count = 0 then base = 0 else lo ≤ base ∧ base + count * elt ≤ hi

/-- Module record `m` and the arena hold the data and inverse dependencies
of the module node `node`, stored inside `[lo, hi)`. -/
def ModDepsOK (L : Layout) (s : Shm) (lo hi : Nat) (m : SrMod) (node : LydNode) : Prop :=
  (m.dep_count = (depNodes (grandChildren "deps" node.child)).length ∧
    (depNodes (grandChildren "deps" node.child)).length
      = (grandChildren "deps" node.child).length) ∧
  ArrOK lo hi m.deps m.dep_count L.dep ∧
  (∀ k n, (depNodes (grandChildren "deps" node.child))[k]? = some n →
    DepCellOK s lo hi (s.dep (m.deps + k * L.dep)) n) ∧
  m.inv_dep_count = (childrenNamed "inverse-deps" node.child).length ∧
  ArrOK lo hi m.inv_deps m.inv_dep_count L.off ∧
  (∀ k n, (childrenNamed "inverse-deps" node.child)[k]? = some n →
    IsName s (s.off (m.inv_deps + k * L.off)) n.value)

/-- The dependency array of `count` records at offset `base` holds the
nodes `G`, all of which are dependencies, stored inside `[lo, hi)`. -/
def DepArrOK (L : Layout) (s : Shm) (lo hi base count : Nat) (G : List LydNode) : Prop :=
  (count = (depNodes G).length ∧ (depNodes G).length = G.length) ∧
  ArrOK lo hi base count L.dep ∧
  ∀ k n, (depNodes G)[k]? = some n → DepCellOK s lo hi (s.dep (base + k * L.dep)) n

/-- A path member `p` holds the last `path` child of `cs`, stored inside
`[lo, hi)`; it is 0 when there is none. -/
def PathOK (s : Shm) (lo hi p : Nat) (cs : List LydNode) : Prop :=
  match lastValue "path" cs with
  | none => p = 0
  | some v => lo ≤ p ∧ p + sr_strshmlen v ≤ hi ∧ s.str p = v

/-- RPC record `r` and the arena hold the `rpc` node `n`, stored inside
`[lo, hi)`. -/
def RpcCellOK (L : Layout) (s : Shm) (lo hi : Nat) (r : SrRpc) (n : LydNode) : Prop :=
  PathOK s lo hi r.path n.child ∧
  DepArrOK L s lo hi r.in_deps r.in_dep_count (grandChildren "in" n.child) ∧
  DepArrOK L s lo hi r.out_deps r.out_dep_count (grandChildren "out" n.child)

/-- Notification record `r` and the arena hold the `notification` node `n`,
stored inside `[lo, hi)`. -/
def NotifCellOK (L : Layout) (s : Shm) (lo hi : Nat) (r : SrNotif) (n : LydNode) : Prop :=
  PathOK s lo hi r.path n.child ∧
  DepArrOK L s lo hi r.deps r.dep_count (grandChildren "deps" n.child)

/-- Module record `m` and the arena hold the RPCs of the module node `node`,
stored inside `[lo, hi)`. -/
def ModRpcsOK (L : Layout) (s : Shm) (lo hi : Nat) (m : SrMod) (node : LydNode) : Prop :=
  m.rpc_count = (childrenNamed "rpc" node.child).length ∧
  ArrOK lo hi m.rpcs m.rpc_count L.rpc ∧
  ∀ k n, (childrenNamed "rpc" node.child)[k]? = some n →
    RpcCellOK L s lo hi (s.rpc (m.rpcs + k * L.rpc)) n

/-- Module record `m` and the arena hold the notifications of the module
node `node`, stored inside `[lo, hi)`. -/
def ModNotifsOK (L : Layout) (s : Shm) (lo hi : Nat) (m : SrMod) (node : LydNode) : Prop :=
  m.notif_count = (childrenNamed "notification" node.child).length ∧
  ArrOK lo hi m.notifs m.notif_count L.notif ∧
  ∀ k n, (childrenNamed "notification" node.child)[k]? = some n →
    NotifCellOK L s lo hi (s.notif (m.notifs + k * L.notif)) n

/-- Effect of a loop over the children `ops` on a dependency array member
pair that starts as `(d0, c0)` and ends as `(d2, c2)`: untouched without a
child named `nm`; otherwise the count started at 0 and the pair holds the
dependencies under the children named `nm`. -/
def ArrStmt (L : Layout) (s2 : Shm) (lo hi : Nat) (nm : String) (d0 c0 d2 c2 : Nat)
    (ops : List LydNode) : Prop :=
  if (childrenNamed nm ops).length = 0 then d2 = d0 ∧ c2 = c0
  else c0 = 0 ∧ DepArrOK L s2 lo hi d2 c2 (grandChildren nm ops)

/-- Effect of a loop over the children `ops` on a path member that starts as
`p0` and ends as `p2`: untouched without a `path` child; otherwise it holds
the last `path` child, stored inside `[lo, hi)`. -/
def PathStmt (s2 : Shm) (lo hi p0 p2 : Nat) (ops : List LydNode) : Prop :=
  match lastValue "path" ops with
  | none => p2 = p0
  | some v => lo ≤ p2 ∧ p2 + sr_strshmlen v ≤ hi ∧ s2.str p2 = v

/-- Arena `s2` has the header and the module names of `s` and agrees with it
on everything stored below offset `e`. -/
structure Stable (e : Nat) (s s2 : Shm) : Prop where
  main : s2.main = s.main
  names : ∀ j, j < s.main.mod_count → (s2.mods j).name = (s.mods j).name
  str : ∀ a, a < e → s2.str a = s.str a
  off : ∀ a, a < e → s2.off a = s.off a
  dep : ∀ a, a < e → s2.dep a = s.dep a
  rpc : ∀ a, a < e → s2.rpc a = s.rpc a
  notif : ∀ a, a < e → s2.notif a = s.notif a

/-- Arena size of the strings of the nodes `ns`. -/
def valuesLen : List LydNode → Nat
  | [] => 0
  | n :: ns => sr_strshmlen n.value + valuesLen ns

/-- The cell of `off_t` at offset `a` holds the offset of a string `v`
stored inside `[lo, hi)`. -/
def StrCellOK (s : Shm) (lo hi a : Nat) (v : String) : Prop :=
  lo ≤ s.off a ∧ s.off a + sr_strshmlen v ≤ hi ∧ s.str (s.off a) = v

/-- Module record `m` and the arena hold the name, revision, replay flag
and enabled features of the module node `node`, stored inside `[lo, hi)`. -/
def ModBaseOK (L : Layout) (s : Shm) (lo hi : Nat) (m : SrMod) (node : LydNode) : Prop :=
  m.ver = 1 ∧
  (∃ v, lastValue "name" node.child = some v ∧ lo ≤ m.name ∧
    m.name + sr_strshmlen v ≤ hi ∧ s.str m.name = v) ∧
  m.rev = (lastValue "revision" node.child).getD "" ∧
  m.replay_supp = (if (childrenNamed "replay-support" node.child).length = 0 then 0 else 1) ∧
  m.feat_count = (childrenNamed "enabled-feature" node.child).length ∧
  ArrOK lo hi m.features m.feat_count L.off ∧
  ∀ k n, (childrenNamed "enabled-feature" node.child)[k]? = some n →
    StrCellOK s lo hi (m.features + k * L.off) n.value

/-- Records `m` and `m2` have the same members written by
`sr_shmmain_fill_module`. -/
def SameBase (m m2 : SrMod) : Prop :=
  m2.ver = m.ver ∧ m2.name = m.name ∧ m2.rev = m.rev ∧ m2.replay_supp = m.replay_supp ∧
  m2.features = m.features ∧ m2.feat_count = m.feat_count

/-- Bytes the counting pass reserves for the children of one `rpc` node:
its paths and its dependency arrays. -/
def rpcOpLen (L : Layout) (ops : List LydNode) : Nat :=
  (rpc_count_op L ops 0 0).1 + (rpc_count_op L ops 0 0).2

/-- Bytes the counting pass reserves for the children of one `notification`
node: its paths and its dependency array. -/
def notifOpLen (L : Layout) (ops : List LydNode) : Nat :=
  (notif_count_op L ops 0 0).1 + (notif_count_op L ops 0 0).2

/-- Sum of `f` over the child lists of the nodes named `nm`. -/
def namedSum (f : List LydNode → Nat) (nm : String) : List LydNode → Nat
  | [] => 0
  | c :: cs => (if c.name = nm then f c.child else 0) + namedSum f nm cs

/-! ## Reading a built arena -/

/-- The `count` dependency records of the array at offset `base`. -/
def depArray (L : Layout) (s : Shm) (base count : Nat) : List SrDep :=
  (List.range count).map fun k => s.dep (base + k * L.dep)

/-- The `count` offsets of the array at offset `base`. -/
def offArray (L : Layout) (s : Shm) (base count : Nat) : List Nat :=
  (List.range count).map fun k => s.off (base + k * L.off)

/-- The `count` RPC records of the array at offset `base`. -/
def rpcArray (L : Layout) (s : Shm) (base count : Nat) : List SrRpc :=
  (List.range count).map fun k => s.rpc (base + k * L.rpc)

/-- The `count` notification records of the array at offset `base`. -/
def notifArray (L : Layout) (s : Shm) (base count : Nat) : List SrNotif :=
  (List.range count).map fun k => s.notif (base + k * L.notif)

/-- Every dependency record module record `i` leads to: its data
dependencies, the input and output dependencies of each of its RPCs, the
dependencies of each of its notifications. -/
def modDepRecords (L : Layout) (s : Shm) (i : Nat) : List SrDep :=
  depArray L s (s.mods i).deps (s.mods i).dep_count ++
  ((rpcArray L s (s.mods i).rpcs (s.mods i).rpc_count).flatMap fun r =>
    depArray L s r.in_deps r.in_dep_count ++ depArray L s r.out_deps r.out_dep_count) ++
  ((notifArray L s (s.mods i).notifs (s.mods i).notif_count).flatMap fun n =>
    depArray L s n.deps n.dep_count)

/-- Every dependency record of the arena. -/
def allDepRecords (L : Layout) (s : Shm) : List SrDep :=
  (List.range s.main.mod_count).flatMap (modDepRecords L s)

/-- The dependency nodes of a module node, in the order of `modDepRecords`. -/
def modDepNodes (m : LydNode) : List LydNode :=
  depNodes (grandChildren "deps" m.child) ++
  ((childrenNamed "rpc" m.child).flatMap fun r =>
    depNodes (grandChildren "in" r.child) ++ depNodes (grandChildren "out" r.child)) ++
  ((childrenNamed "notification" m.child).flatMap fun n =>
    depNodes (grandChildren "deps" n.child))

/-- The dependency nodes of all module nodes of a sibling list. -/
def allDepNodes (t : List LydNode) : List LydNode :=
  (childrenNamed "module" t).flatMap modDepNodes

/-- Module name a dependency node refers to: the value of a `module` leaf,
the `default-module` of an `inst-id` node. -/
def depModuleName (d : LydNode) : Option String :=
  if d.name = "module" then some d.value else lastValue "default-module" d.child

/-- Dependency as read back: type, name of the referenced module, path. -/
structure DepView where
  type : DepType
  module : Option String
  path : Option String
  deriving DecidableEq, Repr

/-- RPC as read back. -/
structure RpcView where
  path : Option String
  in_deps : List DepView
  out_deps : List DepView
  deriving DecidableEq, Repr

/-- Notification as read back. -/
structure NotifView where
  path : Option String
  deps : List DepView
  deriving DecidableEq, Repr

/-- Module as read back. -/
structure ModView where
  name : String
  rev : String
  replay_supp : Nat
  features : List String
  deps : List DepView
  inv_deps : List String
  rpcs : List RpcView
  notifs : List NotifView
  deriving DecidableEq, Repr

/-- String an offset member refers to; offset 0 stands for none. -/
def optStr (s : Shm) (off : Nat) : Option String :=
  if off = 0 then none else some (s.str off)

/-- Read a dependency record. -/
def decodeDep (s : Shm) (c : SrDep) : DepView :=
  { type := c.type, module := optStr s c.module, path := optStr s c.path }

/-- Read an RPC record with its dependency arrays. -/
def decodeRpc (L : Layout) (s : Shm) (r : SrRpc) : RpcView :=
  { path := optStr s r.path
    in_deps := (depArray L s r.in_deps r.in_dep_count).map (decodeDep s)
    out_deps := (depArray L s r.out_deps r.out_dep_count).map (decodeDep s) }

/-- Read a notification record with its dependency array. -/
def decodeNotif (L : Layout) (s : Shm) (r : SrNotif) : NotifView :=
  { path := optStr s r.path
    deps := (depArray L s r.deps r.dep_count).map (decodeDep s) }

/-- Read module record `i` following its offsets. -/
def decodeMod (L : Layout) (s : Shm) (i : Nat) : ModView :=
  { name := s.str (s.mods i).name
    rev := (s.mods i).rev
    replay_supp := (s.mods i).replay_supp
    features := (offArray L s (s.mods i).features (s.mods i).feat_count).map s.str
    deps := (depArray L s (s.mods i).deps (s.mods i).dep_count).map (decodeDep s)
    inv_deps := (offArray L s (s.mods i).inv_deps (s.mods i).inv_dep_count).map s.str
    rpcs := (rpcArray L s (s.mods i).rpcs (s.mods i).rpc_count).map (decodeRpc L s)
    notifs := (notifArray L s (s.mods i).notifs (s.mods i).notif_count).map (decodeNotif L s) }

/-- Read all `mod_count` module records. -/
def decodeArena (L : Layout) (s : Shm) : List ModView :=
  (List.range s.main.mod_count).map (decodeMod L s)

/-- Sizes of the records used in the examples; behind `rev` there is
padding, so that a copy that overruns the member changes no other member. -/
def exLayout : Layout :=
  { hdr := 64, mod := 200, dep := 24, rpc := 48, notif := 24, off := 8, rev := 11, cap := 100000,
    overrun := fun idx str =>
      { mods := fun j m => if j = idx then { m with rev := str } else m
        str := fun _ v => v
        off := fun _ v => v
        dep := fun _ v => v
        rpc := fun _ v => v
        notif := fun _ v => v } }

/-- An arena before the build: nothing is mapped. -/
def exShm : Shm :=
  { size := 0, main := {}, mods := fun _ => {}, str := fun _ => "", off := fun _ => 0,
    dep := fun _ => {}, rpc := fun _ => {}, notif := fun _ => {} }

/-- An arena with the header and one zeroed module record. -/
def exShmOne : Shm :=
  { size := 264, main := { mod_count := 1 }, mods := fun _ => {}, str := fun _ => "",
    off := fun _ => 0, dep := fun _ => {}, rpc := fun _ => {}, notif := fun _ => {} }

/-- A node without children. -/
def leaf (n v : String) : LydNode := .mk n v []

/-- Two modules: `M1` with a revision and a feature, `M2` depending on `M1`. -/
def exTreeDeps : List LydNode :=
  [ .mk "module" "" [leaf "name" "M1", leaf "revision" "2020-01-01", leaf "enabled-feature" "f",
      leaf "inverse-deps" "M2"],
    .mk "module" "" [leaf "name" "M2", .mk "deps" "" [leaf "module" "M1"]] ]

/-- Two modules: `M1` with an RPC whose input depends on `M2`; `M2` with a
reference, an instance-identifier dependency and a notification. -/
def exTreeFull : List LydNode :=
  [ .mk "module" "" [leaf "name" "M1", leaf "revision" "2020-01-01", leaf "enabled-feature" "f",
      .mk "rpc" "" [leaf "path" "/M1:r", .mk "in" "" [leaf "module" "M2"]],
      leaf "inverse-deps" "M2"],
    .mk "module" "" [leaf "name" "M2",
      .mk "deps" "" [leaf "module" "M1",
        .mk "inst-id" "" [leaf "path" "/M1:x", leaf "default-module" "M1"]],
      .mk "notification" "" [leaf "path" "/M2:n", .mk "deps" "" [leaf "module" "M1"]]] ]

/-- One module node with a dependency, an RPC and a notification. -/
def exModNode : LydNode :=
  .mk "module" "" [leaf "name" "M1", leaf "enabled-feature" "f",
    .mk "deps" "" [.mk "inst-id" "" [leaf "path" "/M1:x"]],
    .mk "rpc" "" [leaf "path" "/M1:r", .mk "in" "" [.mk "inst-id" "" [leaf "path" "/M1:y"]]],
    .mk "notification" "" [leaf "path" "/M1:n"]]

/-- One module whose instance-identifier dependency has a default module
and no path. -/
def exTreeInstid : List LydNode :=
  [ .mk "module" "" [leaf "name" "A",
      .mk "deps" "" [.mk "inst-id" "" [leaf "default-module" "A"]]] ]

/-- Two module nodes with the same name. -/
def exTreeDup : List LydNode :=
  [ .mk "module" "" [leaf "name" "A"], .mk "module" "" [leaf "name" "A"] ]

/-- One module with two RPC nodes of the same path, the second of them with
an input dependency. -/
def exTreeRpcTwice : List LydNode :=
  [ .mk "module" "" [leaf "name" "A",
      .mk "rpc" "" [leaf "path" "/A:r"],
      .mk "rpc" "" [leaf "path" "/A:r", .mk "in" "" [leaf "module" "A"]]] ]

/-- One module with an empty `inst-id` node followed by a child of `deps`
that is no dependency. -/
def exTreeAbort : List LydNode :=
  [ .mk "module" "" [leaf "name" "A", .mk "deps" "" [.mk "inst-id" "" [], leaf "bogus" ""]] ]

/-- What the counting passes count as dependencies of a module node: every
child of its `deps` containers, of the `in` and `out` containers of its RPCs
and of the `deps` containers of its notifications. -/
def modDepChildren (m : LydNode) : List LydNode :=
  grandChildren "deps" m.child ++
  ((childrenNamed "rpc" m.child).flatMap fun r =>
    grandChildren "in" r.child ++ grandChildren "out" r.child) ++
  ((childrenNamed "notification" m.child).flatMap fun n => grandChildren "deps" n.child)

/-- First namespace of the RPC paths of the examples, for the parameter
`sr_get_first_ns` of `sr_shmmain_find_rpc`. -/
def exFirstNs (path : String) : Option String :=
  if path = "/M1:r" then some "M1" else if path = "/A:r" then some "A" else none

/-- Arena `s2` has the header of `s` and is not smaller. -/
def Grown (s s2 : Shm) : Prop := s2.main = s.main ∧ s.size ≤ s2.size

/-- The arena a step leaves behind, whether it succeeds or fails. -/
def arenaOf {α : Type} (g : α → Shm) : Res α → Shm
  | .ok a => g a
  | .error (_, s) => s

/-- Module names the dependency nodes `ds` refer to: the value of every
`module` leaf and of every `default-module` child of every `inst-id` node. -/
def depRefs (ds : List LydNode) : List String :=
  ds.flatMap fun d =>
    if d.name = "module" then [d.value]
    else if d.name = "inst-id" then (childrenNamed "default-module" d.child).map LydNode.value
    else []

/-- Module names a module node refers to: those of the dependencies in its
dependency containers and the values of its `inverse-deps` leaves. -/
def modRefs (m : LydNode) : List String :=
  depRefs (modDepChildren m) ++ (childrenNamed "inverse-deps" m.child).map LydNode.value

/-- Names of the module nodes of a sibling list. -/
def treeNames (t : List LydNode) : List String :=
  (childrenNamed "module" t).filterMap fun m => lastValue "name" m.child

/-- One module with an empty `inst-id` node followed by a dependency on the
missing module `Z`. -/
def exTreeMissingAbort : List LydNode :=
  [ .mk "module" "" [leaf "name" "A", .mk "deps" "" [.mk "inst-id" "" [], leaf "module" "Z"]] ]

/-- Arenas `s` and `s2` agree in everything but the module records with an
index in `[lo, hi)`. -/
structure AgreeOff (lo hi : Nat) (s s2 : Shm) : Prop where
  size : s2.size = s.size
  main : s2.main = s.main
  mods : ∀ j, j < lo ∨ hi ≤ j → s2.mods j = s.mods j
  str : s2.str = s.str
  off : s2.off = s.off
  dep : s2.dep = s.dep
  rpc : s2.rpc = s.rpc
  notif : s2.notif = s.notif

/-! ## Opening the main SHM -/

/-- Error numbers of `open(2)` that `sr_shmmain_main_open` tells apart. -/
inductive Errno where
  /-- The file does not exist. -/
  | ENOENT
  /-- Any other error number. -/
  | EOTHER
  deriving DecidableEq, Repr

/-- The structure `sr_shm_t` of the caller: its descriptor (`none` for -1)
and the size of its mapping (0 when nothing is mapped). -/
structure ShmHandle where
  fd : Option Nat := none
  size : Nat := 0
  deriving DecidableEq, Repr

/-- What the world outside `shm_main.c` does during one call of
`sr_shmmain_main_open`: whether `sr_path_main_shm` fails, whether `open`
refuses a file it could open or create, which descriptor `open` returns, and
the errors of the two `sr_mutex_init` calls. -/
structure OpenEnv where
  path_fails : Bool := false
  open_refused : Bool := false
  new_fd : Nat := 3
  lydmods_lock_err : Option SrErr := none
  ext_lock_err : Option SrErr := none

/-- A file of length 0. -/
def emptyFile : Shm :=
  { size := 0, main := {}, mods := fun _ => {}, str := fun _ => "", off := fun _ => 0,
    dep := fun _ => {}, rpc := fun _ => {}, notif := fun _ => {} }

/-- The call `open(path, O_RDWR)` on the main SHM file, `none` when the
file does not exist: the descriptor and the file, or the error number. -/
def open_rdwr (env : OpenEnv) (file : Option Shm) : Except Errno (Nat × Shm) :=
  match file with
  | none => .error Errno.ENOENT
  | some f => if env.open_refused then .error Errno.EOTHER else .ok (env.new_fd, f)

/-- The call `open(path, O_RDWR | O_CREAT | O_EXCL)`: creates an empty file
if there is none. -/
def open_excl (env : OpenEnv) (file : Option Shm) : Except Errno (Nat × Shm) :=
  match file with
  | some _ => .error Errno.EOTHER
  | none => if env.open_refused then .error Errno.EOTHER else .ok (env.new_fd, emptyFile)

/-- Modelled from the spec: `sr_shm_clear`, called by `shm_main.c` and
defined outside the sources; unmaps the arena and closes the descriptor. -/
def sr_shm_clear (_shm : ShmHandle) : ShmHandle := { fd := none, size := 0 }

/-- State after a call of `sr_shmmain_main_open`: the error returned
(`none` for NULL), the structure `sr_shm_t`, the backing file and `*created`
(`none` when the pointer is NULL). -/
structure OpenResult where
  err : Option SrErr
  shm : ShmHandle
  file : Option Shm
  created : Option Nat

/-- Second half of `sr_shmmain_main_open`, after the descriptor `fd` of the
file `f` was obtained: maps the file and initialises or checks the header.
An existing file of length 0 leaves nothing mapped, and the read of
`main_shm->shm_ver` is then a read through a pointer that maps nothing
(`Fault`). -/
def main_open_map (L : Layout) (SR_SHM_VER : Nat) (env : OpenEnv) (fd : Nat) (f : Shm)
    (creat : Bool) (created : Option Nat) : OpenResult :=
  match sr_shm_remap L f (if creat then L.hdr else 0) with
  | .error (x, _) =>
    { err := some x, shm := sr_shm_clear { fd := some fd }, file := some f, created := created }
  | .ok f2 =>
    if creat then
      let f3 : Shm := { f2 with main := { f2.main with shm_ver := SR_SHM_VER } }
      match env.lydmods_lock_err with
      | some e =>
        { err := some e, shm := sr_shm_clear { fd := some fd, size := f3.size }, file := some f3,
          created := created }
      | none =>
        match env.ext_lock_err with
        | some e =>
          { err := some e, shm := sr_shm_clear { fd := some fd, size := f3.size },
            file := some f3, created := created }
        | none =>
          let f4 : Shm := { f3 with main := { f3.main with
            new_sr_cid := 1, new_sr_sid := 1, new_sub_id := 1, new_evpipe_num := 1 } }
          { err := none, shm := { fd := some fd, size := f4.size }, file := some f4,
            created := created.map fun _ => 1 }
    else if f2.size = 0 then
      { err := some SrErr.Fault, shm := { fd := some fd, size := 0 }, file := some f2,
        created := created }
    else if f2.main.shm_ver ≠ SR_SHM_VER then
      { err := some SrErr.Unsupported, shm := sr_shm_clear { fd := some fd, size := f2.size },
        file := some f2, created := created }
    else
      { err := none, shm := { fd := some fd, size := f2.size }, file := some f2,
        created := created.map fun _ => 0 }

/-- Function `sr_shmmain_main_open`; `file` is the main SHM file (`none`
when it does not exist), `created` is `none` for a NULL pointer.  The
constant `SR_SHM_VER` is defined outside the sources and is a parameter. -/
def sr_shmmain_main_open (L : Layout) (SR_SHM_VER : Nat) (env : OpenEnv) (file : Option Shm)
    (shm : ShmHandle) (created : Option Nat) : OpenResult :=
  if env.path_fails then
    { err := some SrErr.NoMem, shm := shm, file := file, created := created }
  else
    match open_rdwr env file with
    | .error Errno.ENOENT =>
      match created with
      | none => { err := none, shm := { shm with fd := none }, file := file, created := none }
      | some c =>
        match open_excl env file with
        | .error _ =>
          { err := some SrErr.Sys, shm := sr_shm_clear { shm with fd := none }, file := file,
            created := some c }
        | .ok (fd, f) => main_open_map L SR_SHM_VER env fd f true (some c)
    | .error Errno.EOTHER =>
      { err := some SrErr.Sys, shm := sr_shm_clear { shm with fd := none }, file := file,
        created := created }
    | .ok (fd, f) => main_open_map L SR_SHM_VER env fd f false created

/-- Nothing is stored at or past the end of the file `f`. -/
structure Tidy (L : Layout) (f : Shm) : Prop where
  main : f.size = 0 → f.main = {}
  mods : ∀ i, f.size ≤ L.hdr + i * L.mod → f.mods i = {}
  str : ∀ a, f.size ≤ a → f.str a = ""
  off : ∀ a, f.size ≤ a → f.off a = 0
  dep : ∀ a, f.size ≤ a → f.dep a = {}
  rpc : ∀ a, f.size ≤ a → f.rpc a = {}
  notif : ∀ a, f.size ≤ a → f.notif a = {}

/-! ## Connections of this process and their lockfiles -/

/-- Item of the connection list (`sr_conn_list_item`). -/
structure ConnItem where
  cid : Nat
  lock_fd : Nat
  deriving DecidableEq, Repr

/-- A call that touches the filesystem, as it is logged. -/
inductive FsOp where
  /-- Call `open` on the lockfile of a connection. -/
  | opn (cid : Nat)
  /-- Call `write` on a descriptor. -/
  | write (fd : Nat)
  /-- Call `fcntl(fd, F_SETLK, ..)`. -/
  | setlk (fd : Nat)
  /-- Call `fcntl(fd, F_GETLK, ..)`. -/
  | getlk (fd : Nat)
  /-- Call `close` on a descriptor. -/
  | close (fd : Nat)
  /-- Call `unlink` on the lockfile of a connection. -/
  | unlink (cid : Nat)
  deriving DecidableEq, Repr

/-- The process and the lockfiles: `getpid()`, the list `conn_list` from its
head, for every CID whether `<cid>.lock` exists and which process holds the
write lock on it, and the filesystem calls made so far. -/
structure ConnWorld where
  pid : Nat
  conn_list : List ConnItem
  lockfile : Nat → Option (Option Nat)
  log : List FsOp

/-- What the world outside `shm_main.c` does during one call: whether
`sr_path_conn_lockfile` (in its first and in a second call), `open`, `fcntl`,
`calloc` and `unlink` fail for a reason of their own, which descriptor `open`
returns, and the error of `sr_mlock`. -/
structure ConnEnv where
  path_fails : Bool := false
  path_fails_again : Bool := false
  open_refused : Bool := false
  new_fd : Nat := 3
  fcntl_fails : Bool := false
  calloc_fails : Bool := false
  mlock_err : Option SrErr := none
  unlink_fails : Bool := false

/-- Append a filesystem call to the log. -/
def ConnWorld.logOp (w : ConnWorld) (op : FsOp) : ConnWorld :=
  { w with log := w.log ++ [op] }

/-- The call `close(fd)` on a descriptor of `<cid>.lock`: closing any
descriptor of a file releases the locks the process holds on it. -/
def ConnWorld.close (w : ConnWorld) (fd cid : Nat) : ConnWorld :=
  { w with
    lockfile := fun c =>
      if c = cid then
        match w.lockfile c with
        | some (some p) => if p = w.pid then some none else some (some p)
        | x => x
      else w.lockfile c
    log := w.log ++ [FsOp.close fd] }

/-- The call `unlink(path)` on `<cid>.lock`; `false` when it fails. -/
def ConnWorld.unlink (env : ConnEnv) (w : ConnWorld) (cid : Nat) : ConnWorld × Bool :=
  if env.unlink_fails ∨ w.lockfile cid = none then (w.logOp (FsOp.unlink cid), false)
  else
    ({ w with lockfile := fun c => if c = cid then none else w.lockfile c
              log := w.log ++ [FsOp.unlink cid] }, true)

/-- State after a call of `sr_shmmain_conn_check`: the error returned, what
was stored in `*conn_alive` and `*pid` (`none` when nothing was stored), and
the world. -/
structure CheckResult where
  err : Option SrErr
  conn_alive : Option Nat
  pid : Option Nat
  world : ConnWorld

/-- Loop of `sr_shmmain_conn_check` over the connection list: whether an
item has the CID. -/
def conn_list_has (cid : Nat) : List ConnItem → Bool
  | [] => false
  | item :: rest => if cid = item.cid then true else conn_list_has cid rest

/-- Second part of `sr_shmmain_conn_check`: the test of the lock on the
lockfile. -/
def conn_check_file (env : ConnEnv) (w : ConnWorld) (cid : Nat) (pid : Bool) : CheckResult :=
  if env.path_fails then { err := some SrErr.NoMem, conn_alive := none, pid := none, world := w }
  else
    let w1 := w.logOp (FsOp.opn cid)
    match w.lockfile cid with
    | none =>
      { err := none, conn_alive := some 0, pid := if pid then some 0 else none, world := w1 }
    | some holder =>
      if env.open_refused then
        { err := some SrErr.Sys, conn_alive := none, pid := none, world := w1 }
      else
        let w2 := (w1.logOp (FsOp.getlk env.new_fd)).close env.new_fd cid
        if env.fcntl_fails then
          { err := some SrErr.Sys, conn_alive := none, pid := none, world := w2 }
        else
          match holder with
          | some p =>
            if p = w.pid then
              let u := ConnWorld.unlink env w2 cid
              { err := if u.2 then none else some SrErr.Sys, conn_alive := some 0,
                pid := if pid then some 0 else none, world := u.1 }
            else
              { err := none, conn_alive := some 1, pid := if pid then some p else none,
                world := w2 }
          | none =>
            let u := ConnWorld.unlink env w2 cid
            { err := if u.2 then none else some SrErr.Sys, conn_alive := some 0,
              pid := if pid then some 0 else none, world := u.1 }

/-- Function `sr_shmmain_conn_check`; `conn_alive` and `pid` say whether the
pointers are non-null. -/
def sr_shmmain_conn_check (env : ConnEnv) (w : ConnWorld) (cid : Nat) (conn_alive pid : Bool) :
    CheckResult :=
  if cid = 0 ∨ conn_alive = false then
    { err := some (SrErr.Assert AssertId.cid_arg), conn_alive := none, pid := none, world := w }
  else
    match w.conn_list with
    | [] => conn_check_file env w cid pid
    | _ :: _ =>
      match env.mlock_err with
      | some e => { err := some e, conn_alive := none, pid := none, world := w }
      | none =>
        if conn_list_has cid w.conn_list then
          { err := none, conn_alive := some 1, pid := if pid then some w.pid else none,
            world := w }
        else conn_check_file env w cid pid

/-- Function `sr_shmmain_conn_new_lockfile`: `*lock_fd` and the world, or
the error and the world. -/
def sr_shmmain_conn_new_lockfile (env : ConnEnv) (w : ConnWorld) (cid : Nat) :
    Except (SrErr × ConnWorld) (Nat × ConnWorld) :=
  if env.path_fails then .error (SrErr.NoMem, w)
  else
    let w1 := w.logOp (FsOp.opn cid)
    if env.open_refused then .error (SrErr.Sys, w1)
    else
      let holder : Option Nat := (w.lockfile cid).getD none
      let w2 : ConnWorld :=
        { w1 with lockfile := fun c => if c = cid then some holder else w1.lockfile c
                  log := w1.log ++ [FsOp.write env.new_fd, FsOp.setlk env.new_fd] }
      if env.fcntl_fails ∨ (∃ p, holder = some p ∧ p ≠ w.pid) then
        .error (SrErr.Sys, w2.close env.new_fd cid)
      else
        .ok (env.new_fd,
          { w2 with lockfile := fun c => if c = cid then some (some w.pid) else w2.lockfile c })

/-- State after `sr_shmmain_conn_list_add` or `sr_shmmain_conn_list_del`:
the error and the world. -/
structure ConnResult where
  err : Option SrErr
  world : ConnWorld

/-- The `error` label of `sr_shmmain_conn_list_add`, reached with the
lockfile open: closes the descriptor and unlinks the lockfile. -/
def conn_list_add_error (env : ConnEnv) (w : ConnWorld) (cid lock_fd : Nat) (e : SrErr) :
    ConnResult :=
  let w1 := w.close lock_fd cid
  if env.path_fails_again then { err := some e, world := w1 }
  else { err := some e, world := (ConnWorld.unlink env w1 cid).1 }

/-- Function `sr_shmmain_conn_list_add`. -/
def sr_shmmain_conn_list_add (env : ConnEnv) (w : ConnWorld) (cid : Nat) : ConnResult :=
  match sr_shmmain_conn_new_lockfile env w cid with
  | .error (e, w1) => { err := some e, world := w1 }
  | .ok (lock_fd, w1) =>
    if env.calloc_fails then conn_list_add_error env w1 cid lock_fd SrErr.NoMem
    else
      match env.mlock_err with
      | some e => conn_list_add_error env w1 cid lock_fd e
      | none =>
        { err := none
          world := { w1 with conn_list := { cid := cid, lock_fd := lock_fd } :: w1.conn_list } }

/-- A process with pid 100, no connection and no lockfile. -/
def exWorld : ConnWorld :=
  { pid := 100, conn_list := [], lockfile := fun _ => none, log := [] }

/-- Loop of `sr_shmmain_conn_list_del`: the list without the first item that
has the CID, and that item (`none` when the loop ends without a match). -/
def conn_list_take (cid : Nat) : List ConnItem → List ConnItem × Option ConnItem
  | [] => ([], none)
  | item :: rest =>
    if cid = item.cid then (rest, some item)
    else (item :: (conn_list_take cid rest).1, (conn_list_take cid rest).2)

/-- First part of `sr_shmmain_conn_list_del`, under the list mutex: the item
is taken out of the list and its descriptor closed when it is positive; the
second component is `err_info` after the loop (`SR_ERRINFO_INT` for an item
whose `lock_fd` is not positive). -/
def conn_list_del_loop (w : ConnWorld) (cid : Nat) : ConnWorld × Option SrErr :=
  let w1 : ConnWorld := { w with conn_list := (conn_list_take cid w.conn_list).1 }
  match (conn_list_take cid w.conn_list).2 with
  | some ptr =>
    if 0 < ptr.lock_fd then (w1.close ptr.lock_fd cid, none) else (w1, some SrErr.Internal)
  | none => (w1, none)

/-- Function `sr_shmmain_conn_list_del`.  After the loop the result of
`sr_path_conn_lockfile` is assigned to `err_info`, so the value that the loop
left there is not returned. -/
def sr_shmmain_conn_list_del (env : ConnEnv) (w : ConnWorld) (cid : Nat) : ConnResult :=
  match env.mlock_err with
  | some e => { err := some e, world := w }
  | none =>
    let w1 := (conn_list_del_loop w cid).1
    if env.path_fails then { err := some SrErr.NoMem, world := w1 }
    else
      let u := ConnWorld.unlink env w1 cid
      { err := if u.2 then none else some SrErr.Sys, world := u.1 }

/-- No failure from outside the program. -/
def exEnv : ConnEnv := {}

/-- The process of `exWorld` after it has registered connection 7 twice. -/
def exWorldTwice : ConnWorld :=
  (sr_shmmain_conn_list_add { new_fd := 4 } (sr_shmmain_conn_list_add exEnv exWorld 7).world 7).world

/-- The process of `exWorld` after it has registered connection 7 with
`open` returning descriptor 0, and unregistered it with `unlink` failing: the
item is gone, the descriptor was not closed and the lockfile is still there,
locked by the process. -/
def exWorldOwnLock : ConnWorld :=
  (sr_shmmain_conn_list_del { unlink_fails := true }
    (sr_shmmain_conn_list_add { new_fd := 0 } exWorld 7).world 7).world

/-- A process with pid 100 and no connection; process 200 holds the lock on
`7.lock`, and `8.lock` is a leftover that nobody has locked. -/
def exWorldOther : ConnWorld :=
  { pid := 100, conn_list := [],
    lockfile := fun c => if c = 7 then some (some 200) else if c = 8 then some none else none,
    log := [] }

/-! ## Flags of modules and subscriptions -/

/-- Loop of `sr_shmmain_update_replay_support` over all modules: `n` records
remain, starting at index `i`. -/
def replay_support_loop (replay_support : Nat) : Nat → Nat → Shm → Shm
  | 0, _, shm => shm
  | n + 1, i, shm =>
    replay_support_loop replay_support n (i + 1)
      (shm.updMod i fun shm_mod => { shm_mod with replay_supp := replay_support })

/-- Function `sr_shmmain_update_replay_support`; `mod_name = none` is NULL,
and `replay_support` is the value as the member `replay_supp` holds it (the
type of the member is declared in a header outside the sources). -/
def sr_shmmain_update_replay_support (shm : Shm) (mod_name : Option String)
    (replay_support : Nat) : Res Shm :=
  match mod_name with
  | some name =>
    match sr_shmmain_find_module shm name with
    | none => .error (SrErr.Internal, shm)
    | some i => .ok (shm.updMod i fun shm_mod => { shm_mod with replay_supp := replay_support })
  | none => .ok (replay_support_loop replay_support shm.main.mod_count 0 shm)

/-- Modelled from the spec: the notification subscription record
`sr_mod_notif_sub_t` of the ext SHM, declared in a header outside the
sources; the members that `shm_main.c` reads and writes. -/
structure SrModNotifSub where
  sub_id : Nat := 0
  suspended : Nat := 0
  deriving DecidableEq, Repr

/-- Connection (`sr_conn_ctx_t`) as far as `sr_shmmain_update_notif_suspend`
uses it: the main SHM and the subscription records of the ext SHM by byte
offset. -/
structure SrConn where
  main_shm : Shm
  ext_sub : Nat → SrModNotifSub

/-- Loop of `sr_shmmain_update_notif_suspend` over the subscription records
of a module, `n` of them remaining from index `i`: the index at which the
loop stops.  The size of a record is `sub_size`. -/
def notif_sub_loop (ext_sub : Nat → SrModNotifSub) (shm_sub sub_size sub_id : Nat) :
    Nat → Nat → Nat
  | 0, i => i
  | n + 1, i =>
    if (ext_sub (shm_sub + i * sub_size)).sub_id = sub_id then i
    else notif_sub_loop ext_sub shm_sub sub_size sub_id n (i + 1)

/-- Function `sr_shmmain_update_notif_suspend`: the error returned and the
connection afterwards.  `sub_size` is `sizeof(sr_mod_notif_sub_t)`,
`lock_err` the error of `sr_shmext_conn_remap_lock`, which is defined outside
the sources; `mod_name = none` is NULL, on which `sr_shmmain_find_module`
asserts; `suspend` is the value as the member `suspended` holds it. -/
def sr_shmmain_update_notif_suspend (sub_size : Nat) (lock_err : Option SrErr) (conn : SrConn)
    (mod_name : Option String) (sub_id suspend : Nat) : Option SrErr × SrConn :=
  match mod_name with
  | none => (some (SrErr.Assert AssertId.name_arg), conn)
  | some name =>
    match sr_shmmain_find_module conn.main_shm name with
    | none => (some SrErr.Internal, conn)
    | some m =>
      match lock_err with
      | some e => (some e, conn)
      | none =>
        let shm_mod := conn.main_shm.mods m
        let i := notif_sub_loop conn.ext_sub shm_mod.notif_subs sub_size sub_id
          shm_mod.notif_sub_count 0
        if i = shm_mod.notif_sub_count then (some SrErr.Internal, conn)
        else
          let cell := shm_mod.notif_subs + i * sub_size
          if suspend ≠ 0 ∧ (conn.ext_sub cell).suspended ≠ 0 then (some SrErr.Unsupported, conn)
          else if suspend = 0 ∧ (conn.ext_sub cell).suspended = 0 then
            (some SrErr.Unsupported, conn)
          else
            (none,
              { conn with
                ext_sub := fun a =>
                  if a = cell then { conn.ext_sub cell with suspended := suspend }
                  else conn.ext_sub a })

/-- An arena with two modules, `M1` and `M2`; `M2` has two notification
subscriptions in the ext SHM at offset 16. -/
def exShmTwo : Shm :=
  { size := 480, main := { mod_count := 2 },
    mods := fun i =>
      if i = 0 then { name := 464 }
      else if i = 1 then { name := 472, notif_subs := 16, notif_sub_count := 2 } else {},
    str := fun a => if a = 464 then "M1" else if a = 472 then "M2" else "",
    off := fun _ => 0, dep := fun _ => {}, rpc := fun _ => {}, notif := fun _ => {} }

/-- A connection on `exShmTwo`: subscription 5 is not suspended,
subscription 6 is. -/
def exConn : SrConn :=
  { main_shm := exShmTwo,
    ext_sub := fun a =>
      if a = 16 then { sub_id := 5 } else if a = 32 then { sub_id := 6, suspended := 1 } else {} }

/-! ## The C++ binding: `sysrepo::Data` -/

/-- Modelled from the spec: the enumeration `sr_type_t`, declared in
`sysrepo.h` outside the sources; the enumerators that `Struct.cpp` names, and
`other` for any other value of the underlying integer. -/
inductive SrType where
  | SR_UNKNOWN_T
  | SR_LIST_T
  | SR_CONTAINER_T
  | SR_CONTAINER_PRESENCE_T
  | SR_LEAF_EMPTY_T
  | SR_NOTIFICATION_T
  | SR_BINARY_T
  | SR_BITS_T
  | SR_BOOL_T
  | SR_DECIMAL64_T
  | SR_ENUM_T
  | SR_IDENTITYREF_T
  | SR_INSTANCEID_T
  | SR_INT8_T
  | SR_INT16_T
  | SR_INT32_T
  | SR_INT64_T
  | SR_STRING_T
  | SR_UINT8_T
  | SR_UINT16_T
  | SR_UINT32_T
  | SR_UINT64_T
  | SR_ANYXML_T
  | SR_ANYDATA_T
  | other (tag : Nat)
  deriving DecidableEq, Repr

/-- Modelled from the spec: the union `sr_data_t`, declared in `sysrepo.h`
outside the sources.  All members of a union start at its first byte and
share the storage; `mem` holds the bytes of the storage, the byte at offset
`i` being `mem / 256 ^ i % 256`. -/
structure SrData where
  mem : Nat := 0
  deriving DecidableEq, Repr

/-- Byte of the storage at offset `i`. -/
def SrData.byte (d : SrData) (i : Nat) : Nat := d.mem / 256 ^ i % 256

/-- Unsigned value of the first `k` bytes of the storage, in the byte order
of the target: `big` for most significant byte first. -/
def SrData.read (big : Bool) (d : SrData) : Nat → Nat
  | 0 => 0
  | k + 1 =>
    if big then SrData.read big d k * 256 + d.byte k
    else SrData.read big d k + d.byte k * 256 ^ k

/-- Value of the low `w` bits of `x` as a two's-complement integer, which is
also the conversion of `x` to the signed type of `w` bits. -/
def toSigned (w x : Nat) : Int :=
  if x % 2 ^ w < 2 ^ (w - 1) then ((x % 2 ^ w : Nat) : Int)
  else ((x % 2 ^ w : Nat) : Int) - ((2 ^ w : Nat) : Int)

/-- Member `binary_val` (a pointer of 8 bytes). -/
def SrData.binary_val (big : Bool) (d : SrData) : Nat := d.read big 8

/-- Member `bits_val`. -/
def SrData.bits_val (big : Bool) (d : SrData) : Nat := d.read big 8

/-- Member `bool_val`. -/
def SrData.bool_val (d : SrData) : Bool := decide (d.byte 0 ≠ 0)

/-- Member `decimal64_val`: the bits of the `double`. -/
def SrData.decimal64_val (big : Bool) (d : SrData) : Nat := d.read big 8

/-- Member `enum_val`. -/
def SrData.enum_val (big : Bool) (d : SrData) : Nat := d.read big 8

/-- Member `identityref_val`. -/
def SrData.identityref_val (big : Bool) (d : SrData) : Nat := d.read big 8

/-- Member `instanceid_val`. -/
def SrData.instanceid_val (big : Bool) (d : SrData) : Nat := d.read big 8

/-- Member `int8_val`. -/
def SrData.int8_val (big : Bool) (d : SrData) : Int := toSigned 8 (d.read big 1)

/-- Member `int16_val`. -/
def SrData.int16_val (big : Bool) (d : SrData) : Int := toSigned 16 (d.read big 2)

/-- Member `int32_val`. -/
def SrData.int32_val (big : Bool) (d : SrData) : Int := toSigned 32 (d.read big 4)

/-- Member `int64_val`. -/
def SrData.int64_val (big : Bool) (d : SrData) : Int := toSigned 64 (d.read big 8)

/-- Member `string_val`. -/
def SrData.string_val (big : Bool) (d : SrData) : Nat := d.read big 8

/-- Member `uint8_val`. -/
def SrData.uint8_val (big : Bool) (d : SrData) : Nat := d.read big 1

/-- Member `uint16_val`. -/
def SrData.uint16_val (big : Bool) (d : SrData) : Nat := d.read big 2

/-- Member `uint32_val`. -/
def SrData.uint32_val (big : Bool) (d : SrData) : Nat := d.read big 4

/-- Member `uint64_val`. -/
def SrData.uint64_val (big : Bool) (d : SrData) : Nat := d.read big 8

/-- Class `sysrepo::Data`, the deleter left out. -/
structure Data where
  _d : SrData
  _t : SrType
  deriving DecidableEq, Repr

/-- Method `Data::get_binary`; `throw_exception` is the thrown error. -/
def Data.get_binary (big : Bool) (self : Data) : Except SrErr Nat :=
  if self._t ≠ SrType.SR_BINARY_T then .error SrErr.Unsupported
  else .ok (self._d.binary_val big)

/-- Method `Data::get_bits`. -/
def Data.get_bits (big : Bool) (self : Data) : Except SrErr Nat :=
  if self._t ≠ SrType.SR_BITS_T then .error SrErr.Unsupported
  else .ok (self._d.bits_val big)

/-- Method `Data::get_bool`. -/
def Data.get_bool (self : Data) : Except SrErr Bool :=
  if self._t ≠ SrType.SR_BOOL_T then .error SrErr.Unsupported
  else .ok self._d.bool_val

/-- Method `Data::get_decimal64`. -/
def Data.get_decimal64 (big : Bool) (self : Data) : Except SrErr Nat :=
  if self._t ≠ SrType.SR_DECIMAL64_T then .error SrErr.Unsupported
  else .ok (self._d.decimal64_val big)

/-- Method `Data::get_enum`. -/
def Data.get_enum (big : Bool) (self : Data) : Except SrErr Nat :=
  if self._t ≠ SrType.SR_ENUM_T then .error SrErr.Unsupported
  else .ok (self._d.enum_val big)

/-- Method `Data::get_identityref`. -/
def Data.get_identityref (big : Bool) (self : Data) : Except SrErr Nat :=
  if self._t ≠ SrType.SR_IDENTITYREF_T then .error SrErr.Unsupported
  else .ok (self._d.identityref_val big)

/-- Method `Data::get_instanceid`. -/
def Data.get_instanceid (big : Bool) (self : Data) : Except SrErr Nat :=
  if self._t ≠ SrType.SR_INSTANCEID_T then .error SrErr.Unsupported
  else .ok (self._d.instanceid_val big)

/-- Method `Data::get_int8`. -/
def Data.get_int8 (big : Bool) (self : Data) : Except SrErr Int :=
  if self._t ≠ SrType.SR_INT8_T then .error SrErr.Unsupported
  else .ok (self._d.int8_val big)

/-- Method `Data::get_int16`: returns the member `uint32_val`, converted to
the return type `int16_t`. -/
def Data.get_int16 (big : Bool) (self : Data) : Except SrErr Int :=
  if self._t ≠ SrType.SR_INT16_T then .error SrErr.Unsupported
  else .ok (toSigned 16 (self._d.uint32_val big))

/-- Method `Data::get_int32`. -/
def Data.get_int32 (big : Bool) (self : Data) : Except SrErr Int :=
  if self._t ≠ SrType.SR_INT32_T then .error SrErr.Unsupported
  else .ok (self._d.int32_val big)

/-- Method `Data::get_int64`. -/
def Data.get_int64 (big : Bool) (self : Data) : Except SrErr Int :=
  if self._t ≠ SrType.SR_INT64_T then .error SrErr.Unsupported
  else .ok (self._d.int64_val big)

/-- Method `Data::get_string`. -/
def Data.get_string (big : Bool) (self : Data) : Except SrErr Nat :=
  if self._t ≠ SrType.SR_STRING_T then .error SrErr.Unsupported
  else .ok (self._d.string_val big)

/-- Method `Data::get_uint8`. -/
def Data.get_uint8 (big : Bool) (self : Data) : Except SrErr Nat :=
  if self._t ≠ SrType.SR_UINT8_T then .error SrErr.Unsupported
  else .ok (self._d.uint8_val big)

/-- Method `Data::get_uint16`. -/
def Data.get_uint16 (big : Bool) (self : Data) : Except SrErr Nat :=
  if self._t ≠ SrType.SR_UINT16_T then .error SrErr.Unsupported
  else .ok (self._d.uint16_val big)

/-- Method `Data::get_uint32`. -/
def Data.get_uint32 (big : Bool) (self : Data) : Except SrErr Nat :=
  if self._t ≠ SrType.SR_UINT32_T then .error SrErr.Unsupported
  else .ok (self._d.uint32_val big)

/-- Method `Data::get_uint64`. -/
def Data.get_uint64 (big : Bool) (self : Data) : Except SrErr Nat :=
  if self._t ≠ SrType.SR_UINT64_T then .error SrErr.Unsupported
  else .ok (self._d.uint64_val big)

/-- A datum of type `int16` whose storage starts with the bytes `00 05`:
the member `int16_val` of a big-endian target is 5. -/
def exDataInt16 : Data := { _d := { mem := 0x0500 }, _t := SrType.SR_INT16_T }

/-! ## The C++ binding: `Vals` and `Vals_Holder` -/

/-- Class `sysrepo::Vals`: the array `_vals` (`none` for null, otherwise its
address) and the count `_cnt`; the deleter is left out. -/
structure Vals where
  _vals : Option Nat
  _cnt : Nat
  deriving DecidableEq, Repr

/-- Constructor `Vals::Vals(sr_val_t **vals, size_t *cnt, S_Deleter deleter)`:
`vals` and `cnt` are `none` for null pointers and hold `*vals` and `*cnt`
otherwise. -/
def Vals.from_pointers (vals : Option (Option Nat)) (cnt : Option Nat) : Except SrErr Vals :=
  match vals, cnt with
  | some v, some c =>
    if v = none ∧ c ≠ 0 then .error SrErr.InvalArg else .ok { _vals := v, _cnt := c }
  | _, _ => .error SrErr.InvalArg

/-- Method `Vals::reallocate`: the returned pointer and the object
afterwards.  `sr_realloc_values` is defined outside the sources; its
outcome, the error code or the new array, is a parameter. -/
def Vals.reallocate (sr_realloc_values : Except SrErr (Option Nat)) (_self : Vals) (n : Nat) :
    Except SrErr (Option Nat × Vals) :=
  match sr_realloc_values with
  | .error ret => .error ret
  | .ok p => .ok (p, { _vals := p, _cnt := n })

/-- Class `sysrepo::Vals_Holder`: the cells `*p_vals` and `*p_cnt` that the
holder points to, the flag `_allocate`, and the shared `Vals` object `p_Vals`
(`none` for null). -/
structure Vals_Holder where
  p_vals : Option Nat
  p_cnt : Nat
  _allocate : Bool
  p_Vals : Option Vals
  deriving DecidableEq, Repr

/-- Constructor `Vals_Holder::Vals_Holder(sr_val_t **vals, size_t *cnt)`. -/
def Vals_Holder.create (vals : Option (Option Nat)) (cnt : Option Nat) :
    Except SrErr Vals_Holder :=
  match vals, cnt with
  | some v, some c =>
    if v = none ∧ c ≠ 0 then .error SrErr.InvalArg
    else .ok { p_vals := v, p_cnt := c, _allocate := true, p_Vals := none }
  | _, _ => .error SrErr.InvalArg

/-- Outcome of a method of the holder: the returned `S_Vals` and the holder
afterwards, or the thrown error and the holder as the throw leaves it. -/
abbrev HolderRes := Except (SrErr × Vals_Holder) (Option Vals × Vals_Holder)

/-- Method `Vals_Holder::allocate`.  `sr_new_values` is defined outside the
sources; its outcome, the error code or the address of the new array, is a
parameter. -/
def Vals_Holder.allocate (sr_new_values : Except SrErr Nat) (self : Vals_Holder) (n : Nat) :
    HolderRes :=
  if self._allocate = false then .error (SrErr.Exists, self)
  else if n = 0 then .ok (none, self)
  else
    match sr_new_values with
    | .error ret => .error (ret, self)
    | .ok a =>
      let h1 : Vals_Holder := { self with p_vals := some a, p_cnt := n, _allocate := false }
      match Vals.from_pointers (some h1.p_vals) (some h1.p_cnt) with
      | .error e => .error (e, h1)
      | .ok v => .ok (some v, { h1 with p_Vals := some v })

/-- Method `Vals_Holder::reallocate`. -/
def Vals_Holder.reallocate (sr_new_values : Except SrErr Nat)
    (sr_realloc_values : Except SrErr (Option Nat)) (self : Vals_Holder) (n : Nat) : HolderRes :=
  if self._allocate = true then self.allocate sr_new_values n
  else
    match self.p_Vals with
    | none => .error (SrErr.Fault, self)
    | some v =>
      match v.reallocate sr_realloc_values n with
      | .error e => .error (e, self)
      | .ok (p, v2) => .ok (some v2, { self with p_vals := p, p_cnt := n, p_Vals := some v2 })

/-- A call through a holder, with the outcome of the C functions it may
reach. -/
inductive HolderCall where
  /-- Call `allocate(n)`. -/
  | allocate (sr_new_values : Except SrErr Nat) (n : Nat)
  /-- Call `reallocate(n)`. -/
  | reallocate (sr_new_values : Except SrErr Nat)
      (sr_realloc_values : Except SrErr (Option Nat)) (n : Nat)

/-- Outcome of a call. -/
def Vals_Holder.call (self : Vals_Holder) : HolderCall → HolderRes
  | .allocate o n => self.allocate o n
  | .reallocate o o2 n => self.reallocate o o2 n

/-- The holder after a call, whether it returned or threw. -/
def HolderRes.holder : HolderRes → Vals_Holder
  | .ok (_, h) => h
  | .error (_, h) => h

/-- Whether a call returned. -/
def HolderRes.returned : HolderRes → Bool
  | .ok _ => true
  | .error _ => false

/-- The holder after a sequence of calls. -/
def Vals_Holder.run (self : Vals_Holder) : List HolderCall → Vals_Holder
  | [] => self
  | c :: cs => Vals_Holder.run (self.call c).holder cs

/-- Whether an allocation of `n > 0` values through the holder has
succeeded: `done` says so for the time before the calls `cs`, which are made
in this order on holder `h`.  An allocation is a call of `allocate`, or a
call of `reallocate` made when no allocation has succeeded yet. -/
def allocated (done : Bool) (h : Vals_Holder) : List HolderCall → Bool
  | [] => done
  | c :: cs =>
    let now : Bool :=
      match c with
      | .allocate _ n => (h.call c).returned && decide (0 < n)
      | .reallocate _ _ n => (h.call c).returned && decide (0 < n) && !done
    allocated (done || now) (h.call c).holder cs

/-- A fresh holder on an empty output: `*p_vals` null, `*p_cnt` zero. -/
def exHolder : Vals_Holder :=
  { p_vals := none, p_cnt := 0, _allocate := true, p_Vals := none }

/-- Offset in the ext SHM of subscription record `i` of the module with
record index `m`. -/
def subCell (sub_size : Nat) (conn : SrConn) (m i : Nat) : Nat :=
  (conn.main_shm.mods m).notif_subs + i * sub_size

/-- Nodes paired with consecutive indices from `i` on. -/
def indexed : Nat → List LydNode → List (Nat × LydNode)
  | _, [] => []
  | i, m :: ms => (i, m) :: indexed (i + 1) ms

/-- The second loop of `sr_shmmain_store_modules` as a sequence of visits:
`sr_shmmain_fill_module` on each node with its index, in order, up to the
first failure. -/
def visit_fill (L : Layout) : List (Nat × LydNode) → Shm → Res Shm
  | [], s => .ok s
  | (i, m) :: rest, s =>
    match sr_shmmain_fill_module L m i s with
    | .error x => .error x
    | .ok s1 => visit_fill L rest s1

/-- The third loop of `sr_shmmain_store_modules` as a sequence of visits:
the three calls on each node with its index, in order, up to the first
failure. -/
def visit_deps (L : Layout) : List (Nat × LydNode) → Shm → Res Shm
  | [], s => .ok s
  | (i, m) :: rest, s =>
    match sr_shmmain_add_module_deps L m i s with
    | .error x => .error x
    | .ok s1 =>
      match sr_shmmain_add_module_rpcs L m i s1 with
      | .error x => .error x
      | .ok s2 =>
        match sr_shmmain_add_module_notifs L m i s2 with
        | .error x => .error x
        | .ok s3 => visit_deps L rest s3

/-! ## The C++ binding: `sysrepo::Val` -/

/-- Bit pattern of `v` in `w` bits: the conversion of `v` to the unsigned
type of `w` bits, and the representation of a signed value of `w` bits. -/
def toUnsigned (w : Nat) (v : Int) : Nat := (v % ((2 ^ w : Nat) : Int)).toNat

/-- Content of `k` bytes of storage that hold the unsigned value `x` in the
byte order of the target; the byte at offset `i` is the `i`-th digit in
base 256. -/
def storeBytes (big : Bool) : Nat → Nat → Nat
  | 0, _ => 0
  | k + 1, x =>
    if big then storeBytes big k (x / 256) + x % 256 * 256 ^ k
    else storeBytes big k x + x / 256 ^ k % 256 * 256 ^ k

/-- Assignment to a member of `k` bytes of the union: its first `k` bytes
are replaced, the others stay. -/
def SrData.write (big : Bool) (d : SrData) (k x : Nat) : SrData :=
  { mem := d.mem / 256 ^ k * 256 ^ k + storeBytes big k x }

/-- Modelled from the spec: the struct `sr_val_t`, declared in `sysrepo.h`
outside the sources; the members that `Struct.cpp` uses.  `xpath` is `none`
for a null pointer. -/
structure SrVal where
  xpath : Option String := none
  dflt : Bool := false
  type : SrType := SrType.SR_UNKNOWN_T
  data : SrData := {}
  deriving DecidableEq, Repr

/-- The `sr_val_t` objects in memory, by address. -/
abbrev ValMem := Nat → SrVal

/-- Class `sysrepo::Val`: the pointer `_val`, `none` for null; the deleter
is left out. -/
structure Val where
  _val : Option Nat
  deriving DecidableEq, Repr

/-- Outcome of a method that changes the wrapped value: the memory
afterwards, or the thrown error and the memory as the throw leaves it. -/
abbrev ValRes := Except (SrErr × ValMem) ValMem

/-- What the functions defined outside the sources do during a call: the
byte order of the target (`big` for most significant byte first), the error
of `sr_val_set_xpath` (`none` for `SR_ERR_OK`), the error of
`sr_val_set_str_data` or the pointer it stores, and the values of `atof`
(the bits of the `double`) and `atoll`. -/
structure ValEnv where
  big : Bool := false
  sr_val_set_xpath : Option SrErr := none
  sr_val_set_str_data : Except SrErr Nat := .ok 0
  atof : String → Nat := fun _ => 0
  atoll : String → Int := fun _ => 0

/-- Assignment through the pointer `_val`, at address `a`. -/
def valStore (mem : ValMem) (a : Nat) (f : SrVal → SrVal) : ValMem :=
  fun b => if b = a then f (mem a) else mem b

/-- Constructor `Val::Val(sr_val_t *val, S_Deleter deleter)`. -/
def Val.wrap (val : Option Nat) : Except SrErr Val :=
  match val with
  | none => .error SrErr.InvalArg
  | some a => .ok { _val := some a }

/-- Constructor `Val::Val()`. -/
def Val.null : Val := { _val := none }

/-- Method `Val::xpath`. -/
def Val.xpath (mem : ValMem) (self : Val) : Except SrErr (Option String) :=
  match self._val with
  | none => .error SrErr.OperationFailed
  | some a => .ok (mem a).xpath

/-- Method `Val::xpath_set`.  Modelled from the spec: `sr_val_set_xpath`,
defined outside the sources, stores a copy of the string in `xpath` of the
value when it succeeds and leaves the value as it is when it fails. -/
def Val.xpath_set (sr_val_set_xpath : Option SrErr) (mem : ValMem) (self : Val)
    (xpath : Option String) : ValRes :=
  match self._val with
  | none => .error (SrErr.OperationFailed, mem)
  | some a =>
    if xpath = none ∧ (mem a).xpath ≠ none then .error (SrErr.OperationFailed, mem)
    else
      match xpath with
      | none => .ok mem
      | some x =>
        match sr_val_set_xpath with
        | some ret => .error (ret, mem)
        | none => .ok (valStore mem a fun v => { v with xpath := some x })

/-- Method `Val::type`. -/
def Val.type (mem : ValMem) (self : Val) : Except SrErr SrType :=
  match self._val with
  | none => .error SrErr.OperationFailed
  | some a => .ok (mem a).type

/-- Method `Val::dflt`. -/
def Val.dflt (mem : ValMem) (self : Val) : Except SrErr Bool :=
  match self._val with
  | none => .error SrErr.OperationFailed
  | some a => .ok (mem a).dflt

/-- Method `Val::dflt_set`. -/
def Val.dflt_set (mem : ValMem) (self : Val) (data : Bool) : ValRes :=
  match self._val with
  | none => .error (SrErr.OperationFailed, mem)
  | some a => .ok (valStore mem a fun v => { v with dflt := data })

/-- Method `Val::data`; a null `_val` is dereferenced. -/
def Val.data (mem : ValMem) (self : Val) : Except SrErr Data :=
  match self._val with
  | none => .error SrErr.Fault
  | some a => .ok { _d := (mem a).data, _t := (mem a).type }

/-- Body shared by the overloads of `Val::set` for one scalar:
`xpath_set(xpath)`, the assignment of the value with bit pattern `x` to the
member of `k` bytes, and the assignment of the type tag. -/
def Val.assign (env : ValEnv) (mem : ValMem) (self : Val) (xpath : Option String)
    (k x : Nat) (type : SrType) : ValRes :=
  match self.xpath_set env.sr_val_set_xpath mem xpath with
  | .error e => .error e
  | .ok mem1 =>
    match self._val with
    | none => .error (SrErr.Fault, mem1)
    | some a =>
      .ok (valStore mem1 a fun v => { v with data := v.data.write env.big k x, type := type })

/-- Method `Val::set(const char *xpath, bool bool_val, sr_type_t type)`. -/
def Val.set_bool (env : ValEnv) (mem : ValMem) (self : Val) (xpath : Option String)
    (bool_val : Bool) (type : SrType) : ValRes :=
  if type ≠ SrType.SR_BOOL_T then .error (SrErr.InvalArg, mem)
  else self.assign env mem xpath 1 (if bool_val then 1 else 0) SrType.SR_BOOL_T

/-- Method `Val::set(const char *xpath, double decimal64_val)`; the value is
given by its bits. -/
def Val.set_decimal64 (env : ValEnv) (mem : ValMem) (self : Val) (xpath : Option String)
    (decimal64_val : Nat) : ValRes :=
  self.assign env mem xpath 8 decimal64_val SrType.SR_DECIMAL64_T

/-- Method `Val::set(const char *xpath, int8_t int8_val)`. -/
def Val.set_int8 (env : ValEnv) (mem : ValMem) (self : Val) (xpath : Option String)
    (int8_val : Int) : ValRes :=
  self.assign env mem xpath 1 (toUnsigned 8 int8_val) SrType.SR_INT8_T

/-- Method `Val::set(const char *xpath, int16_t int16_val)`. -/
def Val.set_int16 (env : ValEnv) (mem : ValMem) (self : Val) (xpath : Option String)
    (int16_val : Int) : ValRes :=
  self.assign env mem xpath 2 (toUnsigned 16 int16_val) SrType.SR_INT16_T

/-- Method `Val::set(const char *xpath, int32_t int32_val)`. -/
def Val.set_int32 (env : ValEnv) (mem : ValMem) (self : Val) (xpath : Option String)
    (int32_val : Int) : ValRes :=
  self.assign env mem xpath 4 (toUnsigned 32 int32_val) SrType.SR_INT32_T

/-- Method `Val::set(const char *xpath, int64_t int64_val, sr_type_t type)`:
`xpath_set(xpath)` comes first, the test of the type after it. -/
def Val.set_int64 (env : ValEnv) (mem : ValMem) (self : Val) (xpath : Option String)
    (int64_val : Int) (type : SrType) : ValRes :=
  match self.xpath_set env.sr_val_set_xpath mem xpath with
  | .error e => .error e
  | .ok mem1 =>
    match self._val with
    | none => .error (SrErr.Fault, mem1)
    | some a =>
      let put (k w : Nat) : ValRes :=
        .ok (valStore mem1 a fun v =>
          { v with data := v.data.write env.big k (toUnsigned w int64_val), type := type })
      if type = SrType.SR_UINT64_T then put 8 64
      else if type = SrType.SR_UINT32_T then put 4 32
      else if type = SrType.SR_UINT16_T then put 2 16
      else if type = SrType.SR_UINT8_T then put 1 8
      else if type = SrType.SR_INT64_T then put 8 64
      else if type = SrType.SR_INT32_T then put 4 32
      else if type = SrType.SR_INT16_T then put 2 16
      else if type = SrType.SR_INT8_T then put 1 8
      else .error (SrErr.InvalArg, mem1)

/-- Method `Val::set(const char *xpath, uint8_t uint8_val)`. -/
def Val.set_uint8 (env : ValEnv) (mem : ValMem) (self : Val) (xpath : Option String)
    (uint8_val : Nat) : ValRes :=
  self.assign env mem xpath 1 uint8_val SrType.SR_UINT8_T

/-- Method `Val::set(const char *xpath, uint16_t uint16_val)`. -/
def Val.set_uint16 (env : ValEnv) (mem : ValMem) (self : Val) (xpath : Option String)
    (uint16_val : Nat) : ValRes :=
  self.assign env mem xpath 2 uint16_val SrType.SR_UINT16_T

/-- Method `Val::set(const char *xpath, uint32_t uint32_val)`. -/
def Val.set_uint32 (env : ValEnv) (mem : ValMem) (self : Val) (xpath : Option String)
    (uint32_val : Nat) : ValRes :=
  self.assign env mem xpath 4 uint32_val SrType.SR_UINT32_T

/-- Method `Val::set(const char *xpath, uint64_t uint64_val)`. -/
def Val.set_uint64 (env : ValEnv) (mem : ValMem) (self : Val) (xpath : Option String)
    (uint64_val : Nat) : ValRes :=
  self.assign env mem xpath 8 uint64_val SrType.SR_UINT64_T

/-- Method `Val::set(const char *xpath, const char *value, sr_type_t type)`;
`value` is `none` for a null pointer, which `strcasecmp`, `atof` and `atoll`
dereference.  The call for a boolean relies on the default `SR_BOOL_T` of
the third parameter, declared in a header outside the sources.  Modelled
from the spec: `sr_val_set_str_data`, defined outside the sources, stores
the pointer to a copy of the string in the string member of the union when
it succeeds. -/
def Val.set_str (env : ValEnv) (mem : ValMem) (self : Val) (xpath : Option String)
    (value : Option String) (type : SrType) : ValRes :=
  match type with
  | .SR_LIST_T | .SR_CONTAINER_T | .SR_CONTAINER_PRESENCE_T | .SR_LEAF_EMPTY_T =>
    if value ≠ none ∧ value ≠ some "" then .error (SrErr.InvalArg, mem)
    else
      match self.xpath_set env.sr_val_set_xpath mem xpath with
      | .error e => .error e
      | .ok mem1 =>
        match self._val with
        | none => .error (SrErr.Fault, mem1)
        | some a => .ok (valStore mem1 a fun v => { v with type := type })
  | .SR_BINARY_T | .SR_BITS_T | .SR_ENUM_T | .SR_IDENTITYREF_T | .SR_INSTANCEID_T
  | .SR_STRING_T =>
    match self.xpath_set env.sr_val_set_xpath mem xpath with
    | .error e => .error e
    | .ok mem1 =>
      match self._val with
      | none => .error (SrErr.Fault, mem1)
      | some a =>
        match env.sr_val_set_str_data with
        | .error ret => .error (ret, mem1)
        | .ok p =>
          .ok (valStore mem1 a fun v =>
            { v with data := v.data.write env.big 8 p, type := type })
  | .SR_BOOL_T =>
    match value with
    | none => .error (SrErr.Fault, mem)
    | some str =>
      self.set_bool env mem xpath (decide (str.toLower = "true")) SrType.SR_BOOL_T
  | .SR_DECIMAL64_T =>
    match value with
    | none => .error (SrErr.Fault, mem)
    | some str => self.set_decimal64 env mem xpath (env.atof str)
  | .SR_INT8_T | .SR_INT16_T | .SR_INT32_T | .SR_INT64_T | .SR_UINT8_T | .SR_UINT16_T
  | .SR_UINT32_T | .SR_UINT64_T =>
    match value with
    | none => .error (SrErr.Fault, mem)
    | some str => self.set_int64 env mem xpath (env.atoll str) type
  | _ => .error (SrErr.InvalArg, mem)

/-- Memory with a zeroed value at every address but 64, where the value has
the xpath `/a:x`. -/
def exValMem : ValMem := fun a => if a = 64 then { xpath := some "/a:x" } else {}

/-- A wrapper of the value at address 64. -/
def exVal : Val := { _val := some 64 }

/-- A target that stores the most significant byte first. -/
def exEnvBig : ValEnv := { big := true }

/-- A target that stores the least significant byte first. -/
def exEnvLittle : ValEnv := {}

/-- Constructor `Vals::Vals(size_t cnt)`; the outcome of `sr_new_values`,
the error code or the address of the new array, is a parameter. -/
def Vals.create (sr_new_values : Except SrErr Nat) (cnt : Nat) : Except SrErr Vals :=
  if cnt ≠ 0 then
    match sr_new_values with
    | .error ret => .error ret
    | .ok a => .ok { _vals := some a, _cnt := cnt }
  else .ok { _vals := none, _cnt := 0 }

/-- Method `Vals::val`; `val_size` is `sizeof(sr_val_t)`, so that
`&_vals[n]` is `_vals + n * val_size`. -/
def Vals.val (val_size : Nat) (self : Vals) (n : Nat) : Except SrErr Val :=
  if n ≥ self._cnt then .error SrErr.OutOfRange
  else
    match self._vals with
    | none => .error SrErr.LogicError
    | some a => Val.wrap (some (a + n * val_size))

/-- Whether the tag is one of the eight integer types. -/
def isIntType : SrType → Bool
  | .SR_INT8_T | .SR_INT16_T | .SR_INT32_T | .SR_INT64_T => true
  | .SR_UINT8_T | .SR_UINT16_T | .SR_UINT32_T | .SR_UINT64_T => true
  | _ => false

/-- Whether the tag is one of the four signed integer types. -/
def isSignedType : SrType → Bool
  | .SR_INT8_T | .SR_INT16_T | .SR_INT32_T | .SR_INT64_T => true
  | _ => false

/-- Bit width of an integer type. -/
def intWidth : SrType → Nat
  | .SR_INT8_T | .SR_UINT8_T => 8
  | .SR_INT16_T | .SR_UINT16_T => 16
  | .SR_INT32_T | .SR_UINT32_T => 32
  | _ => 64

/-- The value `v` reduced modulo `2 ^ w` into the range of the integer type
`t` of `w` bits (two's complement for a signed type). -/
def reduceTo (t : SrType) (v : Int) : Int :=
  if isSignedType t then toSigned (intWidth t) (toUnsigned (intWidth t) v)
  else ((toUnsigned (intWidth t) v : Nat) : Int)

/-- Whether `v` is in the range of the integer type `t`. -/
def inRangeOf (t : SrType) (v : Int) : Prop :=
  if isSignedType t then
    -(((2 ^ (intWidth t - 1) : Nat) : Int)) ≤ v ∧ v < ((2 ^ (intWidth t - 1) : Nat) : Int)
  else 0 ≤ v ∧ v < ((2 ^ intWidth t : Nat) : Int)

/-- The member of the union that belongs to the integer type `t`, as an
integer. -/
def memberOf (big : Bool) (t : SrType) (d : SrData) : Int :=
  match t with
  | .SR_INT8_T => d.int8_val big
  | .SR_INT16_T => d.int16_val big
  | .SR_INT32_T => d.int32_val big
  | .SR_INT64_T => d.int64_val big
  | .SR_UINT8_T => ((d.uint8_val big : Nat) : Int)
  | .SR_UINT16_T => ((d.uint16_val big : Nat) : Int)
  | .SR_UINT32_T => ((d.uint32_val big : Nat) : Int)
  | _ => ((d.uint64_val big : Nat) : Int)

/-- The getter of `sysrepo::Data` that belongs to the integer type `t`, its
result as an integer. -/
def getterOf (big : Bool) (t : SrType) (d : Data) : Except SrErr Int :=
  match t with
  | .SR_INT8_T => d.get_int8 big
  | .SR_INT16_T => d.get_int16 big
  | .SR_INT32_T => d.get_int32 big
  | .SR_INT64_T => d.get_int64 big
  | .SR_UINT8_T => (d.get_uint8 big).map fun (x : Nat) => (x : Int)
  | .SR_UINT16_T => (d.get_uint16 big).map fun (x : Nat) => (x : Int)
  | .SR_UINT32_T => (d.get_uint32 big).map fun (x : Nat) => (x : Int)
  | _ => (d.get_uint64 big).map fun (x : Nat) => (x : Int)

/-! ## Arithmetic of the arena helpers -/

theorem le_SR_SHM_SIZE (n : Nat) : n ≤ SR_SHM_SIZE n := by
  unfold SR_SHM_SIZE; omega

theorem SR_SHM_SIZE_zero : SR_SHM_SIZE 0 = 0 := by
  unfold SR_SHM_SIZE; omega

theorem sr_strshmlen_gt (v : String) : strlen v < sr_strshmlen v := by
  unfold sr_strshmlen
  have := le_SR_SHM_SIZE (strlen v + 1)
  omega

theorem sr_strshmlen_pos (v : String) : 0 < sr_strshmlen v := by
  have := sr_strshmlen_gt v
  omega

theorem cell_end_le (a d : Nat) {k n : Nat} (h : k < n) : a + k * d + d ≤ a + n * d := by
  have h1 : (k + 1) * d ≤ n * d := Nat.mul_le_mul_right d h
  have h2 : (k + 1) * d = k * d + d := by ring
  omega

theorem cell_lt_of_lt (a : Nat) {d k n : Nat} (hd : 0 < d) (h : k < n) : a + k * d < a + n * d := by
  have := cell_end_le a d h
  omega

theorem cell_inj (a : Nat) {d k n : Nat} (hd : 0 < d) (h : a + k * d = a + n * d) : k = n := by
  rcases Nat.lt_trichotomy k n with h1 | h1 | h1
  · have := cell_lt_of_lt a hd h1; omega
  · exact h1
  · have := cell_lt_of_lt a hd h1; omega

theorem sr_shmcpy_fst (size e : Nat) : (sr_shmcpy size e).1 = if size = 0 then 0 else e := by
  unfold sr_shmcpy; split <;> rfl

theorem sr_shmcpy_snd (size e : Nat) : (sr_shmcpy size e).2 = e + SR_SHM_SIZE size := by
  unfold sr_shmcpy; split
  · next h => subst h; simp [SR_SHM_SIZE_zero]
  · rfl

/-! ## Reading after writing -/

@[simp]
theorem setMod_mods (s : Shm) (i : Nat) (m : SrMod) (j : Nat) :
    (s.setMod i m).mods j = if j = i then m else s.mods j := rfl
@[simp]
theorem setMod_main (s : Shm) (i : Nat) (m : SrMod) : (s.setMod i m).main = s.main := rfl
@[simp]
theorem setMod_size (s : Shm) (i : Nat) (m : SrMod) : (s.setMod i m).size = s.size := rfl
@[simp]
theorem setMod_str (s : Shm) (i : Nat) (m : SrMod) : (s.setMod i m).str = s.str := rfl
@[simp]
theorem setMod_off (s : Shm) (i : Nat) (m : SrMod) : (s.setMod i m).off = s.off := rfl
@[simp]
theorem setMod_dep (s : Shm) (i : Nat) (m : SrMod) : (s.setMod i m).dep = s.dep := rfl
@[simp]
theorem setMod_rpc (s : Shm) (i : Nat) (m : SrMod) : (s.setMod i m).rpc = s.rpc := rfl
@[simp]
theorem setMod_notif (s : Shm) (i : Nat) (m : SrMod) : (s.setMod i m).notif = s.notif := rfl

@[simp]
theorem updMod_mods (s : Shm) (i : Nat) (f : SrMod → SrMod) (j : Nat) :
    (s.updMod i f).mods j = if j = i then f (s.mods i) else s.mods j := rfl
@[simp]
theorem updMod_main (s : Shm) (i : Nat) (f : SrMod → SrMod) : (s.updMod i f).main = s.main := rfl
@[simp]
theorem updMod_size (s : Shm) (i : Nat) (f : SrMod → SrMod) : (s.updMod i f).size = s.size := rfl
@[simp]
theorem updMod_str (s : Shm) (i : Nat) (f : SrMod → SrMod) : (s.updMod i f).str = s.str := rfl
@[simp]
theorem updMod_off (s : Shm) (i : Nat) (f : SrMod → SrMod) : (s.updMod i f).off = s.off := rfl
@[simp]
theorem updMod_dep (s : Shm) (i : Nat) (f : SrMod → SrMod) : (s.updMod i f).dep = s.dep := rfl
@[simp]
theorem updMod_rpc (s : Shm) (i : Nat) (f : SrMod → SrMod) : (s.updMod i f).rpc = s.rpc := rfl
@[simp]
theorem updMod_notif (s : Shm) (i : Nat) (f : SrMod → SrMod) : (s.updMod i f).notif = s.notif := rfl

@[simp]
theorem setStr_str (s : Shm) (a : Nat) (v : String) (x : Nat) :
    (s.setStr a v).str x = if x = a then v else s.str x := rfl
@[simp]
theorem setStr_main (s : Shm) (a : Nat) (v : String) : (s.setStr a v).main = s.main := rfl
@[simp]
theorem setStr_size (s : Shm) (a : Nat) (v : String) : (s.setStr a v).size = s.size := rfl
@[simp]
theorem setStr_mods (s : Shm) (a : Nat) (v : String) : (s.setStr a v).mods = s.mods := rfl
@[simp]
theorem setStr_off (s : Shm) (a : Nat) (v : String) : (s.setStr a v).off = s.off := rfl
@[simp]
theorem setStr_dep (s : Shm) (a : Nat) (v : String) : (s.setStr a v).dep = s.dep := rfl
@[simp]
theorem setStr_rpc (s : Shm) (a : Nat) (v : String) : (s.setStr a v).rpc = s.rpc := rfl
@[simp]
theorem setStr_notif (s : Shm) (a : Nat) (v : String) : (s.setStr a v).notif = s.notif := rfl

@[simp]
theorem setOff_off (s : Shm) (a : Nat) (v : Nat) (x : Nat) :
    (s.setOff a v).off x = if x = a then v else s.off x := rfl
@[simp]
theorem setOff_main (s : Shm) (a : Nat) (v : Nat) : (s.setOff a v).main = s.main := rfl
@[simp]
theorem setOff_size (s : Shm) (a : Nat) (v : Nat) : (s.setOff a v).size = s.size := rfl
@[simp]
theorem setOff_mods (s : Shm) (a : Nat) (v : Nat) : (s.setOff a v).mods = s.mods := rfl
@[simp]
theorem setOff_str (s : Shm) (a : Nat) (v : Nat) : (s.setOff a v).str = s.str := rfl
@[simp]
theorem setOff_dep (s : Shm) (a : Nat) (v : Nat) : (s.setOff a v).dep = s.dep := rfl
@[simp]
theorem setOff_rpc (s : Shm) (a : Nat) (v : Nat) : (s.setOff a v).rpc = s.rpc := rfl
@[simp]
theorem setOff_notif (s : Shm) (a : Nat) (v : Nat) : (s.setOff a v).notif = s.notif := rfl

@[simp]
theorem setDep_dep (s : Shm) (a : Nat) (v : SrDep) (x : Nat) :
    (s.setDep a v).dep x = if x = a then v else s.dep x := rfl
@[simp]
theorem setDep_main (s : Shm) (a : Nat) (v : SrDep) : (s.setDep a v).main = s.main := rfl
@[simp]
theorem setDep_size (s : Shm) (a : Nat) (v : SrDep) : (s.setDep a v).size = s.size := rfl
@[simp]
theorem setDep_mods (s : Shm) (a : Nat) (v : SrDep) : (s.setDep a v).mods = s.mods := rfl
@[simp]
theorem setDep_str (s : Shm) (a : Nat) (v : SrDep) : (s.setDep a v).str = s.str := rfl
@[simp]
theorem setDep_off (s : Shm) (a : Nat) (v : SrDep) : (s.setDep a v).off = s.off := rfl
@[simp]
theorem setDep_rpc (s : Shm) (a : Nat) (v : SrDep) : (s.setDep a v).rpc = s.rpc := rfl
@[simp]
theorem setDep_notif (s : Shm) (a : Nat) (v : SrDep) : (s.setDep a v).notif = s.notif := rfl

@[simp]
theorem setRpc_rpc (s : Shm) (a : Nat) (v : SrRpc) (x : Nat) :
    (s.setRpc a v).rpc x = if x = a then v else s.rpc x := rfl
@[simp]
theorem setRpc_main (s : Shm) (a : Nat) (v : SrRpc) : (s.setRpc a v).main = s.main := rfl
@[simp]
theorem setRpc_size (s : Shm) (a : Nat) (v : SrRpc) : (s.setRpc a v).size = s.size := rfl
@[simp]
theorem setRpc_mods (s : Shm) (a : Nat) (v : SrRpc) : (s.setRpc a v).mods = s.mods := rfl
@[simp]
theorem setRpc_str (s : Shm) (a : Nat) (v : SrRpc) : (s.setRpc a v).str = s.str := rfl
@[simp]
theorem setRpc_off (s : Shm) (a : Nat) (v : SrRpc) : (s.setRpc a v).off = s.off := rfl
@[simp]
theorem setRpc_dep (s : Shm) (a : Nat) (v : SrRpc) : (s.setRpc a v).dep = s.dep := rfl
@[simp]
theorem setRpc_notif (s : Shm) (a : Nat) (v : SrRpc) : (s.setRpc a v).notif = s.notif := rfl

@[simp]
theorem setNotif_notif (s : Shm) (a : Nat) (v : SrNotif) (x : Nat) :
    (s.setNotif a v).notif x = if x = a then v else s.notif x := rfl
@[simp]
theorem setNotif_main (s : Shm) (a : Nat) (v : SrNotif) : (s.setNotif a v).main = s.main := rfl
@[simp]
theorem setNotif_size (s : Shm) (a : Nat) (v : SrNotif) : (s.setNotif a v).size = s.size := rfl
@[simp]
theorem setNotif_mods (s : Shm) (a : Nat) (v : SrNotif) : (s.setNotif a v).mods = s.mods := rfl
@[simp]
theorem setNotif_str (s : Shm) (a : Nat) (v : SrNotif) : (s.setNotif a v).str = s.str := rfl
@[simp]
theorem setNotif_off (s : Shm) (a : Nat) (v : SrNotif) : (s.setNotif a v).off = s.off := rfl
@[simp]
theorem setNotif_dep (s : Shm) (a : Nat) (v : SrNotif) : (s.setNotif a v).dep = s.dep := rfl
@[simp]
theorem setNotif_rpc (s : Shm) (a : Nat) (v : SrNotif) : (s.setNotif a v).rpc = s.rpc := rfl

@[simp]
theorem sr_shmstrcpy_fst (s : Shm) (v : String) (e : Nat) :
    (sr_shmstrcpy s v e).1 = s.setStr e v := rfl
@[simp]
theorem sr_shmstrcpy_off (s : Shm) (v : String) (e : Nat) : (sr_shmstrcpy s v e).2.1 = e := rfl
@[simp]
theorem sr_shmstrcpy_end (s : Shm) (v : String) (e : Nat) :
    (sr_shmstrcpy s v e).2.2 = e + sr_strshmlen v := rfl

/-! ## Lookup of a module -/

theorem find_module_loop_some (shm : Shm) (name : String) :
    ∀ (n i k : Nat), find_module_loop shm name n i = some k →
      i ≤ k ∧ k < i + n ∧ shm.str (shm.mods k).name = name ∧
        ∀ j, i ≤ j → j < k → shm.str (shm.mods j).name ≠ name := by
  intro n
  induction n with
  | zero => intro i k h; simp [find_module_loop] at h
  | succ n ih =>
    intro i k h
    unfold find_module_loop at h
    split at h
    · next hx =>
      cases h
      exact ⟨le_refl _, by omega, hx, fun j h1 h2 => by omega⟩
    · next hx =>
      obtain ⟨h1, h2, h3, h4⟩ := ih (i + 1) k h
      refine ⟨by omega, by omega, h3, ?_⟩
      intro j hj1 hj2
      by_cases hji : j = i
      · subst hji; exact hx
      · exact h4 j (by omega) hj2

theorem find_module_loop_none (shm : Shm) (name : String) :
    ∀ (n i : Nat), find_module_loop shm name n i = none →
      ∀ j, i ≤ j → j < i + n → shm.str (shm.mods j).name ≠ name := by
  intro n
  induction n with
  | zero => intro i _ j h1 h2; omega
  | succ n ih =>
    intro i h j h1 h2
    unfold find_module_loop at h
    split at h
    · cases h
    · next hx =>
      by_cases hji : j = i
      · subst hji; exact hx
      · exact ih (i + 1) h j (by omega) (by omega)

theorem find_module_some {shm : Shm} {name : String} {k : Nat}
    (h : sr_shmmain_find_module shm name = some k) :
    k < shm.main.mod_count ∧ shm.str (shm.mods k).name = name ∧
      ∀ j, j < k → shm.str (shm.mods j).name ≠ name := by
  obtain ⟨_, h2, h3, h4⟩ := find_module_loop_some shm name _ _ _ h
  exact ⟨by omega, h3, fun j hj => h4 j (Nat.zero_le _) hj⟩

theorem find_module_none {shm : Shm} {name : String}
    (h : sr_shmmain_find_module shm name = none) :
    ∀ j, j < shm.main.mod_count → shm.str (shm.mods j).name ≠ name := by
  intro j hj
  exact find_module_loop_none shm name _ _ h j (Nat.zero_le _) (by omega)

theorem find_module_loop_congr (s s' : Shm) (name : String) :
    ∀ (n i : Nat), (∀ j, i ≤ j → j < i + n → s'.str (s'.mods j).name = s.str (s.mods j).name) →
      find_module_loop s' name n i = find_module_loop s name n i := by
  intro n
  induction n with
  | zero => intro i _; rfl
  | succ n ih =>
    intro i h
    unfold find_module_loop
    rw [h i (le_refl _) (by omega), ih (i + 1) (fun j h1 h2 => h j (by omega) (by omega))]

theorem find_module_congr {s s' : Shm} (name : String)
    (hmc : s'.main.mod_count = s.main.mod_count)
    (h : ∀ j, j < s.main.mod_count → s'.str (s'.mods j).name = s.str (s.mods j).name) :
    sr_shmmain_find_module s' name = sr_shmmain_find_module s name := by
  unfold sr_shmmain_find_module
  rw [hmc]
  exact find_module_loop_congr s s' name _ _ (fun j _ h2 => h j (by omega))

/-! ## Filling of dependency records -/

theorem DepFrame.DepFrame_refl (e : Nat) (s : Shm) : DepFrame e s s :=
  ⟨rfl, rfl, rfl, rfl, rfl, rfl, fun _ _ => rfl⟩

theorem DepFrame.DepFrame_trans {e e2 : Nat} {s s2 s3 : Shm} (h1 : DepFrame e s s2) (h2 : DepFrame e2 s2 s3)
    (he : e ≤ e2) : DepFrame e s s3 :=
  ⟨h2.size.trans h1.size, h2.main.trans h1.main, h2.mods.trans h1.mods, h2.off.trans h1.off,
    h2.rpc.trans h1.rpc, h2.notif.trans h1.notif,
    fun a ha => (h2.str a (by omega)).trans (h1.str a ha)⟩

theorem NamesLt.NamesLt_mono {s : Shm} {e e2 : Nat} (h : NamesLt s e) (he : e ≤ e2) : NamesLt s e2 :=
  fun j hj => Nat.lt_of_lt_of_le (h j hj) he

theorem NamesLt.NamesLt_frame {s s2 : Shm} {e : Nat} (h : NamesLt s e) (hmain : s2.main = s.main)
    (hmods : ∀ j, j < s.main.mod_count → (s2.mods j).name = (s.mods j).name) : NamesLt s2 e := by
  intro j hj
  rw [hmain] at hj
  rw [hmods j hj]
  exact h j hj

theorem find_module_frame {s s2 : Shm} {e : Nat} (name : String) (hn : NamesLt s e)
    (hmain : s2.main = s.main) (hmods : ∀ j, j < s.main.mod_count → (s2.mods j).name = (s.mods j).name)
    (hstr : ∀ a, a < e → s2.str a = s.str a) :
    sr_shmmain_find_module s2 name = sr_shmmain_find_module s name := by
  apply find_module_congr name (by rw [hmain])
  intro j hj
  rw [hmods j hj]
  exact hstr _ (hn j hj)

theorem IsName.IsName_frame {s s2 : Shm} {e off : Nat} {v : String} (h : IsName s off v)
    (hn : NamesLt s e) (hmain : s2.main = s.main)
    (hmods : ∀ j, j < s.main.mod_count → (s2.mods j).name = (s.mods j).name)
    (hstr : ∀ a, a < e → s2.str a = s.str a) : IsName s2 off v := by
  obtain ⟨j, hj, h1, h2⟩ := h
  refine ⟨j, by rw [hmain]; exact hj, by rw [hmods j hj]; exact h1, ?_⟩
  rw [hstr off (by rw [← h1]; exact hn j hj)]
  exact h2

theorem IsName.IsName_of_find {s : Shm} {v : String} {j : Nat}
    (h : sr_shmmain_find_module s v = some j) : IsName s (s.mods j).name v :=
  ⟨j, (find_module_some h).1, rfl, (find_module_some h).2.1⟩

theorem HasName_frame {s s2 : Shm} {e : Nat} {v : String} (h : HasName s v)
    (hn : NamesLt s e) (hmain : s2.main = s.main)
    (hmods : ∀ j, j < s.main.mod_count → (s2.mods j).name = (s.mods j).name)
    (hstr : ∀ a, a < e → s2.str a = s.str a) : HasName s2 v := by
  obtain ⟨j, hj, h1⟩ := h
  refine ⟨j, by rw [hmain]; exact hj, ?_⟩
  rw [hmods j hj, hstr _ (hn j hj)]
  exact h1

theorem HasName_of_find {s : Shm} {v : String} {j : Nat}
    (h : sr_shmmain_find_module s v = some j) : HasName s v :=
  ⟨j, (find_module_some h).1, (find_module_some h).2.1⟩

theorem lastValue_cons_ne {nm : String} {c : LydNode} (cs : List LydNode) (h : c.name ≠ nm) :
    lastValue nm (c :: cs) = lastValue nm cs := by
  simp only [lastValue, if_neg h]
  cases lastValue nm cs <;> rfl

theorem lastValue_cons_eq {nm : String} {c : LydNode} (cs : List LydNode) (h : c.name = nm) :
    lastValue nm (c :: cs) = some ((lastValue nm cs).getD c.value) := by
  simp only [lastValue, if_pos h]
  cases lastValue nm cs <;> rfl

theorem fill_deps_instid_spec (cell : Nat) :
    ∀ (cs : List LydNode) (s : Shm) (e : Nat) (s2 : Shm) (e2 : Nat),
      NamesLt s e → fill_deps_instid cell cs s e = .ok (s2, e2) →
      DepFrame e s s2 ∧ (∀ a, a ≠ cell → s2.dep a = s.dep a) ∧
      e2 = e + instid_paths_len cs ∧ (s2.dep cell).type = (s.dep cell).type ∧
      (match lastValue "path" cs with
        | none => (s2.dep cell).path = (s.dep cell).path
        | some v => e ≤ (s2.dep cell).path ∧ (s2.dep cell).path + sr_strshmlen v ≤ e2 ∧
            s2.str (s2.dep cell).path = v) ∧
      (match lastValue "default-module" cs with
        | none => (s2.dep cell).module = (s.dep cell).module
        | some v => IsName s2 (s2.dep cell).module v) := by
  intro cs
  induction cs with
  | nil =>
    intro s e s2 e2 _ h
    simp only [fill_deps_instid, Except.ok.injEq, Prod.mk.injEq] at h
    obtain ⟨rfl, rfl⟩ := h
    exact ⟨DepFrame.DepFrame_refl _ _, fun _ _ => rfl, by simp [instid_paths_len], rfl, by simp [lastValue],
      by simp [lastValue]⟩
  | cons c cs ih =>
    intro s e s2 e2 hn h
    unfold fill_deps_instid at h
    by_cases hp : c.name = "path"
    · rw [if_pos hp] at h
      have hpd : c.name ≠ "default-module" := by rw [hp]; decide
      have hn1 : NamesLt ((s.setStr e c.value).setDep cell
          { (s.setStr e c.value).dep cell with path := e }) (e + sr_strshmlen c.value) :=
        (hn.NamesLt_mono (Nat.le_add_right _ _)).NamesLt_frame rfl (fun _ _ => rfl)
      obtain ⟨hf, hd, he, ht, hpath, hmod⟩ := ih _ _ _ _ hn1 h
      have hlen := sr_strshmlen_pos c.value
      refine ⟨?_, ?_, ?_, ?_, ?_, ?_⟩
      · refine DepFrame.DepFrame_trans ?_ hf (Nat.le_add_right _ _)
        refine ⟨rfl, rfl, rfl, rfl, rfl, rfl, ?_⟩
        intro a ha
        simp [Nat.ne_of_lt ha]
      · intro a ha
        rw [hd a ha]
        simp [ha]
      · simp only [instid_paths_len, if_pos hp]; omega
      · rw [ht]; simp
      · rw [lastValue_cons_eq cs hp]
        cases hl : lastValue "path" cs with
        | none =>
          rw [hl] at hpath
          simp only [Option.getD_none]
          simp only [setDep_dep, if_true] at hpath
          rw [hpath]
          refine ⟨le_refl _, by omega, ?_⟩
          rw [hf.str e (by omega)]
          simp
        | some v =>
          rw [hl] at hpath
          simp only [Option.getD_some]
          exact ⟨by omega, hpath.2.1, hpath.2.2⟩
      · rw [lastValue_cons_ne cs hpd]
        cases hl : lastValue "default-module" cs with
        | none =>
          rw [hl] at hmod
          simp only at hmod ⊢
          rw [hmod]; simp
        | some v =>
          rw [hl] at hmod
          exact hmod
    · rw [if_neg hp] at h
      by_cases hdm : c.name = "default-module"
      · rw [if_pos hdm] at h
        cases hfm : sr_shmmain_find_module s c.value with
        | none => rw [hfm] at h; cases h
        | some j =>
          rw [hfm] at h
          simp only at h
          have hn1 : NamesLt (s.setDep cell { s.dep cell with module := (s.mods j).name }) e :=
            hn.NamesLt_frame rfl (fun _ _ => rfl)
          obtain ⟨hf, hd, he, ht, hpath, hmod⟩ := ih _ _ _ _ hn1 h
          have hfs : DepFrame e s s2 := by
            refine DepFrame.DepFrame_trans ?_ hf (le_refl _)
            exact ⟨rfl, rfl, rfl, rfl, rfl, rfl, fun _ _ => rfl⟩
          refine ⟨hfs, ?_, ?_, ?_, ?_, ?_⟩
          · intro a ha
            rw [hd a ha]
            simp [ha]
          · simp only [instid_paths_len, if_neg hp]; omega
          · rw [ht]; simp
          · rw [lastValue_cons_ne cs hp]
            cases hl : lastValue "path" cs with
            | none =>
              rw [hl] at hpath
              simp only at hpath ⊢
              rw [hpath]; simp
            | some v =>
              rw [hl] at hpath
              exact hpath
          · rw [lastValue_cons_eq cs hdm]
            cases hl : lastValue "default-module" cs with
            | none =>
              rw [hl] at hmod
              simp only [Option.getD_none]
              simp only [setDep_dep, if_true] at hmod
              rw [hmod]
              exact (IsName.IsName_of_find hfm).IsName_frame hn hfs.main (fun j _ => by rw [hfs.mods]) hfs.str
            | some v =>
              rw [hl] at hmod
              simp only [Option.getD_some]
              exact hmod
      · rw [if_neg hdm] at h
        obtain ⟨hf, hd, he, ht, hpath, hmod⟩ := ih _ _ _ _ hn h
        refine ⟨hf, hd, ?_, ht, ?_, ?_⟩
        · simp only [instid_paths_len, if_neg hp]; omega
        · rw [lastValue_cons_ne cs hp]; exact hpath
        · rw [lastValue_cons_ne cs hdm]; exact hmod

theorem fill_deps_instid_refs (cell : Nat) :
    ∀ (cs : List LydNode) (s : Shm) (e : Nat) (s2 : Shm) (e2 : Nat),
      NamesLt s e → fill_deps_instid cell cs s e = .ok (s2, e2) →
      ∀ c, c ∈ cs → c.name = "default-module" → HasName s2 c.value := by
  intro cs
  induction cs with
  | nil => intro s e s2 e2 _ _ c hc; cases hc
  | cons c0 cs ih =>
    intro s e s2 e2 hn h c hc hcn
    have hf := (fill_deps_instid_spec cell _ _ _ _ _ hn h).1
    unfold fill_deps_instid at h
    by_cases hp : c0.name = "path"
    · rw [if_pos hp] at h
      have hn1 : NamesLt ((s.setStr e c0.value).setDep cell
          { (s.setStr e c0.value).dep cell with path := e }) (e + sr_strshmlen c0.value) :=
        (hn.NamesLt_mono (Nat.le_add_right _ _)).NamesLt_frame rfl (fun _ _ => rfl)
      rcases List.mem_cons.mp hc with rfl | hc
      · rw [hp] at hcn
        exact absurd hcn (by decide)
      · exact ih _ _ _ _ hn1 h c hc hcn
    · rw [if_neg hp] at h
      by_cases hdm : c0.name = "default-module"
      · rw [if_pos hdm] at h
        cases hfm : sr_shmmain_find_module s c0.value with
        | none => rw [hfm] at h; cases h
        | some j =>
          rw [hfm] at h
          simp only at h
          have hn1 : NamesLt (s.setDep cell { s.dep cell with module := (s.mods j).name }) e :=
            hn.NamesLt_frame rfl (fun _ _ => rfl)
          rcases List.mem_cons.mp hc with rfl | hc
          · exact HasName_frame (HasName_of_find hfm) hn hf.main
              (fun j _ => by rw [hf.mods]) hf.str
          · exact ih _ _ _ _ hn1 h c hc hcn
      · rw [if_neg hdm] at h
        rcases List.mem_cons.mp hc with rfl | hc
        · exact absurd hcn hdm
        · exact ih _ _ _ _ hn h c hc hcn

theorem DepCellOK.DepCellOK_mono {s : Shm} {lo hi lo2 hi2 : Nat} {d : SrDep} {n : LydNode}
    (h : DepCellOK s lo hi d n) (h1 : lo2 ≤ lo) (h2 : hi ≤ hi2) : DepCellOK s lo2 hi2 d n := by
  unfold DepCellOK at h ⊢
  split
  · next hm => rw [if_pos hm] at h; exact h
  · next hm =>
    rw [if_neg hm] at h
    obtain ⟨ht, hnz, hp, hmd⟩ := h
    refine ⟨ht, hnz, ?_, hmd⟩
    cases hl : lastValue "path" n.child with
    | none => rw [hl] at hp; exact hp
    | some v => rw [hl] at hp; exact ⟨by omega, by omega, hp.2.2⟩

theorem DepCellOK.DepCellOK_frame {s s2 : Shm} {lo hi e : Nat} {d : SrDep} {n : LydNode}
    (h : DepCellOK s lo hi d n) (hn : NamesLt s e) (he : hi ≤ e) (hmain : s2.main = s.main)
    (hmods : ∀ j, j < s.main.mod_count → (s2.mods j).name = (s.mods j).name)
    (hstr : ∀ a, a < e → s2.str a = s.str a) : DepCellOK s2 lo hi d n := by
  unfold DepCellOK at h ⊢
  split
  · next hm =>
    rw [if_pos hm] at h
    exact ⟨h.1, h.2.1, h.2.2.1, h.2.2.2.IsName_frame hn hmain hmods hstr⟩
  · next hm =>
    rw [if_neg hm] at h
    obtain ⟨ht, hnz, hp, hmd, hrf⟩ := h
    refine ⟨ht, hnz, ?_, ?_, ?_⟩
    · cases hl : lastValue "path" n.child with
      | none => rw [hl] at hp; exact hp
      | some v =>
        rw [hl] at hp
        have := sr_strshmlen_pos v
        exact ⟨hp.1, hp.2.1, by rw [hstr _ (by omega)]; exact hp.2.2⟩
    · cases hl : lastValue "default-module" n.child with
      | none => rw [hl] at hmd; exact hmd
      | some v => rw [hl] at hmd; exact hmd.IsName_frame hn hmain hmods hstr
    · exact fun c hc hcn => HasName_frame (hrf c hc hcn) hn hmain hmods hstr

theorem depNodes_cons_dep {d : LydNode} (ds : List LydNode)
    (h : d.name = "module" ∨ d.name = "inst-id") : depNodes (d :: ds) = d :: depNodes ds := by
  simp [depNodes, List.filter_cons, h]

theorem depNodes_cons_other {d : LydNode} (ds : List LydNode)
    (h1 : d.name ≠ "module") (h2 : d.name ≠ "inst-id") : depNodes (d :: ds) = depNodes ds := by
  simp [depNodes, List.filter_cons, h1, h2]

theorem fill_deps_loop_spec (L : Layout) (hdep : 0 < L.dep) (base : Nat) :
    ∀ (ds : List LydNode) (s : Shm) (i e : Nat) (s2 : Shm) (i2 e2 : Nat),
      NamesLt s e →
      (∀ k, i ≤ k → k < i + ds.length → (s.dep (base + k * L.dep)).path = 0) →
      fill_deps_loop L base ds s i e = .ok (s2, i2, e2) →
      DepFrame e s s2 ∧
      (∀ a, (∀ k, i ≤ k → k < i2 → a ≠ base + k * L.dep) → s2.dep a = s.dep a) ∧
      e2 = e + deps_paths_len ds ∧ i2 = i + (depNodes ds).length ∧
      (∀ k n, (depNodes ds)[k]? = some n →
        DepCellOK s2 e e2 (s2.dep (base + (i + k) * L.dep)) n) := by
  intro ds
  induction ds with
  | nil =>
    intro s i e s2 i2 e2 _ _ h
    simp only [fill_deps_loop, Except.ok.injEq, Prod.mk.injEq] at h
    obtain ⟨rfl, rfl, rfl⟩ := h
    exact ⟨DepFrame.DepFrame_refl _ _, fun _ _ => rfl, by simp [deps_paths_len], by simp [depNodes],
      by simp [depNodes]⟩
  | cons d ds ih =>
    intro s i e s2 i2 e2 hn hz h
    unfold fill_deps_loop at h
    simp only at h
    by_cases hm : d.name = "module"
    · rw [if_pos hm] at h
      have hni : d.name ≠ "inst-id" := by rw [hm]; decide
      have hfm0 : sr_shmmain_find_module
          (s.setDep (base + i * L.dep) { s.dep (base + i * L.dep) with type := DepType.REF }) d.value
          = sr_shmmain_find_module s d.value :=
        find_module_frame (e := e) d.value hn rfl (fun _ _ => rfl) (fun _ _ => rfl)
      rw [hfm0] at h
      cases hfm : sr_shmmain_find_module s d.value with
      | none => rw [hfm] at h; cases h
      | some j =>
        rw [hfm] at h
        simp only [setDep_dep, if_true, setDep_mods] at h
        split at h
        · cases h
        · next hassert =>
          have hmodnz : (s.mods j).name ≠ 0 := by
            intro h0; exact hassert ⟨h0, trivial⟩
          obtain ⟨hf, hdf, he, hi, hc⟩ := ih _ _ _ _ _ _
            (by exact hn.NamesLt_frame rfl (fun _ _ => rfl))
            (by
              intro k hk hk2
              have hne : base + k * L.dep ≠ base + i * L.dep := fun hh => by
                have := cell_inj base hdep hh; omega
              simp only [setDep_dep, if_neg hne]
              exact hz k (by omega) (by simp only [List.length_cons]; omega)) h
          have hfs : DepFrame e s s2 := by
            refine DepFrame.DepFrame_trans ?_ hf (le_refl _)
            exact ⟨rfl, rfl, rfl, rfl, rfl, rfl, fun _ _ => rfl⟩
          refine ⟨hfs, ?_, ?_, ?_, ?_⟩
          · intro a ha
            rw [hdf a (fun k hk1 hk2 => ha k (by omega) hk2)]
            have hne : a ≠ base + i * L.dep := ha i (le_refl _) (by omega)
            simp [hne]
          · simp only [deps_paths_len, if_neg hni]; omega
          · rw [depNodes_cons_dep ds (Or.inl hm)]; simp only [List.length_cons]; omega
          · intro k n hk
            rw [depNodes_cons_dep ds (Or.inl hm)] at hk
            cases k with
            | zero =>
              simp only [List.getElem?_cons_zero, Option.some.injEq] at hk
              subst hk
              have hcell : s2.dep (base + (i + 0) * L.dep)
                  = { type := DepType.REF, module := (s.mods j).name, path := 0 } := by
                rw [Nat.add_zero, hdf _ (fun k hk1 _ hh => by
                  have := cell_inj base hdep hh; omega)]
                simp
              rw [hcell]
              unfold DepCellOK
              rw [if_pos hm]
              exact ⟨rfl, rfl, hmodnz,
                (IsName.IsName_of_find hfm).IsName_frame hn hfs.main (fun j _ => by rw [hfs.mods]) hfs.str⟩
            | succ k =>
              simp only [List.getElem?_cons_succ] at hk
              have := hc k n hk
              rw [show i + (k + 1) = i + 1 + k by omega]
              exact this
    · rw [if_neg hm] at h
      by_cases hii : d.name = "inst-id"
      · rw [if_pos hii] at h
        cases hfi : fill_deps_instid (base + i * L.dep) d.child
            (s.setDep (base + i * L.dep)
              { s.dep (base + i * L.dep) with type := DepType.INSTID, module := 0 }) e with
        | error x => rw [hfi] at h; cases h
        | ok r =>
          obtain ⟨s1, e1⟩ := r
          rw [hfi] at h
          simp only at h
          split at h
          · cases h
          · next hassert =>
            obtain ⟨hf1, hd1, he1, ht1, hp1, hm1⟩ := fill_deps_instid_spec _ _ _ _ _ _
              (by exact hn.NamesLt_frame rfl (fun _ _ => rfl)) hfi
            have hrefs1 := fill_deps_instid_refs _ _ _ _ _ _
              (by exact hn.NamesLt_frame rfl (fun _ _ => rfl)) hfi
            have hfs1 : DepFrame e s s1 := by
              refine DepFrame.DepFrame_trans ?_ hf1 (le_refl _)
              exact ⟨rfl, rfl, rfl, rfl, rfl, rfl, fun _ _ => rfl⟩
            have hn1 : NamesLt s1 e1 :=
              (hn.NamesLt_mono (by omega)).NamesLt_frame hfs1.main (fun j _ => by rw [hfs1.mods])
            obtain ⟨hf, hdf, he, hi, hc⟩ := ih _ _ _ _ _ _ hn1
              (by
                intro k hk hk2
                have hne : base + k * L.dep ≠ base + i * L.dep := fun hh => by
                  have := cell_inj base hdep hh; omega
                rw [hd1 _ hne]
                simp only [setDep_dep, if_neg hne]
                exact hz k (by omega) (by simp only [List.length_cons]; omega)) h
            have hfs : DepFrame e s s2 := DepFrame.DepFrame_trans hfs1 hf (by omega)
            refine ⟨hfs, ?_, ?_, ?_, ?_⟩
            · intro a ha
              rw [hdf a (fun k hk1 hk2 => ha k (by omega) hk2)]
              have hne : a ≠ base + i * L.dep := ha i (le_refl _) (by omega)
              rw [hd1 a hne]
              simp [hne]
            · simp only [deps_paths_len, if_pos hii]; omega
            · rw [depNodes_cons_dep ds (Or.inr hii)]; simp only [List.length_cons]; omega
            · intro k n hk
              rw [depNodes_cons_dep ds (Or.inr hii)] at hk
              cases k with
              | zero =>
                simp only [List.getElem?_cons_zero, Option.some.injEq] at hk
                subst hk
                have hcell : s2.dep (base + (i + 0) * L.dep) = s1.dep (base + i * L.dep) := by
                  rw [Nat.add_zero, hdf _ (fun k hk1 _ hh => by
                    have := cell_inj base hdep hh; omega)]
                rw [hcell]
                have hok1 : DepCellOK s1 e e1 (s1.dep (base + i * L.dep)) d := by
                  unfold DepCellOK
                  rw [if_neg hm]
                  refine ⟨by rw [ht1]; simp, ?_, ?_, ?_, hrefs1⟩
                  · by_contra hcon
                    push_neg at hcon
                    exact hassert hcon
                  · cases hl : lastValue "path" d.child with
                    | none =>
                      rw [hl] at hp1
                      simp only at hp1 ⊢
                      rw [hp1]
                      simp only [setDep_dep, if_true]
                      exact hz i (le_refl _) (by simp only [List.length_cons]; omega)
                    | some v => rw [hl] at hp1; exact hp1
                  · cases hl : lastValue "default-module" d.child with
                    | none =>
                      rw [hl] at hm1
                      simp only at hm1 ⊢
                      rw [hm1]
                      simp
                    | some v => rw [hl] at hm1; exact hm1
                exact (hok1.DepCellOK_frame hn1 (le_refl _) hf.main (fun j _ => by rw [hf.mods]) hf.str).DepCellOK_mono
                  (le_refl _) (by omega)
              | succ k =>
                simp only [List.getElem?_cons_succ] at hk
                have : DepCellOK s2 e e2 _ n := (hc k n hk).DepCellOK_mono (by omega) (le_refl _)
                rw [show i + (k + 1) = i + 1 + k by omega]
                exact this
      · rw [if_neg hii] at h
        obtain ⟨hf, hdf, he, hi, hc⟩ := ih _ _ _ _ _ _ hn
          (fun k h1 h2 => hz k h1 (by simp only [List.length_cons]; omega)) h
        refine ⟨hf, hdf, ?_, ?_, ?_⟩
        · simp only [deps_paths_len, if_neg hii]; omega
        · rw [depNodes_cons_other ds hm hii]; exact hi
        · rw [depNodes_cons_other ds hm hii]; exact hc

/-! ## Data and inverse dependencies of a module -/

theorem Frame.Frame_refl (e : Nat) (s : Shm) : Frame e s s := ⟨rfl, rfl, rfl, fun _ _ => rfl⟩

theorem Frame.Frame_trans {e e2 : Nat} {s s2 s3 : Shm} (h1 : Frame e s s2) (h2 : Frame e2 s2 s3)
    (he : e ≤ e2) : Frame e s s3 :=
  ⟨h2.size.trans h1.size, h2.main.trans h1.main, h2.mods.trans h1.mods,
    fun a ha => (h2.str a (by omega)).trans (h1.str a ha)⟩

theorem DepFrame.DepFrame_toFrame {e : Nat} {s s2 : Shm} (h : DepFrame e s s2) : Frame e s s2 :=
  ⟨h.size, h.main, h.mods, h.str⟩

theorem NamesLt.NamesLt_of_frame {s s2 : Shm} {e e2 : Nat} (h : NamesLt s e) (hf : Frame e s s2)
    (he : e ≤ e2) : NamesLt s2 e2 :=
  (h.NamesLt_mono he).NamesLt_frame hf.main (fun j _ => by rw [hf.mods])

theorem IsName.IsName_of_frame {s s2 : Shm} {e off : Nat} {v : String} (h : IsName s off v)
    (hn : NamesLt s e) (hf : Frame e s s2) : IsName s2 off v :=
  h.IsName_frame hn hf.main (fun j _ => by rw [hf.mods]) hf.str

theorem DepCellOK.DepCellOK_of_frame {s s2 : Shm} {lo hi e : Nat} {d : SrDep} {n : LydNode}
    (h : DepCellOK s lo hi d n) (hn : NamesLt s e) (he : hi ≤ e) (hf : Frame e s s2) :
    DepCellOK s2 lo hi d n :=
  h.DepCellOK_frame hn he hf.main (fun j _ => by rw [hf.mods]) hf.str

theorem deps_paths_len_append (a b : List LydNode) :
    deps_paths_len (a ++ b) = deps_paths_len a + deps_paths_len b := by
  induction a with
  | nil => simp [deps_paths_len]
  | cons x xs ih =>
    have h : deps_paths_len (x :: (xs ++ b))
        = (if x.name = "inst-id" then instid_paths_len x.child else 0) + deps_paths_len (xs ++ b) := rfl
    rw [List.cons_append, h, ih]
    simp only [deps_paths_len]; omega

theorem depNodes_append (a b : List LydNode) : depNodes (a ++ b) = depNodes a ++ depNodes b := by
  simp [depNodes]

theorem childrenNamed_cons_eq {nm : String} {c : LydNode} (cs : List LydNode) (h : c.name = nm) :
    childrenNamed nm (c :: cs) = c :: childrenNamed nm cs := by
  simp [childrenNamed, List.filter_cons, h]

theorem childrenNamed_cons_ne {nm : String} {c : LydNode} (cs : List LydNode) (h : c.name ≠ nm) :
    childrenNamed nm (c :: cs) = childrenNamed nm cs := by
  simp [childrenNamed, List.filter_cons, h]

theorem grandChildren_cons_eq {nm : String} {c : LydNode} (cs : List LydNode) (h : c.name = nm) :
    grandChildren nm (c :: cs) = c.child ++ grandChildren nm cs := by
  simp [grandChildren, h]

theorem grandChildren_cons_ne {nm : String} {c : LydNode} (cs : List LydNode) (h : c.name ≠ nm) :
    grandChildren nm (c :: cs) = grandChildren nm cs := by
  simp [grandChildren, h]

theorem fill_deps_ok {L : Layout} {s : Shm} {p : LydNode} {base di e : Nat} {r : Shm × Nat × Nat}
    (h : sr_shmmain_fill_deps L s p base di e = .ok r) :
    di = 0 ∧ fill_deps_loop L base p.child s 0 e = .ok r := by
  unfold sr_shmmain_fill_deps at h
  by_cases hd : di = 0
  · subst hd; simpa using h
  · rw [if_pos hd] at h; cases h

theorem add_module_deps_fill_spec (L : Layout) (hdep : 0 < L.dep) (hoff : 0 < L.off)
    (dbase ibase : Nat) :
    ∀ (cs : List LydNode) (s : Shm) (di ii e : Nat) (s2 : Shm) (di2 ii2 e2 : Nat),
      NamesLt s e →
      (∀ k, di ≤ k → k < di + (grandChildren "deps" cs).length →
        (s.dep (dbase + k * L.dep)).path = 0) →
      add_module_deps_fill L dbase ibase cs s di ii e = .ok (s2, di2, ii2, e2) →
      Frame e s s2 ∧ s2.rpc = s.rpc ∧ s2.notif = s.notif ∧
      (∀ a, (∀ k, di ≤ k → k < di2 → a ≠ dbase + k * L.dep) → s2.dep a = s.dep a) ∧
      (∀ a, (∀ k, ii ≤ k → k < ii2 → a ≠ ibase + k * L.off) → s2.off a = s.off a) ∧
      e2 = e + deps_paths_len (grandChildren "deps" cs) ∧
      di2 = di + (depNodes (grandChildren "deps" cs)).length ∧
      ii2 = ii + (childrenNamed "inverse-deps" cs).length ∧
      (∀ k n, (depNodes (grandChildren "deps" cs))[k]? = some n →
        DepCellOK s2 e e2 (s2.dep (dbase + (di + k) * L.dep)) n) ∧
      (∀ k n, (childrenNamed "inverse-deps" cs)[k]? = some n →
        IsName s2 (s2.off (ibase + (ii + k) * L.off)) n.value) := by
  intro cs
  induction cs with
  | nil =>
    intro s di ii e s2 di2 ii2 e2 _ _ h
    simp only [add_module_deps_fill, Except.ok.injEq, Prod.mk.injEq] at h
    obtain ⟨rfl, rfl, rfl, rfl⟩ := h
    exact ⟨Frame.Frame_refl _ _, rfl, rfl, fun _ _ => rfl, fun _ _ => rfl,
      by simp [grandChildren, deps_paths_len], by simp [grandChildren, depNodes],
      by simp [childrenNamed], by simp [grandChildren, depNodes], by simp [childrenNamed]⟩
  | cons c cs ih =>
    intro s di ii e s2 di2 ii2 e2 hn hz h
    unfold add_module_deps_fill at h
    by_cases hd : c.name = "deps"
    · rw [if_pos hd] at h
      have hni : c.name ≠ "inverse-deps" := by rw [hd]; decide
      cases hfd : sr_shmmain_fill_deps L s c dbase di e with
      | error x => rw [hfd] at h; cases h
      | ok r =>
        obtain ⟨s1, di1, e1⟩ := r
        rw [hfd] at h
        simp only at h
        obtain ⟨hdi, hloop⟩ := fill_deps_ok hfd
        subst hdi
        have hgc : (grandChildren "deps" (c :: cs)).length
            = c.child.length + (grandChildren "deps" cs).length := by
          rw [grandChildren_cons_eq cs hd, List.length_append]
        have hdl : (depNodes c.child).length ≤ c.child.length := List.length_filter_le _ _
        obtain ⟨hf1, hdf1, he1, hi1, hc1⟩ := fill_deps_loop_spec L hdep dbase _ _ _ _ _ _ _ hn
          (fun k h1 h2 => hz k h1 (by omega)) hloop
        have hn1 : NamesLt s1 e1 := hn.NamesLt_of_frame hf1.DepFrame_toFrame (by omega)
        obtain ⟨hf, hr, hno, hdf, hof, he, hi, hii, hc, hic⟩ := ih _ _ _ _ _ _ _ _ hn1
          (by
            intro k hk hk2
            rw [hdf1 _ (fun k2 _ hk2 hh => by have := cell_inj dbase hdep hh; omega)]
            exact hz k (by omega) (by omega)) h
        have hfs : Frame e s s2 := Frame.Frame_trans hf1.DepFrame_toFrame hf (by omega)
        refine ⟨hfs, by rw [hr, hf1.rpc], by rw [hno, hf1.notif], ?_, ?_, ?_, ?_, ?_, ?_, ?_⟩
        · intro a ha
          rw [hdf a (fun k hk1 hk2 => ha k (by omega) hk2)]
          exact hdf1 a (fun k hk1 hk2 => ha k hk1 (by omega))
        · intro a ha
          rw [hof a ha, hf1.off]
        · rw [grandChildren_cons_eq cs hd, deps_paths_len_append]; omega
        · rw [grandChildren_cons_eq cs hd, depNodes_append, List.length_append]; omega
        · rw [childrenNamed_cons_ne cs hni]; exact hii
        · intro k n hk
          rw [grandChildren_cons_eq cs hd, depNodes_append] at hk
          by_cases hkl : k < (depNodes c.child).length
          · rw [List.getElem?_append_left hkl] at hk
            have h1 := hc1 k n hk
            have hcell : s2.dep (dbase + (0 + k) * L.dep) = s1.dep (dbase + (0 + k) * L.dep) :=
              hdf _ (fun k2 hk1 _ hh => by have := cell_inj dbase hdep hh; omega)
            rw [hcell]
            exact (h1.DepCellOK_of_frame hn1 (le_refl _) hf).DepCellOK_mono (le_refl _) (by omega)
          · rw [List.getElem?_append_right (by omega)] at hk
            have h2 : DepCellOK s2 e e2 _ n := (hc _ n hk).DepCellOK_mono (by omega) (le_refl _)
            rw [show 0 + k = di1 + (k - (depNodes c.child).length) by omega]
            exact h2
        · intro k n hk
          rw [childrenNamed_cons_ne cs hni] at hk
          exact hic k n hk
    · rw [if_neg hd] at h
      by_cases hinv : c.name = "inverse-deps"
      · rw [if_pos hinv] at h
        cases hfm : sr_shmmain_find_module s c.value with
        | none => rw [hfm] at h; cases h
        | some j =>
          rw [hfm] at h
          simp only at h
          obtain ⟨hf, hr, hno, hdf, hof, he, hi, hii, hc, hic⟩ := ih _ _ _ _ _ _ _ _
            (by exact hn.NamesLt_frame rfl (fun _ _ => rfl))
            (by
              intro k h1 h2
              rw [grandChildren_cons_ne cs hd] at hz
              exact hz k h1 h2) h
          have hfs : Frame e s s2 := by
            refine Frame.Frame_trans ?_ hf (le_refl _)
            exact ⟨rfl, rfl, rfl, fun _ _ => rfl⟩
          refine ⟨hfs, by rw [hr]; rfl, by rw [hno]; rfl, ?_, ?_, ?_, ?_, ?_, ?_, ?_⟩
          · intro a ha
            rw [hdf a ha]; rfl
          · intro a ha
            rw [hof a (fun k hk1 hk2 => ha k (by omega) hk2)]
            have hne : a ≠ ibase + ii * L.off := ha ii (le_refl _) (by omega)
            simp [hne]
          · rw [grandChildren_cons_ne cs hd]; exact he
          · rw [grandChildren_cons_ne cs hd]; exact hi
          · rw [childrenNamed_cons_eq cs hinv]; simp only [List.length_cons]; omega
          · rw [grandChildren_cons_ne cs hd]; exact hc
          · intro k n hk
            rw [childrenNamed_cons_eq cs hinv] at hk
            cases k with
            | zero =>
              simp only [List.getElem?_cons_zero, Option.some.injEq] at hk
              subst hk
              have hcell : s2.off (ibase + (ii + 0) * L.off) = (s.mods j).name := by
                rw [Nat.add_zero, hof _ (fun k hk1 _ hh => by
                  have := cell_inj ibase hoff hh; omega)]
                simp
              rw [hcell]
              exact (IsName.IsName_of_find hfm).IsName_of_frame hn hfs
            | succ k =>
              simp only [List.getElem?_cons_succ] at hk
              have := hic k n hk
              rw [show ii + (k + 1) = ii + 1 + k by omega]
              exact this
      · rw [if_neg hinv] at h
        obtain ⟨hf, hr, hno, hdf, hof, he, hi, hii, hc, hic⟩ := ih _ _ _ _ _ _ _ _ hn
          (by
            intro k h1 h2
            rw [grandChildren_cons_ne cs hd] at hz
            exact hz k h1 h2) h
        refine ⟨hf, hr, hno, hdf, hof, ?_, ?_, ?_, ?_, ?_⟩
        · rw [grandChildren_cons_ne cs hd]; exact he
        · rw [grandChildren_cons_ne cs hd]; exact hi
        · rw [childrenNamed_cons_ne cs hinv]; exact hii
        · rw [grandChildren_cons_ne cs hd]; exact hc
        · rw [childrenNamed_cons_ne cs hinv]; exact hic

/-! ## Remapping -/

theorem remap_grow {L : Layout} {s s2 : Shm} {x : Nat}
    (h : sr_shm_remap L s (s.size + x) = .ok s2) :
    s2.size = s.size + x ∧ s2.main = (if 0 < s.size then s.main else {}) ∧
    (∀ i, s2.mods i = if L.hdr + i * L.mod < s.size then s.mods i else {}) ∧
    (∀ a, s2.str a = if a < s.size then s.str a else "") ∧
    (∀ a, s2.off a = if a < s.size then s.off a else 0) ∧
    (∀ a, s2.dep a = if a < s.size then s.dep a else {}) ∧
    (∀ a, s2.rpc a = if a < s.size then s.rpc a else {}) ∧
    (∀ a, s2.notif a = if a < s.size then s.notif a else {}) := by
  unfold sr_shm_remap at h
  simp only at h
  have hn : (if s.size + x = 0 then s.size else s.size + x) = s.size + x := by
    split
    · omega
    · rfl
  rw [hn] at h
  split at h
  · cases h
  · simp only [Except.ok.injEq] at h
    subst h
    have hk : min s.size (s.size + x) = s.size := by omega
    simp [hk]

theorem remap_grow_ok {L : Layout} (hL : LayoutOK L) {s s2 : Shm} {x : Nat} (hfit : Fits L s)
    (h : sr_shm_remap L s (s.size + x) = .ok s2) :
    s2.size = s.size + x ∧ s2.main = s.main ∧
    (∀ i, i < s.main.mod_count → s2.mods i = s.mods i) ∧
    (∀ a, s2.str a = if a < s.size then s.str a else "") ∧
    (∀ a, s2.off a = if a < s.size then s.off a else 0) ∧
    (∀ a, s2.dep a = if a < s.size then s.dep a else {}) ∧
    (∀ a, s2.rpc a = if a < s.size then s.rpc a else {}) ∧
    (∀ a, s2.notif a = if a < s.size then s.notif a else {}) := by
  obtain ⟨h1, h2, h3, h4, h5, h6, h7, h8⟩ := remap_grow h
  have hpos : 0 < s.size := by
    have := hL.hdr
    unfold Fits at hfit
    omega
  refine ⟨h1, by rw [h2, if_pos hpos], ?_, h4, h5, h6, h7, h8⟩
  intro i hi
  rw [h3 i, if_pos]
  have := cell_lt_of_lt L.hdr hL.mod hi
  unfold Fits at hfit
  omega

/-! ## Writing one module record -/

theorem setMod_setMod (s : Shm) (i : Nat) (m m2 : SrMod) :
    (s.setMod i m).setMod i m2 = s.setMod i m2 := by
  unfold Shm.setMod
  congr 1
  funext j
  by_cases h : j = i <;> simp [h]

theorem setMod_self (s : Shm) (i : Nat) : s.setMod i (s.mods i) = s := by
  unfold Shm.setMod
  cases s
  congr 1
  funext j
  by_cases h : j = i <;> simp [h]

theorem updMod_setMod (s : Shm) (i : Nat) (m : SrMod) (f : SrMod → SrMod) :
    (s.setMod i m).updMod i f = s.setMod i (f m) := by
  unfold Shm.updMod
  rw [setMod_setMod]
  simp

theorem add_module_deps_count_spec (idx : Nat) :
    ∀ (cs : List LydNode) (s : Shm) (m : SrMod) (pl : Nat),
      add_module_deps_count idx cs (s.setMod idx m) pl =
        (s.setMod idx { m with
            dep_count := m.dep_count + (grandChildren "deps" cs).length
            inv_dep_count := m.inv_dep_count + (childrenNamed "inverse-deps" cs).length },
          pl + deps_paths_len (grandChildren "deps" cs)) := by
  intro cs
  induction cs with
  | nil =>
    intro s m pl
    simp [add_module_deps_count, grandChildren, childrenNamed, deps_paths_len]
  | cons c cs ih =>
    intro s m pl
    unfold add_module_deps_count
    by_cases hd : c.name = "deps"
    · have hni : c.name ≠ "inverse-deps" := by rw [hd]; decide
      rw [if_pos hd, updMod_setMod, ih, grandChildren_cons_eq cs hd, childrenNamed_cons_ne cs hni,
        deps_paths_len_append, List.length_append]
      simp only [Nat.add_assoc]
    · rw [if_neg hd]
      by_cases hinv : c.name = "inverse-deps"
      · rw [if_pos hinv, updMod_setMod, ih, grandChildren_cons_ne cs hd,
          childrenNamed_cons_eq cs hinv]
        simp only [List.length_cons, Nat.add_assoc, Nat.add_comm 1]
      · rw [if_neg hinv, ih, grandChildren_cons_ne cs hd, childrenNamed_cons_ne cs hinv]

theorem add_module_deps_spec {L : Layout} (hL : LayoutOK L) {m : LydNode} {idx : Nat}
    {s s2 : Shm} (hfit : Fits L s) (hidx : idx < s.main.mod_count) (hn : NamesLt s s.size)
    (h : sr_shmmain_add_module_deps L m idx s = .ok s2) :
    Keeps s s2 ∧ (∀ j, j < s.main.mod_count → j ≠ idx → s2.mods j = s.mods j) ∧
    (∃ d dc i ic, s2.mods idx =
      { s.mods idx with deps := d, dep_count := dc, inv_deps := i, inv_dep_count := ic }) ∧
    ModDepsOK L s2 s.size s2.size (s2.mods idx) m := by
  unfold sr_shmmain_add_module_deps at h
  split at h
  · cases h
  · next hz =>
    push_neg at hz
    have hcount := add_module_deps_count_spec idx m.child s (s.mods idx) 0
    rw [setMod_self] at hcount
    simp only [hz.1, hz.2, Nat.zero_add] at hcount
    generalize hc : add_module_deps_count idx m.child s 0 = c at h hcount
    obtain ⟨sc, pl⟩ := c
    simp only [Prod.mk.injEq] at hcount
    obtain ⟨hsc, hpl⟩ := hcount
    simp only at h
    split at h
    · cases h
    · next sr hr =>
      have hscsize : sc.size = s.size := by rw [hsc]; rfl
      have hscfit : Fits L sc := by rw [hsc]; exact hfit
      have hscmain : sc.main = s.main := by rw [hsc]; rfl
      rw [show sc.size + pl + SR_SHM_SIZE ((sc.mods idx).dep_count * L.dep)
          + SR_SHM_SIZE ((sc.mods idx).inv_dep_count * L.off)
          = sc.size + (pl + SR_SHM_SIZE ((sc.mods idx).dep_count * L.dep)
          + SR_SHM_SIZE ((sc.mods idx).inv_dep_count * L.off)) by omega] at hr
      obtain ⟨r1, r2, r3, r4, r5, r6, r7, r8⟩ := remap_grow_ok hL hscfit hr
      have hsrm : sr.mods idx = sc.mods idx := r3 idx (by rw [hscmain]; exact hidx)
      have hscm : sc.mods idx = { s.mods idx with
          dep_count := (grandChildren "deps" m.child).length
          inv_dep_count := (childrenNamed "inverse-deps" m.child).length } := by
        rw [hsc]; simp
      simp only [updMod_mods, if_true, hsrm] at h
      rw [hscm] at h
      simp only at h
      split at h
      · cases h
      · next s5 di ii e hfl =>
        simp only [sr_shmcpy_fst, sr_shmcpy_snd] at hfl
        generalize hS4 : Shm.updMod (Shm.updMod sr idx _) idx _ = S4 at hfl
        have h4size : S4.size = sr.size := by rw [← hS4]; rfl
        have h4main : S4.main = sr.main := by rw [← hS4]; rfl
        have h4str : S4.str = sr.str := by rw [← hS4]; rfl
        have h4off : S4.off = sr.off := by rw [← hS4]; rfl
        have h4dep : S4.dep = sr.dep := by rw [← hS4]; rfl
        have h4rpc : S4.rpc = sr.rpc := by rw [← hS4]; rfl
        have h4notif : S4.notif = sr.notif := by rw [← hS4]; rfl
        have h4ne : ∀ j, j ≠ idx → S4.mods j = sr.mods j := by
          intro j hj; rw [← hS4]; simp [hj]
        have h4idx : S4.mods idx = { s.mods idx with
            deps := if (grandChildren "deps" m.child).length * L.dep = 0 then 0 else sc.size
            dep_count := (grandChildren "deps" m.child).length
            inv_deps := if (childrenNamed "inverse-deps" m.child).length * L.off = 0 then 0
              else sc.size + SR_SHM_SIZE ((grandChildren "deps" m.child).length * L.dep)
            inv_dep_count := (childrenNamed "inverse-deps" m.child).length } := by
          rw [← hS4]; simp [hsrm, hscm]
        have hscne : ∀ j, j ≠ idx → sc.mods j = s.mods j := by
          intro j hj; rw [hsc]; simp [hj]
        have hscstr : sc.str = s.str := by rw [hsc]; rfl
        have hscoff : sc.off = s.off := by rw [hsc]; rfl
        have hscdep : sc.dep = s.dep := by rw [hsc]; rfl
        have hscrpc : sc.rpc = s.rpc := by rw [hsc]; rfl
        have hscnotif : sc.notif = s.notif := by rw [hsc]; rfl
        have hname : ∀ j, j < s.main.mod_count → (S4.mods j).name = (s.mods j).name := by
          intro j hj
          by_cases hji : j = idx
          · subst hji; rw [h4idx]
          · rw [h4ne j hji, r3 j (by rw [hscmain]; exact hj), hscne j hji]
        have hA := le_SR_SHM_SIZE ((grandChildren "deps" m.child).length * L.dep)
        have hB := le_SR_SHM_SIZE ((childrenNamed "inverse-deps" m.child).length * L.off)
        have hn4 : NamesLt S4 (sc.size + SR_SHM_SIZE ((grandChildren "deps" m.child).length * L.dep)
            + SR_SHM_SIZE ((childrenNamed "inverse-deps" m.child).length * L.off)) := by
          intro j hj
          rw [h4main, r2, hscmain] at hj
          rw [hname j hj]
          have := hn j hj
          omega
        have hdeppos : ∀ k, k < (grandChildren "deps" m.child).length →
            (if (grandChildren "deps" m.child).length * L.dep = 0 then 0 else sc.size) = sc.size := by
          intro k hk
          have : 0 < (grandChildren "deps" m.child).length * L.dep :=
            Nat.mul_pos (by omega) hL.dep
          rw [if_neg (by omega)]
        have hoffpos : ∀ k, k < (childrenNamed "inverse-deps" m.child).length →
            (if (childrenNamed "inverse-deps" m.child).length * L.off = 0 then 0
              else sc.size + SR_SHM_SIZE ((grandChildren "deps" m.child).length * L.dep))
            = sc.size + SR_SHM_SIZE ((grandChildren "deps" m.child).length * L.dep) := by
          intro k hk
          have : 0 < (childrenNamed "inverse-deps" m.child).length * L.off :=
            Nat.mul_pos (by omega) hL.off
          rw [if_neg (by omega)]
        obtain ⟨hf, hrpc, hnotif, hdf, hof, he, hdi, hii, hc, hic⟩ :=
          add_module_deps_fill_spec L hL.dep hL.off _ _ _ _ _ _ _ _ _ _ _ hn4
            (by
              intro k _ hk
              rw [hdeppos k (by omega), h4dep, r6, if_neg (by omega)]) hfl
        simp only [Nat.zero_add] at hdi hii hc hic hdf hof
        rw [hf.mods, h4idx] at h
        simp only at h
        split at h
        · cases h
        split at h
        · cases h
        split at h
        · cases h
        next hdc hic2 hesz =>
        simp only [Except.ok.injEq] at h
        subst h
        push_neg at hdc hic2 hesz
        have hsz5 : s5.size = s.size + (pl + SR_SHM_SIZE ((grandChildren "deps" m.child).length * L.dep)
            + SR_SHM_SIZE ((childrenNamed "inverse-deps" m.child).length * L.off)) := by
          rw [hf.size, h4size, r1, hscm, hscsize]
        have hm5 : s5.mods idx = _ := (congrFun hf.mods idx).trans h4idx
        have hdl : (depNodes (grandChildren "deps" m.child)).length
            ≤ (grandChildren "deps" m.child).length := List.length_filter_le _ _
        refine ⟨⟨by omega, by rw [hf.main, h4main, r2, hscmain], ?_, ?_, ?_, ?_, ?_⟩, ?_,
          ⟨_, _, _, _, hm5⟩, ?_⟩
        · intro a ha
          rw [hf.str a (by omega), h4str, r4, if_pos (by omega), hscstr]
        · intro a ha
          rw [hof a (fun k _ hk hh => by
            rw [hoffpos k (by omega)] at hh; omega), h4off, r5, if_pos (by omega), hscoff]
        · intro a ha
          rw [hdf a (fun k _ hk hh => by
            rw [hdeppos k (by omega)] at hh; omega), h4dep, r6, if_pos (by omega), hscdep]
        · intro a ha
          rw [hrpc, h4rpc, r7, if_pos (by omega), hscrpc]
        · intro a ha
          rw [hnotif, h4notif, r8, if_pos (by omega), hscnotif]
        · intro j hj hji
          rw [hf.mods, h4ne j hji, r3 j (by rw [hscmain]; exact hj), hscne j hji]
        · rw [hm5]
          unfold ModDepsOK
          refine ⟨⟨by simp only; omega, by omega⟩, ?_, ?_, rfl, ?_, ?_⟩
          · unfold ArrOK
            simp only
            split
            · next h0 => rw [h0]; simp
            · next h0 =>
              rw [hdeppos 0 (by omega)]
              omega
          · intro k n hk
            have hkl : k < (depNodes (grandChildren "deps" m.child)).length := by
              rw [List.getElem?_eq_some_iff] at hk
              exact hk.1
            have h1 : DepCellOK s5 s.size s5.size _ n := (hc k n hk).DepCellOK_mono (by omega) (by omega)
            simpa using h1
          · unfold ArrOK
            simp only
            split
            · next h0 => rw [h0]; simp
            · next h0 =>
              rw [hoffpos 0 (by omega)]
              omega
          · intro k n hk
            simpa using hic k n hk

/-! ## One dependency array of an RPC or a notification -/

theorem ArrOK.ArrOK_mono {lo hi lo2 hi2 base count elt : Nat} (h : ArrOK lo hi base count elt)
    (h1 : lo2 ≤ lo) (h2 : hi ≤ hi2) : ArrOK lo2 hi2 base count elt := by
  unfold ArrOK at h ⊢
  split
  · next h0 => rw [if_pos h0] at h; exact h
  · next h0 => rw [if_neg h0] at h; exact ⟨by omega, by omega⟩

theorem dep_array_step (L : Layout) (hdep : 0 < L.dep) {s s3 : Shm} {op : LydNode}
    {c0 e i3 e3 : Nat} (hn : NamesLt s e) (hzero : ∀ a, e ≤ a → s.dep a = {})
    (hfd : sr_shmmain_fill_deps L s op (sr_shmcpy ((c0 + op.child.length) * L.dep) e).1 0
      (sr_shmcpy ((c0 + op.child.length) * L.dep) e).2 = .ok (s3, i3, e3)) :
    DepFrame e s s3 ∧ (i3 = c0 + op.child.length →
    c0 = 0 ∧ (depNodes op.child).length = op.child.length ∧
    (∀ a, a < e → s3.dep a = s.dep a) ∧ (∀ a, e3 ≤ a → s3.dep a = {}) ∧
    e3 = e + SR_SHM_SIZE (op.child.length * L.dep) + deps_paths_len op.child ∧
    ArrOK e e3 (sr_shmcpy ((c0 + op.child.length) * L.dep) e).1 op.child.length L.dep ∧
    (∀ k n, (depNodes op.child)[k]? = some n →
      DepCellOK s3 e e3
        (s3.dep ((sr_shmcpy ((c0 + op.child.length) * L.dep) e).1 + k * L.dep)) n)) := by
  obtain ⟨_, hloop⟩ := fill_deps_ok hfd
  rw [sr_shmcpy_fst, sr_shmcpy_snd] at hloop
  have hal := le_SR_SHM_SIZE ((c0 + op.child.length) * L.dep)
  have hbase : ∀ k, k < op.child.length →
      (if (c0 + op.child.length) * L.dep = 0 then 0 else e) = e := by
    intro k hk
    have : 0 < (c0 + op.child.length) * L.dep := Nat.mul_pos (by omega) hdep
    rw [if_neg (by omega)]
  obtain ⟨hf, hdf, he, hi, hc⟩ := fill_deps_loop_spec L hdep _ _ _ _ _ _ _ _
    (hn.NamesLt_mono (Nat.le_add_right _ _))
    (by
      intro k _ hk
      rw [hbase k (by omega), hzero _ (by omega)]) hloop
  refine ⟨⟨hf.size, hf.main, hf.mods, hf.off, hf.rpc, hf.notif,
      fun a ha => hf.str a (by omega)⟩, ?_⟩
  intro hchk
  have hdl : (depNodes op.child).length ≤ op.child.length := List.length_filter_le _ _
  have hc0 : c0 = 0 := by omega
  subst hc0
  simp only [Nat.zero_add] at *
  have hlen : (depNodes op.child).length = op.child.length := by omega
  have hcellend : ∀ k, k < op.child.length →
      e + k * L.dep + L.dep ≤ e + op.child.length * L.dep := fun k hk => cell_end_le e L.dep hk
  refine ⟨trivial, hlen, ?_, ?_, by omega, ?_, ?_⟩
  · intro a ha
    apply hdf
    intro k _ hk hh
    rw [hbase k (by omega)] at hh
    omega
  · intro a ha
    rw [hdf a, hzero a (by omega)]
    intro k _ hk hh
    rw [hbase k (by omega)] at hh
    have := hcellend k (by omega)
    omega
  · unfold ArrOK
    rw [sr_shmcpy_fst]
    split
    · next h0 => simp [h0]
    · next h0 =>
      rw [hbase 0 (by omega)]
      exact ⟨le_refl _, by omega⟩
  · intro k n hk
    rw [sr_shmcpy_fst]
    exact (hc k n hk).DepCellOK_mono (by omega) (le_refl _)

theorem grandChildren_eq_nil {nm : String} :
    ∀ (cs : List LydNode), (childrenNamed nm cs).length = 0 → grandChildren nm cs = [] := by
  intro cs
  induction cs with
  | nil => intro _; rfl
  | cons c cs ih =>
    intro h
    by_cases hc : c.name = nm
    · rw [childrenNamed_cons_eq cs hc] at h; simp at h
    · rw [childrenNamed_cons_ne cs hc] at h
      rw [grandChildren_cons_ne cs hc]
      exact ih h

theorem DepArrOK.DepArrOK_mono {L : Layout} {s : Shm} {lo hi lo2 hi2 base count : Nat}
    {G : List LydNode} (h : DepArrOK L s lo hi base count G) (h1 : lo2 ≤ lo) (h2 : hi ≤ hi2) :
    DepArrOK L s lo2 hi2 base count G :=
  ⟨h.1, h.2.1.ArrOK_mono h1 h2, fun k n hk => (h.2.2 k n hk).DepCellOK_mono h1 h2⟩

theorem PathOK.PathOK_mono {s : Shm} {lo hi lo2 hi2 p : Nat} {cs : List LydNode}
    (h : PathOK s lo hi p cs) (h1 : lo2 ≤ lo) (h2 : hi ≤ hi2) : PathOK s lo2 hi2 p cs := by
  unfold PathOK at h ⊢
  cases hl : lastValue "path" cs with
  | none => rw [hl] at h; exact h
  | some v => rw [hl] at h; exact ⟨by omega, by omega, h.2.2⟩

theorem ArrStmt.ArrStmt_skip {L : Layout} {s2 : Shm} {e e1 e2 d0 c0 d2 c2 : Nat} {nm : String}
    {op : LydNode} {ops : List LydNode} (hne : op.name ≠ nm)
    (h : ArrStmt L s2 e1 e2 nm d0 c0 d2 c2 ops) (he : e ≤ e1) :
    ArrStmt L s2 e e2 nm d0 c0 d2 c2 (op :: ops) := by
  unfold ArrStmt at h ⊢
  rw [childrenNamed_cons_ne ops hne, grandChildren_cons_ne ops hne]
  split
  · next h0 => rw [if_pos h0] at h; exact h
  · next h0 => rw [if_neg h0] at h; exact ⟨h.1, h.2.DepArrOK_mono he (le_refl _)⟩

theorem ArrStmt.ArrStmt_step {L : Layout} (hdep : 0 < L.dep) {s3 s2 : Shm}
    {e e1 e2 c0 d0 base d2 c2 : Nat} {nm : String} {op : LydNode} {ops : List LydNode}
    (hnm : op.name = nm) (hc0 : c0 = 0)
    (hlen : (depNodes op.child).length = op.child.length)
    (harr : ArrOK e e1 base op.child.length L.dep)
    (hcells : ∀ k n, (depNodes op.child)[k]? = some n →
      DepCellOK s3 e e1 (s3.dep (base + k * L.dep)) n)
    (hn3 : NamesLt s3 e1) (hf : Frame e1 s3 s2) (hdf : ∀ a, a < e1 → s2.dep a = s3.dep a)
    (hee : e ≤ e1) (he : e1 ≤ e2)
    (h : ArrStmt L s2 e1 e2 nm base (c0 + op.child.length) d2 c2 ops) :
    ArrStmt L s2 e e2 nm d0 c0 d2 c2 (op :: ops) := by
  unfold ArrStmt at h ⊢
  rw [childrenNamed_cons_eq ops hnm, grandChildren_cons_eq ops hnm, if_neg (by simp)]
  refine ⟨hc0, ?_⟩
  subst hc0
  simp only [Nat.zero_add] at h
  split at h
  · next h0 =>
    obtain ⟨rfl, rfl⟩ := h
    rw [grandChildren_eq_nil ops h0, List.append_nil]
    refine ⟨⟨hlen.symm, hlen⟩, harr.ArrOK_mono (le_refl _) he, ?_⟩
    intro k n hk
    have hkl : k < op.child.length := by
      have := (List.getElem?_eq_some_iff.mp hk).1
      omega
    have hlt : d2 + k * L.dep < e1 := by
      unfold ArrOK at harr
      rw [if_neg (by omega)] at harr
      have := cell_end_le d2 L.dep hkl
      omega
    rw [hdf _ hlt]
    exact ((hcells k n hk).DepCellOK_of_frame hn3 (le_refl _) hf).DepCellOK_mono (le_refl _) he
  · next h0 =>
    obtain ⟨hz, harr2⟩ := h
    have hnil : op.child = [] := List.eq_nil_of_length_eq_zero hz
    rw [hnil, List.nil_append]
    exact harr2.DepArrOK_mono hee (le_refl _)

/-! ## RPCs of a module -/

theorem PathStmt.PathStmt_skip {s2 : Shm} {e e1 e2 p0 p2 : Nat} {op : LydNode} {ops : List LydNode}
    (hne : op.name ≠ "path") (h : PathStmt s2 e1 e2 p0 p2 ops) (he : e ≤ e1) :
    PathStmt s2 e e2 p0 p2 (op :: ops) := by
  unfold PathStmt at h ⊢
  rw [lastValue_cons_ne ops hne]
  cases hl : lastValue "path" ops with
  | none => rw [hl] at h; exact h
  | some v => rw [hl] at h; exact ⟨by omega, h.2.1, h.2.2⟩

theorem PathStmt.PathStmt_step {s2 : Shm} {e e2 p0 p2 : Nat} {op : LydNode} {ops : List LydNode}
    (hp : op.name = "path") (h : PathStmt s2 (e + sr_strshmlen op.value) e2 e p2 ops)
    (hstr : s2.str e = op.value) (he : e + sr_strshmlen op.value ≤ e2) :
    PathStmt s2 e e2 p0 p2 (op :: ops) := by
  unfold PathStmt at h ⊢
  rw [lastValue_cons_eq ops hp]
  cases hl : lastValue "path" ops with
  | none =>
    rw [hl] at h
    simp only at h
    subst h
    exact ⟨le_refl _, he, hstr⟩
  | some v => rw [hl] at h; exact ⟨by omega, h.2.1, h.2.2⟩

theorem ArrStmt.ArrStmt_nil (L : Layout) (s2 : Shm) (lo hi : Nat) (nm : String) (d c : Nat) :
    ArrStmt L s2 lo hi nm d c d c [] := by
  unfold ArrStmt
  simp [childrenNamed]

theorem PathStmt.PathStmt_nil (s2 : Shm) (lo hi p : Nat) : PathStmt s2 lo hi p p [] := by
  unfold PathStmt
  simp [lastValue]

theorem add_module_rpcs_op_spec (L : Layout) (hdep : 0 < L.dep) (cell : Nat) :
    ∀ (ops : List LydNode) (s : Shm) (e : Nat) (s2 : Shm) (e2 : Nat),
      NamesLt s e → (∀ a, e ≤ a → s.dep a = {}) →
      add_module_rpcs_op L cell ops s e = .ok (s2, e2) →
      Frame e s s2 ∧ s2.off = s.off ∧ s2.notif = s.notif ∧
      (∀ a, a ≠ cell → s2.rpc a = s.rpc a) ∧
      (∀ a, a < e → s2.dep a = s.dep a) ∧ (∀ a, e2 ≤ a → s2.dep a = {}) ∧ e ≤ e2 ∧
      PathStmt s2 e e2 (s.rpc cell).path (s2.rpc cell).path ops ∧
      ArrStmt L s2 e e2 "in" (s.rpc cell).in_deps (s.rpc cell).in_dep_count
        (s2.rpc cell).in_deps (s2.rpc cell).in_dep_count ops ∧
      ArrStmt L s2 e e2 "out" (s.rpc cell).out_deps (s.rpc cell).out_dep_count
        (s2.rpc cell).out_deps (s2.rpc cell).out_dep_count ops := by
  intro ops
  induction ops with
  | nil =>
    intro s e s2 e2 _ hz h
    simp only [add_module_rpcs_op, Except.ok.injEq, Prod.mk.injEq] at h
    obtain ⟨rfl, rfl⟩ := h
    exact ⟨Frame.Frame_refl _ _, rfl, rfl, fun _ _ => rfl, fun _ _ => rfl, hz, le_refl _,
      PathStmt.PathStmt_nil _ _ _ _, ArrStmt.ArrStmt_nil _ _ _ _ _ _ _, ArrStmt.ArrStmt_nil _ _ _ _ _ _ _⟩
  | cons op ops ih =>
    intro s e s2 e2 hn hz h
    unfold add_module_rpcs_op at h
    by_cases hp : op.name = "path"
    · rw [if_pos hp] at h
      simp only [sr_shmstrcpy_fst, sr_shmstrcpy_off, sr_shmstrcpy_end] at h
      have hlen := sr_strshmlen_pos op.value
      obtain ⟨hf, hoff, hoth, hpl, hdlt, hdz, hle, hpath, hin, hout⟩ := ih _ _ _ _
        (by exact (hn.NamesLt_mono (Nat.le_add_right _ _)).NamesLt_frame rfl (fun _ _ => rfl))
        (by intro a ha; exact hz a (by omega)) h
      have hfs : Frame e s s2 := by
        refine Frame.Frame_trans ?_ hf (Nat.le_add_right _ _)
        exact ⟨rfl, rfl, rfl, fun a ha => by simp [Nat.ne_of_lt ha]⟩
      refine ⟨hfs, by rw [hoff]; rfl, by rw [hoth]; rfl, ?_, ?_, hdz, by omega, ?_, ?_, ?_⟩
      · intro a ha
        rw [hpl a ha]; simp [ha]
      · intro a ha
        rw [hdlt a (by omega)]; rfl
      · refine PathStmt.PathStmt_step hp (by simpa using hpath) ?_ hle
        rw [hf.str e (by omega)]
        simp
      · refine ArrStmt.ArrStmt_skip (by rw [hp]; decide) ?_ (Nat.le_add_right e (sr_strshmlen op.value))
        simpa using hin
      · refine ArrStmt.ArrStmt_skip (by rw [hp]; decide) ?_ (Nat.le_add_right e (sr_strshmlen op.value))
        simpa using hout
    · rw [if_neg hp] at h
      by_cases hK0 : op.name = "in"
      · rw [if_pos hK0] at h
        simp only [setRpc_rpc, if_true] at h
        split at h
        · cases h
        · next s3 i3 e1 hfd =>
          generalize hS2 : Shm.setRpc (Shm.setRpc s cell _) cell _ = S2 at hfd h
          have h2main : S2.main = s.main := by rw [← hS2]; rfl
          have h2mods : S2.mods = s.mods := by rw [← hS2]; rfl
          have h2str : S2.str = s.str := by rw [← hS2]; rfl
          have h2dep : S2.dep = s.dep := by rw [← hS2]; rfl
          have h2off : S2.off = s.off := by rw [← hS2]; rfl
          have h2oth : S2.notif = s.notif := by rw [← hS2]; rfl
          have h2size : S2.size = s.size := by rw [← hS2]; rfl
          have h2ne : ∀ a, a ≠ cell → S2.rpc a = s.rpc a := by
            intro a ha; rw [← hS2]; simp [ha]
          have h2cell : S2.rpc cell = { s.rpc cell with
              in_dep_count := (s.rpc cell).in_dep_count + op.child.length
              in_deps := (sr_shmcpy (((s.rpc cell).in_dep_count + op.child.length) * L.dep) e).1 } := by
            rw [← hS2]; simp
          split at h
          · cases h
          · next hchk =>
            push_neg at hchk
            have hn2 : NamesLt S2 e := hn.NamesLt_frame h2main (fun j _ => by rw [h2mods])
            obtain ⟨hf3, hstep⟩ := dep_array_step L hdep hn2 (by rw [h2dep]; exact hz) hfd
            have h3cell : s3.rpc cell = S2.rpc cell := by rw [hf3.rpc]
            obtain ⟨hc0, hlen, hd3, hz3, he3, harr, hcells⟩ :=
              hstep (by rw [hchk, h3cell, h2cell])
            have hee : e ≤ e1 := by omega
            have hn3 : NamesLt s3 e1 := hn2.NamesLt_of_frame hf3.DepFrame_toFrame hee
            obtain ⟨hf, hoff, hoth, hpl, hdlt, hdz, hle, hpath, hin, hout⟩ := ih _ _ _ _ hn3 hz3 h
            have hfs3 : Frame e s s3 :=
              ⟨hf3.size.trans h2size, hf3.main.trans h2main, hf3.mods.trans h2mods,
                fun a ha => (hf3.str a ha).trans (by rw [h2str])⟩
            refine ⟨Frame.Frame_trans hfs3 hf hee, by rw [hoff, hf3.off, h2off],
              by rw [hoth, hf3.notif, h2oth], ?_, ?_, hdz, by omega, ?_, ?_, ?_⟩
            · intro a ha
              rw [hpl a ha, hf3.rpc, h2ne a ha]
            · intro a ha
              rw [hdlt a (by omega), hd3 a ha, h2dep]
            · refine PathStmt.PathStmt_skip (by rw [hK0]; decide) ?_ hee
              rw [h3cell, h2cell] at hpath
              exact hpath
            · refine ArrStmt.ArrStmt_step hdep hK0 hc0 hlen harr hcells hn3 hf hdlt hee hle ?_
              rw [h3cell, h2cell] at hin
              exact hin
            · refine ArrStmt.ArrStmt_skip (by rw [hK0]; decide) ?_ hee
              rw [h3cell, h2cell] at hout
              exact hout
      · rw [if_neg hK0] at h
        by_cases hK1 : op.name = "out"
        · rw [if_pos hK1] at h
          simp only [setRpc_rpc, if_true] at h
          split at h
          · cases h
          · next s3 i3 e1 hfd =>
            generalize hS2 : Shm.setRpc (Shm.setRpc s cell _) cell _ = S2 at hfd h
            have h2main : S2.main = s.main := by rw [← hS2]; rfl
            have h2mods : S2.mods = s.mods := by rw [← hS2]; rfl
            have h2str : S2.str = s.str := by rw [← hS2]; rfl
            have h2dep : S2.dep = s.dep := by rw [← hS2]; rfl
            have h2off : S2.off = s.off := by rw [← hS2]; rfl
            have h2oth : S2.notif = s.notif := by rw [← hS2]; rfl
            have h2size : S2.size = s.size := by rw [← hS2]; rfl
            have h2ne : ∀ a, a ≠ cell → S2.rpc a = s.rpc a := by
              intro a ha; rw [← hS2]; simp [ha]
            have h2cell : S2.rpc cell = { s.rpc cell with
                out_dep_count := (s.rpc cell).out_dep_count + op.child.length
                out_deps := (sr_shmcpy (((s.rpc cell).out_dep_count + op.child.length) * L.dep) e).1 } := by
              rw [← hS2]; simp
            split at h
            · cases h
            · next hchk =>
              push_neg at hchk
              have hn2 : NamesLt S2 e := hn.NamesLt_frame h2main (fun j _ => by rw [h2mods])
              obtain ⟨hf3, hstep⟩ := dep_array_step L hdep hn2 (by rw [h2dep]; exact hz) hfd
              have h3cell : s3.rpc cell = S2.rpc cell := by rw [hf3.rpc]
              obtain ⟨hc0, hlen, hd3, hz3, he3, harr, hcells⟩ :=
                hstep (by rw [hchk, h3cell, h2cell])
              have hee : e ≤ e1 := by omega
              have hn3 : NamesLt s3 e1 := hn2.NamesLt_of_frame hf3.DepFrame_toFrame hee
              obtain ⟨hf, hoff, hoth, hpl, hdlt, hdz, hle, hpath, hin, hout⟩ := ih _ _ _ _ hn3 hz3 h
              have hfs3 : Frame e s s3 :=
                ⟨hf3.size.trans h2size, hf3.main.trans h2main, hf3.mods.trans h2mods,
                  fun a ha => (hf3.str a ha).trans (by rw [h2str])⟩
              refine ⟨Frame.Frame_trans hfs3 hf hee, by rw [hoff, hf3.off, h2off],
                by rw [hoth, hf3.notif, h2oth], ?_, ?_, hdz, by omega, ?_, ?_, ?_⟩
              · intro a ha
                rw [hpl a ha, hf3.rpc, h2ne a ha]
              · intro a ha
                rw [hdlt a (by omega), hd3 a ha, h2dep]
              · refine PathStmt.PathStmt_skip (by rw [hK1]; decide) ?_ hee
                rw [h3cell, h2cell] at hpath
                exact hpath
              · refine ArrStmt.ArrStmt_skip (by rw [hK1]; decide) ?_ hee
                rw [h3cell, h2cell] at hin
                exact hin
              · refine ArrStmt.ArrStmt_step hdep hK1 hc0 hlen harr hcells hn3 hf hdlt hee hle ?_
                rw [h3cell, h2cell] at hout
                exact hout
        · rw [if_neg hK1] at h
          obtain ⟨hf, hoff, hoth, hpl, hdlt, hdz, hle, hpath, hin, hout⟩ := ih _ _ _ _ hn hz h
          exact ⟨hf, hoff, hoth, hpl, hdlt, hdz, hle, PathStmt.PathStmt_skip hp hpath (le_refl _), ArrStmt.ArrStmt_skip hK0 hin (le_refl _), ArrStmt.ArrStmt_skip hK1 hout (le_refl _)⟩

/-! ## Notifications of a module -/

theorem add_module_notifs_op_spec (L : Layout) (hdep : 0 < L.dep) (cell : Nat) :
    ∀ (ops : List LydNode) (s : Shm) (e : Nat) (s2 : Shm) (e2 : Nat),
      NamesLt s e → (∀ a, e ≤ a → s.dep a = {}) →
      add_module_notifs_op L cell ops s e = .ok (s2, e2) →
      Frame e s s2 ∧ s2.off = s.off ∧ s2.rpc = s.rpc ∧
      (∀ a, a ≠ cell → s2.notif a = s.notif a) ∧
      (∀ a, a < e → s2.dep a = s.dep a) ∧ (∀ a, e2 ≤ a → s2.dep a = {}) ∧ e ≤ e2 ∧
      PathStmt s2 e e2 (s.notif cell).path (s2.notif cell).path ops ∧
      ArrStmt L s2 e e2 "deps" (s.notif cell).deps (s.notif cell).dep_count
        (s2.notif cell).deps (s2.notif cell).dep_count ops := by
  intro ops
  induction ops with
  | nil =>
    intro s e s2 e2 _ hz h
    simp only [add_module_notifs_op, Except.ok.injEq, Prod.mk.injEq] at h
    obtain ⟨rfl, rfl⟩ := h
    exact ⟨Frame.Frame_refl _ _, rfl, rfl, fun _ _ => rfl, fun _ _ => rfl, hz, le_refl _,
      PathStmt.PathStmt_nil _ _ _ _, ArrStmt.ArrStmt_nil _ _ _ _ _ _ _⟩
  | cons op ops ih =>
    intro s e s2 e2 hn hz h
    unfold add_module_notifs_op at h
    by_cases hp : op.name = "path"
    · rw [if_pos hp] at h
      simp only [sr_shmstrcpy_fst, sr_shmstrcpy_off, sr_shmstrcpy_end] at h
      have hlen := sr_strshmlen_pos op.value
      obtain ⟨hf, hoff, hoth, hpl, hdlt, hdz, hle, hpath, hdeps⟩ := ih _ _ _ _
        (by exact (hn.NamesLt_mono (Nat.le_add_right _ _)).NamesLt_frame rfl (fun _ _ => rfl))
        (by intro a ha; exact hz a (by omega)) h
      have hfs : Frame e s s2 := by
        refine Frame.Frame_trans ?_ hf (Nat.le_add_right _ _)
        exact ⟨rfl, rfl, rfl, fun a ha => by simp [Nat.ne_of_lt ha]⟩
      refine ⟨hfs, by rw [hoff]; rfl, by rw [hoth]; rfl, ?_, ?_, hdz, by omega, ?_, ?_⟩
      · intro a ha
        rw [hpl a ha]; simp [ha]
      · intro a ha
        rw [hdlt a (by omega)]; rfl
      · refine PathStmt.PathStmt_step hp (by simpa using hpath) ?_ hle
        rw [hf.str e (by omega)]
        simp
      · refine ArrStmt.ArrStmt_skip (by rw [hp]; decide) ?_ (Nat.le_add_right e (sr_strshmlen op.value))
        simpa using hdeps
    · rw [if_neg hp] at h
      by_cases hK0 : op.name = "deps"
      · rw [if_pos hK0] at h
        simp only [setNotif_notif, if_true] at h
        split at h
        · cases h
        · next s3 i3 e1 hfd =>
          generalize hS2 : Shm.setNotif (Shm.setNotif s cell _) cell _ = S2 at hfd h
          have h2main : S2.main = s.main := by rw [← hS2]; rfl
          have h2mods : S2.mods = s.mods := by rw [← hS2]; rfl
          have h2str : S2.str = s.str := by rw [← hS2]; rfl
          have h2dep : S2.dep = s.dep := by rw [← hS2]; rfl
          have h2off : S2.off = s.off := by rw [← hS2]; rfl
          have h2oth : S2.rpc = s.rpc := by rw [← hS2]; rfl
          have h2size : S2.size = s.size := by rw [← hS2]; rfl
          have h2ne : ∀ a, a ≠ cell → S2.notif a = s.notif a := by
            intro a ha; rw [← hS2]; simp [ha]
          have h2cell : S2.notif cell = { s.notif cell with
              dep_count := (s.notif cell).dep_count + op.child.length
              deps := (sr_shmcpy (((s.notif cell).dep_count + op.child.length) * L.dep) e).1 } := by
            rw [← hS2]; simp
          split at h
          · cases h
          · next hchk =>
            push_neg at hchk
            have hn2 : NamesLt S2 e := hn.NamesLt_frame h2main (fun j _ => by rw [h2mods])
            obtain ⟨hf3, hstep⟩ := dep_array_step L hdep hn2 (by rw [h2dep]; exact hz) hfd
            have h3cell : s3.notif cell = S2.notif cell := by rw [hf3.notif]
            obtain ⟨hc0, hlen, hd3, hz3, he3, harr, hcells⟩ :=
              hstep (by rw [hchk, h3cell, h2cell])
            have hee : e ≤ e1 := by omega
            have hn3 : NamesLt s3 e1 := hn2.NamesLt_of_frame hf3.DepFrame_toFrame hee
            obtain ⟨hf, hoff, hoth, hpl, hdlt, hdz, hle, hpath, hdeps⟩ := ih _ _ _ _ hn3 hz3 h
            have hfs3 : Frame e s s3 :=
              ⟨hf3.size.trans h2size, hf3.main.trans h2main, hf3.mods.trans h2mods,
                fun a ha => (hf3.str a ha).trans (by rw [h2str])⟩
            refine ⟨Frame.Frame_trans hfs3 hf hee, by rw [hoff, hf3.off, h2off],
              by rw [hoth, hf3.rpc, h2oth], ?_, ?_, hdz, by omega, ?_, ?_⟩
            · intro a ha
              rw [hpl a ha, hf3.notif, h2ne a ha]
            · intro a ha
              rw [hdlt a (by omega), hd3 a ha, h2dep]
            · refine PathStmt.PathStmt_skip (by rw [hK0]; decide) ?_ hee
              rw [h3cell, h2cell] at hpath
              exact hpath
            · refine ArrStmt.ArrStmt_step hdep hK0 hc0 hlen harr hcells hn3 hf hdlt hee hle ?_
              rw [h3cell, h2cell] at hdeps
              exact hdeps
      · rw [if_neg hK0] at h
        obtain ⟨hf, hoff, hoth, hpl, hdlt, hdz, hle, hpath, hdeps⟩ := ih _ _ _ _ hn hz h
        exact ⟨hf, hoff, hoth, hpl, hdlt, hdz, hle, PathStmt.PathStmt_skip hp hpath (le_refl _), ArrStmt.ArrStmt_skip hK0 hdeps (le_refl _)⟩

/-! ## Stored content survives later writes -/

theorem Stable.Stable_refl (e : Nat) (s : Shm) : Stable e s s :=
  ⟨rfl, fun _ _ => rfl, fun _ _ => rfl, fun _ _ => rfl, fun _ _ => rfl, fun _ _ => rfl,
    fun _ _ => rfl⟩

theorem Stable.Stable_trans {e e2 : Nat} {s s2 s3 : Shm} (h1 : Stable e s s2) (h2 : Stable e2 s2 s3)
    (he : e ≤ e2) : Stable e s s3 :=
  ⟨h2.main.trans h1.main,
    fun j hj => (h2.names j (by rw [h1.main]; exact hj)).trans (h1.names j hj),
    fun a ha => (h2.str a (by omega)).trans (h1.str a ha),
    fun a ha => (h2.off a (by omega)).trans (h1.off a ha),
    fun a ha => (h2.dep a (by omega)).trans (h1.dep a ha),
    fun a ha => (h2.rpc a (by omega)).trans (h1.rpc a ha),
    fun a ha => (h2.notif a (by omega)).trans (h1.notif a ha)⟩

theorem Stable.Stable_mono {e e2 : Nat} {s s2 : Shm} (h : Stable e s s2) (he : e2 ≤ e) :
    Stable e2 s s2 :=
  ⟨h.main, h.names, fun a ha => h.str a (by omega), fun a ha => h.off a (by omega),
    fun a ha => h.dep a (by omega), fun a ha => h.rpc a (by omega),
    fun a ha => h.notif a (by omega)⟩

theorem NamesLt.NamesLt_stable {s s2 : Shm} {e : Nat} (h : NamesLt s e) (hs : Stable e s s2) :
    NamesLt s2 e :=
  h.NamesLt_frame hs.main hs.names

theorem IsName.IsName_stable {s s2 : Shm} {e off : Nat} {v : String} (h : IsName s off v)
    (hn : NamesLt s e) (hs : Stable e s s2) : IsName s2 off v :=
  h.IsName_frame hn hs.main hs.names hs.str

theorem DepCellOK.DepCellOK_stable {s s2 : Shm} {lo hi e : Nat} {d : SrDep} {n : LydNode}
    (h : DepCellOK s lo hi d n) (hn : NamesLt s e) (he : hi ≤ e) (hs : Stable e s s2) :
    DepCellOK s2 lo hi d n :=
  h.DepCellOK_frame hn he hs.main hs.names hs.str

theorem ArrOK.ArrOK_cell_lt {lo hi base count elt k : Nat} (h : ArrOK lo hi base count elt)
    (hk : k < count) : lo ≤ base + k * elt ∧ base + k * elt + elt ≤ hi := by
  unfold ArrOK at h
  rw [if_neg (by omega)] at h
  have := cell_end_le base elt hk
  constructor <;> omega

theorem DepArrOK.DepArrOK_stable {L : Layout} (hdep : 0 < L.dep) {s s2 : Shm} {lo hi e base count : Nat}
    {G : List LydNode} (h : DepArrOK L s lo hi base count G) (hn : NamesLt s e) (he : hi ≤ e)
    (hs : Stable e s s2) : DepArrOK L s2 lo hi base count G := by
  obtain ⟨h1, h2, h3⟩ := h
  refine ⟨h1, h2, ?_⟩
  intro k n hk
  have hkl : k < count := by
    have := (List.getElem?_eq_some_iff.mp hk).1
    omega
  have := h2.ArrOK_cell_lt hkl
  rw [hs.dep _ (by omega)]
  exact (h3 k n hk).DepCellOK_stable hn he hs

theorem PathOK.PathOK_stable {s s2 : Shm} {lo hi e p : Nat} {cs : List LydNode}
    (h : PathOK s lo hi p cs) (he : hi ≤ e) (hs : Stable e s s2) : PathOK s2 lo hi p cs := by
  unfold PathOK at h ⊢
  cases hl : lastValue "path" cs with
  | none => rw [hl] at h; exact h
  | some v =>
    rw [hl] at h
    have := sr_strshmlen_pos v
    exact ⟨h.1, h.2.1, by rw [hs.str _ (by omega)]; exact h.2.2⟩

theorem RpcCellOK.RpcCellOK_stable {L : Layout} (hdep : 0 < L.dep) {s s2 : Shm} {lo hi e : Nat}
    {r : SrRpc} {n : LydNode} (h : RpcCellOK L s lo hi r n) (hn : NamesLt s e) (he : hi ≤ e)
    (hs : Stable e s s2) : RpcCellOK L s2 lo hi r n :=
  ⟨h.1.PathOK_stable he hs, h.2.1.DepArrOK_stable hdep hn he hs, h.2.2.DepArrOK_stable hdep hn he hs⟩

theorem NotifCellOK.NotifCellOK_stable {L : Layout} (hdep : 0 < L.dep) {s s2 : Shm} {lo hi e : Nat}
    {r : SrNotif} {n : LydNode} (h : NotifCellOK L s lo hi r n) (hn : NamesLt s e) (he : hi ≤ e)
    (hs : Stable e s s2) : NotifCellOK L s2 lo hi r n :=
  ⟨h.1.PathOK_stable he hs, h.2.DepArrOK_stable hdep hn he hs⟩

theorem RpcCellOK.RpcCellOK_mono {L : Layout} {s : Shm} {lo hi lo2 hi2 : Nat} {r : SrRpc} {n : LydNode}
    (h : RpcCellOK L s lo hi r n) (h1 : lo2 ≤ lo) (h2 : hi ≤ hi2) : RpcCellOK L s lo2 hi2 r n :=
  ⟨h.1.PathOK_mono h1 h2, h.2.1.DepArrOK_mono h1 h2, h.2.2.DepArrOK_mono h1 h2⟩

theorem NotifCellOK.NotifCellOK_mono {L : Layout} {s : Shm} {lo hi lo2 hi2 : Nat} {r : SrNotif}
    {n : LydNode} (h : NotifCellOK L s lo hi r n) (h1 : lo2 ≤ lo) (h2 : hi ≤ hi2) :
    NotifCellOK L s lo2 hi2 r n :=
  ⟨h.1.PathOK_mono h1 h2, h.2.DepArrOK_mono h1 h2⟩

theorem ModDepsOK.ModDepsOK_stable {L : Layout} (hL : LayoutOK L) {s s2 : Shm} {lo hi e : Nat} {m : SrMod}
    {node : LydNode} (h : ModDepsOK L s lo hi m node) (hn : NamesLt s e) (he : hi ≤ e)
    (hs : Stable e s s2) : ModDepsOK L s2 lo hi m node := by
  obtain ⟨h1, h2, h3, h4, h5, h6⟩ := h
  refine ⟨h1, h2, ?_, h4, h5, ?_⟩
  · intro k n hk
    have hkl : k < m.dep_count := by
      have := (List.getElem?_eq_some_iff.mp hk).1
      omega
    have := h2.ArrOK_cell_lt hkl
    have := hL.dep
    rw [hs.dep _ (by omega)]
    exact (h3 k n hk).DepCellOK_stable hn he hs
  · intro k n hk
    have hkl : k < m.inv_dep_count := by
      have := (List.getElem?_eq_some_iff.mp hk).1
      omega
    have := h5.ArrOK_cell_lt hkl
    have := hL.off
    rw [hs.off _ (by omega)]
    exact (h6 k n hk).IsName_stable hn hs

theorem ModRpcsOK.ModRpcsOK_stable {L : Layout} (hL : LayoutOK L) {s s2 : Shm} {lo hi e : Nat} {m : SrMod}
    {node : LydNode} (h : ModRpcsOK L s lo hi m node) (hn : NamesLt s e) (he : hi ≤ e)
    (hs : Stable e s s2) : ModRpcsOK L s2 lo hi m node := by
  obtain ⟨h1, h2, h3⟩ := h
  refine ⟨h1, h2, ?_⟩
  intro k n hk
  have hkl : k < m.rpc_count := by
    have := (List.getElem?_eq_some_iff.mp hk).1
    omega
  have := h2.ArrOK_cell_lt hkl
  have := hL.rpc
  rw [hs.rpc _ (by omega)]
  exact (h3 k n hk).RpcCellOK_stable hL.dep hn he hs

theorem ModNotifsOK.ModNotifsOK_stable {L : Layout} (hL : LayoutOK L) {s s2 : Shm} {lo hi e : Nat}
    {m : SrMod} {node : LydNode} (h : ModNotifsOK L s lo hi m node) (hn : NamesLt s e)
    (he : hi ≤ e) (hs : Stable e s s2) : ModNotifsOK L s2 lo hi m node := by
  obtain ⟨h1, h2, h3⟩ := h
  refine ⟨h1, h2, ?_⟩
  intro k n hk
  have hkl : k < m.notif_count := by
    have := (List.getElem?_eq_some_iff.mp hk).1
    omega
  have := h2.ArrOK_cell_lt hkl
  have := hL.notif
  rw [hs.notif _ (by omega)]
  exact (h3 k n hk).NotifCellOK_stable hL.dep hn he hs

theorem ArrStmt.ArrStmt_toDepArrOK {L : Layout} {s : Shm} {lo hi d c : Nat} {nm : String}
    {ops : List LydNode} (h : ArrStmt L s lo hi nm 0 0 d c ops) :
    DepArrOK L s lo hi d c (grandChildren nm ops) := by
  unfold ArrStmt at h
  split at h
  · next h0 =>
    obtain ⟨rfl, rfl⟩ := h
    rw [grandChildren_eq_nil ops h0]
    refine ⟨⟨by simp [depNodes], by simp [depNodes]⟩, by simp [ArrOK], ?_⟩
    intro k n hk
    simp [depNodes] at hk
  · exact h.2

theorem PathStmt.PathStmt_toPathOK {s : Shm} {lo hi p : Nat} {ops : List LydNode}
    (h : PathStmt s lo hi 0 p ops) : PathOK s lo hi p ops := h

theorem DepArrOK.DepArrOK_frame {L : Layout} (hdep : 0 < L.dep) {s s2 : Shm} {lo hi e base count : Nat}
    {G : List LydNode} (h : DepArrOK L s lo hi base count G) (hn : NamesLt s e) (he : hi ≤ e)
    (hf : Frame e s s2) (hd : ∀ a, a < e → s2.dep a = s.dep a) :
    DepArrOK L s2 lo hi base count G := by
  obtain ⟨h1, h2, h3⟩ := h
  refine ⟨h1, h2, ?_⟩
  intro k n hk
  have hkl : k < count := by
    have := (List.getElem?_eq_some_iff.mp hk).1
    omega
  have := h2.ArrOK_cell_lt hkl
  rw [hd _ (by omega)]
  exact (h3 k n hk).DepCellOK_of_frame hn he hf

theorem PathOK.PathOK_frame {s s2 : Shm} {lo hi e p : Nat} {cs : List LydNode}
    (h : PathOK s lo hi p cs) (he : hi ≤ e) (hf : Frame e s s2) : PathOK s2 lo hi p cs := by
  unfold PathOK at h ⊢
  cases hl : lastValue "path" cs with
  | none => rw [hl] at h; exact h
  | some v =>
    rw [hl] at h
    have := sr_strshmlen_pos v
    exact ⟨h.1, h.2.1, by rw [hf.str _ (by omega)]; exact h.2.2⟩

theorem RpcCellOK.RpcCellOK_frame {L : Layout} (hdep : 0 < L.dep) {s s2 : Shm} {lo hi e : Nat}
    {r : SrRpc} {n : LydNode} (h : RpcCellOK L s lo hi r n) (hn : NamesLt s e) (he : hi ≤ e)
    (hf : Frame e s s2) (hd : ∀ a, a < e → s2.dep a = s.dep a) : RpcCellOK L s2 lo hi r n :=
  ⟨h.1.PathOK_frame he hf, h.2.1.DepArrOK_frame hdep hn he hf hd, h.2.2.DepArrOK_frame hdep hn he hf hd⟩

theorem NotifCellOK.NotifCellOK_frame {L : Layout} (hdep : 0 < L.dep) {s s2 : Shm} {lo hi e : Nat}
    {r : SrNotif} {n : LydNode} (h : NotifCellOK L s lo hi r n) (hn : NamesLt s e) (he : hi ≤ e)
    (hf : Frame e s s2) (hd : ∀ a, a < e → s2.dep a = s.dep a) : NotifCellOK L s2 lo hi r n :=
  ⟨h.1.PathOK_frame he hf, h.2.DepArrOK_frame hdep hn he hf hd⟩

/-! ## The RPC and notification arrays of a module -/

theorem add_module_rpcs_fill_spec (L : Layout) (hdep : 0 < L.dep) (helt : 0 < L.rpc) (base : Nat) :
    ∀ (cs : List LydNode) (s : Shm) (ri e : Nat) (s2 : Shm) (ri2 e2 : Nat),
      NamesLt s e → (∀ a, e ≤ a → s.dep a = {}) →
      (∀ k, ri ≤ k → k < ri + (childrenNamed "rpc" cs).length → s.rpc (base + k * L.rpc) = {}) →
      add_module_rpcs_fill L base cs s ri e = .ok (s2, ri2, e2) →
      Frame e s s2 ∧ s2.off = s.off ∧ s2.notif = s.notif ∧
      (∀ a, (∀ k, ri ≤ k → k < ri2 → a ≠ base + k * L.rpc) → s2.rpc a = s.rpc a) ∧
      (∀ a, a < e → s2.dep a = s.dep a) ∧ (∀ a, e2 ≤ a → s2.dep a = {}) ∧ e ≤ e2 ∧
      ri2 = ri + (childrenNamed "rpc" cs).length ∧
      (∀ k n, (childrenNamed "rpc" cs)[k]? = some n →
        RpcCellOK L s2 e e2 (s2.rpc (base + (ri + k) * L.rpc)) n) := by
  intro cs
  induction cs with
  | nil =>
    intro s ri e s2 ri2 e2 _ hz _ h
    simp only [add_module_rpcs_fill, Except.ok.injEq, Prod.mk.injEq] at h
    obtain ⟨rfl, rfl, rfl⟩ := h
    exact ⟨Frame.Frame_refl _ _, rfl, rfl, fun _ _ => rfl, fun _ _ => rfl, hz, le_refl _,
      by simp [childrenNamed], by simp [childrenNamed]⟩
  | cons c cs ih =>
    intro s ri e s2 ri2 e2 hn hz hzr h
    unfold add_module_rpcs_fill at h
    by_cases hk : c.name = "rpc"
    · rw [if_pos hk] at h
      split at h
      · cases h
      · next s1 e1 hop =>
        obtain ⟨hf1, hoff1, hoth1, hpl1, hdlt1, hdz1, hle1, hpath1, hin1, hout1⟩ :=
          add_module_rpcs_op_spec L hdep _ _ _ _ _ _ hn hz hop
        have hzero : s.rpc (base + ri * L.rpc) = {} :=
          hzr ri (le_refl _) (by rw [childrenNamed_cons_eq cs hk]; simp)
        rw [hzero] at hpath1 hin1 hout1
        have hcell1 : RpcCellOK L s1 e e1 (s1.rpc (base + ri * L.rpc)) c :=
          ⟨hpath1.PathStmt_toPathOK, hin1.ArrStmt_toDepArrOK, hout1.ArrStmt_toDepArrOK⟩
        have hn1 : NamesLt s1 e1 := hn.NamesLt_of_frame hf1 hle1
        obtain ⟨hf, hoff, hoth, hpl, hdlt, hdz, hle, hri, hc⟩ := ih _ _ _ _ _ _ hn1 hdz1
          (by
            intro k hk1 hk2
            rw [hpl1 _ (fun hh => by have := cell_inj base helt hh; omega)]
            exact hzr k (by omega)
              (by rw [childrenNamed_cons_eq cs hk]; simp only [List.length_cons]; omega)) h
        refine ⟨Frame.Frame_trans hf1 hf hle1, by rw [hoff, hoff1], by rw [hoth, hoth1], ?_, ?_, hdz,
          by omega, ?_, ?_⟩
        · intro a ha
          rw [hpl a (fun k hk1 hk2 => ha k (by omega) hk2)]
          exact hpl1 a (ha ri (le_refl _) (by omega))
        · intro a ha
          rw [hdlt a (by omega)]
          exact hdlt1 a ha
        · rw [childrenNamed_cons_eq cs hk, hri]; simp only [List.length_cons]; omega
        · intro k n hkn
          rw [childrenNamed_cons_eq cs hk] at hkn
          cases k with
          | zero =>
            simp only [List.getElem?_cons_zero, Option.some.injEq] at hkn
            subst hkn
            have hcell : s2.rpc (base + (ri + 0) * L.rpc) = s1.rpc (base + ri * L.rpc) := by
              rw [Nat.add_zero, hpl _ (fun k hk1 _ hh => by
                have := cell_inj base helt hh; omega)]
            rw [hcell]
            exact (hcell1.RpcCellOK_frame hdep hn1 (le_refl _) hf hdlt).RpcCellOK_mono (le_refl _) hle
          | succ k =>
            simp only [List.getElem?_cons_succ] at hkn
            have h2 : RpcCellOK L s2 e e2 _ n := (hc k n hkn).RpcCellOK_mono hle1 (le_refl _)
            rw [show ri + (k + 1) = ri + 1 + k by omega]
            exact h2
    · rw [if_neg hk] at h
      rw [childrenNamed_cons_ne cs hk] at hzr ⊢
      exact ih _ _ _ _ _ _ hn hz hzr h

theorem add_module_notifs_fill_spec (L : Layout) (hdep : 0 < L.dep) (helt : 0 < L.notif) (base : Nat) :
    ∀ (cs : List LydNode) (s : Shm) (ri e : Nat) (s2 : Shm) (ri2 e2 : Nat),
      NamesLt s e → (∀ a, e ≤ a → s.dep a = {}) →
      (∀ k, ri ≤ k → k < ri + (childrenNamed "notification" cs).length → s.notif (base + k * L.notif) = {}) →
      add_module_notifs_fill L base cs s ri e = .ok (s2, ri2, e2) →
      Frame e s s2 ∧ s2.off = s.off ∧ s2.rpc = s.rpc ∧
      (∀ a, (∀ k, ri ≤ k → k < ri2 → a ≠ base + k * L.notif) → s2.notif a = s.notif a) ∧
      (∀ a, a < e → s2.dep a = s.dep a) ∧ (∀ a, e2 ≤ a → s2.dep a = {}) ∧ e ≤ e2 ∧
      ri2 = ri + (childrenNamed "notification" cs).length ∧
      (∀ k n, (childrenNamed "notification" cs)[k]? = some n →
        NotifCellOK L s2 e e2 (s2.notif (base + (ri + k) * L.notif)) n) := by
  intro cs
  induction cs with
  | nil =>
    intro s ri e s2 ri2 e2 _ hz _ h
    simp only [add_module_notifs_fill, Except.ok.injEq, Prod.mk.injEq] at h
    obtain ⟨rfl, rfl, rfl⟩ := h
    exact ⟨Frame.Frame_refl _ _, rfl, rfl, fun _ _ => rfl, fun _ _ => rfl, hz, le_refl _,
      by simp [childrenNamed], by simp [childrenNamed]⟩
  | cons c cs ih =>
    intro s ri e s2 ri2 e2 hn hz hzr h
    unfold add_module_notifs_fill at h
    by_cases hk : c.name = "notification"
    · rw [if_pos hk] at h
      split at h
      · cases h
      · next s1 e1 hop =>
        obtain ⟨hf1, hoff1, hoth1, hpl1, hdlt1, hdz1, hle1, hpath1, hdeps1⟩ :=
          add_module_notifs_op_spec L hdep _ _ _ _ _ _ hn hz hop
        have hzero : s.notif (base + ri * L.notif) = {} :=
          hzr ri (le_refl _) (by rw [childrenNamed_cons_eq cs hk]; simp)
        rw [hzero] at hpath1 hdeps1
        have hcell1 : NotifCellOK L s1 e e1 (s1.notif (base + ri * L.notif)) c :=
          ⟨hpath1.PathStmt_toPathOK, hdeps1.ArrStmt_toDepArrOK⟩
        have hn1 : NamesLt s1 e1 := hn.NamesLt_of_frame hf1 hle1
        obtain ⟨hf, hoff, hoth, hpl, hdlt, hdz, hle, hri, hc⟩ := ih _ _ _ _ _ _ hn1 hdz1
          (by
            intro k hk1 hk2
            rw [hpl1 _ (fun hh => by have := cell_inj base helt hh; omega)]
            exact hzr k (by omega)
              (by rw [childrenNamed_cons_eq cs hk]; simp only [List.length_cons]; omega)) h
        refine ⟨Frame.Frame_trans hf1 hf hle1, by rw [hoff, hoff1], by rw [hoth, hoth1], ?_, ?_, hdz,
          by omega, ?_, ?_⟩
        · intro a ha
          rw [hpl a (fun k hk1 hk2 => ha k (by omega) hk2)]
          exact hpl1 a (ha ri (le_refl _) (by omega))
        · intro a ha
          rw [hdlt a (by omega)]
          exact hdlt1 a ha
        · rw [childrenNamed_cons_eq cs hk, hri]; simp only [List.length_cons]; omega
        · intro k n hkn
          rw [childrenNamed_cons_eq cs hk] at hkn
          cases k with
          | zero =>
            simp only [List.getElem?_cons_zero, Option.some.injEq] at hkn
            subst hkn
            have hcell : s2.notif (base + (ri + 0) * L.notif) = s1.notif (base + ri * L.notif) := by
              rw [Nat.add_zero, hpl _ (fun k hk1 _ hh => by
                have := cell_inj base helt hh; omega)]
            rw [hcell]
            exact (hcell1.NotifCellOK_frame hdep hn1 (le_refl _) hf hdlt).NotifCellOK_mono (le_refl _) hle
          | succ k =>
            simp only [List.getElem?_cons_succ] at hkn
            have h2 : NotifCellOK L s2 e e2 _ n := (hc k n hkn).NotifCellOK_mono hle1 (le_refl _)
            rw [show ri + (k + 1) = ri + 1 + k by omega]
            exact h2
    · rw [if_neg hk] at h
      rw [childrenNamed_cons_ne cs hk] at hzr ⊢
      exact ih _ _ _ _ _ _ hn hz hzr h

/-! ## The sub-passes for RPCs and notifications -/

theorem add_module_rpcs_count_spec (L : Layout) (idx : Nat) :
    ∀ (cs : List LydNode) (s : Shm) (m : SrMod) (pl dl : Nat),
      ∃ pl2 dl2, add_module_rpcs_count L idx cs (s.setMod idx m) pl dl =
        (s.setMod idx { m with rpc_count := m.rpc_count + (childrenNamed "rpc" cs).length },
          pl2, dl2) := by
  intro cs
  induction cs with
  | nil =>
    intro s m pl dl
    exact ⟨pl, dl, by simp [add_module_rpcs_count, childrenNamed]⟩
  | cons c cs ih =>
    intro s m pl dl
    unfold add_module_rpcs_count
    by_cases hk : c.name = "rpc"
    · rw [if_pos hk]
      simp only [updMod_setMod]
      obtain ⟨pl2, dl2, h⟩ := ih s { m with rpc_count := m.rpc_count + 1 }
        (rpc_count_op L c.child pl dl).1 (rpc_count_op L c.child pl dl).2
      refine ⟨pl2, dl2, ?_⟩
      rw [h, childrenNamed_cons_eq cs hk]
      simp only [List.length_cons, Nat.add_assoc, Nat.add_comm 1]
    · rw [if_neg hk, childrenNamed_cons_ne cs hk]
      exact ih s m pl dl

theorem sr_shmmain_add_module_rpcs_spec {L : Layout} (hL : LayoutOK L) {m : LydNode} {idx : Nat}
    {s s2 : Shm} (hfit : Fits L s) (hidx : idx < s.main.mod_count) (hn : NamesLt s s.size)
    (h : sr_shmmain_add_module_rpcs L m idx s = .ok s2) :
    Keeps s s2 ∧ (∀ j, j < s.main.mod_count → j ≠ idx → s2.mods j = s.mods j) ∧
    (∃ d c, s2.mods idx = { s.mods idx with rpcs := d, rpc_count := c }) ∧
    ModRpcsOK L s2 s.size s2.size (s2.mods idx) m := by
  unfold sr_shmmain_add_module_rpcs at h
  split at h
  · cases h
  · next hz =>
    push_neg at hz
    obtain ⟨pl, dl, hcount⟩ := add_module_rpcs_count_spec L idx m.child s (s.mods idx) 0 0
    rw [setMod_self] at hcount
    simp only [hz, Nat.zero_add] at hcount
    rw [hcount] at h
    generalize hsc : Shm.setMod s idx _ = sc at h
    simp only at h
    split at h
    · cases h
    · next sr hr =>
      have hscsize : sc.size = s.size := by rw [← hsc]; rfl
      have hscfit : Fits L sc := by rw [← hsc]; exact hfit
      have hscmain : sc.main = s.main := by rw [← hsc]; rfl
      rw [show sc.size + pl + SR_SHM_SIZE ((sc.mods idx).rpc_count * L.rpc) + dl
          = sc.size + (pl + SR_SHM_SIZE ((sc.mods idx).rpc_count * L.rpc) + dl) by omega] at hr
      obtain ⟨r1, r2, r3, r4, r5, r6, r7, r8⟩ := remap_grow_ok hL hscfit hr
      have hsrm : sr.mods idx = sc.mods idx := r3 idx (by rw [hscmain]; exact hidx)
      have hscm : sc.mods idx = { s.mods idx with
          rpc_count := (childrenNamed "rpc" m.child).length } := by
        rw [← hsc]; simp
      simp only [updMod_mods, if_true, hsrm] at h
      rw [hscm] at h
      simp only at h
      split at h
      · cases h
      · next s5 ri e hfl =>
        simp only [sr_shmcpy_fst, sr_shmcpy_snd] at hfl
        generalize hS4 : Shm.updMod sr idx _ = S4 at hfl
        have h4size : S4.size = sr.size := by rw [← hS4]; rfl
        have h4main : S4.main = sr.main := by rw [← hS4]; rfl
        have h4str : S4.str = sr.str := by rw [← hS4]; rfl
        have h4off : S4.off = sr.off := by rw [← hS4]; rfl
        have h4dep : S4.dep = sr.dep := by rw [← hS4]; rfl
        have h4rpc : S4.rpc = sr.rpc := by rw [← hS4]; rfl
        have h4notif : S4.notif = sr.notif := by rw [← hS4]; rfl
        have h4ne : ∀ j, j ≠ idx → S4.mods j = sr.mods j := by
          intro j hj; rw [← hS4]; simp [hj]
        have h4idx : S4.mods idx = { s.mods idx with
            rpcs := if (childrenNamed "rpc" m.child).length * L.rpc = 0 then 0 else sc.size
            rpc_count := (childrenNamed "rpc" m.child).length } := by
          rw [← hS4]; simp [hsrm, hscm]
        have hscne : ∀ j, j ≠ idx → sc.mods j = s.mods j := by
          intro j hj; rw [← hsc]; simp [hj]
        have hscstr : sc.str = s.str := by rw [← hsc]; rfl
        have hscoff : sc.off = s.off := by rw [← hsc]; rfl
        have hscdep : sc.dep = s.dep := by rw [← hsc]; rfl
        have hscrpc : sc.rpc = s.rpc := by rw [← hsc]; rfl
        have hscnotif : sc.notif = s.notif := by rw [← hsc]; rfl
        have hname : ∀ j, j < s.main.mod_count → (S4.mods j).name = (s.mods j).name := by
          intro j hj
          by_cases hji : j = idx
          · subst hji; rw [h4idx]
          · rw [h4ne j hji, r3 j (by rw [hscmain]; exact hj), hscne j hji]
        have hA := le_SR_SHM_SIZE ((childrenNamed "rpc" m.child).length * L.rpc)
        have hn4 : NamesLt S4
            (sc.size + SR_SHM_SIZE ((childrenNamed "rpc" m.child).length * L.rpc)) := by
          intro j hj
          rw [h4main, r2, hscmain] at hj
          rw [hname j hj]
          have := hn j hj
          omega
        have hpos : ∀ k, k < (childrenNamed "rpc" m.child).length →
            (if (childrenNamed "rpc" m.child).length * L.rpc = 0 then 0 else sc.size) = sc.size := by
          intro k hk
          have : 0 < (childrenNamed "rpc" m.child).length * L.rpc :=
            Nat.mul_pos (by omega) hL.rpc
          rw [if_neg (by omega)]
        obtain ⟨hf, hoff, hoth, hpl, hdlt, hdz, hle, hri, hc⟩ :=
          add_module_rpcs_fill_spec L hL.dep hL.rpc _ _ _ _ _ _ _ _ hn4
            (by
              intro a ha
              rw [h4dep, r6, if_neg (by omega)])
            (by
              intro k _ hk
              rw [hpos k (by omega), h4rpc, r7, if_neg (by omega)]) hfl
        simp only [Nat.zero_add] at hri hc hpl
        rw [hf.mods, h4idx] at h
        simp only at h
        split at h
        · cases h
        split at h
        · cases h
        next hrc hesz =>
        simp only [Except.ok.injEq] at h
        subst h
        push_neg at hrc hesz
        have hsz5 : s5.size = s.size + (pl + SR_SHM_SIZE ((childrenNamed "rpc" m.child).length * L.rpc)
            + dl) := by
          rw [hf.size, h4size, r1, hscm, hscsize]
        have hm5 : s5.mods idx = _ := (congrFun hf.mods idx).trans h4idx
        refine ⟨⟨by omega, by rw [hf.main, h4main, r2, hscmain], ?_, ?_, ?_, ?_, ?_⟩, ?_,
          ⟨_, _, hm5⟩, ?_⟩
        · intro a ha
          rw [hf.str a (by omega), h4str, r4, if_pos (by omega), hscstr]
        · intro a ha
          rw [hoff, h4off, r5, if_pos (by omega), hscoff]
        · intro a ha
          rw [hdlt a (by omega), h4dep, r6, if_pos (by omega), hscdep]
        · intro a ha
          rw [hpl a (fun k _ hk hh => by
            rw [hpos k (by omega)] at hh; omega), h4rpc, r7, if_pos (by omega), hscrpc]
        · intro a ha
          rw [hoth, h4notif, r8, if_pos (by omega), hscnotif]
        · intro j hj hji
          rw [hf.mods, h4ne j hji, r3 j (by rw [hscmain]; exact hj), hscne j hji]
        · rw [hm5]
          unfold ModRpcsOK
          refine ⟨rfl, ?_, ?_⟩
          · unfold ArrOK
            simp only
            split
            · next h0 => rw [h0]; simp
            · next h0 =>
              rw [hpos 0 (by omega)]
              omega
          · intro k n hk
            have h1 : RpcCellOK L s5 s.size s5.size _ n := (hc k n hk).RpcCellOK_mono (by omega) (by omega)
            simpa using h1

theorem add_module_notifs_count_spec (L : Layout) (idx : Nat) :
    ∀ (cs : List LydNode) (s : Shm) (m : SrMod) (pl dl : Nat),
      ∃ pl2 dl2, add_module_notifs_count L idx cs (s.setMod idx m) pl dl =
        (s.setMod idx { m with notif_count := m.notif_count + (childrenNamed "notification" cs).length },
          pl2, dl2) := by
  intro cs
  induction cs with
  | nil =>
    intro s m pl dl
    exact ⟨pl, dl, by simp [add_module_notifs_count, childrenNamed]⟩
  | cons c cs ih =>
    intro s m pl dl
    unfold add_module_notifs_count
    by_cases hk : c.name = "notification"
    · rw [if_pos hk]
      simp only [updMod_setMod]
      obtain ⟨pl2, dl2, h⟩ := ih s { m with notif_count := m.notif_count + 1 }
        (notif_count_op L c.child pl dl).1 (notif_count_op L c.child pl dl).2
      refine ⟨pl2, dl2, ?_⟩
      rw [h, childrenNamed_cons_eq cs hk]
      simp only [List.length_cons, Nat.add_assoc, Nat.add_comm 1]
    · rw [if_neg hk, childrenNamed_cons_ne cs hk]
      exact ih s m pl dl

theorem sr_shmmain_add_module_notifs_spec {L : Layout} (hL : LayoutOK L) {m : LydNode} {idx : Nat}
    {s s2 : Shm} (hfit : Fits L s) (hidx : idx < s.main.mod_count) (hn : NamesLt s s.size)
    (h : sr_shmmain_add_module_notifs L m idx s = .ok s2) :
    Keeps s s2 ∧ (∀ j, j < s.main.mod_count → j ≠ idx → s2.mods j = s.mods j) ∧
    (∃ d c, s2.mods idx = { s.mods idx with notifs := d, notif_count := c }) ∧
    ModNotifsOK L s2 s.size s2.size (s2.mods idx) m := by
  unfold sr_shmmain_add_module_notifs at h
  split at h
  · cases h
  · next hz =>
    push_neg at hz
    obtain ⟨pl, dl, hcount⟩ := add_module_notifs_count_spec L idx m.child s (s.mods idx) 0 0
    rw [setMod_self] at hcount
    simp only [hz, Nat.zero_add] at hcount
    rw [hcount] at h
    generalize hsc : Shm.setMod s idx _ = sc at h
    simp only at h
    split at h
    · cases h
    · next sr hr =>
      have hscsize : sc.size = s.size := by rw [← hsc]; rfl
      have hscfit : Fits L sc := by rw [← hsc]; exact hfit
      have hscmain : sc.main = s.main := by rw [← hsc]; rfl
      rw [show sc.size + pl + SR_SHM_SIZE ((sc.mods idx).notif_count * L.notif) + dl
          = sc.size + (pl + SR_SHM_SIZE ((sc.mods idx).notif_count * L.notif) + dl) by omega] at hr
      obtain ⟨r1, r2, r3, r4, r5, r6, r7, r8⟩ := remap_grow_ok hL hscfit hr
      have hsrm : sr.mods idx = sc.mods idx := r3 idx (by rw [hscmain]; exact hidx)
      have hscm : sc.mods idx = { s.mods idx with
          notif_count := (childrenNamed "notification" m.child).length } := by
        rw [← hsc]; simp
      simp only [updMod_mods, if_true, hsrm] at h
      rw [hscm] at h
      simp only at h
      split at h
      · cases h
      · next s5 ri e hfl =>
        simp only [sr_shmcpy_fst, sr_shmcpy_snd] at hfl
        generalize hS4 : Shm.updMod sr idx _ = S4 at hfl
        have h4size : S4.size = sr.size := by rw [← hS4]; rfl
        have h4main : S4.main = sr.main := by rw [← hS4]; rfl
        have h4str : S4.str = sr.str := by rw [← hS4]; rfl
        have h4off : S4.off = sr.off := by rw [← hS4]; rfl
        have h4dep : S4.dep = sr.dep := by rw [← hS4]; rfl
        have h4rpc : S4.rpc = sr.rpc := by rw [← hS4]; rfl
        have h4notif : S4.notif = sr.notif := by rw [← hS4]; rfl
        have h4ne : ∀ j, j ≠ idx → S4.mods j = sr.mods j := by
          intro j hj; rw [← hS4]; simp [hj]
        have h4idx : S4.mods idx = { s.mods idx with
            notifs := if (childrenNamed "notification" m.child).length * L.notif = 0 then 0 else sc.size
            notif_count := (childrenNamed "notification" m.child).length } := by
          rw [← hS4]; simp [hsrm, hscm]
        have hscne : ∀ j, j ≠ idx → sc.mods j = s.mods j := by
          intro j hj; rw [← hsc]; simp [hj]
        have hscstr : sc.str = s.str := by rw [← hsc]; rfl
        have hscoff : sc.off = s.off := by rw [← hsc]; rfl
        have hscdep : sc.dep = s.dep := by rw [← hsc]; rfl
        have hscrpc : sc.rpc = s.rpc := by rw [← hsc]; rfl
        have hscnotif : sc.notif = s.notif := by rw [← hsc]; rfl
        have hname : ∀ j, j < s.main.mod_count → (S4.mods j).name = (s.mods j).name := by
          intro j hj
          by_cases hji : j = idx
          · subst hji; rw [h4idx]
          · rw [h4ne j hji, r3 j (by rw [hscmain]; exact hj), hscne j hji]
        have hA := le_SR_SHM_SIZE ((childrenNamed "notification" m.child).length * L.notif)
        have hn4 : NamesLt S4
            (sc.size + SR_SHM_SIZE ((childrenNamed "notification" m.child).length * L.notif)) := by
          intro j hj
          rw [h4main, r2, hscmain] at hj
          rw [hname j hj]
          have := hn j hj
          omega
        have hpos : ∀ k, k < (childrenNamed "notification" m.child).length →
            (if (childrenNamed "notification" m.child).length * L.notif = 0 then 0 else sc.size) = sc.size := by
          intro k hk
          have : 0 < (childrenNamed "notification" m.child).length * L.notif :=
            Nat.mul_pos (by omega) hL.notif
          rw [if_neg (by omega)]
        obtain ⟨hf, hoff, hoth, hpl, hdlt, hdz, hle, hri, hc⟩ :=
          add_module_notifs_fill_spec L hL.dep hL.notif _ _ _ _ _ _ _ _ hn4
            (by
              intro a ha
              rw [h4dep, r6, if_neg (by omega)])
            (by
              intro k _ hk
              rw [hpos k (by omega), h4notif, r8, if_neg (by omega)]) hfl
        simp only [Nat.zero_add] at hri hc hpl
        rw [hf.mods, h4idx] at h
        simp only at h
        split at h
        · cases h
        split at h
        · cases h
        next hrc hesz =>
        simp only [Except.ok.injEq] at h
        subst h
        push_neg at hrc hesz
        have hsz5 : s5.size = s.size + (pl + SR_SHM_SIZE ((childrenNamed "notification" m.child).length * L.notif)
            + dl) := by
          rw [hf.size, h4size, r1, hscm, hscsize]
        have hm5 : s5.mods idx = _ := (congrFun hf.mods idx).trans h4idx
        refine ⟨⟨by omega, by rw [hf.main, h4main, r2, hscmain], ?_, ?_, ?_, ?_, ?_⟩, ?_,
          ⟨_, _, hm5⟩, ?_⟩
        · intro a ha
          rw [hf.str a (by omega), h4str, r4, if_pos (by omega), hscstr]
        · intro a ha
          rw [hoff, h4off, r5, if_pos (by omega), hscoff]
        · intro a ha
          rw [hdlt a (by omega), h4dep, r6, if_pos (by omega), hscdep]
        · intro a ha
          rw [hoth, h4rpc, r7, if_pos (by omega), hscrpc]
        · intro a ha
          rw [hpl a (fun k _ hk hh => by
            rw [hpos k (by omega)] at hh; omega), h4notif, r8, if_pos (by omega), hscnotif]
        · intro j hj hji
          rw [hf.mods, h4ne j hji, r3 j (by rw [hscmain]; exact hj), hscne j hji]
        · rw [hm5]
          unfold ModNotifsOK
          refine ⟨rfl, ?_, ?_⟩
          · unfold ArrOK
            simp only
            split
            · next h0 => rw [h0]; simp
            · next h0 =>
              rw [hpos 0 (by omega)]
              omega
          · intro k n hk
            have h1 : NotifCellOK L s5 s.size s5.size _ n := (hc k n hk).NotifCellOK_mono (by omega) (by omega)
            simpa using h1

/-! ## Name and features of a module -/

theorem strcpy_rev_fit (L : Layout) (idx : Nat) {str : String} (s : Shm)
    (h : strlen str < L.rev) :
    strcpy_rev L idx str s = s.updMod idx fun m => { m with rev := str } := by
  unfold strcpy_rev
  rw [if_pos h]

theorem strcpy_rev_frame (L : Layout) (idx : Nat) (str : String) (s : Shm) :
    (strcpy_rev L idx str s).size = s.size ∧ (strcpy_rev L idx str s).main = s.main ∧
    ∀ j, j < idx → (strcpy_rev L idx str s).mods j = s.mods j := by
  unfold strcpy_rev
  split
  · refine ⟨rfl, rfl, fun j hj => ?_⟩
    rw [updMod_mods, if_neg (by omega)]
  · refine ⟨rfl, rfl, fun j hj => ?_⟩
    simp only [if_pos hj]

/-- The first loop of `sr_shmmain_fill_module` has no failing step. -/
theorem fill_module_scan_ok (L : Layout) (idx : Nat) :
    ∀ (cs : List LydNode) (s : Shm) (name : Option String) (len : Nat),
      ∃ r, fill_module_scan L idx cs s name len = .ok r := by
  intro cs
  induction cs with
  | nil => intro s name len; exact ⟨_, rfl⟩
  | cons c cs ih =>
    intro s name len
    unfold fill_module_scan
    split
    · exact ih _ _ _
    · split
      · exact ih _ _ _
      · split
        · exact ih _ _ _
        · split
          · exact ih _ _ _
          · exact ih _ _ _

/-- What the first loop of `sr_shmmain_fill_module` leaves as it was,
whether a revision fits its member or not, and what it computes. -/
theorem fill_module_scan_frame (L : Layout) (idx : Nat) :
    ∀ (cs : List LydNode) (s : Shm) (name : Option String) (len : Nat)
      (s1 : Shm) (name1 : Option String) (len1 : Nat),
      fill_module_scan L idx cs s name len = .ok (s1, name1, len1) →
      s1.size = s.size ∧ s1.main = s.main ∧ (∀ j, j < idx → s1.mods j = s.mods j) ∧
      name1 = (match lastValue "name" cs with
        | some v => some v
        | none => name) ∧
      len1 = len + valuesLen (childrenNamed "enabled-feature" cs) := by
  intro cs
  induction cs with
  | nil =>
    intro s name len s1 name1 len1 h
    simp only [fill_module_scan, Except.ok.injEq, Prod.mk.injEq] at h
    obtain ⟨rfl, rfl, rfl⟩ := h
    simp [lastValue, childrenNamed, valuesLen]
  | cons c cs ih =>
    intro s name len s1 name1 len1 h
    unfold fill_module_scan at h
    by_cases h1 : c.name = "name"
    · rw [if_pos h1] at h
      have n4 : c.name ≠ "enabled-feature" := by rw [h1]; decide
      obtain ⟨r1, r2, r3, r4, r5⟩ := ih _ _ _ _ _ _ h
      rw [childrenNamed_cons_ne cs n4, lastValue_cons_eq cs h1]
      refine ⟨r1, r2, r3, ?_, r5⟩
      rw [r4]
      cases lastValue "name" cs <;> rfl
    · rw [if_neg h1] at h
      rw [lastValue_cons_ne cs h1]
      by_cases h2 : c.name = "revision"
      · rw [if_pos h2] at h
        have n4 : c.name ≠ "enabled-feature" := by rw [h2]; decide
        obtain ⟨r1, r2, r3, r4, r5⟩ := ih _ _ _ _ _ _ h
        obtain ⟨q1, q2, q3⟩ := strcpy_rev_frame L idx c.value s
        rw [childrenNamed_cons_ne cs n4]
        exact ⟨r1.trans q1, r2.trans q2, fun j hj => (r3 j hj).trans (q3 j hj), r4, r5⟩
      · rw [if_neg h2] at h
        by_cases h3 : c.name = "replay-support"
        · rw [if_pos h3] at h
          have n4 : c.name ≠ "enabled-feature" := by rw [h3]; decide
          obtain ⟨r1, r2, r3, r4, r5⟩ := ih _ _ _ _ _ _ h
          rw [childrenNamed_cons_ne cs n4]
          refine ⟨r1, r2, fun j hj => ?_, r4, r5⟩
          rw [r3 j hj, updMod_mods, if_neg (by omega)]
        · rw [if_neg h3] at h
          by_cases h4 : c.name = "enabled-feature"
          · rw [if_pos h4] at h
            obtain ⟨r1, r2, r3, r4, r5⟩ := ih _ _ _ _ _ _ h
            rw [childrenNamed_cons_eq cs h4]
            refine ⟨r1, r2, fun j hj => ?_, r4, ?_⟩
            · rw [r3 j hj, updMod_mods, if_neg (by omega)]
            · rw [r5]; simp only [valuesLen]; omega
          · rw [if_neg h4] at h
            obtain ⟨r1, r2, r3, r4, r5⟩ := ih _ _ _ _ _ _ h
            rw [childrenNamed_cons_ne cs h4]
            exact ⟨r1, r2, r3, r4, r5⟩

/-- A copy of a revision, whether it fits the member or not, leaves the
strings and items below the end of the array of module records as they
were. -/
theorem strcpy_rev_low (L : Layout) (idx : Nat) (str : String) (s : Shm) :
    ∀ a, a < L.hdr + s.main.mod_count * L.mod →
      (strcpy_rev L idx str s).str a = s.str a ∧ (strcpy_rev L idx str s).off a = s.off a ∧
      (strcpy_rev L idx str s).dep a = s.dep a ∧ (strcpy_rev L idx str s).rpc a = s.rpc a ∧
      (strcpy_rev L idx str s).notif a = s.notif a := by
  intro a ha
  unfold strcpy_rev
  split
  · exact ⟨rfl, rfl, rfl, rfl, rfl⟩
  · simp only [if_pos ha]
    exact ⟨trivial, trivial, trivial, trivial, trivial⟩

/-- The first loop of `sr_shmmain_fill_module`, whether a revision fits its
member or not, leaves the strings and items below the end of the array of
module records as they were. -/
theorem fill_module_scan_low (L : Layout) (idx : Nat) :
    ∀ (cs : List LydNode) (s : Shm) (name : Option String) (len : Nat)
      (r : Shm × Option String × Nat),
      fill_module_scan L idx cs s name len = .ok r →
      ∀ a, a < L.hdr + s.main.mod_count * L.mod →
        r.1.str a = s.str a ∧ r.1.off a = s.off a ∧ r.1.dep a = s.dep a ∧
        r.1.rpc a = s.rpc a ∧ r.1.notif a = s.notif a := by
  intro cs
  induction cs with
  | nil =>
    intro s name len r h a _
    simp only [fill_module_scan, Except.ok.injEq] at h
    subst h
    exact ⟨rfl, rfl, rfl, rfl, rfl⟩
  | cons c cs ih =>
    intro s name len r h a ha
    unfold fill_module_scan at h
    split at h
    · exact ih _ _ _ _ h a ha
    · split at h
      · obtain ⟨_, q2, _⟩ := strcpy_rev_frame L idx c.value s
        obtain ⟨p1, p2, p3, p4, p5⟩ := strcpy_rev_low L idx c.value s a ha
        obtain ⟨r1, r2, r3, r4, r5⟩ := ih _ _ _ _ h a (by rw [q2]; exact ha)
        exact ⟨r1.trans p1, r2.trans p2, r3.trans p3, r4.trans p4, r5.trans p5⟩
      · split at h
        · exact ih _ _ _ _ h a ha
        · split at h
          · exact ih _ _ _ _ h a ha
          · exact ih _ _ _ _ h a ha

theorem fill_module_scan_spec (L : Layout) (idx : Nat) :
    ∀ (cs : List LydNode) (s : Shm) (m : SrMod) (name : Option String) (len : Nat)
      (s1 : Shm) (name1 : Option String) (len1 : Nat),
      (∀ c, c ∈ cs → c.name = "revision" → strlen c.value < L.rev) →
      fill_module_scan L idx cs (s.setMod idx m) name len = .ok (s1, name1, len1) →
      s1 = s.setMod idx { m with
        rev := (lastValue "revision" cs).getD m.rev
        replay_supp := if (childrenNamed "replay-support" cs).length = 0 then m.replay_supp else 1
        feat_count := m.feat_count + (childrenNamed "enabled-feature" cs).length } ∧
      name1 = (match lastValue "name" cs with
        | some v => some v
        | none => name) ∧
      len1 = len + valuesLen (childrenNamed "enabled-feature" cs) := by
  intro cs
  induction cs with
  | nil =>
    intro s m name len s1 name1 len1 _ h
    simp only [fill_module_scan, Except.ok.injEq, Prod.mk.injEq] at h
    obtain ⟨rfl, rfl, rfl⟩ := h
    simp [lastValue, childrenNamed, valuesLen]
  | cons c cs ih =>
    intro s m name len s1 name1 len1 hrev h
    have hrev2 : ∀ c2, c2 ∈ cs → c2.name = "revision" → strlen c2.value < L.rev :=
      fun c2 hc2 => hrev c2 (List.mem_cons_of_mem _ hc2)
    unfold fill_module_scan at h
    by_cases h1 : c.name = "name"
    · rw [if_pos h1] at h
      have n2 : c.name ≠ "revision" := by rw [h1]; decide
      have n3 : c.name ≠ "replay-support" := by rw [h1]; decide
      have n4 : c.name ≠ "enabled-feature" := by rw [h1]; decide
      obtain ⟨r1, r2, r3⟩ := ih _ _ _ _ _ _ _ hrev2 h
      rw [lastValue_cons_ne cs n2, childrenNamed_cons_ne cs n3, childrenNamed_cons_ne cs n4,
        lastValue_cons_eq cs h1]
      refine ⟨r1, ?_, r3⟩
      rw [r2]
      cases lastValue "name" cs <;> rfl
    · rw [if_neg h1] at h
      by_cases h2 : c.name = "revision"
      · rw [if_pos h2] at h
        have n3 : c.name ≠ "replay-support" := by rw [h2]; decide
        have n4 : c.name ≠ "enabled-feature" := by rw [h2]; decide
        rw [strcpy_rev_fit L idx _ (hrev c (List.mem_cons_self _ _) h2), updMod_setMod] at h
        obtain ⟨r1, r2, r3⟩ := ih _ _ _ _ _ _ _ hrev2 h
        rw [lastValue_cons_ne cs h1, childrenNamed_cons_ne cs n3, childrenNamed_cons_ne cs n4,
          lastValue_cons_eq cs h2]
        refine ⟨?_, r2, r3⟩
        rw [r1]
        cases lastValue "revision" cs <;> rfl
      · rw [if_neg h2] at h
        by_cases h3 : c.name = "replay-support"
        · rw [if_pos h3] at h
          have n4 : c.name ≠ "enabled-feature" := by rw [h3]; decide
          rw [updMod_setMod] at h
          obtain ⟨r1, r2, r3⟩ := ih _ _ _ _ _ _ _ hrev2 h
          rw [lastValue_cons_ne cs h1, lastValue_cons_ne cs h2, childrenNamed_cons_eq cs h3,
            childrenNamed_cons_ne cs n4]
          refine ⟨?_, r2, r3⟩
          rw [r1]
          simp only [List.length_cons, Nat.add_one_ne_zero, if_false]
          congr 2
          split <;> rfl
        · rw [if_neg h3] at h
          by_cases h4 : c.name = "enabled-feature"
          · rw [if_pos h4] at h
            rw [updMod_setMod] at h
            obtain ⟨r1, r2, r3⟩ := ih _ _ _ _ _ _ _ hrev2 h
            rw [lastValue_cons_ne cs h1, lastValue_cons_ne cs h2, childrenNamed_cons_ne cs h3,
              childrenNamed_cons_eq cs h4]
            refine ⟨?_, r2, ?_⟩
            · rw [r1]
              simp only [List.length_cons, Nat.add_assoc, Nat.add_comm 1]
            · rw [r3]; simp only [valuesLen]; omega
          · rw [if_neg h4] at h
            obtain ⟨r1, r2, r3⟩ := ih _ _ _ _ _ _ _ hrev2 h
            rw [lastValue_cons_ne cs h1, lastValue_cons_ne cs h2, childrenNamed_cons_ne cs h3,
              childrenNamed_cons_ne cs h4]
            exact ⟨r1, r2, r3⟩

theorem fill_module_feats_spec (L : Layout) (hoff : 0 < L.off) (base : Nat) :
    ∀ (cs : List LydNode) (s : Shm) (fi e : Nat),
      Frame e s (fill_module_feats L base cs s fi e).1 ∧
      (fill_module_feats L base cs s fi e).1.dep = s.dep ∧
      (fill_module_feats L base cs s fi e).1.rpc = s.rpc ∧
      (fill_module_feats L base cs s fi e).1.notif = s.notif ∧
      (∀ a, (∀ k, fi ≤ k → k < (fill_module_feats L base cs s fi e).2.1 → a ≠ base + k * L.off) →
        (fill_module_feats L base cs s fi e).1.off a = s.off a) ∧
      (fill_module_feats L base cs s fi e).2.1 = fi + (childrenNamed "enabled-feature" cs).length ∧
      (fill_module_feats L base cs s fi e).2.2 = e + valuesLen (childrenNamed "enabled-feature" cs) ∧
      (∀ k n, (childrenNamed "enabled-feature" cs)[k]? = some n →
        StrCellOK (fill_module_feats L base cs s fi e).1 e (fill_module_feats L base cs s fi e).2.2
          (base + (fi + k) * L.off) n.value) := by
  intro cs
  induction cs with
  | nil =>
    intro s fi e
    refine ⟨Frame.Frame_refl _ _, rfl, rfl, rfl, fun _ _ => rfl, by simp [childrenNamed, fill_module_feats],
      by simp [childrenNamed, valuesLen, fill_module_feats], by simp [childrenNamed]⟩
  | cons c cs ih =>
    intro s fi e
    unfold fill_module_feats
    by_cases hf : c.name = "enabled-feature"
    · rw [if_pos hf]
      simp only [sr_shmstrcpy_fst, sr_shmstrcpy_off, sr_shmstrcpy_end]
      obtain ⟨h1, h2, h3, h4, h5, h6, h7, h8⟩ := ih ((s.setStr e c.value).setOff (base + fi * L.off) e)
        (fi + 1) (e + sr_strshmlen c.value)
      have hlen := sr_strshmlen_pos c.value
      rw [childrenNamed_cons_eq cs hf]
      refine ⟨?_, by rw [h2]; rfl, by rw [h3]; rfl, by rw [h4]; rfl, ?_, ?_, ?_, ?_⟩
      · refine Frame.Frame_trans ?_ h1 (Nat.le_add_right e (sr_strshmlen c.value))
        exact ⟨rfl, rfl, rfl, fun a ha => by simp [Nat.ne_of_lt ha]⟩
      · intro a ha
        rw [h5 a (fun k hk1 hk2 => ha k (by omega) hk2)]
        have hne : a ≠ base + fi * L.off := ha fi (le_refl _) (by rw [h6]; omega)
        simp [hne]
      · rw [h6]; simp only [List.length_cons]; omega
      · rw [h7]; simp only [valuesLen]; omega
      · intro k n hk
        cases k with
        | zero =>
          simp only [List.getElem?_cons_zero, Option.some.injEq] at hk
          subst hk
          unfold StrCellOK
          have hcell : (fill_module_feats L base cs
              ((s.setStr e c.value).setOff (base + fi * L.off) e) (fi + 1)
              (e + sr_strshmlen c.value)).1.off (base + (fi + 0) * L.off) = e := by
            rw [Nat.add_zero, h5 _ (fun k hk1 _ hh => by
              have := cell_inj base hoff hh; omega)]
            simp
          rw [hcell, h7, h1.str e (by omega)]
          refine ⟨le_refl _, by omega, by simp⟩
        | succ k =>
          simp only [List.getElem?_cons_succ] at hk
          have := h8 k n hk
          unfold StrCellOK at this ⊢
          rw [show fi + (k + 1) = fi + 1 + k by omega]
          exact ⟨by omega, this.2.1, this.2.2⟩
    · rw [if_neg hf, childrenNamed_cons_ne cs hf]
      exact ih s fi e

theorem fill_module_feats_eq (L : Layout) (hoff : 0 < L.off) {base : Nat} {cs : List LydNode}
    {s : Shm} {fi e : Nat} {s2 : Shm} {fi2 e2 : Nat}
    (h : fill_module_feats L base cs s fi e = (s2, fi2, e2)) :
    Frame e s s2 ∧ s2.dep = s.dep ∧ s2.rpc = s.rpc ∧ s2.notif = s.notif ∧
    (∀ a, (∀ k, fi ≤ k → k < fi2 → a ≠ base + k * L.off) → s2.off a = s.off a) ∧
    fi2 = fi + (childrenNamed "enabled-feature" cs).length ∧
    e2 = e + valuesLen (childrenNamed "enabled-feature" cs) ∧
    (∀ k n, (childrenNamed "enabled-feature" cs)[k]? = some n →
      StrCellOK s2 e e2 (base + (fi + k) * L.off) n.value) := by
  have := fill_module_feats_spec L hoff base cs s fi e
  rw [h] at this
  exact this

theorem fill_module_spec {L : Layout} (hL : LayoutOK L) {m : LydNode} {idx : Nat}
    {s s2 : Shm} (hfit : Fits L s) (hidx : idx < s.main.mod_count) (hrev : RevFits L m)
    (h : sr_shmmain_fill_module L m idx s = .ok s2) :
    Keeps s s2 ∧ (∀ j, j < s.main.mod_count → j ≠ idx → s2.mods j = s.mods j) ∧
    ModBaseOK L s2 s.size s2.size (s2.mods idx) m ∧ (s2.mods idx).name = s.size := by
  unfold sr_shmmain_fill_module at h
  simp only at h
  split at h
  · cases h
  · cases h
  · next s1 name len hscan =>
    obtain ⟨hs1, hname, hlen⟩ := fill_module_scan_spec L idx _ _ _ _ _ _ _ _ hrev hscan
    simp only [Nat.zero_add] at hs1 hlen
    have h1size : s1.size = s.size := by rw [hs1]; rfl
    have h1main : s1.main = s.main := by rw [hs1]; rfl
    have h1fit : Fits L s1 := by rw [hs1]; exact hfit
    have h1str : s1.str = s.str := by rw [hs1]; rfl
    have h1off : s1.off = s.off := by rw [hs1]; rfl
    have h1dep : s1.dep = s.dep := by rw [hs1]; rfl
    have h1rpc : s1.rpc = s.rpc := by rw [hs1]; rfl
    have h1notif : s1.notif = s.notif := by rw [hs1]; rfl
    have h1ne : ∀ j, j ≠ idx → s1.mods j = s.mods j := by
      intro j hj; rw [hs1]; simp [hj]
    have h1idx : s1.mods idx = {
        ver := 1
        rev := (lastValue "revision" m.child).getD ""
        replay_supp := (if (childrenNamed "replay-support" m.child).length = 0 then 0 else 1)
        feat_count := (childrenNamed "enabled-feature" m.child).length } := by
      rw [hs1]; simp
    clear hs1 hscan
    split at h
    · cases h
    · next sr hr =>
      rw [show s1.size + sr_strshmlen name + SR_SHM_SIZE ((s1.mods idx).feat_count * L.off) + len
          = s1.size + (sr_strshmlen name + SR_SHM_SIZE ((s1.mods idx).feat_count * L.off) + len)
          by omega] at hr
      obtain ⟨r1, r2, r3, r4, r5, r6, r7, r8⟩ := remap_grow_ok hL h1fit hr
      have hsrm : sr.mods idx = s1.mods idx := r3 idx (by rw [h1main]; exact hidx)
      simp only [sr_shmstrcpy_fst, sr_shmstrcpy_off, sr_shmstrcpy_end, updMod_mods, if_true,
        setStr_mods, sr_shmcpy_fst, sr_shmcpy_snd, hsrm, h1idx] at h
      generalize hS4 : Shm.updMod (Shm.updMod (Shm.setStr sr _ _) idx _) idx _ = S4 at h
      generalize hfres : fill_module_feats L _ m.child S4 0 _ = f at h
      obtain ⟨s5, fi, e⟩ := f
      simp only at h
      obtain ⟨hf, hdep5, hrpc5, hnotif5, hof, hfi, he, hc⟩ := fill_module_feats_eq L hL.off hfres
      simp only [Nat.zero_add] at hfi hc hof
      have h4size : S4.size = sr.size := by rw [← hS4]; rfl
      have h4main : S4.main = sr.main := by rw [← hS4]; rfl
      have h4str : ∀ a, S4.str a = if a = s1.size then name else sr.str a := by
        intro a; rw [← hS4]; rfl
      have h4off : S4.off = sr.off := by rw [← hS4]; rfl
      have h4dep : S4.dep = sr.dep := by rw [← hS4]; rfl
      have h4rpc : S4.rpc = sr.rpc := by rw [← hS4]; rfl
      have h4notif : S4.notif = sr.notif := by rw [← hS4]; rfl
      have h4ne : ∀ j, j ≠ idx → S4.mods j = sr.mods j := by
        intro j hj; rw [← hS4]; simp [hj]
      have h4idx : S4.mods idx = {
          ver := 1
          name := s1.size
          rev := (lastValue "revision" m.child).getD ""
          replay_supp := (if (childrenNamed "replay-support" m.child).length = 0 then 0 else 1)
          features := (if (childrenNamed "enabled-feature" m.child).length * L.off = 0 then 0
            else s1.size + sr_strshmlen name)
          feat_count := (childrenNamed "enabled-feature" m.child).length } := by
        rw [← hS4]; simp [hsrm, h1idx]
      rw [hf.mods, h4idx] at h
      simp only at h
      split at h
      · cases h
      split at h
      · cases h
      next hfc hes =>
      simp only [Except.ok.injEq] at h
      subst h
      push_neg at hfc hes
      have hA := le_SR_SHM_SIZE ((childrenNamed "enabled-feature" m.child).length * L.off)
      have hnl := sr_strshmlen_pos name
      have hsz5 : s5.size = s.size + (sr_strshmlen name
          + SR_SHM_SIZE ((childrenNamed "enabled-feature" m.child).length * L.off) + len) := by
        rw [hf.size, h4size, r1, h1idx, h1size]
      have hm5 : s5.mods idx = _ := (congrFun hf.mods idx).trans h4idx
      have hpos : ∀ k, k < (childrenNamed "enabled-feature" m.child).length →
          (if (childrenNamed "enabled-feature" m.child).length * L.off = 0 then 0
            else s1.size + sr_strshmlen name) = s1.size + sr_strshmlen name := by
        intro k hk
        have : 0 < (childrenNamed "enabled-feature" m.child).length * L.off :=
          Nat.mul_pos (by omega) hL.off
        rw [if_neg (by omega)]
      have hnm : lastValue "name" m.child = some name := by
        cases hl : lastValue "name" m.child with
        | none => rw [hl] at hname; cases hname
        | some v => rw [hl] at hname; simp only [Option.some.injEq] at hname; rw [hname]
      refine ⟨⟨by omega, by rw [hf.main, h4main, r2, h1main], ?_, ?_, ?_, ?_, ?_⟩, ?_, ?_, ?_⟩
      · intro a ha
        rw [hf.str a (by omega), h4str, if_neg (by omega), r4, if_pos (by omega), h1str]
      · intro a ha
        rw [hof a (fun k _ hk hh => by
          rw [hpos k (by omega)] at hh; omega), h4off, r5, if_pos (by omega), h1off]
      · intro a ha
        rw [hdep5, h4dep, r6, if_pos (by omega), h1dep]
      · intro a ha
        rw [hrpc5, h4rpc, r7, if_pos (by omega), h1rpc]
      · intro a ha
        rw [hnotif5, h4notif, r8, if_pos (by omega), h1notif]
      · intro j hj hji
        rw [hf.mods, h4ne j hji, r3 j (by rw [h1main]; exact hj), h1ne j hji]
      · rw [hm5]
        unfold ModBaseOK
        refine ⟨rfl, ⟨name, hnm, by simp only; omega, by simp only; omega, ?_⟩, rfl, rfl, rfl, ?_, ?_⟩
        · simp only
          rw [hf.str _ (by omega), h4str, if_pos rfl]
        · unfold ArrOK
          simp only
          split
          · next h0 => rw [h0]; simp
          · next h0 =>
            rw [hpos 0 (by omega)]
            omega
        · intro k n hk
          have h1 := hc k n hk
          unfold StrCellOK at h1 ⊢
          simp only
          exact ⟨by omega, by omega, h1.2.2⟩
      · rw [hm5]
        exact h1size

/-- What `sr_shmmain_fill_module` gives on every module node, whether its
revision fits the member or not: the header is kept, the arena has grown,
the records in front are untouched and the name is stored at the old end. -/
theorem fill_module_frame {L : Layout} (hL : LayoutOK L) {m : LydNode} {idx : Nat}
    {s s2 : Shm} (hfit : Fits L s) (hidx : idx < s.main.mod_count)
    (h : sr_shmmain_fill_module L m idx s = .ok s2) :
    s2.main = s.main ∧ s.size < s2.size ∧ (∀ j, j < idx → s2.mods j = s.mods j) ∧
    (s2.mods idx).name = s.size := by
  unfold sr_shmmain_fill_module at h
  simp only at h
  split at h
  · cases h
  · cases h
  · next s1 name len hscan =>
    obtain ⟨h1size, h1main, h1lt, _, _⟩ := fill_module_scan_frame L idx _ _ _ _ _ _ _ hscan
    simp only [setMod_size, setMod_main] at h1size h1main
    have h1lt2 : ∀ j, j < idx → s1.mods j = s.mods j := by
      intro j hj
      rw [h1lt j hj, setMod_mods, if_neg (by omega)]
    have h1fit : Fits L s1 := by
      unfold Fits at hfit ⊢
      rw [h1main, h1size]
      exact hfit
    split at h
    · cases h
    · next sr hr =>
      rw [show s1.size + sr_strshmlen name + SR_SHM_SIZE ((s1.mods idx).feat_count * L.off) + len
          = s1.size + (sr_strshmlen name + SR_SHM_SIZE ((s1.mods idx).feat_count * L.off) + len)
          by omega] at hr
      obtain ⟨r1, r2, r3, _⟩ := remap_grow_ok hL h1fit hr
      simp only [sr_shmstrcpy_fst, sr_shmstrcpy_off, sr_shmstrcpy_end, updMod_mods, if_true,
        setStr_mods, sr_shmcpy_fst, sr_shmcpy_snd] at h
      generalize hS4 : Shm.updMod (Shm.updMod (Shm.setStr sr _ _) idx _) idx _ = S4 at h
      generalize hfres : fill_module_feats L _ m.child S4 0 _ = f at h
      obtain ⟨s5, fi, e⟩ := f
      simp only at h
      obtain ⟨hf, _⟩ := fill_module_feats_eq L hL.off hfres
      have h4size : S4.size = sr.size := by rw [← hS4]; rfl
      have h4main : S4.main = sr.main := by rw [← hS4]; rfl
      have h4ne : ∀ j, j ≠ idx → S4.mods j = sr.mods j := by
        intro j hj; rw [← hS4]; simp [hj]
      have h4name : (S4.mods idx).name = s1.size := by
        rw [← hS4]; simp
      split at h
      · cases h
      split at h
      · cases h
      simp only [Except.ok.injEq] at h
      subst h
      have hnl := sr_strshmlen_pos name
      refine ⟨by rw [hf.main, h4main, r2, h1main], ?_, ?_, ?_⟩
      · rw [hf.size, h4size, r1, h1size]
        omega
      · intro j hj
        rw [hf.mods, h4ne j (by omega), r3 j (by rw [h1main]; omega), h1lt2 j hj]
      · rw [hf.mods, h4name, h1size]

/-- What `sr_shmmain_fill_module` gives on every module node, whether its
revision fits the member or not: the strings and items below the end of the
array of module records are as they were. -/
theorem fill_module_low {L : Layout} (hL : LayoutOK L) {m : LydNode} {idx : Nat}
    {s s2 : Shm} (hfit : Fits L s) (hidx : idx < s.main.mod_count)
    (h : sr_shmmain_fill_module L m idx s = .ok s2) :
    ∀ a, a < L.hdr + s.main.mod_count * L.mod →
      s2.str a = s.str a ∧ s2.off a = s.off a ∧ s2.dep a = s.dep a ∧
      s2.rpc a = s.rpc a ∧ s2.notif a = s.notif a := by
  intro a ha
  unfold sr_shmmain_fill_module at h
  simp only at h
  split at h
  · cases h
  · cases h
  · next s1 name len hscan =>
    obtain ⟨h1size, h1main, _, _, _⟩ := fill_module_scan_frame L idx _ _ _ _ _ _ _ hscan
    obtain ⟨l1, l2, l3, l4, l5⟩ := fill_module_scan_low L idx _ _ _ _ _ hscan a
      (by rw [setMod_main]; exact ha)
    simp only [setMod_size, setMod_main] at h1size h1main
    simp only [setMod_str, setMod_off, setMod_dep, setMod_rpc, setMod_notif] at l1 l2 l3 l4 l5
    have h1fit : Fits L s1 := by
      unfold Fits at hfit ⊢
      rw [h1main, h1size]
      exact hfit
    have hlow : a < s1.size := by
      unfold Fits at hfit
      rw [h1size]
      omega
    split at h
    · cases h
    · next sr hr =>
      rw [show s1.size + sr_strshmlen name + SR_SHM_SIZE ((s1.mods idx).feat_count * L.off) + len
          = s1.size + (sr_strshmlen name + SR_SHM_SIZE ((s1.mods idx).feat_count * L.off) + len)
          by omega] at hr
      obtain ⟨r1, r2, r3, r4, r5, r6, r7, r8⟩ := remap_grow_ok hL h1fit hr
      have hsrm : sr.mods idx = s1.mods idx := r3 idx (by rw [h1main]; exact hidx)
      simp only [sr_shmstrcpy_fst, sr_shmstrcpy_off, sr_shmstrcpy_end, updMod_mods, if_true,
        setStr_mods, sr_shmcpy_fst, sr_shmcpy_snd, hsrm] at h
      generalize hS4 : Shm.updMod (Shm.updMod (Shm.setStr sr _ _) idx _) idx _ = S4 at h
      generalize hfres : fill_module_feats L _ m.child S4 0 _ = f at h
      obtain ⟨s5, fi, e⟩ := f
      simp only at h
      obtain ⟨hf, hdep5, hrpc5, hnotif5, hof, hfi, he, hc⟩ := fill_module_feats_eq L hL.off hfres
      simp only [Nat.zero_add] at hfi hc hof
      have h4str : ∀ a, S4.str a = if a = s1.size then name else sr.str a := by
        intro a; rw [← hS4]; rfl
      have h4off : S4.off = sr.off := by rw [← hS4]; rfl
      have h4dep : S4.dep = sr.dep := by rw [← hS4]; rfl
      have h4rpc : S4.rpc = sr.rpc := by rw [← hS4]; rfl
      have h4notif : S4.notif = sr.notif := by rw [← hS4]; rfl
      have h4fc : (S4.mods idx).feat_count = (s1.mods idx).feat_count := by
        rw [← hS4]; simp [hsrm]
      split at h
      · cases h
      split at h
      · cases h
      next hfc hes =>
      simp only [Except.ok.injEq] at h
      subst h
      push_neg at hfc hes
      rw [hf.mods, h4fc] at hfc
      have hnl := sr_strshmlen_pos name
      refine ⟨?_, ?_, ?_, ?_, ?_⟩
      · rw [hf.str a (by omega), h4str, if_neg (by omega), r4, if_pos hlow, l1]
      · rw [hof a (fun k _ hk hh => by
          have hpos : 0 < (s1.mods idx).feat_count * L.off :=
            Nat.mul_pos (by omega) hL.off
          rw [if_neg (by omega)] at hh
          omega), h4off, r5, if_pos hlow, l2]
      · rw [hdep5, h4dep, r6, if_pos hlow, l3]
      · rw [hrpc5, h4rpc, r7, if_pos hlow, l4]
      · rw [hnotif5, h4notif, r8, if_pos hlow, l5]

/-! ## The loops over the modules -/

theorem Keeps.Keeps_refl (s : Shm) : Keeps s s :=
  ⟨le_refl _, rfl, fun _ _ => rfl, fun _ _ => rfl, fun _ _ => rfl, fun _ _ => rfl,
    fun _ _ => rfl⟩

theorem Keeps.Keeps_trans {s s2 s3 : Shm} (h1 : Keeps s s2) (h2 : Keeps s2 s3) : Keeps s s3 :=
  ⟨le_trans h1.size h2.size, h2.main.trans h1.main,
    fun a ha => (h2.str a (lt_of_lt_of_le ha h1.size)).trans (h1.str a ha),
    fun a ha => (h2.off a (lt_of_lt_of_le ha h1.size)).trans (h1.off a ha),
    fun a ha => (h2.dep a (lt_of_lt_of_le ha h1.size)).trans (h1.dep a ha),
    fun a ha => (h2.rpc a (lt_of_lt_of_le ha h1.size)).trans (h1.rpc a ha),
    fun a ha => (h2.notif a (lt_of_lt_of_le ha h1.size)).trans (h1.notif a ha)⟩

theorem Keeps.Keeps_stable {s s2 : Shm} (h : Keeps s s2)
    (hnames : ∀ j, j < s.main.mod_count → (s2.mods j).name = (s.mods j).name) :
    Stable s.size s s2 :=
  ⟨h.main, hnames, h.str, h.off, h.dep, h.rpc, h.notif⟩

theorem Keeps.Keeps_fits {L : Layout} {s s2 : Shm} (h : Keeps s s2) (hfit : Fits L s) : Fits L s2 := by
  unfold Fits at hfit ⊢
  rw [h.main]
  exact le_trans hfit h.size

theorem SameBase.SameBase_refl (m : SrMod) : SameBase m m := ⟨rfl, rfl, rfl, rfl, rfl, rfl⟩

theorem SameBase.SameBase_trans {m m2 m3 : SrMod} (h1 : SameBase m m2) (h2 : SameBase m2 m3) :
    SameBase m m3 :=
  ⟨h2.1.trans h1.1, h2.2.1.trans h1.2.1, h2.2.2.1.trans h1.2.2.1,
    h2.2.2.2.1.trans h1.2.2.2.1, h2.2.2.2.2.1.trans h1.2.2.2.2.1,
    h2.2.2.2.2.2.trans h1.2.2.2.2.2⟩

theorem ModBaseOK.ModBaseOK_congr {L : Layout} {s : Shm} {lo hi : Nat} {m m2 : SrMod} {node : LydNode}
    (h : ModBaseOK L s lo hi m node) (hb : SameBase m m2) : ModBaseOK L s lo hi m2 node := by
  obtain ⟨b1, b2, b3, b4, b5, b6⟩ := hb
  unfold ModBaseOK at h ⊢
  rw [b1, b2, b3, b4, b5, b6]
  exact h

theorem ModBaseOK.ModBaseOK_mono {L : Layout} {s : Shm} {lo hi lo2 hi2 : Nat} {m : SrMod} {node : LydNode}
    (h : ModBaseOK L s lo hi m node) (h1 : lo2 ≤ lo) (h2 : hi ≤ hi2) :
    ModBaseOK L s lo2 hi2 m node := by
  obtain ⟨a1, ⟨v, a2, a3, a4, a5⟩, a6, a7, a8, a9, a10⟩ := h
  refine ⟨a1, ⟨v, a2, by omega, by omega, a5⟩, a6, a7, a8, a9.ArrOK_mono h1 h2, ?_⟩
  intro k n hk
  have := a10 k n hk
  unfold StrCellOK at this ⊢
  exact ⟨by omega, by omega, this.2.2⟩

theorem ModBaseOK.ModBaseOK_keeps {L : Layout} (hL : LayoutOK L) {s s2 : Shm} {lo hi : Nat} {m : SrMod}
    {node : LydNode} (h : ModBaseOK L s lo hi m node) (hhi : hi ≤ s.size) (hk : Keeps s s2) :
    ModBaseOK L s2 lo hi m node := by
  obtain ⟨a1, ⟨v, a2, a3, a4, a5⟩, a6, a7, a8, a9, a10⟩ := h
  have hv := sr_strshmlen_pos v
  refine ⟨a1, ⟨v, a2, a3, a4, by rw [hk.str _ (by omega)]; exact a5⟩, a6, a7, a8, a9, ?_⟩
  intro k n hkn
  have hkl : k < m.feat_count := by
    have := (List.getElem?_eq_some_iff.mp hkn).1
    omega
  have hc := a9.ArrOK_cell_lt hkl
  have := hL.off
  have h1 := a10 k n hkn
  have hn := sr_strshmlen_pos n.value
  unfold StrCellOK at h1 ⊢
  rw [hk.off _ (by omega), hk.str _ (by omega)]
  exact h1

theorem ModDepsOK.ModDepsOK_mono {L : Layout} {s : Shm} {lo hi lo2 hi2 : Nat} {m : SrMod} {node : LydNode}
    (h : ModDepsOK L s lo hi m node) (h1 : lo2 ≤ lo) (h2 : hi ≤ hi2) :
    ModDepsOK L s lo2 hi2 m node :=
  ⟨h.1, h.2.1.ArrOK_mono h1 h2, fun k n hk => (h.2.2.1 k n hk).DepCellOK_mono h1 h2, h.2.2.2.1,
    h.2.2.2.2.1.ArrOK_mono h1 h2, h.2.2.2.2.2⟩

theorem ModRpcsOK.ModRpcsOK_mono {L : Layout} {s : Shm} {lo hi lo2 hi2 : Nat} {m : SrMod} {node : LydNode}
    (h : ModRpcsOK L s lo hi m node) (h1 : lo2 ≤ lo) (h2 : hi ≤ hi2) :
    ModRpcsOK L s lo2 hi2 m node :=
  ⟨h.1, h.2.1.ArrOK_mono h1 h2, fun k n hk => (h.2.2 k n hk).RpcCellOK_mono h1 h2⟩

theorem ModNotifsOK.ModNotifsOK_mono {L : Layout} {s : Shm} {lo hi lo2 hi2 : Nat} {m : SrMod}
    {node : LydNode} (h : ModNotifsOK L s lo hi m node) (h1 : lo2 ≤ lo) (h2 : hi ≤ hi2) :
    ModNotifsOK L s lo2 hi2 m node :=
  ⟨h.1, h.2.1.ArrOK_mono h1 h2, fun k n hk => (h.2.2 k n hk).NotifCellOK_mono h1 h2⟩

theorem count_modules_eq (ms : List LydNode) :
    count_modules ms = (childrenNamed "module" ms).length := by
  induction ms with
  | nil => rfl
  | cons m ms ih =>
    unfold count_modules
    by_cases h : m.name = "module"
    · rw [if_pos h, childrenNamed_cons_eq ms h, ih]; simp only [List.length_cons]; omega
    · rw [if_neg h, childrenNamed_cons_ne ms h, ih]; omega

theorem store_modules_fill_spec {L : Layout} (hL : LayoutOK L) (mc : Nat) :
    ∀ (ms : List LydNode) (i : Nat) (s s2 : Shm),
      Fits L s → s.main.mod_count = mc → i + count_modules ms = mc → RevsFit L ms →
      store_modules_fill L mc ms i s = .ok s2 →
      Keeps s s2 ∧ (∀ j, j < i → s2.mods j = s.mods j) ∧
      (∀ k n, (childrenNamed "module" ms)[k]? = some n →
        ModBaseOK L s2 s.size s2.size (s2.mods (i + k)) n) := by
  intro ms
  induction ms with
  | nil =>
    intro i s s2 _ _ _ _ h
    unfold store_modules_fill at h
    split at h
    · cases h
    · simp only [Except.ok.injEq] at h
      subst h
      exact ⟨Keeps.Keeps_refl _, fun _ _ => rfl, by simp [childrenNamed]⟩
  | cons m ms ih =>
    intro i s s2 hfit hmc hcnt hrev h
    have hrev2 : RevsFit L ms := fun m2 hm2 => hrev m2 (List.mem_cons_of_mem _ hm2)
    unfold store_modules_fill at h
    by_cases hi : i < mc
    · rw [if_pos hi] at h
      by_cases hm : m.name = "module"
      · rw [if_pos hm] at h
        split at h
        · cases h
        · next s1 hfm =>
          obtain ⟨hk1, ho1, hb1, _⟩ := fill_module_spec hL hfit (by rw [hmc]; exact hi)
            (hrev m (List.mem_cons_self _ _) hm) hfm
          have hcnt1 : i + 1 + count_modules ms = mc := by
            unfold count_modules at hcnt
            rw [if_pos hm] at hcnt
            omega
          obtain ⟨hk, ho, hb⟩ := ih (i + 1) s1 s2 (hk1.Keeps_fits hfit) (by rw [hk1.main, hmc]) hcnt1
            hrev2 h
          refine ⟨hk1.Keeps_trans hk, ?_, ?_⟩
          · intro j hj
            rw [ho j (by omega), ho1 j (by rw [hmc]; omega) (by omega)]
          · intro k n hkn
            rw [childrenNamed_cons_eq ms hm] at hkn
            cases k with
            | zero =>
              simp only [List.getElem?_cons_zero, Option.some.injEq] at hkn
              subst hkn
              rw [Nat.add_zero, ho i (by omega)]
              exact ((hb1.ModBaseOK_keeps hL (le_refl _) hk).ModBaseOK_mono (le_refl _) hk.size)
            | succ k =>
              simp only [List.getElem?_cons_succ] at hkn
              have := (hb k n hkn).ModBaseOK_mono hk1.size (le_refl _)
              rw [show i + (k + 1) = i + 1 + k by omega]
              exact this
      · rw [if_neg hm] at h
        rw [childrenNamed_cons_ne ms hm]
        refine ih i s s2 hfit hmc ?_ hrev2 h
        unfold count_modules at hcnt
        rw [if_neg hm] at hcnt
        omega
    · rw [if_neg hi] at h
      simp only [Except.ok.injEq] at h
      subst h
      refine ⟨Keeps.Keeps_refl _, fun _ _ => rfl, ?_⟩
      intro k n hkn
      have := (List.getElem?_eq_some_iff.mp hkn).1
      rw [← count_modules_eq] at this
      omega

/-- What the loop that fills the module records gives on every sibling
list, whether the revisions fit or not: the header is kept, the arena is not
smaller, and the name of every record lies inside the arena, behind `lo`. -/
theorem store_modules_fill_frame {L : Layout} (hL : LayoutOK L) (mc lo : Nat) :
    ∀ (ms : List LydNode) (i : Nat) (s s2 : Shm),
      Fits L s → s.main.mod_count = mc → lo ≤ s.size →
      (∀ j, j < i → lo ≤ (s.mods j).name ∧ (s.mods j).name < s.size) →
      store_modules_fill L mc ms i s = .ok s2 →
      s2.main = s.main ∧ s.size ≤ s2.size ∧
      ∀ j, j < mc → lo ≤ (s2.mods j).name ∧ (s2.mods j).name < s2.size := by
  intro ms
  induction ms with
  | nil =>
    intro i s s2 _ _ _ hn h
    unfold store_modules_fill at h
    split at h
    · cases h
    · next hi =>
      simp only [Except.ok.injEq] at h
      subst h
      exact ⟨rfl, le_refl _, fun j hj => hn j (by omega)⟩
  | cons m ms ih =>
    intro i s s2 hfit hmc hlo hn h
    unfold store_modules_fill at h
    by_cases hi : i < mc
    · rw [if_pos hi] at h
      by_cases hm : m.name = "module"
      · rw [if_pos hm] at h
        split at h
        · cases h
        · next s1 hfm =>
          obtain ⟨f1, f2, f3, f4⟩ := fill_module_frame hL hfit (by rw [hmc]; exact hi) hfm
          have hfit1 : Fits L s1 := by
            unfold Fits at hfit ⊢
            rw [f1]
            omega
          obtain ⟨g1, g2, g3⟩ := ih (i + 1) s1 s2 hfit1 (by rw [f1, hmc]) (by omega) (by
            intro j hj
            by_cases hji : j = i
            · rw [hji, f4]
              exact ⟨hlo, f2⟩
            · rw [f3 j (by omega)]
              exact ⟨(hn j (by omega)).1, lt_trans (hn j (by omega)).2 f2⟩) h
          exact ⟨g1.trans f1, by omega, g3⟩
      · rw [if_neg hm] at h
        exact ih i s s2 hfit hmc hlo hn h
    · rw [if_neg hi] at h
      simp only [Except.ok.injEq] at h
      subst h
      exact ⟨rfl, le_refl _, fun j hj => hn j (by omega)⟩

/-- What the loop that fills the module records gives on every sibling
list, whether the revisions fit or not: the strings and items below the end
of the array of module records are as they were. -/
theorem store_modules_fill_low {L : Layout} (hL : LayoutOK L) (mc : Nat) :
    ∀ (ms : List LydNode) (i : Nat) (s s2 : Shm),
      Fits L s → s.main.mod_count = mc →
      store_modules_fill L mc ms i s = .ok s2 →
      ∀ a, a < L.hdr + mc * L.mod →
        s2.str a = s.str a ∧ s2.off a = s.off a ∧ s2.dep a = s.dep a ∧
        s2.rpc a = s.rpc a ∧ s2.notif a = s.notif a := by
  intro ms
  induction ms with
  | nil =>
    intro i s s2 _ _ h a _
    unfold store_modules_fill at h
    split at h
    · cases h
    · simp only [Except.ok.injEq] at h
      subst h
      exact ⟨rfl, rfl, rfl, rfl, rfl⟩
  | cons m ms ih =>
    intro i s s2 hfit hmc h a ha
    unfold store_modules_fill at h
    split at h
    · next hlt =>
      split at h
      · split at h
        · cases h
        · next s1 hf =>
          have hidx : i < s.main.mod_count := by rw [hmc]; exact hlt
          obtain ⟨f1, f2, _, _⟩ := fill_module_frame hL hfit hidx hf
          have hfit1 : Fits L s1 := by
            unfold Fits at hfit ⊢
            rw [f1]
            omega
          obtain ⟨p1, p2, p3, p4, p5⟩ := fill_module_low hL hfit hidx hf a (by rw [hmc]; exact ha)
          obtain ⟨r1, r2, r3, r4, r5⟩ := ih _ _ _ hfit1 (by rw [f1, hmc]) h a ha
          exact ⟨r1.trans p1, r2.trans p2, r3.trans p3, r4.trans p4, r5.trans p5⟩
      · exact ih _ _ _ hfit hmc h a ha
    · simp only [Except.ok.injEq] at h
      subst h
      exact ⟨rfl, rfl, rfl, rfl, rfl⟩

theorem ModDepsOK.ModDepsOK_congr {L : Layout} {s : Shm} {lo hi : Nat} {m m2 : SrMod} {node : LydNode}
    (h : ModDepsOK L s lo hi m node) (h1 : m2.deps = m.deps) (h2 : m2.dep_count = m.dep_count)
    (h3 : m2.inv_deps = m.inv_deps) (h4 : m2.inv_dep_count = m.inv_dep_count) :
    ModDepsOK L s lo hi m2 node := by
  unfold ModDepsOK at h ⊢
  rw [h1, h2, h3, h4]
  exact h

theorem ModRpcsOK.ModRpcsOK_congr {L : Layout} {s : Shm} {lo hi : Nat} {m m2 : SrMod} {node : LydNode}
    (h : ModRpcsOK L s lo hi m node) (h1 : m2.rpcs = m.rpcs) (h2 : m2.rpc_count = m.rpc_count) :
    ModRpcsOK L s lo hi m2 node := by
  unfold ModRpcsOK at h ⊢
  rw [h1, h2]
  exact h

theorem ModNotifsOK.ModNotifsOK_congr {L : Layout} {s : Shm} {lo hi : Nat} {m m2 : SrMod} {node : LydNode}
    (h : ModNotifsOK L s lo hi m node) (h1 : m2.notifs = m.notifs)
    (h2 : m2.notif_count = m.notif_count) : ModNotifsOK L s lo hi m2 node := by
  unfold ModNotifsOK at h ⊢
  rw [h1, h2]
  exact h

theorem pass_names {s s2 : Shm} {idx : Nat}
    (ho : ∀ j, j < s.main.mod_count → j ≠ idx → s2.mods j = s.mods j)
    (hb : SameBase (s.mods idx) (s2.mods idx)) :
    ∀ j, j < s.main.mod_count → SameBase (s.mods j) (s2.mods j) := by
  intro j hj
  by_cases hji : j = idx
  · subst hji; exact hb
  · rw [ho j hj hji]; exact SameBase.SameBase_refl _

theorem store_modules_deps_spec {L : Layout} (hL : LayoutOK L) (mc : Nat) :
    ∀ (ms : List LydNode) (i : Nat) (s s2 : Shm),
      Fits L s → s.main.mod_count = mc → i + count_modules ms = mc → NamesLt s s.size →
      store_modules_deps L mc ms i s = .ok s2 →
      Keeps s s2 ∧ (∀ j, j < mc → SameBase (s.mods j) (s2.mods j)) ∧
      (∀ j, j < i → s2.mods j = s.mods j) ∧
      (∀ k n, (childrenNamed "module" ms)[k]? = some n →
        ModDepsOK L s2 s.size s2.size (s2.mods (i + k)) n ∧
        ModRpcsOK L s2 s.size s2.size (s2.mods (i + k)) n ∧
        ModNotifsOK L s2 s.size s2.size (s2.mods (i + k)) n) := by
  intro ms
  induction ms with
  | nil =>
    intro i s s2 _ _ _ _ h
    unfold store_modules_deps at h
    split at h
    · cases h
    · simp only [Except.ok.injEq] at h
      subst h
      exact ⟨Keeps.Keeps_refl _, fun _ _ => SameBase.SameBase_refl _, fun _ _ => rfl, by simp [childrenNamed]⟩
  | cons m ms ih =>
    intro i s s2 hfit hmc hcnt hn h
    unfold store_modules_deps at h
    by_cases hi : i < mc
    · rw [if_pos hi] at h
      by_cases hm : m.name = "module"
      · rw [if_pos hm] at h
        split at h
        · cases h
        next sa hpa =>
        split at h
        · cases h
        next sb hpb =>
        split at h
        · cases h
        next sc hpc =>
        have hidx : i < s.main.mod_count := by rw [hmc]; exact hi
        -- data and inverse dependencies
        obtain ⟨ka, oa, ⟨d1, d2, d3, d4, ea⟩, da⟩ := add_module_deps_spec hL hfit hidx hn hpa
        have ba : ∀ j, j < s.main.mod_count → SameBase (s.mods j) (sa.mods j) :=
          pass_names oa (by rw [ea]; exact ⟨rfl, rfl, rfl, rfl, rfl, rfl⟩)
        have sta : Stable s.size s sa := ka.Keeps_stable (fun j hj => (ba j hj).2.1)
        have hna : NamesLt sa sa.size := (hn.NamesLt_stable sta).NamesLt_mono ka.size
        have hfa : Fits L sa := ka.Keeps_fits hfit
        have hmca : sa.main.mod_count = mc := by rw [ka.main, hmc]
        have hidxa : i < sa.main.mod_count := by rw [hmca]; exact hi
        -- RPCs
        obtain ⟨kb, ob, ⟨r1, r2, eb⟩, db⟩ := sr_shmmain_add_module_rpcs_spec hL hfa hidxa hna hpb
        have bb : ∀ j, j < sa.main.mod_count → SameBase (sa.mods j) (sb.mods j) :=
          pass_names ob (by rw [eb]; exact ⟨rfl, rfl, rfl, rfl, rfl, rfl⟩)
        have stb : Stable sa.size sa sb := kb.Keeps_stable (fun j hj => (bb j hj).2.1)
        have hnb : NamesLt sb sb.size := (hna.NamesLt_stable stb).NamesLt_mono kb.size
        have hfb : Fits L sb := kb.Keeps_fits hfa
        have hmcb : sb.main.mod_count = mc := by rw [kb.main, hmca]
        have hidxb : i < sb.main.mod_count := by rw [hmcb]; exact hi
        -- notifications
        obtain ⟨kc, oc, ⟨n1, n2, ec⟩, dc⟩ := sr_shmmain_add_module_notifs_spec hL hfb hidxb hnb hpc
        have bc : ∀ j, j < sb.main.mod_count → SameBase (sb.mods j) (sc.mods j) :=
          pass_names oc (by rw [ec]; exact ⟨rfl, rfl, rfl, rfl, rfl, rfl⟩)
        have stc : Stable sb.size sb sc := kc.Keeps_stable (fun j hj => (bc j hj).2.1)
        have hnc : NamesLt sc sc.size := (hnb.NamesLt_stable stc).NamesLt_mono kc.size
        have hfc : Fits L sc := kc.Keeps_fits hfb
        have hmcc : sc.main.mod_count = mc := by rw [kc.main, hmcb]
        -- the modules after this one
        have hcnt1 : i + 1 + count_modules ms = mc := by
          unfold count_modules at hcnt
          rw [if_pos hm] at hcnt
          omega
        obtain ⟨k2, b2, o2, c2⟩ := ih (i + 1) sc s2 hfc hmcc hcnt1 hnc h
        have st2 : Stable sc.size sc s2 :=
          k2.Keeps_stable (fun j hj => (b2 j (by rw [← hmcc]; exact hj)).2.1)
        have hi2 : s2.mods i = sc.mods i := o2 i (by omega)
        refine ⟨ka.Keeps_trans (kb.Keeps_trans (kc.Keeps_trans k2)), ?_, ?_, ?_⟩
        · intro j hj
          exact (ba j (by rw [hmc]; exact hj)).SameBase_trans ((bb j (by rw [hmca]; exact hj)).SameBase_trans
            ((bc j (by rw [hmcb]; exact hj)).SameBase_trans (b2 j hj)))
        · intro j hj
          rw [o2 j (by omega), oc j (by rw [hmcb]; omega) (by omega),
            ob j (by rw [hmca]; omega) (by omega), oa j (by rw [hmc]; omega) (by omega)]
        · intro k n hkn
          rw [childrenNamed_cons_eq ms hm] at hkn
          cases k with
          | zero =>
            simp only [List.getElem?_cons_zero, Option.some.injEq] at hkn
            subst hkn
            rw [Nat.add_zero, hi2]
            have hsz1 := ka.size
            have hsz2 := kb.size
            have hsz3 := kc.size
            have hsz4 := k2.size
            refine ⟨?_, ?_, ?_⟩
            · have h1 : ModDepsOK L s2 s.size sa.size (sa.mods i) m :=
                da.ModDepsOK_stable hL hna (le_refl _)
                  ((stb.Stable_trans (stc.Stable_mono kb.size) (le_refl _)).Stable_trans
                    (st2.Stable_mono (le_trans kb.size kc.size)) (le_refl _))
              refine (h1.ModDepsOK_congr ?_ ?_ ?_ ?_).ModDepsOK_mono (le_refl _) (by omega)
              · rw [ec, eb]
              · rw [ec, eb]
              · rw [ec, eb]
              · rw [ec, eb]
            · have h1 : ModRpcsOK L s2 sa.size sb.size (sb.mods i) m :=
                db.ModRpcsOK_stable hL hnb (le_refl _) (stc.Stable_trans (st2.Stable_mono kc.size) (le_refl _))
              refine (h1.ModRpcsOK_congr ?_ ?_).ModRpcsOK_mono (by omega) (by omega)
              · rw [ec]
              · rw [ec]
            · exact (dc.ModNotifsOK_stable hL hnc (le_refl _) st2).ModNotifsOK_mono (by omega) (by omega)
          | succ k =>
            simp only [List.getElem?_cons_succ] at hkn
            obtain ⟨x1, x2, x3⟩ := c2 k n hkn
            have hlo : s.size ≤ sc.size := le_trans ka.size (le_trans kb.size kc.size)
            rw [show i + (k + 1) = i + 1 + k by omega]
            exact ⟨x1.ModDepsOK_mono hlo (le_refl _), x2.ModRpcsOK_mono hlo (le_refl _), x3.ModNotifsOK_mono hlo (le_refl _)⟩
      · rw [if_neg hm] at h
        rw [childrenNamed_cons_ne ms hm]
        refine ih i s s2 hfit hmc ?_ hn h
        unfold count_modules at hcnt
        rw [if_neg hm] at hcnt
        omega
    · rw [if_neg hi] at h
      simp only [Except.ok.injEq] at h
      subst h
      refine ⟨Keeps.Keeps_refl _, fun _ _ => SameBase.SameBase_refl _, fun _ _ => rfl, ?_⟩
      intro k n hkn
      have := (List.getElem?_eq_some_iff.mp hkn).1
      rw [← count_modules_eq] at this
      omega

/-! ## The whole build -/

theorem remap_size {L : Layout} {s s2 : Shm} {n : Nat} (hn : 0 < n)
    (h : sr_shm_remap L s n = .ok s2) : s2.size = n := by
  unfold sr_shm_remap at h
  simp only at h
  have hne : (if n = 0 then s.size else n) = n := if_neg (by omega)
  rw [hne] at h
  split at h
  · cases h
  · simp only [Except.ok.injEq] at h
    subst h
    rfl

theorem store_modules_spec {L : Layout} (hL : LayoutOK L) {s0 s : Shm} {t : List LydNode}
    (hrev : RevsFit L t) (h : sr_shmmain_store_modules L s0 t = .ok s) :
    s.main.mod_count = count_modules t ∧ Fits L s ∧ NamesLt s s.size ∧
    ∀ k n, (childrenNamed "module" t)[k]? = some n →
      ModBaseOK L s (L.hdr + count_modules t * L.mod) s.size (s.mods k) n ∧
      ModDepsOK L s (L.hdr + count_modules t * L.mod) s.size (s.mods k) n ∧
      ModRpcsOK L s (L.hdr + count_modules t * L.mod) s.size (s.mods k) n ∧
      ModNotifsOK L s (L.hdr + count_modules t * L.mod) s.size (s.mods k) n := by
  unfold sr_shmmain_store_modules at h
  simp only at h
  split at h
  · cases h
  next s1 hr =>
  split at h
  · cases h
  next s3 hB =>
  have hsz1 : s1.size = L.hdr + count_modules t * L.mod :=
    remap_size (by have := hL.hdr; omega) hr
  generalize hS2 : ({ s1 with main := { s1.main with mod_count := count_modules t } } : Shm)
    = S2 at hB
  have h2size : S2.size = L.hdr + count_modules t * L.mod := by rw [← hS2]; exact hsz1
  have h2mc : S2.main.mod_count = count_modules t := by rw [← hS2]
  have h2fit : Fits L S2 := by
    unfold Fits
    rw [h2mc, h2size]
  obtain ⟨kB, _, cB⟩ := store_modules_fill_spec hL (count_modules t) t 0 S2 s3 h2fit h2mc
    (by omega) hrev hB
  simp only [Nat.zero_add] at cB
  have h3mc : s3.main.mod_count = count_modules t := by rw [kB.main, h2mc]
  have h3fit : Fits L s3 := kB.Keeps_fits h2fit
  have hnode : ∀ j, j < count_modules t → ∃ n, (childrenNamed "module" t)[j]? = some n := by
    intro j hj
    rw [count_modules_eq] at hj
    exact ⟨_, List.getElem?_eq_getElem hj⟩
  have h3n : NamesLt s3 s3.size := by
    intro j hj
    rw [h3mc] at hj
    obtain ⟨n, hn⟩ := hnode j hj
    obtain ⟨_, ⟨v, _, _, hv, _⟩, _⟩ := cB j n hn
    have := sr_strshmlen_pos v
    omega
  obtain ⟨kC, bC, _, cC⟩ := store_modules_deps_spec hL (count_modules t) t 0 s3 s h3fit h3mc
    (by omega) h3n h
  simp only [Nat.zero_add] at cC
  have hmc : s.main.mod_count = count_modules t := by rw [kC.main, h3mc]
  refine ⟨hmc, kC.Keeps_fits h3fit, ?_, ?_⟩
  · intro j hj
    rw [hmc] at hj
    rw [(bC j hj).2.1]
    exact lt_of_lt_of_le (h3n j (by rw [h3mc]; exact hj)) kC.size
  · intro k n hkn
    have hk : k < count_modules t := by
      rw [count_modules_eq]
      exact (List.getElem?_eq_some_iff.mp hkn).1
    obtain ⟨x1, x2, x3⟩ := cC k n hkn
    have hlo : L.hdr + count_modules t * L.mod ≤ s3.size := by rw [← h2size]; exact kB.size
    rw [h2size] at cB
    exact ⟨(((cB k n hkn).ModBaseOK_keeps hL (le_refl _) kC).ModBaseOK_congr (bC k hk)).ModBaseOK_mono (le_refl _) kC.size,
      x1.ModDepsOK_mono hlo (le_refl _), x2.ModRpcsOK_mono hlo (le_refl _), x3.ModNotifsOK_mono hlo (le_refl _)⟩

/-- What a successful build gives on every sibling list, whether the
revisions fit or not: the count of the records, the names inside the arena
behind the records, and for every module its data and inverse dependencies,
its RPCs and its notifications as the tree has them. -/
theorem store_modules_late {L : Layout} (hL : LayoutOK L) {s0 s : Shm} {t : List LydNode}
    (h : sr_shmmain_store_modules L s0 t = .ok s) :
    s.main.mod_count = count_modules t ∧ Fits L s ∧ NamesLt s s.size ∧
    (∀ j, j < s.main.mod_count → L.hdr + count_modules t * L.mod ≤ (s.mods j).name) ∧
    ∀ k n, (childrenNamed "module" t)[k]? = some n →
      ModDepsOK L s (L.hdr + count_modules t * L.mod) s.size (s.mods k) n ∧
      ModRpcsOK L s (L.hdr + count_modules t * L.mod) s.size (s.mods k) n ∧
      ModNotifsOK L s (L.hdr + count_modules t * L.mod) s.size (s.mods k) n := by
  unfold sr_shmmain_store_modules at h
  simp only at h
  split at h
  · cases h
  next s1 hr =>
  split at h
  · cases h
  next s3 hB =>
  have hsz1 : s1.size = L.hdr + count_modules t * L.mod :=
    remap_size (by have := hL.hdr; omega) hr
  generalize hS2 : ({ s1 with main := { s1.main with mod_count := count_modules t } } : Shm)
    = S2 at hB
  have h2size : S2.size = L.hdr + count_modules t * L.mod := by rw [← hS2]; exact hsz1
  have h2mc : S2.main.mod_count = count_modules t := by rw [← hS2]
  have h2fit : Fits L S2 := by
    unfold Fits
    rw [h2mc, h2size]
  obtain ⟨kB1, kB2, h3n⟩ := store_modules_fill_frame hL (count_modules t)
    (L.hdr + count_modules t * L.mod) t 0 S2 s3 h2fit h2mc (by rw [h2size])
    (fun j hj => absurd hj (Nat.not_lt_zero j)) hB
  have h3mc : s3.main.mod_count = count_modules t := by rw [kB1, h2mc]
  have h3fit : Fits L s3 := by
    unfold Fits at h2fit ⊢
    rw [kB1]
    omega
  have h3n2 : NamesLt s3 s3.size := by
    intro j hj
    rw [h3mc] at hj
    exact (h3n j hj).2
  obtain ⟨kC, bC, _, cC⟩ := store_modules_deps_spec hL (count_modules t) t 0 s3 s h3fit h3mc
    (by omega) h3n2 h
  simp only [Nat.zero_add] at cC
  have hmc : s.main.mod_count = count_modules t := by rw [kC.main, h3mc]
  refine ⟨hmc, kC.Keeps_fits h3fit, ?_, ?_, ?_⟩
  · intro j hj
    rw [hmc] at hj
    rw [(bC j hj).2.1]
    exact lt_of_lt_of_le (h3n j hj).2 kC.size
  · intro j hj
    rw [hmc] at hj
    rw [(bC j hj).2.1]
    exact (h3n j hj).1
  · intro k n hkn
    obtain ⟨x1, x2, x3⟩ := cC k n hkn
    have hlo : L.hdr + count_modules t * L.mod ≤ s3.size := by rw [← h2size]; exact kB2
    exact ⟨x1.ModDepsOK_mono hlo (le_refl _), x2.ModRpcsOK_mono hlo (le_refl _),
      x3.ModNotifsOK_mono hlo (le_refl _)⟩

/-! ## Reserved and appended bytes of RPCs and notifications -/

theorem rpc_count_op_acc (L : Layout) :
    ∀ (ops : List LydNode) (pl dl : Nat),
      (rpc_count_op L ops pl dl).1 + (rpc_count_op L ops pl dl).2 = pl + dl + rpcOpLen L ops := by
  intro ops
  induction ops with
  | nil => intro pl dl; simp [rpc_count_op, rpcOpLen]
  | cons c cs ih =>
    intro pl dl
    unfold rpcOpLen
    unfold rpc_count_op
    by_cases hp : c.name = "path"
    · rw [if_pos hp, if_pos hp, ih, ih]; omega
    · rw [if_neg hp, if_neg hp]
      by_cases hk : c.name = "in" ∨ c.name = "out"
      · rw [if_pos hk, if_pos hk, ih, ih]; omega
      · rw [if_neg hk, if_neg hk, ih, ih]; omega

theorem rpcOpLen_cons (L : Layout) (c : LydNode) (cs : List LydNode) :
    rpcOpLen L (c :: cs) =
      (if c.name = "path" then sr_strshmlen c.value
        else if c.name = "in" ∨ c.name = "out" then
          deps_paths_len c.child + SR_SHM_SIZE (c.child.length * L.dep)
        else 0) + rpcOpLen L cs := by
  have h : rpcOpLen L (c :: cs) = (rpc_count_op L (c :: cs) 0 0).1 + (rpc_count_op L (c :: cs) 0 0).2 := rfl
  rw [h]
  unfold rpc_count_op
  by_cases hp : c.name = "path"
  · rw [if_pos hp, if_pos hp, rpc_count_op_acc]
    try omega
  · rw [if_neg hp, if_neg hp]
    by_cases hk : c.name = "in" ∨ c.name = "out"
    · rw [if_pos hk, if_pos hk, rpc_count_op_acc]
      try omega
    · rw [if_neg hk, if_neg hk, rpc_count_op_acc]
      try omega

theorem add_module_rpcs_count_len (L : Layout) (idx : Nat) :
    ∀ (cs : List LydNode) (s : Shm) (pl dl : Nat),
      (add_module_rpcs_count L idx cs s pl dl).2.1 + (add_module_rpcs_count L idx cs s pl dl).2.2
        = pl + dl + namedSum (rpcOpLen L) "rpc" cs := by
  intro cs
  induction cs with
  | nil => intro s pl dl; simp [add_module_rpcs_count, namedSum]
  | cons c cs ih =>
    intro s pl dl
    unfold add_module_rpcs_count
    unfold namedSum
    by_cases hk : c.name = "rpc"
    · rw [if_pos hk, if_pos hk]
      simp only
      rw [ih, rpc_count_op_acc]; omega
    · rw [if_neg hk, if_neg hk, ih]; omega

theorem add_module_rpcs_op_cursor (L : Layout) (hdep : 0 < L.dep) (cell : Nat) :
    ∀ (ops : List LydNode) (s : Shm) (e : Nat) (s2 : Shm) (e2 : Nat),
      NamesLt s e → (∀ a, e ≤ a → s.dep a = {}) →
      add_module_rpcs_op L cell ops s e = .ok (s2, e2) → e2 = e + rpcOpLen L ops := by
  intro ops
  induction ops with
  | nil =>
    intro s e s2 e2 _ _ h
    simp only [add_module_rpcs_op, Except.ok.injEq, Prod.mk.injEq] at h
    obtain ⟨rfl, rfl⟩ := h
    simp [rpcOpLen, rpc_count_op]
  | cons op ops ih =>
    intro s e s2 e2 hn hz h
    rw [rpcOpLen_cons]
    unfold add_module_rpcs_op at h
    by_cases hp : op.name = "path"
    · rw [if_pos hp] at h
      simp only [sr_shmstrcpy_fst, sr_shmstrcpy_off, sr_shmstrcpy_end] at h
      have := ih _ _ _ _
        (by exact (hn.NamesLt_mono (Nat.le_add_right _ _)).NamesLt_frame rfl (fun _ _ => rfl))
        (by intro a ha; exact hz a (by omega)) h
      rw [if_pos hp]; omega
    · rw [if_neg hp] at h
      rw [if_neg hp]
      by_cases hK0 : op.name = "in"
      · rw [if_pos hK0] at h
        simp only [setRpc_rpc, if_true] at h
        split at h
        · cases h
        · next s3 i3 e1 hfd =>
          generalize hS2 : Shm.setRpc (Shm.setRpc s cell _) cell _ = S2 at hfd h
          have h2main : S2.main = s.main := by rw [← hS2]; rfl
          have h2mods : S2.mods = s.mods := by rw [← hS2]; rfl
          have h2dep : S2.dep = s.dep := by rw [← hS2]; rfl
          have h2cell : S2.rpc cell = { s.rpc cell with
              in_dep_count := (s.rpc cell).in_dep_count + op.child.length
              in_deps := (sr_shmcpy (((s.rpc cell).in_dep_count + op.child.length) * L.dep) e).1 } := by
            rw [← hS2]; simp
          split at h
          · cases h
          · next hchk =>
            push_neg at hchk
            have hn2 : NamesLt S2 e := hn.NamesLt_frame h2main (fun j _ => by rw [h2mods])
            obtain ⟨hf3, hstep⟩ := dep_array_step L hdep hn2 (by rw [h2dep]; exact hz) hfd
            have h3cell : s3.rpc cell = S2.rpc cell := by rw [hf3.rpc]
            obtain ⟨hc0, hlen, hd3, hz3, he3, harr, hcells⟩ :=
              hstep (by rw [hchk, h3cell, h2cell])
            have hee : e ≤ e1 := by omega
            have hn3 : NamesLt s3 e1 := hn2.NamesLt_of_frame hf3.DepFrame_toFrame hee
            have := ih _ _ _ _ hn3 hz3 h
            rw [if_pos (Or.inl hK0)]; omega
      · rw [if_neg hK0] at h
        by_cases hK1 : op.name = "out"
        · rw [if_pos hK1] at h
          simp only [setRpc_rpc, if_true] at h
          split at h
          · cases h
          · next s3 i3 e1 hfd =>
            generalize hS2 : Shm.setRpc (Shm.setRpc s cell _) cell _ = S2 at hfd h
            have h2main : S2.main = s.main := by rw [← hS2]; rfl
            have h2mods : S2.mods = s.mods := by rw [← hS2]; rfl
            have h2dep : S2.dep = s.dep := by rw [← hS2]; rfl
            have h2cell : S2.rpc cell = { s.rpc cell with
                out_dep_count := (s.rpc cell).out_dep_count + op.child.length
                out_deps := (sr_shmcpy (((s.rpc cell).out_dep_count + op.child.length) * L.dep) e).1 } := by
              rw [← hS2]; simp
            split at h
            · cases h
            · next hchk =>
              push_neg at hchk
              have hn2 : NamesLt S2 e := hn.NamesLt_frame h2main (fun j _ => by rw [h2mods])
              obtain ⟨hf3, hstep⟩ := dep_array_step L hdep hn2 (by rw [h2dep]; exact hz) hfd
              have h3cell : s3.rpc cell = S2.rpc cell := by rw [hf3.rpc]
              obtain ⟨hc0, hlen, hd3, hz3, he3, harr, hcells⟩ :=
                hstep (by rw [hchk, h3cell, h2cell])
              have hee : e ≤ e1 := by omega
              have hn3 : NamesLt s3 e1 := hn2.NamesLt_of_frame hf3.DepFrame_toFrame hee
              have := ih _ _ _ _ hn3 hz3 h
              rw [if_pos (Or.inr hK1)]; omega
        · rw [if_neg hK1] at h
          have := ih _ _ _ _ hn hz h
          rw [if_neg (by intro hh; rcases hh with hh | hh; exact hK0 hh; exact hK1 hh)]; omega

theorem add_module_rpcs_fill_cursor (L : Layout) (hdep : 0 < L.dep) (base : Nat) :
    ∀ (cs : List LydNode) (s : Shm) (ri e : Nat) (s2 : Shm) (ri2 e2 : Nat),
      NamesLt s e → (∀ a, e ≤ a → s.dep a = {}) →
      add_module_rpcs_fill L base cs s ri e = .ok (s2, ri2, e2) →
      e2 = e + namedSum (rpcOpLen L) "rpc" cs := by
  intro cs
  induction cs with
  | nil =>
    intro s ri e s2 ri2 e2 _ _ h
    simp only [add_module_rpcs_fill, Except.ok.injEq, Prod.mk.injEq] at h
    obtain ⟨rfl, rfl, rfl⟩ := h
    simp [namedSum]
  | cons c cs ih =>
    intro s ri e s2 ri2 e2 hn hz h
    unfold add_module_rpcs_fill at h
    unfold namedSum
    by_cases hk : c.name = "rpc"
    · rw [if_pos hk] at h
      rw [if_pos hk]
      split at h
      · cases h
      · next s1 e1 hop =>
        have hc1 := add_module_rpcs_op_cursor L hdep _ _ _ _ _ _ hn hz hop
        obtain ⟨hf1, _, _, _, _, hdz1, hle1, _⟩ := add_module_rpcs_op_spec L hdep _ _ _ _ _ _ hn hz hop
        have := ih _ _ _ _ _ _ (hn.NamesLt_of_frame hf1 hle1) hdz1 h
        omega
    · rw [if_neg hk] at h
      rw [if_neg hk]
      have := ih _ _ _ _ _ _ hn hz h
      omega

theorem notif_count_op_acc (L : Layout) :
    ∀ (ops : List LydNode) (pl dl : Nat),
      (notif_count_op L ops pl dl).1 + (notif_count_op L ops pl dl).2 = pl + dl + notifOpLen L ops := by
  intro ops
  induction ops with
  | nil => intro pl dl; simp [notif_count_op, notifOpLen]
  | cons c cs ih =>
    intro pl dl
    unfold notifOpLen
    unfold notif_count_op
    by_cases hp : c.name = "path"
    · rw [if_pos hp, if_pos hp, ih, ih]; omega
    · rw [if_neg hp, if_neg hp]
      by_cases hk : c.name = "deps"
      · rw [if_pos hk, if_pos hk, ih, ih]; omega
      · rw [if_neg hk, if_neg hk, ih, ih]; omega

theorem notifOpLen_cons (L : Layout) (c : LydNode) (cs : List LydNode) :
    notifOpLen L (c :: cs) =
      (if c.name = "path" then sr_strshmlen c.value
        else if c.name = "deps" then
          deps_paths_len c.child + SR_SHM_SIZE (c.child.length * L.dep)
        else 0) + notifOpLen L cs := by
  have h : notifOpLen L (c :: cs) = (notif_count_op L (c :: cs) 0 0).1 + (notif_count_op L (c :: cs) 0 0).2 := rfl
  rw [h]
  unfold notif_count_op
  by_cases hp : c.name = "path"
  · rw [if_pos hp, if_pos hp, notif_count_op_acc]
    try omega
  · rw [if_neg hp, if_neg hp]
    by_cases hk : c.name = "deps"
    · rw [if_pos hk, if_pos hk, notif_count_op_acc]
      try omega
    · rw [if_neg hk, if_neg hk, notif_count_op_acc]
      try omega

theorem add_module_notifs_count_len (L : Layout) (idx : Nat) :
    ∀ (cs : List LydNode) (s : Shm) (pl dl : Nat),
      (add_module_notifs_count L idx cs s pl dl).2.1 + (add_module_notifs_count L idx cs s pl dl).2.2
        = pl + dl + namedSum (notifOpLen L) "notification" cs := by
  intro cs
  induction cs with
  | nil => intro s pl dl; simp [add_module_notifs_count, namedSum]
  | cons c cs ih =>
    intro s pl dl
    unfold add_module_notifs_count
    unfold namedSum
    by_cases hk : c.name = "notification"
    · rw [if_pos hk, if_pos hk]
      simp only
      rw [ih, notif_count_op_acc]; omega
    · rw [if_neg hk, if_neg hk, ih]; omega

theorem add_module_notifs_op_cursor (L : Layout) (hdep : 0 < L.dep) (cell : Nat) :
    ∀ (ops : List LydNode) (s : Shm) (e : Nat) (s2 : Shm) (e2 : Nat),
      NamesLt s e → (∀ a, e ≤ a → s.dep a = {}) →
      add_module_notifs_op L cell ops s e = .ok (s2, e2) → e2 = e + notifOpLen L ops := by
  intro ops
  induction ops with
  | nil =>
    intro s e s2 e2 _ _ h
    simp only [add_module_notifs_op, Except.ok.injEq, Prod.mk.injEq] at h
    obtain ⟨rfl, rfl⟩ := h
    simp [notifOpLen, notif_count_op]
  | cons op ops ih =>
    intro s e s2 e2 hn hz h
    rw [notifOpLen_cons]
    unfold add_module_notifs_op at h
    by_cases hp : op.name = "path"
    · rw [if_pos hp] at h
      simp only [sr_shmstrcpy_fst, sr_shmstrcpy_off, sr_shmstrcpy_end] at h
      have := ih _ _ _ _
        (by exact (hn.NamesLt_mono (Nat.le_add_right _ _)).NamesLt_frame rfl (fun _ _ => rfl))
        (by intro a ha; exact hz a (by omega)) h
      rw [if_pos hp]; omega
    · rw [if_neg hp] at h
      rw [if_neg hp]
      by_cases hK0 : op.name = "deps"
      · rw [if_pos hK0] at h
        simp only [setNotif_notif, if_true] at h
        split at h
        · cases h
        · next s3 i3 e1 hfd =>
          generalize hS2 : Shm.setNotif (Shm.setNotif s cell _) cell _ = S2 at hfd h
          have h2main : S2.main = s.main := by rw [← hS2]; rfl
          have h2mods : S2.mods = s.mods := by rw [← hS2]; rfl
          have h2dep : S2.dep = s.dep := by rw [← hS2]; rfl
          have h2cell : S2.notif cell = { s.notif cell with
              dep_count := (s.notif cell).dep_count + op.child.length
              deps := (sr_shmcpy (((s.notif cell).dep_count + op.child.length) * L.dep) e).1 } := by
            rw [← hS2]; simp
          split at h
          · cases h
          · next hchk =>
            push_neg at hchk
            have hn2 : NamesLt S2 e := hn.NamesLt_frame h2main (fun j _ => by rw [h2mods])
            obtain ⟨hf3, hstep⟩ := dep_array_step L hdep hn2 (by rw [h2dep]; exact hz) hfd
            have h3cell : s3.notif cell = S2.notif cell := by rw [hf3.notif]
            obtain ⟨hc0, hlen, hd3, hz3, he3, harr, hcells⟩ :=
              hstep (by rw [hchk, h3cell, h2cell])
            have hee : e ≤ e1 := by omega
            have hn3 : NamesLt s3 e1 := hn2.NamesLt_of_frame hf3.DepFrame_toFrame hee
            have := ih _ _ _ _ hn3 hz3 h
            rw [if_pos hK0]; omega
      · rw [if_neg hK0] at h
        have := ih _ _ _ _ hn hz h
        rw [if_neg hK0]; omega

theorem add_module_notifs_fill_cursor (L : Layout) (hdep : 0 < L.dep) (base : Nat) :
    ∀ (cs : List LydNode) (s : Shm) (ri e : Nat) (s2 : Shm) (ri2 e2 : Nat),
      NamesLt s e → (∀ a, e ≤ a → s.dep a = {}) →
      add_module_notifs_fill L base cs s ri e = .ok (s2, ri2, e2) →
      e2 = e + namedSum (notifOpLen L) "notification" cs := by
  intro cs
  induction cs with
  | nil =>
    intro s ri e s2 ri2 e2 _ _ h
    simp only [add_module_notifs_fill, Except.ok.injEq, Prod.mk.injEq] at h
    obtain ⟨rfl, rfl, rfl⟩ := h
    simp [namedSum]
  | cons c cs ih =>
    intro s ri e s2 ri2 e2 hn hz h
    unfold add_module_notifs_fill at h
    unfold namedSum
    by_cases hk : c.name = "notification"
    · rw [if_pos hk] at h
      rw [if_pos hk]
      split at h
      · cases h
      · next s1 e1 hop =>
        have hc1 := add_module_notifs_op_cursor L hdep _ _ _ _ _ _ hn hz hop
        obtain ⟨hf1, _, _, _, _, hdz1, hle1, _⟩ := add_module_notifs_op_spec L hdep _ _ _ _ _ _ hn hz hop
        have := ih _ _ _ _ _ _ (hn.NamesLt_of_frame hf1 hle1) hdz1 h
        omega
    · rw [if_neg hk] at h
      rw [if_neg hk]
      have := ih _ _ _ _ _ _ hn hz h
      omega

/-! ## No sub-pass fails its final assertion -/

theorem fill_deps_instid_err (cell : Nat) :
    ∀ (cs : List LydNode) (s : Shm) (e : Nat) (x : SrErr) (st : Shm),
      fill_deps_instid cell cs s e = .error (x, st) → x = SrErr.Internal := by
  intro cs
  induction cs with
  | nil => intro s e x st h; simp [fill_deps_instid] at h
  | cons c cs ih =>
    intro s e x st h
    unfold fill_deps_instid at h
    split at h
    · exact ih _ _ _ _ h
    · split at h
      · split at h
        · simp only [Except.error.injEq, Prod.mk.injEq] at h
          exact h.1.symm
        · exact ih _ _ _ _ h
      · exact ih _ _ _ _ h

theorem fill_deps_loop_err (L : Layout) (base : Nat) :
    ∀ (ds : List LydNode) (s : Shm) (i e : Nat) (x : SrErr) (st : Shm),
      fill_deps_loop L base ds s i e = .error (x, st) →
      x = SrErr.Internal ∨ x = SrErr.Assert AssertId.dep_set := by
  intro ds
  induction ds with
  | nil => intro s i e x st h; simp [fill_deps_loop] at h
  | cons d ds ih =>
    intro s i e x st h
    unfold fill_deps_loop at h
    simp only at h
    split at h
    · split at h
      · simp only [Except.error.injEq, Prod.mk.injEq] at h
        exact Or.inl h.1.symm
      · split at h
        · simp only [Except.error.injEq, Prod.mk.injEq] at h
          exact Or.inr h.1.symm
        · exact ih _ _ _ _ _ h
    · split at h
      · split at h
        · next y hy =>
          obtain ⟨y1, y2⟩ := y
          simp only [Except.error.injEq, Prod.mk.injEq] at h
          rw [← h.1]
          exact Or.inl (fill_deps_instid_err _ _ _ _ _ _ hy)
        · split at h
          · simp only [Except.error.injEq, Prod.mk.injEq] at h
            exact Or.inr h.1.symm
          · exact ih _ _ _ _ _ h
      · exact ih _ _ _ _ _ h

theorem fill_deps_err {L : Layout} {s : Shm} {p : LydNode} {base di e : Nat} {x : SrErr}
    {st : Shm} (h : sr_shmmain_fill_deps L s p base di e = .error (x, st)) :
    x ≠ SrErr.Assert AssertId.exact_fit := by
  unfold sr_shmmain_fill_deps at h
  split at h
  · simp only [Except.error.injEq, Prod.mk.injEq] at h
    rw [← h.1]; decide
  · rcases fill_deps_loop_err _ _ _ _ _ _ _ _ h with h1 | h1 <;> rw [h1] <;> decide

theorem add_module_deps_fill_err (L : Layout) (dbase ibase : Nat) :
    ∀ (cs : List LydNode) (s : Shm) (di ii e : Nat) (x : SrErr) (st : Shm),
      add_module_deps_fill L dbase ibase cs s di ii e = .error (x, st) →
      x ≠ SrErr.Assert AssertId.exact_fit := by
  intro cs
  induction cs with
  | nil => intro s di ii e x st h; simp [add_module_deps_fill] at h
  | cons c cs ih =>
    intro s di ii e x st h
    unfold add_module_deps_fill at h
    split at h
    · split at h
      · next y hy =>
        obtain ⟨y1, y2⟩ := y
        simp only [Except.error.injEq, Prod.mk.injEq] at h
        rw [← h.1]
        exact fill_deps_err hy
      · exact ih _ _ _ _ _ _ h
    · split at h
      · split at h
        · simp only [Except.error.injEq, Prod.mk.injEq] at h
          rw [← h.1]; decide
        · exact ih _ _ _ _ _ _ h
      · exact ih _ _ _ _ _ _ h

theorem remap_err {L : Layout} {s : Shm} {n : Nat} {x : SrErr} {st : Shm}
    (h : sr_shm_remap L s n = .error (x, st)) : x = SrErr.NoMem := by
  unfold sr_shm_remap at h
  simp only at h
  by_cases hc : L.cap < (if n = 0 then s.size else n)
  · rw [if_pos hc] at h
    simp only [Except.error.injEq, Prod.mk.injEq] at h
    exact h.1.symm
  · rw [if_neg hc] at h
    cases h

theorem add_module_deps_no_exact {L : Layout} (hL : LayoutOK L) {m : LydNode} {idx : Nat}
    {s st : Shm} (hfit : Fits L s) (hidx : idx < s.main.mod_count) (hn : NamesLt s s.size) :
    sr_shmmain_add_module_deps L m idx s ≠ .error (SrErr.Assert AssertId.exact_fit, st) := by
  intro h
  unfold sr_shmmain_add_module_deps at h
  split at h
  · cases h
  · next hz =>
    push_neg at hz
    have hcount := add_module_deps_count_spec idx m.child s (s.mods idx) 0
    rw [setMod_self] at hcount
    simp only [hz.1, hz.2, Nat.zero_add] at hcount
    generalize hc : add_module_deps_count idx m.child s 0 = c at h hcount
    obtain ⟨sc, pl⟩ := c
    simp only [Prod.mk.injEq] at hcount
    obtain ⟨hsc, hpl⟩ := hcount
    simp only at h
    split at h
    · next x hx =>
      obtain ⟨x1, x2⟩ := x
      simp only [Except.error.injEq, Prod.mk.injEq] at h
      have := remap_err hx
      rw [h.1] at this
      cases this
    · next sr hr =>
      have hscsize : sc.size = s.size := by rw [hsc]; rfl
      have hscfit : Fits L sc := by rw [hsc]; exact hfit
      have hscmain : sc.main = s.main := by rw [hsc]; rfl
      rw [show sc.size + pl + SR_SHM_SIZE ((sc.mods idx).dep_count * L.dep)
          + SR_SHM_SIZE ((sc.mods idx).inv_dep_count * L.off)
          = sc.size + (pl + SR_SHM_SIZE ((sc.mods idx).dep_count * L.dep)
          + SR_SHM_SIZE ((sc.mods idx).inv_dep_count * L.off)) by omega] at hr
      obtain ⟨r1, r2, r3, r4, r5, r6, r7, r8⟩ := remap_grow_ok hL hscfit hr
      have hsrm : sr.mods idx = sc.mods idx := r3 idx (by rw [hscmain]; exact hidx)
      have hscm : sc.mods idx = { s.mods idx with
          dep_count := (grandChildren "deps" m.child).length
          inv_dep_count := (childrenNamed "inverse-deps" m.child).length } := by
        rw [hsc]; simp
      simp only [updMod_mods, if_true, hsrm] at h
      rw [hscm] at h
      simp only at h
      split at h
      · next x hx =>
        obtain ⟨x1, x2⟩ := x
        simp only [Except.error.injEq, Prod.mk.injEq] at h
        exact add_module_deps_fill_err _ _ _ _ _ _ _ _ _ _ hx h.1
      · next s5 di ii e hfl =>
        simp only [sr_shmcpy_fst, sr_shmcpy_snd] at hfl
        generalize hS4 : Shm.updMod (Shm.updMod sr idx _) idx _ = S4 at hfl
        have h4size : S4.size = sr.size := by rw [← hS4]; rfl
        have h4main : S4.main = sr.main := by rw [← hS4]; rfl
        have h4str : S4.str = sr.str := by rw [← hS4]; rfl
        have h4off : S4.off = sr.off := by rw [← hS4]; rfl
        have h4dep : S4.dep = sr.dep := by rw [← hS4]; rfl
        have h4rpc : S4.rpc = sr.rpc := by rw [← hS4]; rfl
        have h4notif : S4.notif = sr.notif := by rw [← hS4]; rfl
        have h4ne : ∀ j, j ≠ idx → S4.mods j = sr.mods j := by
          intro j hj; rw [← hS4]; simp [hj]
        have h4idx : S4.mods idx = { s.mods idx with
            deps := if (grandChildren "deps" m.child).length * L.dep = 0 then 0 else sc.size
            dep_count := (grandChildren "deps" m.child).length
            inv_deps := if (childrenNamed "inverse-deps" m.child).length * L.off = 0 then 0
              else sc.size + SR_SHM_SIZE ((grandChildren "deps" m.child).length * L.dep)
            inv_dep_count := (childrenNamed "inverse-deps" m.child).length } := by
          rw [← hS4]; simp [hsrm, hscm]
        have hscne : ∀ j, j ≠ idx → sc.mods j = s.mods j := by
          intro j hj; rw [hsc]; simp [hj]
        have hscstr : sc.str = s.str := by rw [hsc]; rfl
        have hscoff : sc.off = s.off := by rw [hsc]; rfl
        have hscdep : sc.dep = s.dep := by rw [hsc]; rfl
        have hscrpc : sc.rpc = s.rpc := by rw [hsc]; rfl
        have hscnotif : sc.notif = s.notif := by rw [hsc]; rfl
        have hname : ∀ j, j < s.main.mod_count → (S4.mods j).name = (s.mods j).name := by
          intro j hj
          by_cases hji : j = idx
          · subst hji; rw [h4idx]
          · rw [h4ne j hji, r3 j (by rw [hscmain]; exact hj), hscne j hji]
        have hA := le_SR_SHM_SIZE ((grandChildren "deps" m.child).length * L.dep)
        have hB := le_SR_SHM_SIZE ((childrenNamed "inverse-deps" m.child).length * L.off)
        have hn4 : NamesLt S4 (sc.size + SR_SHM_SIZE ((grandChildren "deps" m.child).length * L.dep)
            + SR_SHM_SIZE ((childrenNamed "inverse-deps" m.child).length * L.off)) := by
          intro j hj
          rw [h4main, r2, hscmain] at hj
          rw [hname j hj]
          have := hn j hj
          omega
        have hdeppos : ∀ k, k < (grandChildren "deps" m.child).length →
            (if (grandChildren "deps" m.child).length * L.dep = 0 then 0 else sc.size) = sc.size := by
          intro k hk
          have : 0 < (grandChildren "deps" m.child).length * L.dep :=
            Nat.mul_pos (by omega) hL.dep
          rw [if_neg (by omega)]
        have hoffpos : ∀ k, k < (childrenNamed "inverse-deps" m.child).length →
            (if (childrenNamed "inverse-deps" m.child).length * L.off = 0 then 0
              else sc.size + SR_SHM_SIZE ((grandChildren "deps" m.child).length * L.dep))
            = sc.size + SR_SHM_SIZE ((grandChildren "deps" m.child).length * L.dep) := by
          intro k hk
          have : 0 < (childrenNamed "inverse-deps" m.child).length * L.off :=
            Nat.mul_pos (by omega) hL.off
          rw [if_neg (by omega)]
        obtain ⟨hf, hrpc, hnotif, hdf, hof, he, hdi, hii, hc, hic⟩ :=
          add_module_deps_fill_spec L hL.dep hL.off _ _ _ _ _ _ _ _ _ _ _ hn4
            (by
              intro k _ hk
              rw [hdeppos k (by omega), h4dep, r6, if_neg (by omega)]) hfl
        simp only [Nat.zero_add] at hdi hii hc hic hdf hof
        rw [hf.mods, h4idx] at h
        simp only at h
        split at h
        · cases h
        split at h
        · cases h
        split at h
        · next hdc hic2 hesz =>
          apply hesz
          rw [hf.size, h4size, r1, hscm, hscsize, he, hpl, hscsize]
          simp only
          omega
        · cases h

theorem add_module_rpcs_op_err (L : Layout) (cell : Nat) :
    ∀ (ops : List LydNode) (s : Shm) (e : Nat) (x : SrErr) (st : Shm),
      add_module_rpcs_op L cell ops s e = .error (x, st) → x ≠ SrErr.Assert AssertId.exact_fit := by
  intro ops
  induction ops with
  | nil => intro s e x st h; simp [add_module_rpcs_op] at h
  | cons op ops ih =>
    intro s e x st h
    unfold add_module_rpcs_op at h
    split at h
    · exact ih _ _ _ _ h
    · split at h
      · simp only at h
        split at h
        · next y hy =>
          obtain ⟨y1, y2⟩ := y
          simp only [Except.error.injEq, Prod.mk.injEq] at h
          rw [← h.1]
          exact fill_deps_err hy
        · split at h
          · simp only [Except.error.injEq, Prod.mk.injEq] at h
            rw [← h.1]; decide
          · exact ih _ _ _ _ h
      · split at h
        · simp only at h
          split at h
          · next y hy =>
            obtain ⟨y1, y2⟩ := y
            simp only [Except.error.injEq, Prod.mk.injEq] at h
            rw [← h.1]
            exact fill_deps_err hy
          · split at h
            · simp only [Except.error.injEq, Prod.mk.injEq] at h
              rw [← h.1]; decide
            · exact ih _ _ _ _ h
        · exact ih _ _ _ _ h

theorem add_module_rpcs_fill_err (L : Layout) (base : Nat) :
    ∀ (cs : List LydNode) (s : Shm) (ri e : Nat) (x : SrErr) (st : Shm),
      add_module_rpcs_fill L base cs s ri e = .error (x, st) → x ≠ SrErr.Assert AssertId.exact_fit := by
  intro cs
  induction cs with
  | nil => intro s ri e x st h; simp [add_module_rpcs_fill] at h
  | cons c cs ih =>
    intro s ri e x st h
    unfold add_module_rpcs_fill at h
    split at h
    · split at h
      · next y hy =>
        obtain ⟨y1, y2⟩ := y
        simp only [Except.error.injEq, Prod.mk.injEq] at h
        rw [← h.1]
        exact add_module_rpcs_op_err _ _ _ _ _ _ _ hy
      · exact ih _ _ _ _ _ h
    · exact ih _ _ _ _ _ h

theorem add_module_notifs_op_err (L : Layout) (cell : Nat) :
    ∀ (ops : List LydNode) (s : Shm) (e : Nat) (x : SrErr) (st : Shm),
      add_module_notifs_op L cell ops s e = .error (x, st) → x ≠ SrErr.Assert AssertId.exact_fit := by
  intro ops
  induction ops with
  | nil => intro s e x st h; simp [add_module_notifs_op] at h
  | cons op ops ih =>
    intro s e x st h
    unfold add_module_notifs_op at h
    split at h
    · exact ih _ _ _ _ h
    · split at h
      · simp only at h
        split at h
        · next y hy =>
          obtain ⟨y1, y2⟩ := y
          simp only [Except.error.injEq, Prod.mk.injEq] at h
          rw [← h.1]
          exact fill_deps_err hy
        · split at h
          · simp only [Except.error.injEq, Prod.mk.injEq] at h
            rw [← h.1]; decide
          · exact ih _ _ _ _ h
      · exact ih _ _ _ _ h

theorem add_module_notifs_fill_err (L : Layout) (base : Nat) :
    ∀ (cs : List LydNode) (s : Shm) (ri e : Nat) (x : SrErr) (st : Shm),
      add_module_notifs_fill L base cs s ri e = .error (x, st) → x ≠ SrErr.Assert AssertId.exact_fit := by
  intro cs
  induction cs with
  | nil => intro s ri e x st h; simp [add_module_notifs_fill] at h
  | cons c cs ih =>
    intro s ri e x st h
    unfold add_module_notifs_fill at h
    split at h
    · split at h
      · next y hy =>
        obtain ⟨y1, y2⟩ := y
        simp only [Except.error.injEq, Prod.mk.injEq] at h
        rw [← h.1]
        exact add_module_notifs_op_err _ _ _ _ _ _ _ hy
      · exact ih _ _ _ _ _ h
    · exact ih _ _ _ _ _ h

theorem sr_shmmain_add_module_rpcs_no_exact {L : Layout} (hL : LayoutOK L) {m : LydNode} {idx : Nat}
    {s st : Shm} (hfit : Fits L s) (hidx : idx < s.main.mod_count) (hn : NamesLt s s.size) :
    sr_shmmain_add_module_rpcs L m idx s ≠ .error (SrErr.Assert AssertId.exact_fit, st) := by
  intro h
  unfold sr_shmmain_add_module_rpcs at h
  split at h
  · cases h
  · next hz =>
    push_neg at hz
    obtain ⟨pl, dl, hcount⟩ := add_module_rpcs_count_spec L idx m.child s (s.mods idx) 0 0
    rw [setMod_self] at hcount
    simp only [hz, Nat.zero_add] at hcount
    have hlen := add_module_rpcs_count_len L idx m.child s 0 0
    rw [hcount] at hlen h
    simp only [Nat.zero_add] at hlen
    generalize hsc : Shm.setMod s idx _ = sc at h
    simp only at h
    split at h
    · next x hx =>
      obtain ⟨x1, x2⟩ := x
      simp only [Except.error.injEq, Prod.mk.injEq] at h
      have := remap_err hx
      rw [h.1] at this
      cases this
    · next sr hr =>
      have hscsize : sc.size = s.size := by rw [← hsc]; rfl
      have hscfit : Fits L sc := by rw [← hsc]; exact hfit
      have hscmain : sc.main = s.main := by rw [← hsc]; rfl
      rw [show sc.size + pl + SR_SHM_SIZE ((sc.mods idx).rpc_count * L.rpc) + dl
          = sc.size + (pl + SR_SHM_SIZE ((sc.mods idx).rpc_count * L.rpc) + dl) by omega] at hr
      obtain ⟨r1, r2, r3, r4, r5, r6, r7, r8⟩ := remap_grow_ok hL hscfit hr
      have hsrm : sr.mods idx = sc.mods idx := r3 idx (by rw [hscmain]; exact hidx)
      have hscm : sc.mods idx = { s.mods idx with
          rpc_count := (childrenNamed "rpc" m.child).length } := by
        rw [← hsc]; simp
      simp only [updMod_mods, if_true, hsrm] at h
      rw [hscm] at h
      simp only at h
      split at h
      · next x hx =>
        obtain ⟨x1, x2⟩ := x
        simp only [Except.error.injEq, Prod.mk.injEq] at h
        exact add_module_rpcs_fill_err _ _ _ _ _ _ _ _ hx h.1
      · next s5 ri e hfl =>
        simp only [sr_shmcpy_fst, sr_shmcpy_snd] at hfl
        generalize hS4 : Shm.updMod sr idx _ = S4 at hfl
        have h4size : S4.size = sr.size := by rw [← hS4]; rfl
        have h4main : S4.main = sr.main := by rw [← hS4]; rfl
        have h4str : S4.str = sr.str := by rw [← hS4]; rfl
        have h4off : S4.off = sr.off := by rw [← hS4]; rfl
        have h4dep : S4.dep = sr.dep := by rw [← hS4]; rfl
        have h4rpc : S4.rpc = sr.rpc := by rw [← hS4]; rfl
        have h4notif : S4.notif = sr.notif := by rw [← hS4]; rfl
        have h4ne : ∀ j, j ≠ idx → S4.mods j = sr.mods j := by
          intro j hj; rw [← hS4]; simp [hj]
        have h4idx : S4.mods idx = { s.mods idx with
            rpcs := if (childrenNamed "rpc" m.child).length * L.rpc = 0 then 0 else sc.size
            rpc_count := (childrenNamed "rpc" m.child).length } := by
          rw [← hS4]; simp [hsrm, hscm]
        have hscne : ∀ j, j ≠ idx → sc.mods j = s.mods j := by
          intro j hj; rw [← hsc]; simp [hj]
        have hscstr : sc.str = s.str := by rw [← hsc]; rfl
        have hscoff : sc.off = s.off := by rw [← hsc]; rfl
        have hscdep : sc.dep = s.dep := by rw [← hsc]; rfl
        have hscrpc : sc.rpc = s.rpc := by rw [← hsc]; rfl
        have hscnotif : sc.notif = s.notif := by rw [← hsc]; rfl
        have hname : ∀ j, j < s.main.mod_count → (S4.mods j).name = (s.mods j).name := by
          intro j hj
          by_cases hji : j = idx
          · subst hji; rw [h4idx]
          · rw [h4ne j hji, r3 j (by rw [hscmain]; exact hj), hscne j hji]
        have hA := le_SR_SHM_SIZE ((childrenNamed "rpc" m.child).length * L.rpc)
        have hn4 : NamesLt S4
            (sc.size + SR_SHM_SIZE ((childrenNamed "rpc" m.child).length * L.rpc)) := by
          intro j hj
          rw [h4main, r2, hscmain] at hj
          rw [hname j hj]
          have := hn j hj
          omega
        have hpos : ∀ k, k < (childrenNamed "rpc" m.child).length →
            (if (childrenNamed "rpc" m.child).length * L.rpc = 0 then 0 else sc.size) = sc.size := by
          intro k hk
          have : 0 < (childrenNamed "rpc" m.child).length * L.rpc :=
            Nat.mul_pos (by omega) hL.rpc
          rw [if_neg (by omega)]
        have hcur := add_module_rpcs_fill_cursor L hL.dep _ _ _ _ _ _ _ _ hn4
          (by
            intro a ha
            rw [h4dep, r6, if_neg (by omega)]) hfl
        obtain ⟨hf, hoff, hoth, hpl, hdlt, hdz, hle, hri, hc⟩ :=
          add_module_rpcs_fill_spec L hL.dep hL.rpc _ _ _ _ _ _ _ _ hn4
            (by
              intro a ha
              rw [h4dep, r6, if_neg (by omega)])
            (by
              intro k _ hk
              rw [hpos k (by omega), h4rpc, r7, if_neg (by omega)]) hfl
        simp only [Nat.zero_add] at hri hc hpl
        rw [hf.mods, h4idx] at h
        simp only at h
        split at h
        · cases h
        split at h
        · next hrc hesz =>
          apply hesz
          rw [hf.size, h4size, r1, hscm, hscsize, hcur, hscsize]
          simp only
          omega
        · cases h

theorem sr_shmmain_add_module_notifs_no_exact {L : Layout} (hL : LayoutOK L) {m : LydNode} {idx : Nat}
    {s st : Shm} (hfit : Fits L s) (hidx : idx < s.main.mod_count) (hn : NamesLt s s.size) :
    sr_shmmain_add_module_notifs L m idx s ≠ .error (SrErr.Assert AssertId.exact_fit, st) := by
  intro h
  unfold sr_shmmain_add_module_notifs at h
  split at h
  · cases h
  · next hz =>
    push_neg at hz
    obtain ⟨pl, dl, hcount⟩ := add_module_notifs_count_spec L idx m.child s (s.mods idx) 0 0
    rw [setMod_self] at hcount
    simp only [hz, Nat.zero_add] at hcount
    have hlen := add_module_notifs_count_len L idx m.child s 0 0
    rw [hcount] at hlen h
    simp only [Nat.zero_add] at hlen
    generalize hsc : Shm.setMod s idx _ = sc at h
    simp only at h
    split at h
    · next x hx =>
      obtain ⟨x1, x2⟩ := x
      simp only [Except.error.injEq, Prod.mk.injEq] at h
      have := remap_err hx
      rw [h.1] at this
      cases this
    · next sr hr =>
      have hscsize : sc.size = s.size := by rw [← hsc]; rfl
      have hscfit : Fits L sc := by rw [← hsc]; exact hfit
      have hscmain : sc.main = s.main := by rw [← hsc]; rfl
      rw [show sc.size + pl + SR_SHM_SIZE ((sc.mods idx).notif_count * L.notif) + dl
          = sc.size + (pl + SR_SHM_SIZE ((sc.mods idx).notif_count * L.notif) + dl) by omega] at hr
      obtain ⟨r1, r2, r3, r4, r5, r6, r7, r8⟩ := remap_grow_ok hL hscfit hr
      have hsrm : sr.mods idx = sc.mods idx := r3 idx (by rw [hscmain]; exact hidx)
      have hscm : sc.mods idx = { s.mods idx with
          notif_count := (childrenNamed "notification" m.child).length } := by
        rw [← hsc]; simp
      simp only [updMod_mods, if_true, hsrm] at h
      rw [hscm] at h
      simp only at h
      split at h
      · next x hx =>
        obtain ⟨x1, x2⟩ := x
        simp only [Except.error.injEq, Prod.mk.injEq] at h
        exact add_module_notifs_fill_err _ _ _ _ _ _ _ _ hx h.1
      · next s5 ri e hfl =>
        simp only [sr_shmcpy_fst, sr_shmcpy_snd] at hfl
        generalize hS4 : Shm.updMod sr idx _ = S4 at hfl
        have h4size : S4.size = sr.size := by rw [← hS4]; rfl
        have h4main : S4.main = sr.main := by rw [← hS4]; rfl
        have h4str : S4.str = sr.str := by rw [← hS4]; rfl
        have h4off : S4.off = sr.off := by rw [← hS4]; rfl
        have h4dep : S4.dep = sr.dep := by rw [← hS4]; rfl
        have h4rpc : S4.rpc = sr.rpc := by rw [← hS4]; rfl
        have h4notif : S4.notif = sr.notif := by rw [← hS4]; rfl
        have h4ne : ∀ j, j ≠ idx → S4.mods j = sr.mods j := by
          intro j hj; rw [← hS4]; simp [hj]
        have h4idx : S4.mods idx = { s.mods idx with
            notifs := if (childrenNamed "notification" m.child).length * L.notif = 0 then 0 else sc.size
            notif_count := (childrenNamed "notification" m.child).length } := by
          rw [← hS4]; simp [hsrm, hscm]
        have hscne : ∀ j, j ≠ idx → sc.mods j = s.mods j := by
          intro j hj; rw [← hsc]; simp [hj]
        have hscstr : sc.str = s.str := by rw [← hsc]; rfl
        have hscoff : sc.off = s.off := by rw [← hsc]; rfl
        have hscdep : sc.dep = s.dep := by rw [← hsc]; rfl
        have hscrpc : sc.rpc = s.rpc := by rw [← hsc]; rfl
        have hscnotif : sc.notif = s.notif := by rw [← hsc]; rfl
        have hname : ∀ j, j < s.main.mod_count → (S4.mods j).name = (s.mods j).name := by
          intro j hj
          by_cases hji : j = idx
          · subst hji; rw [h4idx]
          · rw [h4ne j hji, r3 j (by rw [hscmain]; exact hj), hscne j hji]
        have hA := le_SR_SHM_SIZE ((childrenNamed "notification" m.child).length * L.notif)
        have hn4 : NamesLt S4
            (sc.size + SR_SHM_SIZE ((childrenNamed "notification" m.child).length * L.notif)) := by
          intro j hj
          rw [h4main, r2, hscmain] at hj
          rw [hname j hj]
          have := hn j hj
          omega
        have hpos : ∀ k, k < (childrenNamed "notification" m.child).length →
            (if (childrenNamed "notification" m.child).length * L.notif = 0 then 0 else sc.size) = sc.size := by
          intro k hk
          have : 0 < (childrenNamed "notification" m.child).length * L.notif :=
            Nat.mul_pos (by omega) hL.notif
          rw [if_neg (by omega)]
        have hcur := add_module_notifs_fill_cursor L hL.dep _ _ _ _ _ _ _ _ hn4
          (by
            intro a ha
            rw [h4dep, r6, if_neg (by omega)]) hfl
        obtain ⟨hf, hoff, hoth, hpl, hdlt, hdz, hle, hri, hc⟩ :=
          add_module_notifs_fill_spec L hL.dep hL.notif _ _ _ _ _ _ _ _ hn4
            (by
              intro a ha
              rw [h4dep, r6, if_neg (by omega)])
            (by
              intro k _ hk
              rw [hpos k (by omega), h4notif, r8, if_neg (by omega)]) hfl
        simp only [Nat.zero_add] at hri hc hpl
        rw [hf.mods, h4idx] at h
        simp only at h
        split at h
        · cases h
        split at h
        · next hrc hesz =>
          apply hesz
          rw [hf.size, h4size, r1, hscm, hscsize, hcur, hscsize]
          simp only
          omega
        · cases h

theorem fill_module_no_exact {L : Layout} (hL : LayoutOK L) {m : LydNode} {idx : Nat}
    {s st : Shm} (hfit : Fits L s) (hidx : idx < s.main.mod_count) :
    sr_shmmain_fill_module L m idx s ≠ .error (SrErr.Assert AssertId.exact_fit, st) := by
  intro h
  unfold sr_shmmain_fill_module at h
  simp only at h
  split at h
  · next x hx =>
    obtain ⟨r, hr⟩ := fill_module_scan_ok L idx m.child (s.setMod idx { ver := 1 }) none 0
    rw [hr] at hx
    cases hx
  · cases h
  · next s1 name len hscan =>
    obtain ⟨h1size, h1main, _, _, hlen⟩ := fill_module_scan_frame L idx _ _ _ _ _ _ _ hscan
    simp only [setMod_size, setMod_main, Nat.zero_add] at h1size h1main hlen
    have h1fit : Fits L s1 := by
      unfold Fits at hfit ⊢
      rw [h1main, h1size]
      exact hfit
    split at h
    · next x hx =>
      obtain ⟨x1, x2⟩ := x
      simp only [Except.error.injEq, Prod.mk.injEq] at h
      have := remap_err hx
      rw [h.1] at this
      cases this
    · next sr hr =>
      rw [show s1.size + sr_strshmlen name + SR_SHM_SIZE ((s1.mods idx).feat_count * L.off) + len
          = s1.size + (sr_strshmlen name + SR_SHM_SIZE ((s1.mods idx).feat_count * L.off) + len)
          by omega] at hr
      obtain ⟨r1, r2, r3, _⟩ := remap_grow_ok hL h1fit hr
      have hsrm : sr.mods idx = s1.mods idx := r3 idx (by rw [h1main]; exact hidx)
      simp only [sr_shmstrcpy_fst, sr_shmstrcpy_off, sr_shmstrcpy_end, updMod_mods, if_true,
        setStr_mods, sr_shmcpy_fst, sr_shmcpy_snd, hsrm] at h
      generalize hS4 : Shm.updMod (Shm.updMod (Shm.setStr sr _ _) idx _) idx _ = S4 at h
      generalize hfres : fill_module_feats L _ m.child S4 0 _ = f at h
      obtain ⟨s5, fi, e⟩ := f
      simp only at h
      obtain ⟨hf, _, _, _, _, _, he, _⟩ := fill_module_feats_eq L hL.off hfres
      have h4size : S4.size = sr.size := by rw [← hS4]; rfl
      split at h
      · cases h
      split at h
      · next hfc hes =>
        apply hes
        rw [hf.size, h4size, r1, he, hlen]
        omega
      · cases h

theorem store_modules_fill_no_exact {L : Layout} (hL : LayoutOK L) (mc : Nat) :
    ∀ (ms : List LydNode) (i : Nat) (s : Shm) (x : SrErr) (st : Shm),
      Fits L s → s.main.mod_count = mc →
      store_modules_fill L mc ms i s = .error (x, st) → x ≠ SrErr.Assert AssertId.exact_fit := by
  intro ms
  induction ms with
  | nil =>
    intro i s x st _ _ h
    unfold store_modules_fill at h
    split at h
    · simp only [Except.error.injEq, Prod.mk.injEq] at h
      rw [← h.1]; decide
    · cases h
  | cons m ms ih =>
    intro i s x st hfit hmc h
    unfold store_modules_fill at h
    by_cases hi : i < mc
    · rw [if_pos hi] at h
      by_cases hm : m.name = "module"
      · rw [if_pos hm] at h
        split at h
        · next y hy =>
          obtain ⟨y1, y2⟩ := y
          simp only [Except.error.injEq, Prod.mk.injEq] at h
          intro hx
          rw [← h.1] at hx
          subst hx
          exact fill_module_no_exact hL hfit (by rw [hmc]; exact hi) hy
        · next s1 hfm =>
          obtain ⟨f1, f2, _, _⟩ := fill_module_frame hL hfit (by rw [hmc]; exact hi) hfm
          refine ih _ _ _ _ ?_ (by rw [f1, hmc]) h
          unfold Fits at hfit ⊢
          rw [f1]
          omega
      · rw [if_neg hm] at h
        exact ih _ _ _ _ hfit hmc h
    · rw [if_neg hi] at h
      cases h

theorem store_modules_deps_no_exact {L : Layout} (hL : LayoutOK L) (mc : Nat) :
    ∀ (ms : List LydNode) (i : Nat) (s : Shm) (x : SrErr) (st : Shm),
      Fits L s → s.main.mod_count = mc → NamesLt s s.size →
      store_modules_deps L mc ms i s = .error (x, st) → x ≠ SrErr.Assert AssertId.exact_fit := by
  intro ms
  induction ms with
  | nil =>
    intro i s x st _ _ _ h
    unfold store_modules_deps at h
    split at h
    · simp only [Except.error.injEq, Prod.mk.injEq] at h
      rw [← h.1]; decide
    · cases h
  | cons m ms ih =>
    intro i s x st hfit hmc hn h
    unfold store_modules_deps at h
    by_cases hi : i < mc
    · rw [if_pos hi] at h
      by_cases hm : m.name = "module"
      · rw [if_pos hm] at h
        have hidx : i < s.main.mod_count := by rw [hmc]; exact hi
        split at h
        · next y hy =>
          obtain ⟨y1, y2⟩ := y
          simp only [Except.error.injEq, Prod.mk.injEq] at h
          intro hx
          rw [← h.1] at hx
          subst hx
          exact add_module_deps_no_exact hL hfit hidx hn hy
        next sa hpa =>
        obtain ⟨ka, oa, ⟨d1, d2, d3, d4, ea⟩, _⟩ := add_module_deps_spec hL hfit hidx hn hpa
        have ba : ∀ j, j < s.main.mod_count → SameBase (s.mods j) (sa.mods j) :=
          pass_names oa (by rw [ea]; exact ⟨rfl, rfl, rfl, rfl, rfl, rfl⟩)
        have hna : NamesLt sa sa.size :=
          (hn.NamesLt_stable (ka.Keeps_stable (fun j hj => (ba j hj).2.1))).NamesLt_mono ka.size
        have hfa : Fits L sa := ka.Keeps_fits hfit
        have hmca : sa.main.mod_count = mc := by rw [ka.main, hmc]
        have hidxa : i < sa.main.mod_count := by rw [hmca]; exact hi
        split at h
        · next y hy =>
          obtain ⟨y1, y2⟩ := y
          simp only [Except.error.injEq, Prod.mk.injEq] at h
          intro hx
          rw [← h.1] at hx
          subst hx
          exact sr_shmmain_add_module_rpcs_no_exact hL hfa hidxa hna hy
        next sb hpb =>
        obtain ⟨kb, ob, ⟨r1, r2, eb⟩, _⟩ := sr_shmmain_add_module_rpcs_spec hL hfa hidxa hna hpb
        have bb : ∀ j, j < sa.main.mod_count → SameBase (sa.mods j) (sb.mods j) :=
          pass_names ob (by rw [eb]; exact ⟨rfl, rfl, rfl, rfl, rfl, rfl⟩)
        have hnb : NamesLt sb sb.size :=
          (hna.NamesLt_stable (kb.Keeps_stable (fun j hj => (bb j hj).2.1))).NamesLt_mono kb.size
        have hfb : Fits L sb := kb.Keeps_fits hfa
        have hmcb : sb.main.mod_count = mc := by rw [kb.main, hmca]
        have hidxb : i < sb.main.mod_count := by rw [hmcb]; exact hi
        split at h
        · next y hy =>
          obtain ⟨y1, y2⟩ := y
          simp only [Except.error.injEq, Prod.mk.injEq] at h
          intro hx
          rw [← h.1] at hx
          subst hx
          exact sr_shmmain_add_module_notifs_no_exact hL hfb hidxb hnb hy
        next sc hpc =>
        obtain ⟨kc, oc, ⟨n1, n2, ec⟩, _⟩ := sr_shmmain_add_module_notifs_spec hL hfb hidxb hnb hpc
        have bc : ∀ j, j < sb.main.mod_count → SameBase (sb.mods j) (sc.mods j) :=
          pass_names oc (by rw [ec]; exact ⟨rfl, rfl, rfl, rfl, rfl, rfl⟩)
        have hnc : NamesLt sc sc.size :=
          (hnb.NamesLt_stable (kc.Keeps_stable (fun j hj => (bc j hj).2.1))).NamesLt_mono kc.size
        exact ih _ _ _ _ (kc.Keeps_fits hfb) (by rw [kc.main, hmcb]) hnc h
      · rw [if_neg hm] at h
        exact ih _ _ _ _ hfit hmc hn h
    · rw [if_neg hi] at h
      cases h

theorem store_modules_no_exact {L : Layout} (hL : LayoutOK L) (s0 : Shm) (t : List LydNode)
    (st : Shm) :
    sr_shmmain_store_modules L s0 t ≠ .error (SrErr.Assert AssertId.exact_fit, st) := by
  intro h
  unfold sr_shmmain_store_modules at h
  simp only at h
  split at h
  · next x hx =>
    obtain ⟨x1, x2⟩ := x
    simp only [Except.error.injEq, Prod.mk.injEq] at h
    have := remap_err hx
    rw [h.1] at this
    cases this
  next s1 hr =>
  have hsz1 : s1.size = L.hdr + count_modules t * L.mod :=
    remap_size (by have := hL.hdr; omega) hr
  generalize hS2 : ({ s1 with main := { s1.main with mod_count := count_modules t } } : Shm)
    = S2 at h
  have h2size : S2.size = L.hdr + count_modules t * L.mod := by rw [← hS2]; exact hsz1
  have h2mc : S2.main.mod_count = count_modules t := by rw [← hS2]
  have h2fit : Fits L S2 := by
    unfold Fits
    rw [h2mc, h2size]
  split at h
  · next x hx =>
    obtain ⟨x1, x2⟩ := x
    simp only [Except.error.injEq, Prod.mk.injEq] at h
    exact store_modules_fill_no_exact hL _ _ _ _ _ _ h2fit h2mc hx h.1
  next s3 hB =>
  obtain ⟨kB1, kB2, h3n⟩ := store_modules_fill_frame hL (count_modules t) 0 t 0 S2 s3 h2fit h2mc
    (Nat.zero_le _) (fun j hj => absurd hj (Nat.not_lt_zero j)) hB
  have h3mc : s3.main.mod_count = count_modules t := by rw [kB1, h2mc]
  have h3fit : Fits L s3 := by
    unfold Fits at h2fit ⊢
    rw [kB1]
    omega
  have h3n2 : NamesLt s3 s3.size := by
    intro j hj
    rw [h3mc] at hj
    exact (h3n j hj).2
  exact store_modules_deps_no_exact hL _ _ _ _ _ _ h3fit h3mc h3n2 h rfl

/-! ## Arrays read back as lists -/

theorem forall2_range_map {α β : Type} (R : α → β → Prop) (f : Nat → α) (ys : List β) (n : Nat)
    (hn : n = ys.length) (hp : ∀ k y, ys[k]? = some y → R (f k) y) :
    List.Forall₂ R ((List.range n).map f) ys := by
  rw [List.forall₂_iff_get]
  refine ⟨by simp [hn], ?_⟩
  intro i h1 h2
  have hy : ys[i]? = some (ys.get ⟨i, h2⟩) := by
    simp [List.getElem?_eq_getElem h2]
  have := hp i _ hy
  simpa using this

theorem forall2_range {β : Type} (R : Nat → β → Prop) (ys : List β) (n : Nat)
    (hn : n = ys.length) (hp : ∀ k y, ys[k]? = some y → R k y) :
    List.Forall₂ R (List.range n) ys := by
  have := forall2_range_map R id ys n hn hp
  simpa using this

theorem forall2_app {α β : Type} {R : α → β → Prop} {a1 a2 : List α} {b1 b2 : List β}
    (h1 : List.Forall₂ R a1 b1) (h2 : List.Forall₂ R a2 b2) :
    List.Forall₂ R (a1 ++ a2) (b1 ++ b2) := by
  induction h1 with
  | nil => simpa using h2
  | cons h _ ih => exact List.Forall₂.cons h ih

theorem forall2_flatMap {α β γ δ : Type} {R : γ → δ → Prop} {f : α → List γ} {g : β → List δ}
    {xs : List α} {ys : List β}
    (h : List.Forall₂ (fun a b => List.Forall₂ R (f a) (g b)) xs ys) :
    List.Forall₂ R (xs.flatMap f) (ys.flatMap g) := by
  induction h with
  | nil => simp
  | cons h _ ih =>
    simp only [List.flatMap_cons]
    exact forall2_app h ih

theorem forall2_mem_left {α β : Type} {R : α → β → Prop} {xs : List α} {ys : List β}
    (h : List.Forall₂ R xs ys) : ∀ a, a ∈ xs → ∃ b, b ∈ ys ∧ R a b := by
  induction h with
  | nil => intro a ha; simp at ha
  | cons h _ ih =>
    intro a ha
    rcases List.mem_cons.mp ha with rfl | ha
    · exact ⟨_, List.mem_cons_self _ _, h⟩
    · obtain ⟨b, hb, hr⟩ := ih a ha
      exact ⟨b, List.mem_cons_of_mem _ hb, hr⟩

theorem depArr_forall2 {L : Layout} {s : Shm} {lo hi base count : Nat} {G : List LydNode}
    (h : DepArrOK L s lo hi base count G) :
    List.Forall₂ (DepCellOK s lo hi) (depArray L s base count) (depNodes G) :=
  forall2_range_map _ _ _ _ h.1.1 h.2.2

theorem mod_forall2 {L : Layout} {s : Shm} {lo hi : Nat} {i : Nat} {n : LydNode}
    (hd : ModDepsOK L s lo hi (s.mods i) n) (hr : ModRpcsOK L s lo hi (s.mods i) n)
    (hn : ModNotifsOK L s lo hi (s.mods i) n) :
    List.Forall₂ (DepCellOK s lo hi) (modDepRecords L s i) (modDepNodes n) := by
  unfold modDepRecords modDepNodes
  refine forall2_app (forall2_app ?_ ?_) ?_
  · exact forall2_range_map _ _ _ _ hd.1.1 hd.2.2.1
  · apply forall2_flatMap
    refine forall2_range_map _ _ _ _ hr.1 ?_
    intro k r hk
    obtain ⟨_, h1, h2⟩ := hr.2.2 k r hk
    exact forall2_app (depArr_forall2 h1) (depArr_forall2 h2)
  · apply forall2_flatMap
    refine forall2_range_map _ _ _ _ hn.1 ?_
    intro k r hk
    exact depArr_forall2 (hn.2.2 k r hk).2

theorem build_forall2 {L : Layout} (hL : LayoutOK L) {s0 s : Shm} {t : List LydNode}
    (h : sr_shmmain_store_modules L s0 t = .ok s) :
    List.Forall₂ (DepCellOK s (L.hdr + count_modules t * L.mod) s.size)
      (allDepRecords L s) (allDepNodes t) := by
  obtain ⟨hc, _, _, _, hm⟩ := store_modules_late hL h
  unfold allDepRecords allDepNodes
  apply forall2_flatMap
  have hlen : s.main.mod_count = (childrenNamed "module" t).length := by
    rw [hc, count_modules_eq]
  refine forall2_range _ _ _ hlen ?_
  intro k n hk
  obtain ⟨h1, h2, h3⟩ := hm k n hk
  exact mod_forall2 h1 h2 h3

/-- In a built arena every module name offset lies at or past the end of
the module records, hence is not 0. -/
theorem build_names_pos {L : Layout} (hL : LayoutOK L) {s0 s : Shm} {t : List LydNode}
    (h : sr_shmmain_store_modules L s0 t = .ok s) :
    ∀ j, j < s.main.mod_count → L.hdr + count_modules t * L.mod ≤ (s.mods j).name := by
  obtain ⟨_, _, _, hge, _⟩ := store_modules_late hL h
  intro j hj
  exact hge j hj

/-! ## Claims -/

theorem exLayout_ok : LayoutOK exLayout :=
  ⟨by decide, by decide, by decide, by decide, by decide, by decide⟩

/-- C1: on every tree on which `sr_shmmain_store_modules` succeeds, every
non-zero `module` offset of a dependency record (data dependencies of a
module, input and output dependencies of an RPC, dependencies of a
notification) and every inverse-dependency offset is the `name` offset of one
of the `mod_count` module records, and the string at that offset is the module
name the dependency node of the tree names. -/
theorem dep_offsets_resolve {L : Layout} (hL : LayoutOK L) {s0 s : Shm} {t : List LydNode}
    (h : sr_shmmain_store_modules L s0 t = .ok s) :
    List.Forall₂
      (fun c d => c.module ≠ 0 → ∃ v, depModuleName d = some v ∧
        ∃ j, j < s.main.mod_count ∧ (s.mods j).name = c.module ∧ s.str c.module = v)
      (allDepRecords L s) (allDepNodes t) ∧
    ∀ i m, (childrenNamed "module" t)[i]? = some m →
      List.Forall₂
        (fun o d => ∃ j, j < s.main.mod_count ∧ (s.mods j).name = o ∧ s.str o = d.value)
        (offArray L s (s.mods i).inv_deps (s.mods i).inv_dep_count)
        (childrenNamed "inverse-deps" m.child) := by
  refine ⟨(build_forall2 hL h).imp ?_, ?_⟩
  · intro c d hcd hne
    unfold DepCellOK at hcd
    unfold depModuleName
    split at hcd
    · next hm =>
      rw [if_pos hm]
      exact ⟨_, rfl, hcd.2.2.2⟩
    · next hm =>
      rw [if_neg hm]
      obtain ⟨_, _, _, h4, _⟩ := hcd
      split at h4
      · exact absurd h4 hne
      · next v hv => exact ⟨v, hv, h4⟩
  · intro i m hm
    obtain ⟨_, _, _, _, hmods⟩ := store_modules_late hL h
    obtain ⟨hd, _, _⟩ := hmods i m hm
    exact forall2_range_map _ _ _ _ hd.2.2.2.1 hd.2.2.2.2.2

theorem dep_offsets_resolve_witness :
    ∃ s, sr_shmmain_store_modules exLayout exShm exTreeDeps = .ok s ∧
      (allDepRecords exLayout s).map (fun c => s.str c.module) = ["M1"] ∧
      (List.Forall₂
        (fun c d => c.module ≠ 0 → ∃ v, depModuleName d = some v ∧
          ∃ j, j < s.main.mod_count ∧ (s.mods j).name = c.module ∧ s.str c.module = v)
        (allDepRecords exLayout s) (allDepNodes exTreeDeps) ∧
      ∀ i m, (childrenNamed "module" exTreeDeps)[i]? = some m →
        List.Forall₂
          (fun o d => ∃ j, j < s.main.mod_count ∧ (s.mods j).name = o ∧ s.str o = d.value)
          (offArray exLayout s (s.mods i).inv_deps (s.mods i).inv_dep_count)
          (childrenNamed "inverse-deps" m.child)) :=
  ⟨_, rfl, rfl, @dep_offsets_resolve exLayout exLayout_ok exShm _ exTreeDeps rfl⟩

/-- C6: on every tree on which `sr_shmmain_store_modules` succeeds, every
dependency record of type `REF` in the built arena has `module != 0` and
`path == 0`. -/
theorem ref_dep_typing {L : Layout} (hL : LayoutOK L) {s0 s : Shm} {t : List LydNode}
    (h : sr_shmmain_store_modules L s0 t = .ok s) :
    ∀ c, c ∈ allDepRecords L s → c.type = DepType.REF → c.module ≠ 0 ∧ c.path = 0 := by
  intro c hc hty
  obtain ⟨d, _, hcd⟩ := forall2_mem_left (build_forall2 hL h) c hc
  unfold DepCellOK at hcd
  split at hcd
  · exact ⟨hcd.2.2.1, hcd.2.1⟩
  · rw [hcd.1] at hty
    cases hty

theorem ref_dep_typing_witness :
    ∃ s, sr_shmmain_store_modules exLayout exShm exTreeFull = .ok s ∧
      (allDepRecords exLayout s).length = 4 ∧
      ∀ c, c ∈ allDepRecords exLayout s → c.type = DepType.REF → c.module ≠ 0 ∧ c.path = 0 :=
  ⟨_, rfl, rfl, @ref_dep_typing exLayout exLayout_ok exShm _ exTreeFull rfl⟩

/-- C10: `sr_shmmain_find_module` returns the module record with the smallest
index below `mod_count` whose name string equals `name`, and it returns NULL
(`none`) if and only if none of the first `mod_count` records has that name. -/
theorem find_module_smallest (shm : Shm) (name : String) :
    (∀ k, sr_shmmain_find_module shm name = some k ↔
      (k < shm.main.mod_count ∧ shm.str (shm.mods k).name = name ∧
        ∀ j, j < k → shm.str (shm.mods j).name ≠ name)) ∧
    (sr_shmmain_find_module shm name = none ↔
      ∀ j, j < shm.main.mod_count → shm.str (shm.mods j).name ≠ name) := by
  constructor
  · intro k
    constructor
    · exact find_module_some
    · intro ⟨h1, h2, h3⟩
      cases hr : sr_shmmain_find_module shm name with
      | none => exact absurd h2 (find_module_none hr k h1)
      | some k2 =>
        obtain ⟨g1, g2, g3⟩ := find_module_some hr
        rcases Nat.lt_trichotomy k k2 with hlt | heq | hgt
        · exact absurd h2 (g3 k hlt)
        · rw [heq]
        · exact absurd g2 (h3 k2 hgt)
  · constructor
    · exact find_module_none
    · intro hall
      cases hr : sr_shmmain_find_module shm name with
      | none => rfl
      | some k2 =>
        obtain ⟨g1, g2, _⟩ := find_module_some hr
        exact absurd g2 (hall k2 g1)

/-- C5: exact fit.  No build ever fails the final assertion
`shm_end == addr + size` of a sub-pass, and none of the four sub-passes
(`sr_shmmain_fill_module`, `sr_shmmain_add_module_deps`,
`sr_shmmain_add_module_rpcs`, `sr_shmmain_add_module_notifs`) fails it on an
arena that holds the module records, whatever the tree: whenever the copy
pass runs to its end, the bytes it appended are the bytes the counting pass
reserved. -/
theorem sub_pass_exact_fit {L : Layout} (hL : LayoutOK L) :
    (∀ s0 t st,
      sr_shmmain_store_modules L s0 t ≠ .error (SrErr.Assert AssertId.exact_fit, st)) ∧
    (∀ sr_mod idx s st, Fits L s → idx < s.main.mod_count →
      sr_shmmain_fill_module L sr_mod idx s ≠ .error (SrErr.Assert AssertId.exact_fit, st)) ∧
    (∀ sr_mod idx s st, Fits L s → idx < s.main.mod_count → NamesLt s s.size →
      sr_shmmain_add_module_deps L sr_mod idx s
        ≠ .error (SrErr.Assert AssertId.exact_fit, st) ∧
      sr_shmmain_add_module_rpcs L sr_mod idx s
        ≠ .error (SrErr.Assert AssertId.exact_fit, st) ∧
      sr_shmmain_add_module_notifs L sr_mod idx s
        ≠ .error (SrErr.Assert AssertId.exact_fit, st)) :=
  ⟨fun s0 t st => store_modules_no_exact hL s0 t st,
   fun _ _ _ _ hf hi => fill_module_no_exact hL hf hi,
   fun _ _ _ _ hf hi hn =>
    ⟨add_module_deps_no_exact hL hf hi hn, sr_shmmain_add_module_rpcs_no_exact hL hf hi hn,
      sr_shmmain_add_module_notifs_no_exact hL hf hi hn⟩⟩

theorem sub_pass_exact_fit_witness :
    (∃ s, sr_shmmain_store_modules exLayout exShm exTreeFull = .ok s ∧ s.size = 696) ∧
    (∃ s, sr_shmmain_fill_module exLayout exModNode 0 exShmOne = .ok s) ∧
    (∃ s, sr_shmmain_add_module_deps exLayout exModNode 0 exShmOne = .ok s) ∧
    (∃ s, sr_shmmain_add_module_rpcs exLayout exModNode 0 exShmOne = .ok s) ∧
    (∃ s, sr_shmmain_add_module_notifs exLayout exModNode 0 exShmOne = .ok s) ∧
    sr_shmmain_store_modules exLayout exShm exTreeFull
      ≠ .error (SrErr.Assert AssertId.exact_fit, exShm) ∧
    sr_shmmain_fill_module exLayout exModNode 0 exShmOne
      ≠ .error (SrErr.Assert AssertId.exact_fit, exShm) ∧
    (sr_shmmain_add_module_deps exLayout exModNode 0 exShmOne
        ≠ .error (SrErr.Assert AssertId.exact_fit, exShm) ∧
      sr_shmmain_add_module_rpcs exLayout exModNode 0 exShmOne
        ≠ .error (SrErr.Assert AssertId.exact_fit, exShm) ∧
      sr_shmmain_add_module_notifs exLayout exModNode 0 exShmOne
        ≠ .error (SrErr.Assert AssertId.exact_fit, exShm)) :=
  ⟨⟨_, rfl, rfl⟩, ⟨_, rfl⟩, ⟨_, rfl⟩, ⟨_, rfl⟩, ⟨_, rfl⟩,
   (sub_pass_exact_fit exLayout_ok).1 exShm exTreeFull exShm,
   (sub_pass_exact_fit exLayout_ok).2.1 exModNode 0 exShmOne exShm (by unfold Fits; decide) (by decide),
   (sub_pass_exact_fit exLayout_ok).2.2 exModNode 0 exShmOne exShm (by unfold Fits; decide) (by decide)
     (fun _ _ => Nat.succ_pos 263)⟩

/-- C7, counterexample: the build of a module whose `inst-id` dependency has
a `default-module` child and no `path` child succeeds, and its only
dependency record has type `INSTID` and `path == 0`. -/
theorem instid_path_zero_example :
    ∃ s, sr_shmmain_store_modules exLayout exShm exTreeInstid = .ok s ∧
      ¬ ∀ c, c ∈ allDepRecords exLayout s → c.type = DepType.INSTID → c.path ≠ 0 :=
  ⟨_, rfl, fun hall => hall _ (List.Mem.head _) rfl rfl⟩

/-- C7, amended: on every tree on which `sr_shmmain_store_modules` succeeds,
every dependency record of type `INSTID` has `module != 0` or `path != 0`;
its path is non-zero exactly when its `inst-id` node has a `path` child, and
its module offset is non-zero exactly when the node has a `default-module`
child. -/
theorem instid_dep_typing {L : Layout} (hL : LayoutOK L) {s0 s : Shm} {t : List LydNode}
    (h : sr_shmmain_store_modules L s0 t = .ok s) :
    List.Forall₂
      (fun c d => c.type = DepType.INSTID →
        (c.module ≠ 0 ∨ c.path ≠ 0) ∧
        (c.path ≠ 0 ↔ lastValue "path" d.child ≠ none) ∧
        (c.module ≠ 0 ↔ lastValue "default-module" d.child ≠ none))
      (allDepRecords L s) (allDepNodes t) := by
  have hpos := build_names_pos hL h
  refine (build_forall2 hL h).imp ?_
  intro c d hcd hty
  unfold DepCellOK at hcd
  split at hcd
  · rw [hcd.1] at hty
    cases hty
  · obtain ⟨_, h2, h3, h4, _⟩ := hcd
    refine ⟨h2, ?_, ?_⟩
    · split at h3
      · next hv => simp [hv, h3]
      · next v hv =>
        have := hL.hdr
        simp only [hv, ne_eq, not_false_eq_true, iff_true, reduceCtorEq]
        omega
    · split at h4
      · next hv => simp [hv, h4]
      · next v hv =>
        obtain ⟨j, hj, hn, _⟩ := h4
        have := hpos j hj
        have := hL.hdr
        simp only [hv, ne_eq, not_false_eq_true, iff_true, reduceCtorEq]
        omega

theorem instid_dep_typing_witness :
    ∃ s, sr_shmmain_store_modules exLayout exShm exTreeFull = .ok s ∧
      (allDepRecords exLayout s).map (fun c => (c.module, c.path)) =
        [(488, 0), (464, 0), (464, 632), (464, 0)] ∧
      List.Forall₂
        (fun c d => c.type = DepType.INSTID →
          (c.module ≠ 0 ∨ c.path ≠ 0) ∧
          (c.path ≠ 0 ↔ lastValue "path" d.child ≠ none) ∧
          (c.module ≠ 0 ↔ lastValue "default-module" d.child ≠ none))
        (allDepRecords exLayout s) (allDepNodes exTreeFull) :=
  ⟨_, rfl, rfl, @instid_dep_typing exLayout exLayout_ok exShm _ exTreeFull rfl⟩

/-- C9, counterexample: the build of two module nodes with the same name
succeeds and leaves two records with the same name string. -/
theorem same_name_example :
    ∃ s, sr_shmmain_store_modules exLayout exShm exTreeDup = .ok s ∧
      ¬ ∀ i j, i < s.main.mod_count → j < s.main.mod_count → i ≠ j →
        s.str (s.mods i).name ≠ s.str (s.mods j).name :=
  ⟨_, rfl, fun hall => hall 0 1 (by decide) (by decide) (by decide) rfl⟩

/-- C9, amended: for every arena built by `sr_shmmain_store_modules` from a
tree whose module nodes have pairwise different names and revisions that fit
the `rev` member, the name strings of any two different module records below
`mod_count` differ. -/
theorem names_unique_of_tree {L : Layout} (hL : LayoutOK L) {s0 s : Shm} {t : List LydNode}
    (h : sr_shmmain_store_modules L s0 t = .ok s) (hrev : RevsFit L t)
    (hnd : ((childrenNamed "module" t).map fun m => lastValue "name" m.child).Nodup) :
    ∀ i j, i < s.main.mod_count → j < s.main.mod_count → i ≠ j →
      s.str (s.mods i).name ≠ s.str (s.mods j).name := by
  obtain ⟨hc, _, _, hm⟩ := store_modules_spec hL hrev h
  intro i j hi hj hij heq
  rw [hc, count_modules_eq] at hi hj
  obtain ⟨⟨_, ⟨vi, hvi, _, _, hsi⟩, _⟩, _⟩ := hm i _ (List.getElem?_eq_getElem hi)
  obtain ⟨⟨_, ⟨vj, hvj, _, _, hsj⟩, _⟩, _⟩ := hm j _ (List.getElem?_eq_getElem hj)
  have hv : vi = vj := by rw [← hsi, ← hsj, heq]
  have hi2 : i < ((childrenNamed "module" t).map fun m => lastValue "name" m.child).length := by
    simpa using hi
  have hj2 : j < ((childrenNamed "module" t).map fun m => lastValue "name" m.child).length := by
    simpa using hj
  have := (@List.Nodup.getElem_inj_iff _ _ hnd i hi2 j hj2).mp (by
    simp only [List.getElem_map]
    rw [hvi, hvj, hv])
  exact hij this

theorem names_unique_of_tree_witness :
    ∃ s, sr_shmmain_store_modules exLayout exShm exTreeFull = .ok s ∧
      s.str (s.mods 0).name = "M1" ∧ s.str (s.mods 1).name = "M2" ∧
      ∀ i j, i < s.main.mod_count → j < s.main.mod_count → i ≠ j →
        s.str (s.mods i).name ≠ s.str (s.mods j).name :=
  ⟨_, rfl, rfl, rfl,
    @names_unique_of_tree exLayout exLayout_ok exShm _ exTreeFull rfl (by decide) (by decide)⟩

theorem find_rpc_loop_some (L : Layout) (s : Shm) (base : Nat) (p : String) :
    ∀ (n i off : Nat), find_rpc_loop L s base p n i = some off →
      ∃ k, i ≤ k ∧ k < i + n ∧ off = base + k * L.rpc ∧
        s.str (s.rpc (base + k * L.rpc)).path = p ∧
        ∀ j, i ≤ j → j < k → s.str (s.rpc (base + j * L.rpc)).path ≠ p := by
  intro n
  induction n with
  | zero => intro i off h; simp [find_rpc_loop] at h
  | succ n ih =>
    intro i off h
    unfold find_rpc_loop at h
    split at h
    · next hp =>
      cases h
      exact ⟨i, Nat.le_refl _, by omega, rfl, hp, fun j h1 h2 => by omega⟩
    · next hp =>
      obtain ⟨k, h1, h2, h3, h4, h5⟩ := ih _ _ h
      refine ⟨k, by omega, by omega, h3, h4, ?_⟩
      intro j hj1 hj2
      by_cases hji : j = i
      · rw [hji]; exact hp
      · exact h5 j (by omega) hj2

theorem find_rpc_loop_none (L : Layout) (s : Shm) (base : Nat) (p : String) :
    ∀ (n i : Nat), find_rpc_loop L s base p n i = none →
      ∀ j, i ≤ j → j < i + n → s.str (s.rpc (base + j * L.rpc)).path ≠ p := by
  intro n
  induction n with
  | zero => intro i _ j h1 h2; omega
  | succ n ih =>
    intro i h j h1 h2
    unfold find_rpc_loop at h
    split at h
    · cases h
    · next hp =>
      by_cases hji : j = i
      · rw [hji]; exact hp
      · exact ih _ h j (by omega) (by omega)

theorem find_module_of_first {shm : Shm} {name : String} {k : Nat}
    (h1 : k < shm.main.mod_count) (h2 : shm.str (shm.mods k).name = name)
    (h3 : ∀ j, j < k → shm.str (shm.mods j).name ≠ name) :
    sr_shmmain_find_module shm name = some k := by
  cases hr : sr_shmmain_find_module shm name with
  | none => exact absurd h2 (find_module_none hr k h1)
  | some k2 =>
    obtain ⟨_, g2, g3⟩ := find_module_some hr
    rcases Nat.lt_trichotomy k k2 with hlt | heq | hgt
    · exact absurd h2 (g3 k hlt)
    · rw [heq]
    · exact absurd g2 (h3 k2 hgt)

theorem ref_cell_resolves {s : Shm} {lo hi : Nat} {c : SrDep} {d : LydNode}
    (h : DepCellOK s lo hi c d) (hty : c.type = DepType.REF) :
    ∃ j, j < s.main.mod_count ∧ (s.mods j).name = c.module ∧ s.str c.module = d.value := by
  unfold DepCellOK at h
  split at h
  · exact h.2.2.2
  · rw [h.1] at hty
    cases hty

/-- C3, counterexample: one module `A` with two RPC nodes of the path
`/A:r`, the second with one dependency under its `in` container.  The build
succeeds and `sr_shmmain_find_rpc` returns, for `/A:r`, the record of the
first node: its path is `/A:r` and its `in_dep_count` is 0, not 1. -/
theorem find_rpc_twice_example :
    ∃ s, sr_shmmain_store_modules exLayout exShm exTreeRpcTwice = .ok s ∧
      (∃ m r, m ∈ childrenNamed "module" exTreeRpcTwice ∧
        lastValue "name" m.child = exFirstNs "/A:r" ∧
        r ∈ childrenNamed "rpc" m.child ∧ lastValue "path" r.child = some "/A:r" ∧
        (depNodes (grandChildren "in" r.child)).length = 1) ∧
      ∃ off, sr_shmmain_find_rpc exLayout exFirstNs s "/A:r" = .ok (some off) ∧
        s.str (s.rpc off).path = "/A:r" ∧ (s.rpc off).in_dep_count = 0 :=
  ⟨_, rfl, ⟨_, _, List.Mem.head _, by decide, List.Mem.tail _ (List.Mem.head _), rfl, rfl⟩,
    _, rfl, rfl, rfl⟩

/-- C3, amended: on every tree whose revisions fit the `rev` member and on
which `sr_shmmain_store_modules` succeeds, for every rpc node with path `p`
under the module whose name is the first namespace of `p` (no module node in
front of it has that name), `sr_shmmain_find_rpc(p)` returns the first RPC
record of that module whose path string equals `p`; its `in_dep_count` and
`out_dep_count` equal the numbers of dependencies under the `in` and `out`
containers of the rpc node stored in that record, and the module offsets of
its `REF` dependencies resolve to the module names those dependencies name. -/
theorem find_rpc_of_built {L : Layout} (hL : LayoutOK L) {s0 s : Shm} {t : List LydNode}
    (h : sr_shmmain_store_modules L s0 t = .ok s) (hrev : RevsFit L t)
    (first_ns : String → Option String)
    {i k : Nat} {m r : LydNode} {nm p : String}
    (hm : (childrenNamed "module" t)[i]? = some m)
    (hnm : lastValue "name" m.child = some nm)
    (hfirst : ∀ i2 m2, i2 < i → (childrenNamed "module" t)[i2]? = some m2 →
      lastValue "name" m2.child ≠ some nm)
    (hr : (childrenNamed "rpc" m.child)[k]? = some r)
    (hp : lastValue "path" r.child = some p)
    (hns : first_ns p = some nm) :
    ∃ k2 r2, k2 ≤ k ∧ (childrenNamed "rpc" m.child)[k2]? = some r2 ∧
      sr_shmmain_find_rpc L first_ns s p = .ok (some ((s.mods i).rpcs + k2 * L.rpc)) ∧
      s.str (s.rpc ((s.mods i).rpcs + k2 * L.rpc)).path = p ∧
      (∀ j, j < k2 → s.str (s.rpc ((s.mods i).rpcs + j * L.rpc)).path ≠ p) ∧
      (s.rpc ((s.mods i).rpcs + k2 * L.rpc)).in_dep_count
        = (depNodes (grandChildren "in" r2.child)).length ∧
      (s.rpc ((s.mods i).rpcs + k2 * L.rpc)).out_dep_count
        = (depNodes (grandChildren "out" r2.child)).length ∧
      List.Forall₂
        (fun c d => c.type = DepType.REF →
          ∃ j, j < s.main.mod_count ∧ (s.mods j).name = c.module ∧ s.str c.module = d.value)
        (depArray L s (s.rpc ((s.mods i).rpcs + k2 * L.rpc)).in_deps
          (s.rpc ((s.mods i).rpcs + k2 * L.rpc)).in_dep_count)
        (depNodes (grandChildren "in" r2.child)) ∧
      List.Forall₂
        (fun c d => c.type = DepType.REF →
          ∃ j, j < s.main.mod_count ∧ (s.mods j).name = c.module ∧ s.str c.module = d.value)
        (depArray L s (s.rpc ((s.mods i).rpcs + k2 * L.rpc)).out_deps
          (s.rpc ((s.mods i).rpcs + k2 * L.rpc)).out_dep_count)
        (depNodes (grandChildren "out" r2.child)) := by
  obtain ⟨hc, _, _, hmods⟩ := store_modules_spec hL hrev h
  have hlen : s.main.mod_count = (childrenNamed "module" t).length := by
    rw [hc, count_modules_eq]
  have hi : i < (childrenNamed "module" t).length := (List.getElem?_eq_some_iff.mp hm).1
  obtain ⟨⟨_, ⟨v, hv, _, _, hstr⟩, _⟩, _, hrp, _⟩ := hmods i m hm
  have hvn : v = nm := by
    rw [hnm] at hv
    exact (Option.some.inj hv).symm
  -- the module found is record `i`
  have hfm : sr_shmmain_find_module s nm = some i := by
    apply find_module_of_first (by omega) (by rw [hstr, hvn])
    intro j hj hjs
    have hj2 : j < (childrenNamed "module" t).length := by omega
    obtain ⟨⟨_, ⟨v2, hv2, _, _, hstr2⟩, _⟩, _⟩ := hmods j _ (List.getElem?_eq_getElem hj2)
    apply hfirst j _ hj (List.getElem?_eq_getElem hj2)
    rw [hv2, ← hstr2, hjs]
  -- record `k` of its RPC array has the path `p`
  have hk : k < (childrenNamed "rpc" m.child).length := (List.getElem?_eq_some_iff.mp hr).1
  have hkp : s.str (s.rpc ((s.mods i).rpcs + k * L.rpc)).path = p := by
    have h1 := (hrp.2.2 k r hr).1
    unfold PathOK at h1
    rw [hp] at h1
    exact h1.2.2
  have hfr : sr_shmmain_find_rpc L first_ns s p
      = .ok (find_rpc_loop L s (s.mods i).rpcs p (s.mods i).rpc_count 0) := by
    unfold sr_shmmain_find_rpc
    simp only [hns, hfm]
  cases hloop : find_rpc_loop L s (s.mods i).rpcs p (s.mods i).rpc_count 0 with
  | none =>
    exact absurd hkp
      (find_rpc_loop_none L s _ p _ _ hloop k (Nat.zero_le _) (by rw [hrp.1]; omega))
  | some off =>
    obtain ⟨k2, _, g2, g3, g4, g5⟩ := find_rpc_loop_some L s _ p _ _ _ hloop
    have hk2 : k2 < (childrenNamed "rpc" m.child).length := by rw [hrp.1] at g2; omega
    have hle : k2 ≤ k := by
      by_contra hgt
      exact g5 k (Nat.zero_le _) (by omega) hkp
    obtain ⟨_, hin, hout⟩ := hrp.2.2 k2 _ (List.getElem?_eq_getElem hk2)
    refine ⟨k2, _, hle, List.getElem?_eq_getElem hk2, ?_, g4,
      fun j hj => g5 j (Nat.zero_le _) hj, hin.1.1, hout.1.1, ?_, ?_⟩
    · rw [hfr, hloop, g3]
    · exact (depArr_forall2 hin).imp fun _ _ hcd hty => ref_cell_resolves hcd hty
    · exact (depArr_forall2 hout).imp fun _ _ hcd hty => ref_cell_resolves hcd hty

theorem find_rpc_of_built_witness :
    ∃ s, sr_shmmain_store_modules exLayout exShm exTreeFull = .ok s ∧
      (∃ off, sr_shmmain_find_rpc exLayout exFirstNs s "/M1:r" = .ok (some off) ∧
        s.str (s.rpc off).path = "/M1:r" ∧ (s.rpc off).in_dep_count = 1 ∧
        s.str (s.dep (s.rpc off).in_deps).module = "M2") ∧
      ∃ m, (childrenNamed "module" exTreeFull)[0]? = some m ∧
      ∃ k2 r2, k2 ≤ 0 ∧ (childrenNamed "rpc" m.child)[k2]? = some r2 ∧
      sr_shmmain_find_rpc exLayout exFirstNs s "/M1:r" = .ok (some ((s.mods 0).rpcs + k2 * exLayout.rpc)) ∧
      s.str (s.rpc ((s.mods 0).rpcs + k2 * exLayout.rpc)).path = "/M1:r" ∧
      (∀ j, j < k2 → s.str (s.rpc ((s.mods 0).rpcs + j * exLayout.rpc)).path ≠ "/M1:r") ∧
      (s.rpc ((s.mods 0).rpcs + k2 * exLayout.rpc)).in_dep_count
        = (depNodes (grandChildren "in" r2.child)).length ∧
      (s.rpc ((s.mods 0).rpcs + k2 * exLayout.rpc)).out_dep_count
        = (depNodes (grandChildren "out" r2.child)).length ∧
      List.Forall₂
        (fun c d => c.type = DepType.REF →
          ∃ j, j < s.main.mod_count ∧ (s.mods j).name = c.module ∧ s.str c.module = d.value)
        (depArray exLayout s (s.rpc ((s.mods 0).rpcs + k2 * exLayout.rpc)).in_deps
          (s.rpc ((s.mods 0).rpcs + k2 * exLayout.rpc)).in_dep_count)
        (depNodes (grandChildren "in" r2.child)) ∧
      List.Forall₂
        (fun c d => c.type = DepType.REF →
          ∃ j, j < s.main.mod_count ∧ (s.mods j).name = c.module ∧ s.str c.module = d.value)
        (depArray exLayout s (s.rpc ((s.mods 0).rpcs + k2 * exLayout.rpc)).out_deps
          (s.rpc ((s.mods 0).rpcs + k2 * exLayout.rpc)).out_dep_count)
        (depNodes (grandChildren "out" r2.child)) :=
  ⟨_, rfl, ⟨_, rfl, rfl, rfl, rfl⟩, _, rfl,
    @find_rpc_of_built exLayout exLayout_ok exShm _ exTreeFull rfl (by decide) exFirstNs 0 0 _ _
      "M1" "/M1:r"
      rfl rfl (fun _ _ hi2 _ => absurd hi2 (Nat.not_lt_zero _)) rfl rfl (by decide)⟩

theorem find_rpc_loop_of_first {L : Layout} {s : Shm} {base : Nat} {p : String} {n k : Nat}
    (h1 : k < n) (h2 : s.str (s.rpc (base + k * L.rpc)).path = p)
    (h3 : ∀ j, j < k → s.str (s.rpc (base + j * L.rpc)).path ≠ p) :
    find_rpc_loop L s base p n 0 = some (base + k * L.rpc) := by
  cases hr : find_rpc_loop L s base p n 0 with
  | none => exact absurd h2 (find_rpc_loop_none L s base p n 0 hr k (Nat.zero_le _) (by omega))
  | some off =>
    obtain ⟨k2, _, g2, g3, g4, g5⟩ := find_rpc_loop_some L s base p n 0 off hr
    rcases Nat.lt_trichotomy k k2 with hlt | heq | hgt
    · exact absurd h2 (g5 k (Nat.zero_le _) hlt)
    · rw [g3, heq]
    · exact absurd g4 (h3 k2 hgt)

/-- C11: `sr_shmmain_find_rpc(main_shm, path)` looks the module named by the
first namespace of `path` up with `sr_shmmain_find_module`.  It returns NULL
when there is no such module; otherwise it returns the first of the
`rpc_count` RPC records of that module whose path string equals `path`, NULL
if and only if none of them has that path, and so never a record of another
module's array. -/
theorem find_rpc_first (L : Layout) (first_ns : String → Option String) (s : Shm)
    (path nm : String) (hns : first_ns path = some nm) :
    (sr_shmmain_find_module s nm = none →
      sr_shmmain_find_rpc L first_ns s path = .ok none) ∧
    ∀ j, sr_shmmain_find_module s nm = some j →
      (∀ off, sr_shmmain_find_rpc L first_ns s path = .ok (some off) ↔
        ∃ k, k < (s.mods j).rpc_count ∧ off = (s.mods j).rpcs + k * L.rpc ∧
          s.str (s.rpc ((s.mods j).rpcs + k * L.rpc)).path = path ∧
          ∀ k2, k2 < k → s.str (s.rpc ((s.mods j).rpcs + k2 * L.rpc)).path ≠ path) ∧
      (sr_shmmain_find_rpc L first_ns s path = .ok none ↔
        ∀ k, k < (s.mods j).rpc_count →
          s.str (s.rpc ((s.mods j).rpcs + k * L.rpc)).path ≠ path) := by
  constructor
  · intro hm
    unfold sr_shmmain_find_rpc
    simp only [hns, hm]
  · intro j hm
    have hfr : sr_shmmain_find_rpc L first_ns s path
        = .ok (find_rpc_loop L s (s.mods j).rpcs path (s.mods j).rpc_count 0) := by
      unfold sr_shmmain_find_rpc
      simp only [hns, hm]
    rw [hfr]
    constructor
    · intro off
      constructor
      · intro h
        have h2 : find_rpc_loop L s (s.mods j).rpcs path (s.mods j).rpc_count 0 = some off := by
          injection h
        obtain ⟨k, _, g2, g3, g4, g5⟩ := find_rpc_loop_some L s _ path _ _ _ h2
        exact ⟨k, by omega, g3, g4, fun k2 hk2 => g5 k2 (Nat.zero_le _) hk2⟩
      · intro ⟨k, h1, h2, h3, h4⟩
        rw [find_rpc_loop_of_first h1 h3 h4, h2]
    · constructor
      · intro h k hk
        have h2 : find_rpc_loop L s (s.mods j).rpcs path (s.mods j).rpc_count 0 = none := by
          injection h
        exact find_rpc_loop_none L s _ path _ _ h2 k (Nat.zero_le _) (by omega)
      · intro hall
        cases hr : find_rpc_loop L s (s.mods j).rpcs path (s.mods j).rpc_count 0 with
        | none => rfl
        | some off =>
          obtain ⟨k, _, g2, _, g4, _⟩ := find_rpc_loop_some L s _ path _ _ _ hr
          exact absurd g4 (hall k (by omega))

theorem find_rpc_first_witness :
    ∃ s, sr_shmmain_store_modules exLayout exShm exTreeFull = .ok s ∧
      exFirstNs "/M1:r" = some "M1" ∧ sr_shmmain_find_module s "M1" = some 0 ∧
      (s.mods 0).rpc_count = 1 ∧
      sr_shmmain_find_rpc exLayout exFirstNs s "/M1:r" = .ok (some (s.mods 0).rpcs) ∧
      ((sr_shmmain_find_module s "M1" = none →
        sr_shmmain_find_rpc exLayout exFirstNs s "/M1:r" = .ok none) ∧
      ∀ j, sr_shmmain_find_module s "M1" = some j →
        (∀ off, sr_shmmain_find_rpc exLayout exFirstNs s "/M1:r" = .ok (some off) ↔
          ∃ k, k < (s.mods j).rpc_count ∧ off = (s.mods j).rpcs + k * exLayout.rpc ∧
            s.str (s.rpc ((s.mods j).rpcs + k * exLayout.rpc)).path = "/M1:r" ∧
            ∀ k2, k2 < k →
              s.str (s.rpc ((s.mods j).rpcs + k2 * exLayout.rpc)).path ≠ "/M1:r") ∧
        (sr_shmmain_find_rpc exLayout exFirstNs s "/M1:r" = .ok none ↔
          ∀ k, k < (s.mods j).rpc_count →
            s.str (s.rpc ((s.mods j).rpcs + k * exLayout.rpc)).path ≠ "/M1:r")) :=
  ⟨_, rfl, by decide, rfl, rfl, rfl,
    find_rpc_first exLayout exFirstNs _ "/M1:r" "M1" (by decide)⟩

/-! ## What a failing step leaves behind -/

theorem Grown_refl (s : Shm) : Grown s s := ⟨rfl, Nat.le_refl _⟩

theorem Grown_trans {a b c : Shm} (h1 : Grown a b) (h2 : Grown b c) : Grown a c :=
  ⟨h2.1.trans h1.1, Nat.le_trans h1.2 h2.2⟩

theorem fill_deps_instid_grown (cell : Nat) :
    ∀ cs s e, Grown s (arenaOf Prod.fst (fill_deps_instid cell cs s e)) := by
  intro cs
  induction cs with
  | nil => intro s e; exact Grown_refl s
  | cons c cs ih =>
    intro s e
    unfold fill_deps_instid
    split
    · exact Grown_trans ⟨rfl, Nat.le_refl _⟩ (ih _ _)
    · split
      · split
        · exact Grown_refl s
        · exact Grown_trans ⟨rfl, Nat.le_refl _⟩ (ih _ _)
      · exact ih _ _

theorem fill_deps_loop_grown (L : Layout) (shm_deps : Nat) :
    ∀ ds s dep_i e, Grown s (arenaOf Prod.fst (fill_deps_loop L shm_deps ds s dep_i e)) := by
  intro ds
  induction ds with
  | nil => intro s dep_i e; exact Grown_refl s
  | cons d ds ih =>
    intro s dep_i e
    unfold fill_deps_loop
    simp only
    split
    · split
      · exact ⟨rfl, Nat.le_refl _⟩
      · split
        · exact ⟨rfl, Nat.le_refl _⟩
        · exact Grown_trans ⟨rfl, Nat.le_refl _⟩ (ih _ _ _)
    · split
      · have h1 := fill_deps_instid_grown (shm_deps + dep_i * L.dep) d.child
          (s.setDep (shm_deps + dep_i * L.dep)
            { s.dep (shm_deps + dep_i * L.dep) with type := DepType.INSTID, module := 0 }) e
        split
        · next x hx =>
          rw [hx] at h1
          exact Grown_trans ⟨rfl, Nat.le_refl _⟩ h1
        · next s2 e1 hx =>
          rw [hx] at h1
          have h2 : Grown s s2 := Grown_trans ⟨rfl, Nat.le_refl _⟩ h1
          split
          · exact h2
          · exact Grown_trans h2 (ih _ _ _)
      · exact ih _ _ _

theorem fill_deps_grown (L : Layout) (s : Shm) (p : LydNode) (shm_deps dep_i e : Nat) :
    Grown s (arenaOf Prod.fst (sr_shmmain_fill_deps L s p shm_deps dep_i e)) := by
  unfold sr_shmmain_fill_deps
  split
  · exact Grown_refl s
  · exact fill_deps_loop_grown L shm_deps _ _ _ _

theorem remap_err_state {L : Layout} {s : Shm} {n : Nat} {y : SrErr × Shm}
    (h : sr_shm_remap L s n = .error y) : y = (SrErr.NoMem, s) := by
  unfold sr_shm_remap at h
  simp only at h
  by_cases hc : L.cap < (if n = 0 then s.size else n)
  · rw [if_pos hc] at h
    simp only [Except.error.injEq] at h
    exact h.symm
  · rw [if_neg hc] at h
    cases h

theorem remap_grown {L : Layout} {s : Shm} (hs : 0 < s.size) (x : Nat) :
    Grown s (arenaOf id (sr_shm_remap L s (s.size + x))) := by
  cases hr : sr_shm_remap L s (s.size + x) with
  | error y =>
    rw [remap_err_state hr]
    exact Grown_refl s
  | ok s2 =>
    obtain ⟨h1, h2, _⟩ := remap_grow hr
    rw [if_pos hs] at h2
    exact ⟨h2, by show s.size ≤ s2.size; omega⟩

theorem fill_module_scan_grown (L : Layout) (idx : Nat) :
    ∀ cs s name len, Grown s (arenaOf Prod.fst (fill_module_scan L idx cs s name len)) := by
  intro cs
  induction cs with
  | nil => intro s name len; exact Grown_refl s
  | cons c cs ih =>
    intro s name len
    unfold fill_module_scan
    split
    · exact ih _ _ _
    · split
      · obtain ⟨q1, q2, _⟩ := strcpy_rev_frame L idx c.value s
        exact Grown_trans ⟨q2, Nat.le_of_eq q1.symm⟩ (ih _ _ _)
      · split
        · exact Grown_trans ⟨rfl, Nat.le_refl _⟩ (ih _ _ _)
        · split
          · exact Grown_trans ⟨rfl, Nat.le_refl _⟩ (ih _ _ _)
          · exact ih _ _ _

theorem fill_module_feats_grown (L : Layout) (sf : Nat) :
    ∀ cs s feat_i e, Grown s (fill_module_feats L sf cs s feat_i e).1 := by
  intro cs
  induction cs with
  | nil => intro s feat_i e; exact Grown_refl s
  | cons c cs ih =>
    intro s feat_i e
    unfold fill_module_feats
    split
    · exact Grown_trans ⟨rfl, Nat.le_refl _⟩ (ih _ _ _)
    · exact ih _ _ _

theorem fill_module_grown (L : Layout) (m : LydNode) (idx : Nat) (s : Shm) (hs : 0 < s.size) :
    Grown s (arenaOf id (sr_shmmain_fill_module L m idx s)) := by
  unfold sr_shmmain_fill_module
  simp only
  have h0 : Grown s (s.setMod idx { ver := 1 }) := ⟨rfl, Nat.le_refl _⟩
  have h1 := fill_module_scan_grown L idx m.child (s.setMod idx { ver := 1 }) none 0
  split
  · next x hx =>
    rw [hx] at h1
    exact Grown_trans h0 h1
  · next s1 _ hx =>
    rw [hx] at h1
    exact Grown_trans h0 h1
  · next s1 name len hx =>
    rw [hx] at h1
    have h2 : Grown s s1 := Grown_trans h0 h1
    have hs1 : 0 < s1.size := Nat.lt_of_lt_of_le hs h2.2
    have h3 := @remap_grown L s1 hs1 (sr_strshmlen name
        + SR_SHM_SIZE ((s1.mods idx).feat_count * L.off) + len)
    simp only [← Nat.add_assoc] at h3
    split
    · next x hx2 =>
      rw [hx2] at h3
      exact Grown_trans h2 h3
    · next s2 hx2 =>
      rw [hx2] at h3
      have h4 : Grown s s2 := Grown_trans h2 h3
      split
      · exact Grown_trans h4 (Grown_trans ⟨rfl, Nat.le_refl _⟩ (fill_module_feats_grown _ _ _ _ _ _))
      · split
        · exact Grown_trans h4 (Grown_trans ⟨rfl, Nat.le_refl _⟩ (fill_module_feats_grown _ _ _ _ _ _))
        · exact Grown_trans h4 (Grown_trans ⟨rfl, Nat.le_refl _⟩ (fill_module_feats_grown _ _ _ _ _ _))

theorem grown_of_error {α β : Type} {g : α → Shm} {g2 : β → Shm} {r : Res α} {x : SrErr × Shm}
    {s0 : Shm} (h : Grown s0 (arenaOf g r)) (hx : r = .error x) :
    Grown s0 (arenaOf g2 (.error x)) := by
  subst hx
  obtain ⟨a, b⟩ := x
  exact h

theorem grown_of_ok {α : Type} {g : α → Shm} {r : Res α} {y : α} {s0 : Shm}
    (h : Grown s0 (arenaOf g r)) (hx : r = .ok y) : Grown s0 (g y) := by
  subst hx
  exact h

theorem add_module_deps_count_grown (idx : Nat) :
    ∀ cs s p, Grown s (add_module_deps_count idx cs s p).1 := by
  intro cs
  induction cs with
  | nil => intro s p; exact Grown_refl s
  | cons c cs ih =>
    intro s p
    unfold add_module_deps_count
    split
    · exact Grown_trans ⟨rfl, Nat.le_refl _⟩ (ih _ _)
    · split
      · exact Grown_trans ⟨rfl, Nat.le_refl _⟩ (ih _ _)
      · exact ih _ _

theorem add_module_deps_fill_grown (L : Layout) (sd si : Nat) :
    ∀ cs s dep_i inv_i e,
      Grown s (arenaOf Prod.fst (add_module_deps_fill L sd si cs s dep_i inv_i e)) := by
  intro cs
  induction cs with
  | nil => intro s dep_i inv_i e; exact Grown_refl s
  | cons c cs ih =>
    intro s dep_i inv_i e
    unfold add_module_deps_fill
    split
    · have h1 := fill_deps_grown L s c sd dep_i e
      split
      · next x hx =>
        rw [hx] at h1
        exact h1
      · next s1 d1 e1 hx =>
        rw [hx] at h1
        exact Grown_trans h1 (ih _ _ _ _)
    · split
      · split
        · exact Grown_refl s
        · exact Grown_trans ⟨rfl, Nat.le_refl _⟩ (ih _ _ _ _)
      · exact ih _ _ _ _

theorem add_module_deps_grown (L : Layout) (m : LydNode) (idx : Nat) (s : Shm) (hs : 0 < s.size) :
    Grown s (arenaOf id (sr_shmmain_add_module_deps L m idx s)) := by
  unfold sr_shmmain_add_module_deps
  split
  · exact Grown_refl s
  · simp only
    have h1 := add_module_deps_count_grown idx m.child s 0
    have hs1 : 0 < (add_module_deps_count idx m.child s 0).1.size :=
      Nat.lt_of_lt_of_le hs h1.2
    have h3 := @remap_grown L _ hs1 ((add_module_deps_count idx m.child s 0).2
        + SR_SHM_SIZE (((add_module_deps_count idx m.child s 0).1.mods idx).dep_count * L.dep)
        + SR_SHM_SIZE (((add_module_deps_count idx m.child s 0).1.mods idx).inv_dep_count * L.off))
    simp only [← Nat.add_assoc] at h3
    split
    · next x hx =>
      rw [hx] at h3
      exact Grown_trans h1 h3
    · next s2 hx =>
      rw [hx] at h3
      have h4 : Grown s s2 := Grown_trans h1 h3
      split
      · next x hx2 =>
        have h5 : Grown _ (arenaOf (id : Shm → Shm) (Except.error x)) :=
          grown_of_error (add_module_deps_fill_grown L _ _ _ _ _ _ _) hx2
        exact Grown_trans h4 (Grown_trans ⟨rfl, Nat.le_refl _⟩ h5)
      · next s5 dep_i inv_i e hx2 =>
        have h50 := grown_of_ok (add_module_deps_fill_grown L _ _ _ _ _ _ _) hx2
        have h5 : Grown s s5 := Grown_trans h4 (Grown_trans ⟨rfl, Nat.le_refl _⟩ h50)
        split
        · exact h5
        · split
          · exact h5
          · split
            · exact h5
            · exact h5

theorem add_module_rpcs_count_grown (L : Layout) (idx : Nat) :
    ∀ cs s p d, Grown s (add_module_rpcs_count L idx cs s p d).1 := by
  intro cs
  induction cs with
  | nil => intro s p d; exact Grown_refl s
  | cons c cs ih =>
    intro s p d
    unfold add_module_rpcs_count
    split
    · exact Grown_trans ⟨rfl, Nat.le_refl _⟩ (ih _ _ _)
    · exact ih _ _ _

theorem add_module_rpcs_op_grown (L : Layout) (cell : Nat) :
    ∀ ops s e, Grown s (arenaOf Prod.fst (add_module_rpcs_op L cell ops s e)) := by
  intro ops
  induction ops with
  | nil => intro s e; exact Grown_refl s
  | cons op ops ih =>
    intro s e
    unfold add_module_rpcs_op
    split
    · exact Grown_trans ⟨rfl, Nat.le_refl _⟩ (ih _ _)
    · split
      · simp only
        split
        · next x hx =>
          have h5 : Grown _ (arenaOf (Prod.fst : Shm × Nat → Shm) (Except.error x)) :=
            grown_of_error (fill_deps_grown L _ _ _ _ _) hx
          exact Grown_trans ⟨rfl, Nat.le_refl _⟩ h5
        · next s3 dep_i e1 hx =>
          have h50 := grown_of_ok (fill_deps_grown L _ _ _ _ _) hx
          have h5 : Grown s s3 := Grown_trans ⟨rfl, Nat.le_refl _⟩ h50
          split
          · exact h5
          · exact Grown_trans h5 (ih _ _)
      · split
        · simp only
          split
          · next x hx =>
            have h5 : Grown _ (arenaOf (Prod.fst : Shm × Nat → Shm) (Except.error x)) :=
              grown_of_error (fill_deps_grown L _ _ _ _ _) hx
            exact Grown_trans ⟨rfl, Nat.le_refl _⟩ h5
          · next s3 dep_i e1 hx =>
            have h50 := grown_of_ok (fill_deps_grown L _ _ _ _ _) hx
            have h5 : Grown s s3 := Grown_trans ⟨rfl, Nat.le_refl _⟩ h50
            split
            · exact h5
            · exact Grown_trans h5 (ih _ _)
        · exact ih _ _

theorem add_module_rpcs_fill_grown (L : Layout) (base : Nat) :
    ∀ cs s i e, Grown s (arenaOf Prod.fst (add_module_rpcs_fill L base cs s i e)) := by
  intro cs
  induction cs with
  | nil => intro s i e; exact Grown_refl s
  | cons c cs ih =>
    intro s i e
    unfold add_module_rpcs_fill
    split
    · have h1 := add_module_rpcs_op_grown L (base + i * L.rpc) c.child s e
      split
      · next x hx =>
        rw [hx] at h1
        exact h1
      · next s1 e1 hx =>
        rw [hx] at h1
        exact Grown_trans h1 (ih _ _ _)
    · exact ih _ _ _

theorem add_module_rpcs_grown (L : Layout) (m : LydNode) (idx : Nat) (s : Shm) (hs : 0 < s.size) :
    Grown s (arenaOf id (sr_shmmain_add_module_rpcs L m idx s)) := by
  unfold sr_shmmain_add_module_rpcs
  split
  · exact Grown_refl s
  · simp only
    have h1 := add_module_rpcs_count_grown L idx m.child s 0 0
    have hs1 : 0 < (add_module_rpcs_count L idx m.child s 0 0).1.size :=
      Nat.lt_of_lt_of_le hs h1.2
    have h3 := @remap_grown L _ hs1 ((add_module_rpcs_count L idx m.child s 0 0).2.1
        + SR_SHM_SIZE (((add_module_rpcs_count L idx m.child s 0 0).1.mods idx).rpc_count * L.rpc)
        + (add_module_rpcs_count L idx m.child s 0 0).2.2)
    simp only [← Nat.add_assoc] at h3
    split
    · next x hx =>
      rw [hx] at h3
      exact Grown_trans h1 h3
    · next s2 hx =>
      rw [hx] at h3
      have h4 : Grown s s2 := Grown_trans h1 h3
      split
      · next x hx2 =>
        have h5 : Grown _ (arenaOf (id : Shm → Shm) (Except.error x)) :=
          grown_of_error (add_module_rpcs_fill_grown L _ _ _ _ _) hx2
        exact Grown_trans h4 (Grown_trans ⟨rfl, Nat.le_refl _⟩ h5)
      · next s4 i e hx2 =>
        have h50 := grown_of_ok (add_module_rpcs_fill_grown L _ _ _ _ _) hx2
        have h5 : Grown s s4 := Grown_trans h4 (Grown_trans ⟨rfl, Nat.le_refl _⟩ h50)
        split
        · exact h5
        · split
          · exact h5
          · exact h5

theorem add_module_notifs_count_grown (L : Layout) (idx : Nat) :
    ∀ cs s p d, Grown s (add_module_notifs_count L idx cs s p d).1 := by
  intro cs
  induction cs with
  | nil => intro s p d; exact Grown_refl s
  | cons c cs ih =>
    intro s p d
    unfold add_module_notifs_count
    split
    · exact Grown_trans ⟨rfl, Nat.le_refl _⟩ (ih _ _ _)
    · exact ih _ _ _

theorem add_module_notifs_op_grown (L : Layout) (cell : Nat) :
    ∀ ops s e, Grown s (arenaOf Prod.fst (add_module_notifs_op L cell ops s e)) := by
  intro ops
  induction ops with
  | nil => intro s e; exact Grown_refl s
  | cons op ops ih =>
    intro s e
    unfold add_module_notifs_op
    split
    · exact Grown_trans ⟨rfl, Nat.le_refl _⟩ (ih _ _)
    · split
      · simp only
        split
        · next x hx =>
          have h5 : Grown _ (arenaOf (Prod.fst : Shm × Nat → Shm) (Except.error x)) :=
            grown_of_error (fill_deps_grown L _ _ _ _ _) hx
          exact Grown_trans ⟨rfl, Nat.le_refl _⟩ h5
        · next s3 dep_i e1 hx =>
          have h50 := grown_of_ok (fill_deps_grown L _ _ _ _ _) hx
          have h5 : Grown s s3 := Grown_trans ⟨rfl, Nat.le_refl _⟩ h50
          split
          · exact h5
          · exact Grown_trans h5 (ih _ _)
      · exact ih _ _

theorem add_module_notifs_fill_grown (L : Layout) (base : Nat) :
    ∀ cs s i e, Grown s (arenaOf Prod.fst (add_module_notifs_fill L base cs s i e)) := by
  intro cs
  induction cs with
  | nil => intro s i e; exact Grown_refl s
  | cons c cs ih =>
    intro s i e
    unfold add_module_notifs_fill
    split
    · have h1 := add_module_notifs_op_grown L (base + i * L.notif) c.child s e
      split
      · next x hx =>
        rw [hx] at h1
        exact h1
      · next s1 e1 hx =>
        rw [hx] at h1
        exact Grown_trans h1 (ih _ _ _)
    · exact ih _ _ _

theorem add_module_notifs_grown (L : Layout) (m : LydNode) (idx : Nat) (s : Shm) (hs : 0 < s.size) :
    Grown s (arenaOf id (sr_shmmain_add_module_notifs L m idx s)) := by
  unfold sr_shmmain_add_module_notifs
  split
  · exact Grown_refl s
  · simp only
    have h1 := add_module_notifs_count_grown L idx m.child s 0 0
    have hs1 : 0 < (add_module_notifs_count L idx m.child s 0 0).1.size :=
      Nat.lt_of_lt_of_le hs h1.2
    have h3 := @remap_grown L _ hs1 ((add_module_notifs_count L idx m.child s 0 0).2.1
        + SR_SHM_SIZE (((add_module_notifs_count L idx m.child s 0 0).1.mods idx).notif_count * L.notif)
        + (add_module_notifs_count L idx m.child s 0 0).2.2)
    simp only [← Nat.add_assoc] at h3
    split
    · next x hx =>
      rw [hx] at h3
      exact Grown_trans h1 h3
    · next s2 hx =>
      rw [hx] at h3
      have h4 : Grown s s2 := Grown_trans h1 h3
      split
      · next x hx2 =>
        have h5 : Grown _ (arenaOf (id : Shm → Shm) (Except.error x)) :=
          grown_of_error (add_module_notifs_fill_grown L _ _ _ _ _) hx2
        exact Grown_trans h4 (Grown_trans ⟨rfl, Nat.le_refl _⟩ h5)
      · next s4 i e hx2 =>
        have h50 := grown_of_ok (add_module_notifs_fill_grown L _ _ _ _ _) hx2
        have h5 : Grown s s4 := Grown_trans h4 (Grown_trans ⟨rfl, Nat.le_refl _⟩ h50)
        split
        · exact h5
        · split
          · exact h5
          · exact h5

theorem store_modules_fill_grown (L : Layout) (mc : Nat) :
    ∀ ms i s, 0 < s.size → Grown s (arenaOf id (store_modules_fill L mc ms i s)) := by
  intro ms
  induction ms with
  | nil =>
    intro i s _
    unfold store_modules_fill
    split
    · exact Grown_refl s
    · exact Grown_refl s
  | cons m ms ih =>
    intro i s hs
    unfold store_modules_fill
    split
    · split
      · have h1 := fill_module_grown L m i s hs
        split
        · next x hx =>
          rw [hx] at h1
          exact h1
        · next s1 hx =>
          rw [hx] at h1
          exact Grown_trans h1 (ih _ _ (Nat.lt_of_lt_of_le hs h1.2))
      · exact ih _ _ hs
    · exact Grown_refl s

theorem store_modules_deps_grown (L : Layout) (mc : Nat) :
    ∀ ms i s, 0 < s.size → Grown s (arenaOf id (store_modules_deps L mc ms i s)) := by
  intro ms
  induction ms with
  | nil =>
    intro i s _
    unfold store_modules_deps
    split
    · exact Grown_refl s
    · exact Grown_refl s
  | cons m ms ih =>
    intro i s hs
    unfold store_modules_deps
    split
    · split
      · have h1 := add_module_deps_grown L m i s hs
        split
        · next x hx =>
          rw [hx] at h1
          exact h1
        · next s1 hx =>
          rw [hx] at h1
          have hs1 : 0 < s1.size := Nat.lt_of_lt_of_le hs h1.2
          have h2 := add_module_rpcs_grown L m i s1 hs1
          split
          · next x hx2 =>
            rw [hx2] at h2
            exact Grown_trans h1 h2
          · next s2 hx2 =>
            rw [hx2] at h2
            have hs2 : 0 < s2.size := Nat.lt_of_lt_of_le hs1 h2.2
            have h3 := add_module_notifs_grown L m i s2 hs2
            split
            · next x hx3 =>
              rw [hx3] at h3
              exact Grown_trans h1 (Grown_trans h2 h3)
            · next s3 hx3 =>
              rw [hx3] at h3
              exact Grown_trans h1 (Grown_trans h2 (Grown_trans h3
                (ih _ _ (Nat.lt_of_lt_of_le hs2 h3.2))))
      · exact ih _ _ hs
    · exact Grown_refl s

/-- What `sr_shmmain_store_modules` leaves behind: the error and the
untouched arena of a failed first remap, and otherwise, whether the build
succeeds or fails, an arena with `mod_count` set and at least the size of
the header and the module records. -/
theorem store_modules_arena {L : Layout} (hL : LayoutOK L) (s0 : Shm) (t : List LydNode) :
    (∀ y, sr_shm_remap L s0 (L.hdr + count_modules t * L.mod) = .error y →
      sr_shmmain_store_modules L s0 t = .error y ∧ y.2 = s0) ∧
    (∀ s1, sr_shm_remap L s0 (L.hdr + count_modules t * L.mod) = .ok s1 →
      s1.size = L.hdr + count_modules t * L.mod ∧
      (arenaOf id (sr_shmmain_store_modules L s0 t)).main.mod_count = count_modules t ∧
      L.hdr + count_modules t * L.mod ≤ (arenaOf id (sr_shmmain_store_modules L s0 t)).size) := by
  have hB : 0 < L.hdr + count_modules t * L.mod := by
    have := hL.hdr
    omega
  constructor
  · intro y hy
    unfold sr_shmmain_store_modules
    have hy2 := remap_err_state hy
    subst hy2
    simp only [hy, and_self]
  · intro s1 h1
    have hsz := remap_size hB h1
    refine ⟨hsz, ?_⟩
    unfold sr_shmmain_store_modules
    simp only [h1]
    have hs2 : 0 < ({ s1 with main := { s1.main with mod_count := count_modules t } } : Shm).size := by
      show 0 < s1.size
      omega
    have g1 := store_modules_fill_grown L (count_modules t) t 0 _ hs2
    split
    · next x hx =>
      rw [hx] at g1
      obtain ⟨a, b⟩ := x
      have g1a : b.main = _ := g1.1
      have g1b : s1.size ≤ b.size := g1.2
      exact ⟨by show b.main.mod_count = _; rw [g1a], by show _ ≤ b.size; rw [← hsz]; exact g1b⟩
    · next s3 hx =>
      rw [hx] at g1
      have g2 := store_modules_deps_grown L (count_modules t) t 0 s3
        (Nat.lt_of_lt_of_le hs2 g1.2)
      have g3 := Grown_trans g1 g2
      exact ⟨by rw [g3.1], by rw [← hsz]; exact g3.2⟩

theorem AgreeOff_eq {lo hi : Nat} {s s2 : Shm} (h : AgreeOff lo hi s s2) (hle : hi ≤ lo) :
    s2 = s := by
  obtain ⟨h1, h2, h3, h4, h5, h6, h7, h8⟩ := h
  cases s
  cases s2
  simp only at h1 h2 h3 h4 h5 h6 h7 h8
  subst h1 h2 h4 h5 h6 h7 h8
  congr 1
  funext j
  exact h3 j (by omega)

theorem AgreeOff_updMod {lo hi : Nat} {s s2 : Shm} (h : AgreeOff lo hi s s2) {idx : Nat}
    (hi2 : idx < lo ∨ hi ≤ idx) (f : SrMod → SrMod) :
    AgreeOff lo hi (s.updMod idx f) (s2.updMod idx f) := by
  refine ⟨h.size, h.main, ?_, h.str, h.off, h.dep, h.rpc, h.notif⟩
  intro j hj
  simp only [updMod_mods]
  rw [h.mods idx hi2, h.mods j hj]

theorem AgreeOff_setMod {lo hi : Nat} {s s2 : Shm} (h : AgreeOff lo hi s s2) (m : SrMod) :
    AgreeOff (lo + 1) hi (s.setMod lo m) (s2.setMod lo m) := by
  refine ⟨h.size, h.main, ?_, h.str, h.off, h.dep, h.rpc, h.notif⟩
  intro j hj
  simp only [setMod_mods]
  by_cases hjl : j = lo
  · simp [hjl]
  · simp only [if_neg hjl]
    exact h.mods j (by omega)

/-- A copy of a revision, whether it fits the member or not, takes arenas
that agree to arenas that agree. -/
theorem AgreeOff_strcpy_rev {lo hi : Nat} {s s2 : Shm} (h : AgreeOff lo hi s s2) (L : Layout)
    {idx : Nat} (hi2 : idx < lo ∨ hi ≤ idx) (str : String) :
    AgreeOff lo hi (strcpy_rev L idx str s) (strcpy_rev L idx str s2) := by
  unfold strcpy_rev
  split
  · exact AgreeOff_updMod h hi2 _
  · refine ⟨h.size, h.main, ?_, ?_, ?_, ?_, ?_, ?_⟩
    · intro j hj
      simp only
      rw [h.mods j hj]
    · simp only
      rw [h.str, h.main]
    · simp only
      rw [h.off, h.main]
    · simp only
      rw [h.dep, h.main]
    · simp only
      rw [h.rpc, h.main]
    · simp only
      rw [h.notif, h.main]

theorem fill_module_scan_agree (L : Layout) (idx : Nat) {lo hi : Nat}
    (hidx : idx < lo ∨ hi ≤ idx) :
    ∀ (cs : List LydNode) (s s2 : Shm) (name : Option String) (len : Nat)
      (r : Shm × Option String × Nat),
      AgreeOff lo hi s s2 → fill_module_scan L idx cs s name len = .ok r →
      ∃ r2, fill_module_scan L idx cs s2 name len = .ok (r2, r.2.1, r.2.2) ∧
        AgreeOff lo hi r.1 r2 := by
  intro cs
  induction cs with
  | nil =>
    intro s s2 name len r ha h
    simp only [fill_module_scan, Except.ok.injEq] at h
    subst h
    exact ⟨s2, rfl, ha⟩
  | cons c cs ih =>
    intro s s2 name len r ha h
    unfold fill_module_scan at h ⊢
    split
    · next h1 =>
      rw [if_pos h1] at h
      exact ih _ _ _ _ _ ha h
    · next h1 =>
      rw [if_neg h1] at h
      split
      · next h2 =>
        rw [if_pos h2] at h
        exact ih _ _ _ _ _ (AgreeOff_strcpy_rev ha L hidx _) h
      · next h2 =>
        rw [if_neg h2] at h
        split
        · next h3 =>
          rw [if_pos h3] at h
          exact ih _ _ _ _ _ (AgreeOff_updMod ha hidx _) h
        · next h3 =>
          rw [if_neg h3] at h
          split
          · next h4 =>
            rw [if_pos h4] at h
            exact ih _ _ _ _ _ (AgreeOff_updMod ha hidx _) h
          · next h4 =>
            rw [if_neg h4] at h
            exact ih _ _ _ _ _ ha h

theorem fill_module_feats_agree (L : Layout) (base : Nat) {lo hi : Nat} :
    ∀ (cs : List LydNode) (s s2 : Shm) (fi e : Nat), AgreeOff lo hi s s2 →
      AgreeOff lo hi (fill_module_feats L base cs s fi e).1
        (fill_module_feats L base cs s2 fi e).1 ∧
      (fill_module_feats L base cs s2 fi e).2 = (fill_module_feats L base cs s fi e).2 := by
  intro cs
  induction cs with
  | nil => intro s s2 fi e ha; exact ⟨ha, rfl⟩
  | cons c cs ih =>
    intro s s2 fi e ha
    unfold fill_module_feats
    split
    · apply ih
      refine ⟨ha.size, ha.main, ha.mods, ?_, ?_, ha.dep, ha.rpc, ha.notif⟩
      · show (fun x => _) = (fun x => _)
        funext x
        simp only [sr_shmstrcpy, Shm.setStr, Shm.setOff]
        rw [ha.str]
      · show (fun x => _) = (fun x => _)
        funext x
        simp only [sr_shmstrcpy, Shm.setStr, Shm.setOff]
        rw [ha.off]
    · exact ih _ _ _ _ ha

theorem AgreeOff_setStr {lo hi : Nat} {s s2 : Shm} (h : AgreeOff lo hi s s2) (a : Nat)
    (v : String) : AgreeOff lo hi (s.setStr a v) (s2.setStr a v) := by
  refine ⟨h.size, h.main, h.mods, ?_, h.off, h.dep, h.rpc, h.notif⟩
  show (fun x => _) = (fun x => _)
  funext x
  simp only [Shm.setStr]
  rw [h.str]

theorem remap_agree {L : Layout} {lo hi : Nat} {s s2 r : Shm} {n : Nat}
    (ha : AgreeOff lo hi s s2) (h : sr_shm_remap L s n = .ok r) :
    ∃ r2, sr_shm_remap L s2 n = .ok r2 ∧ AgreeOff lo hi r r2 := by
  unfold sr_shm_remap at h ⊢
  simp only at h ⊢
  rw [ha.size]
  by_cases hc : L.cap < (if n = 0 then s.size else n)
  · rw [if_pos hc] at h
    cases h
  · rw [if_neg hc] at h ⊢
    simp only [Except.ok.injEq] at h
    subst h
    refine ⟨_, rfl, ?_⟩
    refine ⟨rfl, ?_, ?_, ?_, ?_, ?_, ?_, ?_⟩
    · show (if _ then s2.main else _) = (if _ then s.main else _)
      rw [ha.main]
    · intro j hj
      show (if _ then s2.mods j else _) = (if _ then s.mods j else _)
      rw [ha.mods j hj]
    · show (fun a => _) = (fun a => _)
      rw [ha.str]
    · show (fun a => _) = (fun a => _)
      rw [ha.off]
    · show (fun a => _) = (fun a => _)
      rw [ha.dep]
    · show (fun a => _) = (fun a => _)
      rw [ha.rpc]
    · show (fun a => _) = (fun a => _)
      rw [ha.notif]

theorem fill_module_agree {L : Layout} {m : LydNode} {i hi : Nat} {s s2 r : Shm}
    (ha : AgreeOff i hi s s2)
    (h : sr_shmmain_fill_module L m i s = .ok r) :
    ∃ r2, sr_shmmain_fill_module L m i s2 = .ok r2 ∧ AgreeOff (i + 1) hi r r2 := by
  have hidx : i < i + 1 ∨ hi ≤ i := Or.inl (Nat.lt_succ_self i)
  unfold sr_shmmain_fill_module at h ⊢
  simp only at h ⊢
  have ha1 := AgreeOff_setMod ha { ver := 1 }
  split at h
  · cases h
  · cases h
  · next s1 name len hscan =>
    obtain ⟨t1, ht1, hb⟩ := fill_module_scan_agree L i hidx _ _ _ _ _ _ ha1 hscan
    simp only at ht1 hb
    rw [ht1]
    simp only
    rw [hb.size, hb.mods i hidx]
    split at h
    · cases h
    · next u1 hrm =>
      obtain ⟨u2, hu2, hc⟩ := remap_agree hb hrm
      rw [hu2]
      simp only
      have hA : AgreeOff (i + 1) hi
          ((sr_shmstrcpy u1 name s1.size).1.updMod i fun m =>
            { m with name := (sr_shmstrcpy u1 name s1.size).2.1 })
          ((sr_shmstrcpy u2 name s1.size).1.updMod i fun m =>
            { m with name := (sr_shmstrcpy u2 name s1.size).2.1 }) :=
        AgreeOff_updMod (AgreeOff_setStr hc _ _) hidx _
      have hcur : (sr_shmstrcpy u2 name s1.size).2.2 = (sr_shmstrcpy u1 name s1.size).2.2 := rfl
      rw [hcur]
      generalize (sr_shmstrcpy u1 name s1.size).2.2 = cur at h ⊢
      generalize ((sr_shmstrcpy u1 name s1.size).1.updMod i fun m =>
            { m with name := (sr_shmstrcpy u1 name s1.size).2.1 }) = A at h hA ⊢
      generalize ((sr_shmstrcpy u2 name s1.size).1.updMod i fun m =>
            { m with name := (sr_shmstrcpy u2 name s1.size).2.1 }) = A2 at hA ⊢
      rw [hA.mods i hidx]
      have hB : AgreeOff (i + 1) hi
          (A.updMod i fun m =>
            { m with features := (sr_shmcpy ((A.mods i).feat_count * L.off) cur).1 })
          (A2.updMod i fun m =>
            { m with features := (sr_shmcpy ((A.mods i).feat_count * L.off) cur).1 }) :=
        AgreeOff_updMod hA hidx _
      generalize (A.updMod i fun m =>
            { m with features := (sr_shmcpy ((A.mods i).feat_count * L.off) cur).1 }) = B at h hB ⊢
      generalize (A2.updMod i fun m =>
            { m with features := (sr_shmcpy ((A.mods i).feat_count * L.off) cur).1 }) = B2 at hB ⊢
      rw [hB.mods i hidx]
      obtain ⟨hF, hF2⟩ := fill_module_feats_agree L (B.mods i).features m.child B B2 0
        (sr_shmcpy ((A.mods i).feat_count * L.off) cur).2 hB
      rw [hF2, hF.mods i hidx, hF.size]
      split at h
      · cases h
      · next hn1 =>
        rw [if_neg hn1]
        split at h
        · cases h
        · next hn2 =>
          rw [if_neg hn2]
          simp only [Except.ok.injEq] at h
          subst h
          exact ⟨_, rfl, hF⟩

theorem store_modules_fill_agree (L : Layout) (mc hi : Nat) (hhi : hi ≤ mc) :
    ∀ (ms : List LydNode) (i : Nat) (s s2 r : Shm), AgreeOff i hi s s2 →
      store_modules_fill L mc ms i s = .ok r → store_modules_fill L mc ms i s2 = .ok r := by
  intro ms
  induction ms with
  | nil =>
    intro i s s2 r ha h
    unfold store_modules_fill at h ⊢
    split at h
    · cases h
    · next hlt =>
      rw [if_neg hlt, AgreeOff_eq ha (by omega)]
      exact h
  | cons m ms ih =>
    intro i s s2 r ha h
    unfold store_modules_fill at h ⊢
    split at h
    · next hlt =>
      rw [if_pos hlt]
      split at h
      · next hm =>
        rw [if_pos hm]
        split at h
        · cases h
        · next s1 hf =>
          obtain ⟨t1, ht1, hb⟩ := fill_module_agree ha hf
          rw [ht1]
          exact ih _ _ _ _ hb h
      · next hm =>
        rw [if_neg hm]
        exact ih _ _ _ _ ha h
    · next hlt =>
      rw [if_neg hlt, AgreeOff_eq ha (by omega)]
      exact h

theorem remap_ok_form {L : Layout} {s r : Shm} {n : Nat} (hn : 0 < n)
    (h : sr_shm_remap L s n = .ok r) :
    ¬ L.cap < n ∧
    r = { size := n
          main := if 0 < min s.size n then s.main else {}
          mods := fun i => if L.hdr + i * L.mod < min s.size n then s.mods i else {}
          str := fun a => if a < min s.size n then s.str a else ""
          off := fun a => if a < min s.size n then s.off a else 0
          dep := fun a => if a < min s.size n then s.dep a else {}
          rpc := fun a => if a < min s.size n then s.rpc a else {}
          notif := fun a => if a < min s.size n then s.notif a else {} } := by
  unfold sr_shm_remap at h
  simp only at h
  have hne : (if n = 0 then s.size else n) = n := if_neg (by omega)
  rw [hne] at h
  by_cases hc : L.cap < n
  · rw [if_pos hc] at h
    cases h
  · rw [if_neg hc] at h
    simp only [Except.ok.injEq] at h
    exact ⟨hc, h.symm⟩

theorem remap_of_cap {L : Layout} {s : Shm} {n : Nat} (hn : 0 < n) (hc : ¬ L.cap < n) :
    sr_shm_remap L s n = .ok
        { size := n
          main := if 0 < min s.size n then s.main else {}
          mods := fun i => if L.hdr + i * L.mod < min s.size n then s.mods i else {}
          str := fun a => if a < min s.size n then s.str a else ""
          off := fun a => if a < min s.size n then s.off a else 0
          dep := fun a => if a < min s.size n then s.dep a else {}
          rpc := fun a => if a < min s.size n then s.rpc a else {}
          notif := fun a => if a < min s.size n then s.notif a else {} } := by
  unfold sr_shm_remap
  simp only
  have hne : (if n = 0 then s.size else n) = n := if_neg (by omega)
  rw [hne, if_neg hc]

/-- The stages of a successful build, whether the revisions fit or not:
the first remap, the pass that fills the module records and the pass that
adds what hangs off them; nothing stored below the end of the module records
changes after the first remap. -/
theorem store_modules_stages {L : Layout} (hL : LayoutOK L) {s0 s : Shm} {t : List LydNode}
    (h : sr_shmmain_store_modules L s0 t = .ok s) :
    ∃ r1 s3, sr_shm_remap L s0 (L.hdr + count_modules t * L.mod) = .ok r1 ∧
      store_modules_fill L (count_modules t) t 0
        { r1 with main := { r1.main with mod_count := count_modules t } } = .ok s3 ∧
      store_modules_deps L (count_modules t) t 0 s3 = .ok s ∧
      Keeps { r1 with main := { r1.main with mod_count := count_modules t } } s := by
  unfold sr_shmmain_store_modules at h
  simp only at h
  split at h
  · cases h
  next s1 hr =>
  split at h
  · cases h
  next s3 hB =>
  refine ⟨s1, s3, hr, hB, h, ?_⟩
  have hsz1 : s1.size = L.hdr + count_modules t * L.mod :=
    remap_size (by have := hL.hdr; omega) hr
  generalize hS2 : ({ s1 with main := { s1.main with mod_count := count_modules t } } : Shm)
    = S2 at hB ⊢
  have h2size : S2.size = L.hdr + count_modules t * L.mod := by rw [← hS2]; exact hsz1
  have h2mc : S2.main.mod_count = count_modules t := by rw [← hS2]
  have h2fit : Fits L S2 := by
    unfold Fits
    rw [h2mc, h2size]
  obtain ⟨kB1, kB2, h3n⟩ := store_modules_fill_frame hL (count_modules t)
    (L.hdr + count_modules t * L.mod) t 0 S2 s3 h2fit h2mc (by rw [h2size])
    (fun j hj => absurd hj (Nat.not_lt_zero j)) hB
  have hlow := store_modules_fill_low hL (count_modules t) t 0 S2 s3 h2fit h2mc hB
  have kB : Keeps S2 s3 :=
    ⟨kB2, kB1,
      fun a ha => (hlow a (by rw [← h2size]; exact ha)).1,
      fun a ha => (hlow a (by rw [← h2size]; exact ha)).2.1,
      fun a ha => (hlow a (by rw [← h2size]; exact ha)).2.2.1,
      fun a ha => (hlow a (by rw [← h2size]; exact ha)).2.2.2.1,
      fun a ha => (hlow a (by rw [← h2size]; exact ha)).2.2.2.2⟩
  have h3mc : s3.main.mod_count = count_modules t := by rw [kB1, h2mc]
  have h3fit : Fits L s3 := kB.Keeps_fits h2fit
  have h3n2 : NamesLt s3 s3.size := by
    intro j hj
    rw [h3mc] at hj
    exact (h3n j hj).2
  obtain ⟨kC, _⟩ := store_modules_deps_spec hL (count_modules t) t 0 s3 s h3fit h3mc
    (by omega) h3n2 h
  exact kB.Keeps_trans kC

/-- Building again from the arena a successful build has left gives that
arena again, whether the revisions of the tree fit the `rev` member or not. -/
theorem store_modules_again {L : Layout} (hL : LayoutOK L) {s0 s1 : Shm} {t : List LydNode}
    (h : sr_shmmain_store_modules L s0 t = .ok s1) :
    sr_shmmain_store_modules L s1 t = .ok s1 := by
  have hB : 0 < L.hdr + count_modules t * L.mod := by
    have := hL.hdr
    omega
  obtain ⟨r1, s3, hr1, hfill, hdeps, hk⟩ := store_modules_stages hL h
  obtain ⟨hcap, hr1f⟩ := remap_ok_form hB hr1
  have hsz : L.hdr + count_modules t * L.mod ≤ s1.size := by
    have := hk.size
    rw [hr1f] at this
    exact this
  have hmin : min s1.size (L.hdr + count_modules t * L.mod)
      = L.hdr + count_modules t * L.mod := Nat.min_eq_right hsz
  unfold sr_shmmain_store_modules
  simp only
  rw [remap_of_cap hB hcap]
  simp only
  rw [hmin]
  have hag : AgreeOff 0 (count_modules t)
      { r1 with main := { r1.main with mod_count := count_modules t } }
      { size := L.hdr + count_modules t * L.mod
        main := { (if 0 < L.hdr + count_modules t * L.mod then s1.main else {}) with
          mod_count := count_modules t }
        mods := fun i =>
          if L.hdr + i * L.mod < L.hdr + count_modules t * L.mod then s1.mods i else {}
        str := fun a => if a < L.hdr + count_modules t * L.mod then s1.str a else ""
        off := fun a => if a < L.hdr + count_modules t * L.mod then s1.off a else 0
        dep := fun a => if a < L.hdr + count_modules t * L.mod then s1.dep a else {}
        rpc := fun a => if a < L.hdr + count_modules t * L.mod then s1.rpc a else {}
        notif := fun a => if a < L.hdr + count_modules t * L.mod then s1.notif a else {} } := by
    have hlow : ∀ a, a < L.hdr + count_modules t * L.mod →
        a < ({ r1 with main := { r1.main with mod_count := count_modules t } } : Shm).size := by
      intro a ha
      rw [hr1f]
      exact ha
    refine ⟨?_, ?_, ?_, ?_, ?_, ?_, ?_, ?_⟩
    · rw [hr1f]
    · show ({ (if 0 < L.hdr + count_modules t * L.mod then s1.main else {}) with
          mod_count := count_modules t } : SrMainShm) = _
      rw [if_pos hB, hk.main]
    · intro j hj
      have hj2 : count_modules t ≤ j := by omega
      have hge : L.hdr + count_modules t * L.mod ≤ L.hdr + j * L.mod :=
        Nat.add_le_add_left (Nat.mul_le_mul_right _ hj2) _
      show (if _ then s1.mods j else _) = r1.mods j
      rw [if_neg (by omega), hr1f]
      show _ = if _ then _ else _
      rw [if_neg (by have := Nat.min_le_right s0.size (L.hdr + count_modules t * L.mod); omega)]
    · funext a
      show (if _ then s1.str a else _) = r1.str a
      by_cases ha : a < L.hdr + count_modules t * L.mod
      · rw [if_pos ha, hk.str a (hlow a ha)]
      · rw [if_neg ha, hr1f]
        show _ = if _ then _ else _
        rw [if_neg (by have := Nat.min_le_right s0.size (L.hdr + count_modules t * L.mod); omega)]
    · funext a
      show (if _ then s1.off a else _) = r1.off a
      by_cases ha : a < L.hdr + count_modules t * L.mod
      · rw [if_pos ha, hk.off a (hlow a ha)]
      · rw [if_neg ha, hr1f]
        show _ = if _ then _ else _
        rw [if_neg (by have := Nat.min_le_right s0.size (L.hdr + count_modules t * L.mod); omega)]
    · funext a
      show (if _ then s1.dep a else _) = r1.dep a
      by_cases ha : a < L.hdr + count_modules t * L.mod
      · rw [if_pos ha, hk.dep a (hlow a ha)]
      · rw [if_neg ha, hr1f]
        show _ = if _ then _ else _
        rw [if_neg (by have := Nat.min_le_right s0.size (L.hdr + count_modules t * L.mod); omega)]
    · funext a
      show (if _ then s1.rpc a else _) = r1.rpc a
      by_cases ha : a < L.hdr + count_modules t * L.mod
      · rw [if_pos ha, hk.rpc a (hlow a ha)]
      · rw [if_neg ha, hr1f]
        show _ = if _ then _ else _
        rw [if_neg (by have := Nat.min_le_right s0.size (L.hdr + count_modules t * L.mod); omega)]
    · funext a
      show (if _ then s1.notif a else _) = r1.notif a
      by_cases ha : a < L.hdr + count_modules t * L.mod
      · rw [if_pos ha, hk.notif a (hlow a ha)]
      · rw [if_neg ha, hr1f]
        show _ = if _ then _ else _
        rw [if_neg (by have := Nat.min_le_right s0.size (L.hdr + count_modules t * L.mod); omega)]
  have hfill2 := store_modules_fill_agree L (count_modules t) (count_modules t) (Nat.le_refl _)
    t 0 _ _ s3 hag hfill
  rw [hfill2]
  exact hdeps

/-- C14: rebuild idempotence.  When `sr_shmmain_store_modules` has built an
arena from a tree, calling it again with the same tree on that arena
succeeds and leaves the same arena: the same size, and the same module
names, revisions, features, dependencies, RPCs and notifications when read
back.  This holds for every tree, one with a revision that is written past
the `rev` member included: the second build repeats every write of the
first. -/
theorem rebuild_idempotent {L : Layout} (hL : LayoutOK L) {s0 s1 : Shm} {t : List LydNode}
    (h : sr_shmmain_store_modules L s0 t = .ok s1) :
    ∃ s2, sr_shmmain_store_modules L s1 t = .ok s2 ∧ s2.size = s1.size ∧
      decodeArena L s2 = decodeArena L s1 ∧ s2 = s1 :=
  ⟨s1, store_modules_again hL h, rfl, rfl, rfl⟩

theorem rebuild_idempotent_witness :
    ∃ s1, sr_shmmain_store_modules exLayout exShm exTreeFull = .ok s1 ∧ s1.size = 696 ∧
      ∃ s2, sr_shmmain_store_modules exLayout s1 exTreeFull = .ok s2 ∧ s2.size = s1.size ∧
        decodeArena exLayout s2 = decodeArena exLayout s1 ∧ s2 = s1 :=
  ⟨_, rfl, rfl, @rebuild_idempotent exLayout exLayout_ok exShm _ exTreeFull rfl⟩

/-! ## Opening the main SHM -/

/-- C16: empty bootstrap.  When the main SHM file does not exist and the
caller passes a non-null `created`, and the calls outside the file do not
fail (the path is built, `open` creates the file, the header size can be
mapped, both mutexes are initialised), `sr_shmmain_main_open` succeeds,
sets `*created = 1` and leaves an arena of exactly the header size whose
header has `shm_ver = SR_SHM_VER`, `mod_count = 0` and all four ID counters
equal to 1. -/
theorem main_open_bootstrap (L : Layout) (ver : Nat) (env : OpenEnv) (shm : ShmHandle) (c : Nat)
    (hp : env.path_fails = false) (ho : env.open_refused = false)
    (hm1 : env.lydmods_lock_err = none) (hm2 : env.ext_lock_err = none)
    (hcap : L.hdr ≤ L.cap) :
    (sr_shmmain_main_open L ver env none shm (some c)).err = none ∧
    (sr_shmmain_main_open L ver env none shm (some c)).created = some 1 ∧
    (sr_shmmain_main_open L ver env none shm (some c)).shm
      = { fd := some env.new_fd, size := L.hdr } ∧
    ∃ f, (sr_shmmain_main_open L ver env none shm (some c)).file = some f ∧
      f.size = L.hdr ∧ f.main.shm_ver = ver ∧ f.main.mod_count = 0 ∧
      f.main.new_sr_cid = 1 ∧ f.main.new_sr_sid = 1 ∧ f.main.new_sub_id = 1 ∧
      f.main.new_evpipe_num = 1 := by
  have hc : ¬ L.cap < L.hdr := by omega
  have hr : ∀ n, (if n = 0 then (0 : Nat) else n) = n := by
    intro n
    split <;> omega
  simp [sr_shmmain_main_open, open_rdwr, open_excl, main_open_map, sr_shm_remap, emptyFile,
    hp, ho, hm1, hm2, hc, hr]

theorem main_open_bootstrap_witness :
    (sr_shmmain_main_open exLayout 7 {} none {} (some 0)).err = none ∧
    (sr_shmmain_main_open exLayout 7 {} none {} (some 0)).created = some 1 ∧
    (sr_shmmain_main_open exLayout 7 {} none {} (some 0)).shm = { fd := some 3, size := 64 } ∧
    ∃ f, (sr_shmmain_main_open exLayout 7 {} none {} (some 0)).file = some f ∧
      f.size = exLayout.hdr ∧ f.main.shm_ver = 7 ∧ f.main.mod_count = 0 ∧
      f.main.new_sr_cid = 1 ∧ f.main.new_sr_sid = 1 ∧ f.main.new_sub_id = 1 ∧
      f.main.new_evpipe_num = 1 :=
  main_open_bootstrap exLayout 7 {} {} 0 rfl rfl rfl rfl (by decide)

theorem remap_tidy {L : Layout} {s r : Shm} {n : Nat} (h : sr_shm_remap L s n = .ok r) :
    Tidy L r := by
  unfold sr_shm_remap at h
  simp only at h
  by_cases hc : L.cap < (if n = 0 then s.size else n)
  · rw [if_pos hc] at h
    cases h
  · rw [if_neg hc] at h
    simp only [Except.ok.injEq] at h
    subst h
    have hk : min s.size (if n = 0 then s.size else n) ≤ (if n = 0 then s.size else n) :=
      Nat.min_le_right _ _
    refine ⟨?_, ?_, ?_, ?_, ?_, ?_, ?_⟩
    · intro h0
      simp only at h0
      show (if _ then _ else _) = _
      rw [if_neg (by omega)]
    · intro i hi
      simp only at hi
      show (if _ then _ else _) = _
      rw [if_neg (by omega)]
    all_goals
      intro a ha
      simp only at ha
      show (if _ then _ else _) = _
      rw [if_neg (by omega)]

theorem tidy_remap_zero {L : Layout} {f f2 : Shm} (ht : Tidy L f)
    (h : sr_shm_remap L f 0 = .ok f2) : f2 = f := by
  unfold sr_shm_remap at h
  simp only [if_true, Nat.min_self] at h
  by_cases hc : L.cap < f.size
  · rw [if_pos hc] at h
    cases h
  · rw [if_neg hc] at h
    simp only [Except.ok.injEq] at h
    subst h
    obtain ⟨h1, h2, h3, h4, h5, h6, h7⟩ := ht
    cases f
    simp only at h1 h2 h3 h4 h5 h6 h7 ⊢
    congr 1
    · split
      · rfl
      · exact (h1 (by omega)).symm
    · funext i
      split
      · rfl
      · exact (h2 i (by omega)).symm
    · funext a
      split
      · rfl
      · exact (h3 a (by omega)).symm
    · funext a
      split
      · rfl
      · exact (h4 a (by omega)).symm
    · funext a
      split
      · rfl
      · exact (h5 a (by omega)).symm
    · funext a
      split
      · rfl
      · exact (h6 a (by omega)).symm
    · funext a
      split
      · rfl
      · exact (h7 a (by omega)).symm

theorem remap_zero_ok {L : Layout} {f : Shm} (hcap : f.size ≤ L.cap) :
    ∃ f2, sr_shm_remap L f 0 = .ok f2 ∧ f2.size = f.size ∧
      f2.main = (if 0 < f.size then f.main else {}) := by
  unfold sr_shm_remap
  simp only [if_true, Nat.min_self]
  rw [if_neg (by omega)]
  exact ⟨_, rfl, rfl, rfl⟩

/-- C17: version gate.  When the main SHM file exists, holds a header, and
can be opened and mapped, `sr_shmmain_main_open` returns an Unsupported error
if and only if the `shm_ver` of the header differs from `SR_SHM_VER`; in that
case the structure `sr_shm_t` is cleared and nothing stays mapped; with the
matching version the call succeeds and sets `*created = 0`. -/
theorem main_open_version_gate (L : Layout) (ver : Nat) (env : OpenEnv) (f : Shm)
    (shm : ShmHandle) (created : Option Nat)
    (hp : env.path_fails = false) (ho : env.open_refused = false)
    (hsz : 0 < f.size) (hcap : f.size ≤ L.cap) :
    ((sr_shmmain_main_open L ver env (some f) shm created).err = some SrErr.Unsupported ↔
      f.main.shm_ver ≠ ver) ∧
    (f.main.shm_ver ≠ ver →
      (sr_shmmain_main_open L ver env (some f) shm created).shm = { fd := none, size := 0 }) ∧
    (f.main.shm_ver = ver →
      (sr_shmmain_main_open L ver env (some f) shm created).err = none ∧
      (sr_shmmain_main_open L ver env (some f) shm created).created
        = created.map (fun _ => 0) ∧
      (sr_shmmain_main_open L ver env (some f) shm created).shm
        = { fd := some env.new_fd, size := f.size }) := by
  obtain ⟨f2, h1, h2, h3⟩ := remap_zero_ok hcap
  rw [if_pos hsz] at h3
  have hne : f.size ≠ 0 := by omega
  have hform : sr_shmmain_main_open L ver env (some f) shm created
      = if f.main.shm_ver ≠ ver then
          { err := some SrErr.Unsupported, shm := { fd := none, size := 0 }, file := some f2,
            created := created }
        else
          { err := none, shm := { fd := some env.new_fd, size := f.size }, file := some f2,
            created := created.map fun _ => 0 } := by
    simp [sr_shmmain_main_open, open_rdwr, main_open_map, sr_shm_clear, hp, ho, h1, h2, h3, hne]
  rw [hform]
  by_cases hv : f.main.shm_ver = ver
  · simp [hv]
  · simp [hv]

theorem main_open_version_gate_witness :
    ((sr_shmmain_main_open exLayout 7 {} (some exShmOne) {} (some 5)).err
        = some SrErr.Unsupported ↔ exShmOne.main.shm_ver ≠ 7) ∧
    (exShmOne.main.shm_ver ≠ 7 →
      (sr_shmmain_main_open exLayout 7 {} (some exShmOne) {} (some 5)).shm
        = { fd := none, size := 0 }) ∧
    (exShmOne.main.shm_ver = 7 →
      (sr_shmmain_main_open exLayout 7 {} (some exShmOne) {} (some 5)).err = none ∧
      (sr_shmmain_main_open exLayout 7 {} (some exShmOne) {} (some 5)).created
        = (some 5).map (fun _ => 0) ∧
      (sr_shmmain_main_open exLayout 7 {} (some exShmOne) {} (some 5)).shm
        = { fd := some ({} : OpenEnv).new_fd, size := exShmOne.size }) :=
  main_open_version_gate exLayout 7 {} exShmOne {} (some 5) rfl rfl (by decide) (by decide)

/-- C18, counterexample: opening a missing main SHM file with
`created == NULL` returns no error. -/
theorem main_open_missing_example :
    (sr_shmmain_main_open exLayout 7 {} none {} none).err = none ∧
    (sr_shmmain_main_open exLayout 7 {} none {} none).shm.fd = none ∧
    (sr_shmmain_main_open exLayout 7 {} none {} none).file = none :=
  ⟨rfl, rfl, rfl⟩

/-- C18, amended: when the backing file does not exist and creation was not
requested (`created == NULL`), `sr_shmmain_main_open` returns success without
creating or mapping anything: `shm->fd` is -1 and the file still does not
exist. -/
theorem main_open_missing (L : Layout) (ver : Nat) (env : OpenEnv) (shm : ShmHandle)
    (hp : env.path_fails = false) :
    (sr_shmmain_main_open L ver env none shm none).err = none ∧
    (sr_shmmain_main_open L ver env none shm none).shm = { shm with fd := none } ∧
    (sr_shmmain_main_open L ver env none shm none).file = none ∧
    (sr_shmmain_main_open L ver env none shm none).created = none := by
  simp [sr_shmmain_main_open, open_rdwr, hp]

theorem main_open_missing_witness :
    (sr_shmmain_main_open exLayout 7 {} none { fd := some 4, size := 0 } none).err = none ∧
    (sr_shmmain_main_open exLayout 7 {} none { fd := some 4, size := 0 } none).shm
      = { ({ fd := some 4, size := 0 } : ShmHandle) with fd := none } ∧
    (sr_shmmain_main_open exLayout 7 {} none { fd := some 4, size := 0 } none).file = none ∧
    (sr_shmmain_main_open exLayout 7 {} none { fd := some 4, size := 0 } none).created = none :=
  main_open_missing exLayout 7 {} { fd := some 4, size := 0 } rfl

theorem main_open_map_tidy {L : Layout} (h0 : 0 < L.hdr) {ver : Nat} {env : OpenEnv}
    {fd : Nat} {f : Shm} {creat : Bool} {c : Option Nat} {f1 : Shm}
    (g1 : (main_open_map L ver env fd f creat c).err = none)
    (g2 : (main_open_map L ver env fd f creat c).file = some f1) :
    Tidy L f1 ∧ f1.main.shm_ver = ver := by
  unfold main_open_map at g1 g2
  cases hr : sr_shm_remap L f (if creat = true then L.hdr else 0) with
  | error x =>
    rw [hr] at g1
    obtain ⟨a, b⟩ := x
    simp at g1
  | ok f2 =>
    rw [hr] at g1 g2
    simp only at g1 g2
    have ht := remap_tidy hr
    cases creat with
    | true =>
      simp only [if_true] at g1 g2 hr
      have hsz : f2.size = L.hdr := remap_size h0 hr
      cases h1 : env.lydmods_lock_err with
      | some e =>
        rw [h1] at g1
        simp at g1
      | none =>
        rw [h1] at g1 g2
        simp only at g1 g2
        cases h2 : env.ext_lock_err with
        | some e =>
          rw [h2] at g1
          simp at g1
        | none =>
          rw [h2] at g2
          simp only [Option.some.injEq] at g2
          subst g2
          refine ⟨⟨?_, ht.mods, ht.str, ht.off, ht.dep, ht.rpc, ht.notif⟩, rfl⟩
          intro hz
          simp only at hz
          omega
    | false =>
      simp only [Bool.false_eq_true, if_false] at g1 g2
      by_cases hz : f2.size = 0
      · rw [if_pos hz] at g1
        simp at g1
      · rw [if_neg hz] at g1 g2
        by_cases hv : f2.main.shm_ver ≠ ver
        · rw [if_pos hv] at g1
          simp at g1
        · rw [if_neg hv] at g2
          simp only [Option.some.injEq] at g2
          subst g2
          exact ⟨ht, by simpa using hv⟩

/-- A successful `sr_shmmain_main_open` that leaves a file behind leaves it
with the expected version and nothing stored past its end. -/
theorem main_open_tidy {L : Layout} (h0 : 0 < L.hdr) {ver : Nat} {env : OpenEnv}
    {file : Option Shm} {shm : ShmHandle} {created : Option Nat} {f1 : Shm}
    (h1 : (sr_shmmain_main_open L ver env file shm created).err = none)
    (hf : (sr_shmmain_main_open L ver env file shm created).file = some f1) :
    Tidy L f1 ∧ f1.main.shm_ver = ver := by
  unfold sr_shmmain_main_open at h1 hf
  by_cases hp : env.path_fails = true
  · rw [if_pos hp] at h1
    simp at h1
  · rw [if_neg hp] at h1 hf
    cases file with
    | none =>
      simp only [open_rdwr] at h1 hf
      cases created with
      | none => simp at hf
      | some c =>
        simp only [open_excl] at h1 hf
        by_cases ho : env.open_refused = true
        · rw [if_pos ho] at h1
          simp at h1
        · rw [if_neg ho] at h1 hf
          exact main_open_map_tidy h0 h1 hf
    | some f =>
      simp only [open_rdwr] at h1 hf
      by_cases ho : env.open_refused = true
      · rw [if_pos ho] at h1
        simp at h1
      · rw [if_neg ho] at h1 hf
        exact main_open_map_tidy h0 h1 hf

/-- A successful `sr_shmmain_main_open` on a file with nothing stored past
its end leaves the file as it is. -/
theorem main_open_again {L : Layout} {ver : Nat} {env : OpenEnv} {shm : ShmHandle}
    {created : Option Nat} {f1 : Shm} (ht : Tidy L f1)
    (h2 : (sr_shmmain_main_open L ver env (some f1) shm created).err = none) :
    (sr_shmmain_main_open L ver env (some f1) shm created).file = some f1 := by
  unfold sr_shmmain_main_open at h2 ⊢
  by_cases hp : env.path_fails = true
  · rw [if_pos hp] at h2
    simp at h2
  · rw [if_neg hp] at h2 ⊢
    simp only [open_rdwr] at h2 ⊢
    by_cases ho : env.open_refused = true
    · rw [if_pos ho] at h2
      simp at h2
    · rw [if_neg ho] at h2 ⊢
      simp only at h2 ⊢
      unfold main_open_map at h2 ⊢
      simp only [Bool.false_eq_true, if_false] at h2 ⊢
      cases hr : sr_shm_remap L f1 0 with
      | error x =>
        rw [hr] at h2
      | ok f2 =>
        have := tidy_remap_zero ht hr
        subst this
        by_cases hz : f2.size = 0
        · rw [hr] at h2
          simp only at h2
          rw [if_pos hz] at h2
          simp at h2
        · by_cases hv : f2.main.shm_ver ≠ ver
          · rw [hr] at h2
            simp only at h2
            rw [if_neg hz, if_pos hv] at h2
            simp at h2
          · simp only
            rw [if_neg hz, if_neg hv]

/-- C19, counterexample: a first call with `created == NULL` on a missing
file succeeds and leaves no file; a second successful call with a non-null
`created` then creates the file and writes its header. -/
theorem main_open_twice_example :
    (sr_shmmain_main_open exLayout 7 {} none {} none).err = none ∧
    (sr_shmmain_main_open exLayout 7 {} none {} none).file = none ∧
    (sr_shmmain_main_open exLayout 7 {}
      (sr_shmmain_main_open exLayout 7 {} none {} none).file
      (sr_shmmain_main_open exLayout 7 {} none {} none).shm (some 0)).err = none ∧
    ∃ f, (sr_shmmain_main_open exLayout 7 {}
      (sr_shmmain_main_open exLayout 7 {} none {} none).file
      (sr_shmmain_main_open exLayout 7 {} none {} none).shm (some 0)).file = some f ∧
      f.size = 64 ∧ f.main.shm_ver = 7 ∧ f.main.new_sr_cid = 1 :=
  ⟨rfl, rfl, rfl, _, rfl, rfl, rfl, rfl⟩

/-- C19, amended: idempotent bootstrap.  Of two successive successful
`sr_shmmain_main_open` calls of which the first opened or created the file,
the second leaves the backing file as it is: the same length, the same
header (so the same `shm_ver`, `mod_count` and counters), which is the
header the first call left, with `shm_ver = SR_SHM_VER`. -/
theorem main_open_idempotent {L : Layout} (h0 : 0 < L.hdr) (ver : Nat) (env env2 : OpenEnv)
    (file : Option Shm) (shm : ShmHandle) (created created2 : Option Nat) (f1 : Shm)
    (h1 : (sr_shmmain_main_open L ver env file shm created).err = none)
    (hf : (sr_shmmain_main_open L ver env file shm created).file = some f1)
    (h2 : (sr_shmmain_main_open L ver env2 (some f1)
      (sr_shmmain_main_open L ver env file shm created).shm created2).err = none) :
    f1.main.shm_ver = ver ∧
    ∃ f2, (sr_shmmain_main_open L ver env2 (some f1)
        (sr_shmmain_main_open L ver env file shm created).shm created2).file = some f2 ∧
      f2.size = f1.size ∧ f2.main = f1.main ∧ f2 = f1 := by
  obtain ⟨ht, hv⟩ := main_open_tidy h0 h1 hf
  exact ⟨hv, f1, main_open_again ht h2, rfl, rfl, rfl⟩

theorem main_open_idempotent_witness :
    ∃ f1, (sr_shmmain_main_open exLayout 7 {} none {} (some 0)).file = some f1 ∧
      f1.main.shm_ver = 7 ∧
      ∃ f2, (sr_shmmain_main_open exLayout 7 {} (some f1)
          (sr_shmmain_main_open exLayout 7 {} none {} (some 0)).shm (some 0)).file = some f2 ∧
        f2.size = f1.size ∧ f2.main = f1.main ∧ f2 = f1 :=
  ⟨_, rfl, main_open_idempotent (by decide) 7 {} {} none {} (some 0) (some 0) _ rfl rfl rfl⟩

/-! ## Connections of this process -/

/-- What a successful `sr_shmmain_conn_list_add` leaves: the new item at the
head of the list, the lock of this process on the lockfile, the pid. -/
theorem conn_list_add_ok {env : ConnEnv} {w : ConnWorld} {c : Nat}
    (h : (sr_shmmain_conn_list_add env w c).err = none) :
    (sr_shmmain_conn_list_add env w c).world.conn_list
      = { cid := c, lock_fd := env.new_fd } :: w.conn_list ∧
    (sr_shmmain_conn_list_add env w c).world.lockfile c = some (some w.pid) ∧
    (sr_shmmain_conn_list_add env w c).world.pid = w.pid := by
  unfold sr_shmmain_conn_list_add at h ⊢
  unfold sr_shmmain_conn_new_lockfile at h ⊢
  by_cases h1 : env.path_fails = true
  · simp [h1] at h
  · by_cases h2 : env.open_refused = true
    · simp [h1, h2] at h
    · by_cases h3 : env.fcntl_fails = true ∨
          ∃ p, (w.lockfile c).getD none = some p ∧ p ≠ w.pid
      · simp only [h1, h2, if_false, Bool.false_eq_true] at h
        rw [if_pos h3] at h
        simp at h
      · simp only [h1, h2, if_false, Bool.false_eq_true] at h ⊢
        rw [if_neg h3] at h ⊢
        simp only at h ⊢
        by_cases h4 : env.calloc_fails = true
        · rw [if_pos h4] at h
          unfold conn_list_add_error at h
          simp only at h
          split at h <;> simp at h
        · rw [if_neg h4] at h ⊢
          cases h5 : env.mlock_err with
          | some e =>
            rw [h5] at h
            unfold conn_list_add_error at h
            simp only at h
            split at h <;> simp at h
          | none =>
            simp [ConnWorld.logOp]

/-- C20: after `sr_shmmain_conn_list_add(c)` has succeeded in a process,
`sr_shmmain_conn_check(c)` from the same process (with `c` non-zero and
`conn_alive` non-null, as the function asserts, and the list mutex taken)
returns success with `conn_alive = 1` and `pid = getpid()`; it makes no
filesystem call at all, leaves the world as it is, and the lock of the
process on `<c>.lock` is still held. -/
theorem conn_check_own (env env2 : ConnEnv) (w : ConnWorld) (c : Nat) (hc : c ≠ 0)
    (hadd : (sr_shmmain_conn_list_add env w c).err = none) (hm : env2.mlock_err = none) :
    (sr_shmmain_conn_check env2 (sr_shmmain_conn_list_add env w c).world c true true).err
      = none ∧
    (sr_shmmain_conn_check env2 (sr_shmmain_conn_list_add env w c).world c true true).conn_alive
      = some 1 ∧
    (sr_shmmain_conn_check env2 (sr_shmmain_conn_list_add env w c).world c true true).pid
      = some w.pid ∧
    (sr_shmmain_conn_check env2 (sr_shmmain_conn_list_add env w c).world c true true).world.log
      = (sr_shmmain_conn_list_add env w c).world.log ∧
    (sr_shmmain_conn_check env2 (sr_shmmain_conn_list_add env w c).world c true true).world.lockfile
      c = some (some w.pid) := by
  obtain ⟨h1, h2, h3⟩ := conn_list_add_ok hadd
  have hform : sr_shmmain_conn_check env2 (sr_shmmain_conn_list_add env w c).world c true true
      = { err := none, conn_alive := some 1, pid := some w.pid,
          world := (sr_shmmain_conn_list_add env w c).world } := by
    unfold sr_shmmain_conn_check
    rw [if_neg (by simp [hc]), h1]
    simp only [hm, conn_list_has, if_true]
    rw [h3]
  rw [hform]
  exact ⟨rfl, rfl, rfl, rfl, h2⟩

theorem conn_check_own_witness :
    (sr_shmmain_conn_list_add {} exWorld 5).err = none ∧
    (sr_shmmain_conn_list_add {} exWorld 5).world.log
      = [FsOp.opn 5, FsOp.write 3, FsOp.setlk 3] ∧
    (sr_shmmain_conn_check {} (sr_shmmain_conn_list_add {} exWorld 5).world 5 true true).err
      = none ∧
    (sr_shmmain_conn_check {} (sr_shmmain_conn_list_add {} exWorld 5).world 5 true true).conn_alive
      = some 1 ∧
    (sr_shmmain_conn_check {} (sr_shmmain_conn_list_add {} exWorld 5).world 5 true true).pid
      = some exWorld.pid ∧
    (sr_shmmain_conn_check {} (sr_shmmain_conn_list_add {} exWorld 5).world 5 true true).world.log
      = (sr_shmmain_conn_list_add {} exWorld 5).world.log ∧
    (sr_shmmain_conn_check {} (sr_shmmain_conn_list_add {} exWorld 5).world 5 true
      true).world.lockfile 5 = some (some exWorld.pid) :=
  ⟨rfl, rfl, conn_check_own {} {} exWorld 5 (by decide) rfl rfl⟩

/-! ## Unregistering a connection -/

theorem conn_list_has_false_iff (c : Nat) (l : List ConnItem) :
    conn_list_has c l = false ↔ (l.filter fun it => decide (it.cid = c)).length = 0 := by
  induction l with
  | nil => simp [conn_list_has]
  | cons it rest ih =>
    unfold conn_list_has
    by_cases h : c = it.cid
    · simp [h]
    · have h2 : ¬ it.cid = c := fun e => h e.symm
      rw [if_neg h, ih, List.filter_cons_of_neg (by simpa using h2)]

theorem conn_list_take_absent (c : Nat) (l : List ConnItem) (h : conn_list_has c l = false) :
    conn_list_take c l = (l, none) := by
  induction l with
  | nil => rfl
  | cons it rest ih =>
    unfold conn_list_has at h
    by_cases h1 : c = it.cid
    · simp [h1] at h
    · rw [if_neg h1] at h
      unfold conn_list_take
      rw [if_neg h1, ih h]

theorem conn_list_take_found (c : Nat) (l : List ConnItem) (h : conn_list_has c l = true) :
    ∃ item, (conn_list_take c l).2 = some item ∧ item.cid = c ∧ item ∈ l := by
  induction l with
  | nil => simp [conn_list_has] at h
  | cons it rest ih =>
    unfold conn_list_has at h
    unfold conn_list_take
    by_cases h1 : c = it.cid
    · rw [if_pos h1]
      exact ⟨it, rfl, h1.symm, List.mem_cons_self _ _⟩
    · rw [if_neg h1] at h ⊢
      obtain ⟨item, h2, h3, h4⟩ := ih h
      exact ⟨item, h2, h3, List.mem_cons_of_mem _ h4⟩

theorem conn_list_take_count (c : Nat) (l : List ConnItem) :
    ((conn_list_take c l).1.filter fun it => decide (it.cid = c)).length
      = (l.filter fun it => decide (it.cid = c)).length - 1 := by
  induction l with
  | nil => rfl
  | cons it rest ih =>
    unfold conn_list_take
    by_cases h1 : c = it.cid
    · rw [if_pos h1, List.filter_cons_of_pos (by simpa using h1.symm)]
      simp
    · have h2 : ¬ it.cid = c := fun e => h1 e.symm
      rw [if_neg h1, List.filter_cons_of_neg (by simpa using h2),
        List.filter_cons_of_neg (by simpa using h2)]
      exact ih

theorem conn_close_list (w : ConnWorld) (fd c : Nat) :
    (w.close fd c).conn_list = w.conn_list ∧ (w.close fd c).pid = w.pid ∧
    (w.close fd c).log = w.log ++ [FsOp.close fd] ∧
    ((w.close fd c).lockfile c = none ↔ w.lockfile c = none) ∧
    ∀ d, d ≠ c → (w.close fd c).lockfile d = w.lockfile d := by
  refine ⟨rfl, rfl, rfl, ?_, ?_⟩
  · unfold ConnWorld.close
    simp only [if_true]
    cases h : w.lockfile c with
    | none => simp
    | some x =>
      cases x with
      | none => simp
      | some p => by_cases hp : p = w.pid <;> simp [hp]
  · intro d hd
    unfold ConnWorld.close
    simp [hd]

theorem conn_unlink_facts (env : ConnEnv) (w : ConnWorld) (c : Nat) :
    (ConnWorld.unlink env w c).1.conn_list = w.conn_list ∧
    (ConnWorld.unlink env w c).1.pid = w.pid ∧
    (ConnWorld.unlink env w c).1.log = w.log ++ [FsOp.unlink c] ∧
    ((ConnWorld.unlink env w c).2 = true ↔ (env.unlink_fails = false ∧ w.lockfile c ≠ none)) ∧
    ((ConnWorld.unlink env w c).2 = true → (ConnWorld.unlink env w c).1.lockfile c = none) ∧
    ((ConnWorld.unlink env w c).2 = false → (ConnWorld.unlink env w c).1.lockfile = w.lockfile) ∧
    ∀ d, d ≠ c → (ConnWorld.unlink env w c).1.lockfile d = w.lockfile d := by
  unfold ConnWorld.unlink
  by_cases h : env.unlink_fails = true ∨ w.lockfile c = none
  · rw [if_pos h]
    refine ⟨rfl, rfl, rfl, ?_, ?_, ?_, ?_⟩
    · simp only [Bool.false_eq_true, false_iff, not_and, not_not]
      intro h1
      rcases h with h | h
      · simp [h] at h1
      · exact h
    · intro h1; simp at h1
    · intro _; rfl
    · intro d _; rfl
  · rw [if_neg h]
    have h1 : env.unlink_fails = false ∧ w.lockfile c ≠ none := by
      constructor
      · cases h2 : env.unlink_fails with
        | false => rfl
        | true => exact absurd (Or.inl h2) h
      · exact fun h2 => h (Or.inr h2)
    refine ⟨rfl, rfl, rfl, ?_, ?_, ?_, ?_⟩
    · simp [h1.1, h1.2]
    · intro _; simp
    · intro h2; simp at h2
    · intro d hd; simp [hd]

theorem conn_list_del_loop_facts (w : ConnWorld) (c : Nat) :
    (conn_list_del_loop w c).1.conn_list = (conn_list_take c w.conn_list).1 ∧
    (conn_list_del_loop w c).1.pid = w.pid ∧
    ((conn_list_del_loop w c).1.lockfile c = none ↔ w.lockfile c = none) ∧
    (∀ d, d ≠ c → (conn_list_del_loop w c).1.lockfile d = w.lockfile d) := by
  unfold conn_list_del_loop
  cases h : (conn_list_take c w.conn_list).2 with
  | none => exact ⟨rfl, rfl, Iff.rfl, fun _ _ => rfl⟩
  | some ptr =>
    simp only
    by_cases h1 : 0 < ptr.lock_fd
    · rw [if_pos h1]
      exact ⟨rfl, rfl, (conn_close_list _ _ _).2.2.2.1, (conn_close_list _ _ _).2.2.2.2⟩
    · rw [if_neg h1]
      exact ⟨rfl, rfl, Iff.rfl, fun _ _ => rfl⟩

/-- The form of `sr_shmmain_conn_list_del` once the mutex is taken and the
path built. -/
theorem conn_list_del_form {env : ConnEnv} {w : ConnWorld} {c : Nat}
    (hm : env.mlock_err = none) (hp : env.path_fails = false) :
    sr_shmmain_conn_list_del env w c =
      { err := if (ConnWorld.unlink env (conn_list_del_loop w c).1 c).2 then none
               else some SrErr.Sys
        world := (ConnWorld.unlink env (conn_list_del_loop w c).1 c).1 } := by
  unfold sr_shmmain_conn_list_del
  rw [hm]
  simp [hp]

/-- What a successful `sr_shmmain_conn_list_del` leaves. -/
theorem conn_list_del_ok {env : ConnEnv} {w : ConnWorld} {c : Nat}
    (h : (sr_shmmain_conn_list_del env w c).err = none) :
    env.mlock_err = none ∧ env.path_fails = false ∧
    (sr_shmmain_conn_list_del env w c).world.conn_list = (conn_list_take c w.conn_list).1 ∧
    (sr_shmmain_conn_list_del env w c).world.lockfile c = none ∧
    (sr_shmmain_conn_list_del env w c).world.pid = w.pid := by
  have hm : env.mlock_err = none := by
    cases h1 : env.mlock_err with
    | none => rfl
    | some e =>
      unfold sr_shmmain_conn_list_del at h
      rw [h1] at h
      simp at h
  have hp : env.path_fails = false := by
    cases h1 : env.path_fails with
    | false => rfl
    | true =>
      unfold sr_shmmain_conn_list_del at h
      rw [hm] at h
      simp [h1] at h
  rw [conn_list_del_form hm hp] at h ⊢
  simp only at h ⊢
  have hu := conn_unlink_facts env (conn_list_del_loop w c).1 c
  have hl := conn_list_del_loop_facts w c
  have h2 : (ConnWorld.unlink env (conn_list_del_loop w c).1 c).2 = true := by
    cases h3 : (ConnWorld.unlink env (conn_list_del_loop w c).1 c).2 with
    | true => rfl
    | false => rw [h3] at h; simp at h
  exact ⟨hm, hp, hu.1.trans hl.1, hu.2.2.2.2.1 h2, hu.2.1.trans hl.2.1⟩

/-- A check of a CID that is not in the list goes to the lockfile. -/
theorem conn_check_absent {env : ConnEnv} {w : ConnWorld} {c : Nat} (hc : c ≠ 0)
    (hl : conn_list_has c w.conn_list = false) (hm : env.mlock_err = none) (pid : Bool) :
    sr_shmmain_conn_check env w c true pid = conn_check_file env w c pid := by
  unfold sr_shmmain_conn_check
  rw [if_neg (by simp [hc])]
  cases h : w.conn_list with
  | nil => rfl
  | cons a l =>
    simp only [hm]
    rw [← h, hl]
    simp

/-- The check of a CID whose lockfile does not exist. -/
theorem conn_check_file_missing {env : ConnEnv} {w : ConnWorld} {c : Nat}
    (hp : env.path_fails = false) (hf : w.lockfile c = none) (pid : Bool) :
    conn_check_file env w c pid =
      { err := none, conn_alive := some 0, pid := if pid then some 0 else none,
        world := w.logOp (FsOp.opn c) } := by
  unfold conn_check_file
  simp [hp, hf]

/-! ## Claims on the connection list -/

/-- C21, the failing input: the process registers connection 7 a second
time while it holds the lock of the first registration; `F_SETLK` does not
fail for the process that holds the lock, so the second
`sr_shmmain_conn_list_add(7)` succeeds and the list has two items of 7.
`sr_shmmain_conn_list_del(7)` succeeds (it takes the newer item out, closes
its descriptor and unlinks the lockfile), and `sr_shmmain_conn_check(7)` then
finds the older item and reports `conn_alive = 1` with the pid of the
process. -/
theorem conn_del_twice_example :
    (sr_shmmain_conn_list_add { new_fd := 4 }
      (sr_shmmain_conn_list_add exEnv exWorld 7).world 7).err = none ∧
    exWorldTwice.conn_list = [{ cid := 7, lock_fd := 4 }, { cid := 7, lock_fd := 3 }] ∧
    (sr_shmmain_conn_list_del exEnv exWorldTwice 7).err = none ∧
    (sr_shmmain_conn_list_del exEnv exWorldTwice 7).world.conn_list
      = [{ cid := 7, lock_fd := 3 }] ∧
    (sr_shmmain_conn_check exEnv (sr_shmmain_conn_list_del exEnv exWorldTwice 7).world 7 true
      true).err = none ∧
    (sr_shmmain_conn_check exEnv (sr_shmmain_conn_list_del exEnv exWorldTwice 7).world 7 true
      true).conn_alive = some 1 ∧
    (sr_shmmain_conn_check exEnv (sr_shmmain_conn_list_del exEnv exWorldTwice 7).world 7 true
      true).pid = some 100 := by
  decide

/-- C21: for a CID `c` (non-zero, as the check asserts) that is registered
in the process, with the one item in the connection list that a CID has,
after
`sr_shmmain_conn_list_del(c)` has succeeded, `sr_shmmain_conn_check(c)` from
the same process (list mutex taken, path built) returns success with
`conn_alive = 0` and `pid = 0`. -/
theorem conn_del_then_check (env env2 : ConnEnv) (w : ConnWorld) (c : Nat) (hc : c ≠ 0)
    (hone : (w.conn_list.filter fun it => decide (it.cid = c)).length = 1)
    (hdel : (sr_shmmain_conn_list_del env w c).err = none)
    (hm : env2.mlock_err = none) (hp : env2.path_fails = false) :
    (sr_shmmain_conn_check env2 (sr_shmmain_conn_list_del env w c).world c true true).err
      = none ∧
    (sr_shmmain_conn_check env2 (sr_shmmain_conn_list_del env w c).world c true true).conn_alive
      = some 0 ∧
    (sr_shmmain_conn_check env2 (sr_shmmain_conn_list_del env w c).world c true true).pid
      = some 0 := by
  obtain ⟨_, _, h3, h4, _⟩ := conn_list_del_ok hdel
  have hl : conn_list_has c (sr_shmmain_conn_list_del env w c).world.conn_list = false := by
    rw [h3, conn_list_has_false_iff, conn_list_take_count, hone]
  rw [conn_check_absent hc hl hm, conn_check_file_missing hp h4]
  exact ⟨rfl, rfl, rfl⟩

theorem conn_del_then_check_witness :
    (sr_shmmain_conn_list_add exEnv exWorld 5).world.conn_list = [{ cid := 5, lock_fd := 3 }] ∧
    (sr_shmmain_conn_check exEnv
      (sr_shmmain_conn_list_del exEnv (sr_shmmain_conn_list_add exEnv exWorld 5).world 5).world 5
      true true).err = none ∧
    (sr_shmmain_conn_check exEnv
      (sr_shmmain_conn_list_del exEnv (sr_shmmain_conn_list_add exEnv exWorld 5).world 5).world 5
      true true).conn_alive = some 0 ∧
    (sr_shmmain_conn_check exEnv
      (sr_shmmain_conn_list_del exEnv (sr_shmmain_conn_list_add exEnv exWorld 5).world 5).world 5
      true true).pid = some 0 :=
  ⟨rfl, conn_del_then_check exEnv exEnv (sr_shmmain_conn_list_add exEnv exWorld 5).world 5
    (by decide) (by decide) (by decide) rfl rfl⟩

/-- C22, the failing input: connection 7 is not in the list of process
100, yet process 100 itself holds the lock on `7.lock`: it registered 7 on
descriptor 0, which the unregistration, whose guard is `lock_fd > 0`, did
not close, and the unlink failed.  `F_GETLK` does not report a lock of the
caller, so `sr_shmmain_conn_check(7)` reports `conn_alive = 0` with
`pid = 0` and unlinks the lockfile, not alive with pid 100. -/
theorem conn_check_self_lock_example :
    exWorldOwnLock.pid = 100 ∧
    conn_list_has 7 exWorldOwnLock.conn_list = false ∧
    exWorldOwnLock.lockfile 7 = some (some 100) ∧
    (sr_shmmain_conn_check exEnv exWorldOwnLock 7 true true).err = none ∧
    (sr_shmmain_conn_check exEnv exWorldOwnLock 7 true true).conn_alive = some 0 ∧
    (sr_shmmain_conn_check exEnv exWorldOwnLock 7 true true).pid = some 0 ∧
    (sr_shmmain_conn_check exEnv exWorldOwnLock 7 true true).world.lockfile 7 = none := by
  decide

/-- C22: for a CID `c` (non-zero) that is not in the connection list of the
calling process, `sr_shmmain_conn_check(c)` (list mutex taken, path built)
decides by the lockfile alone.  If `<c>.lock` does not exist it reports
not-alive with pid 0 and leaves the list and every lockfile as they are.  If
it exists and no process holds a lock on it, `F_GETLK` yields `F_UNLCK`: it
reports not-alive with pid 0 and the lockfile no longer exists afterwards.
If a process `P` other than the caller holds the lock it reports alive with
`pid = P` and leaves the lockfile in place, locked by `P`.  (The last two
cases with `open`, `fcntl` and `unlink` not failing for a reason of their
own.)  Where the caller itself holds the lock, `F_GETLK` yields `F_UNLCK`
too and the call diverges: not-alive with pid 0, the lockfile unlinked. -/
theorem conn_check_by_lockfile (env : ConnEnv) (w : ConnWorld) (c : Nat) (hc : c ≠ 0)
    (hl : conn_list_has c w.conn_list = false) (hm : env.mlock_err = none)
    (hp : env.path_fails = false) :
    (w.lockfile c = none →
      (sr_shmmain_conn_check env w c true true).err = none ∧
      (sr_shmmain_conn_check env w c true true).conn_alive = some 0 ∧
      (sr_shmmain_conn_check env w c true true).pid = some 0 ∧
      (sr_shmmain_conn_check env w c true true).world.conn_list = w.conn_list ∧
      (sr_shmmain_conn_check env w c true true).world.lockfile = w.lockfile ∧
      (sr_shmmain_conn_check env w c true true).world.log = w.log ++ [FsOp.opn c]) ∧
    (env.open_refused = false → env.fcntl_fails = false → env.unlink_fails = false →
      (w.lockfile c = some none ∨ w.lockfile c = some (some w.pid)) →
      (sr_shmmain_conn_check env w c true true).err = none ∧
      (sr_shmmain_conn_check env w c true true).conn_alive = some 0 ∧
      (sr_shmmain_conn_check env w c true true).pid = some 0 ∧
      (sr_shmmain_conn_check env w c true true).world.lockfile c = none) ∧
    (∀ P, env.open_refused = false → env.fcntl_fails = false →
      w.lockfile c = some (some P) → P ≠ w.pid →
      (sr_shmmain_conn_check env w c true true).err = none ∧
      (sr_shmmain_conn_check env w c true true).conn_alive = some 1 ∧
      (sr_shmmain_conn_check env w c true true).pid = some P ∧
      (sr_shmmain_conn_check env w c true true).world.lockfile c = some (some P)) := by
  rw [conn_check_absent hc hl hm]
  refine ⟨?_, ?_, ?_⟩
  · intro hf
    rw [conn_check_file_missing hp hf]
    exact ⟨rfl, rfl, rfl, rfl, rfl, rfl⟩
  · intro ho hfc hu hf
    have hu2 := conn_unlink_facts env
      (((w.logOp (FsOp.opn c)).logOp (FsOp.getlk env.new_fd)).close env.new_fd c) c
    have hcl := conn_close_list ((w.logOp (FsOp.opn c)).logOp (FsOp.getlk env.new_fd))
      env.new_fd c
    have hex : w.lockfile c ≠ none := by rcases hf with hf | hf <;> simp [hf]
    have hok : (ConnWorld.unlink env
        (((w.logOp (FsOp.opn c)).logOp (FsOp.getlk env.new_fd)).close env.new_fd c) c).2
        = true := hu2.2.2.2.1.2 ⟨hu, fun h => hex (hcl.2.2.2.1.1 h)⟩
    unfold conn_check_file
    rcases hf with hf | hf
    · simp only [hp, ho, hfc, hf, Bool.false_eq_true, if_false]
      rw [hok]
      refine ⟨?_, ?_, ?_, hu2.2.2.2.2.1 hok⟩ <;> first | rfl | trivial
    · simp only [hp, ho, hfc, hf, Bool.false_eq_true, if_false, if_true]
      rw [hok]
      refine ⟨?_, ?_, ?_, hu2.2.2.2.2.1 hok⟩ <;> first | rfl | trivial
  · intro P ho hfc hf hP
    unfold conn_check_file
    simp only [hp, ho, hfc, hf, Bool.false_eq_true, if_false, if_neg hP, if_true]
    refine ⟨?_, ?_, ?_, ?_⟩ <;> first | rfl | trivial | skip
    simp [ConnWorld.close, ConnWorld.logOp, hf, hP]

theorem conn_check_by_lockfile_witness :
    exWorldOther.lockfile 7 = some (some 200) ∧ exWorldOther.lockfile 8 = some none ∧
    exWorldOther.lockfile 9 = none ∧
    (sr_shmmain_conn_check exEnv exWorldOther 7 true true).pid = some 200 ∧
    (sr_shmmain_conn_check exEnv exWorldOther 7 true true).conn_alive = some 1 :=
  ⟨by decide, by decide, by decide,
    ((conn_check_by_lockfile exEnv exWorldOther 7 (by decide) rfl rfl rfl).2.2 200 rfl rfl
      (by decide) (by decide)).2.2.1,
    by decide⟩

/-- C23, a case where it fails: connection 7 has no item in the list of the
process.  With no `7.lock` on disk `sr_shmmain_conn_list_del(7)` returns a
System error (of the failed `unlink`); with the leftover `8.lock` on disk
`sr_shmmain_conn_list_del(8)` returns success.  Neither is an Internal
error. -/
theorem conn_del_absent_example :
    conn_list_has 7 exWorld.conn_list = false ∧
    (sr_shmmain_conn_list_del exEnv exWorld 7).err = some SrErr.Sys ∧
    conn_list_has 8 exWorldOther.conn_list = false ∧
    (sr_shmmain_conn_list_del exEnv exWorldOther 8).err = none := by
  decide

/-- C23 (as amended): `sr_shmmain_conn_list_del(c)` for a CID `c` that has
no item in the connection list of the calling process (list mutex taken,
path built) raises no Internal error: it leaves the list as it is and goes
on to unlink `<c>.lock`, returning a System error when the unlink fails, as
it does when the lockfile does not exist, and success when the lockfile is
there and is unlinked. -/
theorem conn_list_del_absent (env : ConnEnv) (w : ConnWorld) (c : Nat)
    (hl : conn_list_has c w.conn_list = false) (hm : env.mlock_err = none)
    (hp : env.path_fails = false) :
    (sr_shmmain_conn_list_del env w c).world.conn_list = w.conn_list ∧
    (sr_shmmain_conn_list_del env w c).err ≠ some SrErr.Internal ∧
    (sr_shmmain_conn_list_del env w c).world.log = w.log ++ [FsOp.unlink c] ∧
    ((env.unlink_fails = true ∨ w.lockfile c = none) →
      (sr_shmmain_conn_list_del env w c).err = some SrErr.Sys ∧
      (sr_shmmain_conn_list_del env w c).world.lockfile = w.lockfile) ∧
    (env.unlink_fails = false → w.lockfile c ≠ none →
      (sr_shmmain_conn_list_del env w c).err = none ∧
      (sr_shmmain_conn_list_del env w c).world.lockfile c = none) := by
  have hloop : (conn_list_del_loop w c).1 = w := by
    unfold conn_list_del_loop
    rw [conn_list_take_absent c _ hl]
  rw [conn_list_del_form hm hp, hloop]
  have hu := conn_unlink_facts env w c
  refine ⟨hu.1, ?_, hu.2.2.1, ?_, ?_⟩
  · simp only
    split <;> simp
  · intro h
    have h2 : (ConnWorld.unlink env w c).2 = false := by
      cases h3 : (ConnWorld.unlink env w c).2 with
      | false => rfl
      | true =>
        have h4 := hu.2.2.2.1.1 h3
        rcases h with h | h
        · rw [h] at h4; simp at h4
        · exact absurd h h4.2
    simp only [h2]
    exact ⟨by simp, hu.2.2.2.2.2.1 h2⟩
  · intro h1 h2
    have h3 : (ConnWorld.unlink env w c).2 = true := hu.2.2.2.1.2 ⟨h1, h2⟩
    simp only [h3]
    exact ⟨by simp, hu.2.2.2.2.1 h3⟩

theorem conn_list_del_absent_witness :
    conn_list_has 7 exWorld.conn_list = false ∧
    (sr_shmmain_conn_list_del exEnv exWorld 7).world.conn_list = exWorld.conn_list ∧
    (sr_shmmain_conn_list_del exEnv exWorld 7).err = some SrErr.Sys :=
  ⟨rfl, (conn_list_del_absent exEnv exWorld 7 rfl rfl rfl).1,
    ((conn_list_del_absent exEnv exWorld 7 rfl rfl rfl).2.2.2.1 (Or.inr rfl)).1⟩

/-- C24, a case where it fails: connection 7 is registered on descriptor 3
and `unlink` of its lockfile fails; `sr_shmmain_conn_list_del(7)` takes the
item out and closes descriptor 3, and returns a System error. -/
theorem conn_del_unlink_fails_example :
    (sr_shmmain_conn_list_add exEnv exWorld 7).world.conn_list = [{ cid := 7, lock_fd := 3 }] ∧
    (sr_shmmain_conn_list_del { unlink_fails := true }
      (sr_shmmain_conn_list_add exEnv exWorld 7).world 7).err = some SrErr.Sys ∧
    (sr_shmmain_conn_list_del { unlink_fails := true }
      (sr_shmmain_conn_list_add exEnv exWorld 7).world 7).world.conn_list = [] ∧
    (sr_shmmain_conn_list_del { unlink_fails := true }
      (sr_shmmain_conn_list_add exEnv exWorld 7).world 7).world.log
      = [FsOp.opn 7, FsOp.write 3, FsOp.setlk 3, FsOp.close 3, FsOp.unlink 7] := by
  decide

/-- C24 (as amended): for a registered CID `c` whose item holds an open
descriptor, a positive `lock_fd` (list mutex taken, path built),
`sr_shmmain_conn_list_del(c)` takes the first item of `c` out of the list
and closes its `lock_fd`, then calls `unlink` on the lockfile; when the
unlink fails the call returns a System error, and it returns success when
the unlink succeeds. -/
theorem conn_list_del_reports_unlink (env : ConnEnv) (w : ConnWorld) (c : Nat)
    (hl : conn_list_has c w.conn_list = true)
    (hfd : ∀ item, (conn_list_take c w.conn_list).2 = some item → 0 < item.lock_fd)
    (hm : env.mlock_err = none) (hp : env.path_fails = false) :
    (sr_shmmain_conn_list_del env w c).world.conn_list = (conn_list_take c w.conn_list).1 ∧
    ((sr_shmmain_conn_list_del env w c).world.conn_list.filter
        fun it => decide (it.cid = c)).length + 1
      = (w.conn_list.filter fun it => decide (it.cid = c)).length ∧
    (∃ item, (conn_list_take c w.conn_list).2 = some item ∧ item.cid = c ∧
      (sr_shmmain_conn_list_del env w c).world.log
        = w.log ++ [FsOp.close item.lock_fd, FsOp.unlink c]) ∧
    ((env.unlink_fails = true ∨ w.lockfile c = none) →
      (sr_shmmain_conn_list_del env w c).err = some SrErr.Sys) ∧
    (env.unlink_fails = false → w.lockfile c ≠ none →
      (sr_shmmain_conn_list_del env w c).err = none ∧
      (sr_shmmain_conn_list_del env w c).world.lockfile c = none) := by
  rw [conn_list_del_form hm hp]
  have hu := conn_unlink_facts env (conn_list_del_loop w c).1 c
  have hlp := conn_list_del_loop_facts w c
  have hlist : (ConnWorld.unlink env (conn_list_del_loop w c).1 c).1.conn_list
      = (conn_list_take c w.conn_list).1 := hu.1.trans hlp.1
  have hpos : 0 < (w.conn_list.filter fun it => decide (it.cid = c)).length := by
    rcases Nat.eq_zero_or_pos (w.conn_list.filter fun it => decide (it.cid = c)).length
      with h | h
    · rw [(conn_list_has_false_iff c w.conn_list).2 h] at hl
      simp at hl
    · exact h
  refine ⟨hlist, ?_, ?_, ?_, ?_⟩
  · show ((ConnWorld.unlink env (conn_list_del_loop w c).1 c).1.conn_list.filter
        fun it => decide (it.cid = c)).length + 1 = _
    rw [hlist, conn_list_take_count]
    omega
  · obtain ⟨item, h1, h2, _⟩ := conn_list_take_found c w.conn_list hl
    refine ⟨item, h1, h2, ?_⟩
    show (ConnWorld.unlink env (conn_list_del_loop w c).1 c).1.log = _
    rw [hu.2.2.1]
    unfold conn_list_del_loop
    rw [h1]
    simp only
    rw [if_pos (hfd item h1)]
    simp [ConnWorld.close]
  · intro h
    have h2 : (ConnWorld.unlink env (conn_list_del_loop w c).1 c).2 = false := by
      cases h3 : (ConnWorld.unlink env (conn_list_del_loop w c).1 c).2 with
      | false => rfl
      | true =>
        have h4 := hu.2.2.2.1.1 h3
        rcases h with h | h
        · rw [h] at h4; simp at h4
        · exact absurd (hlp.2.2.1.2 h) h4.2
    simp [h2]
  · intro h1 h2
    have h3 : (ConnWorld.unlink env (conn_list_del_loop w c).1 c).2 = true :=
      hu.2.2.2.1.2 ⟨h1, fun h => h2 (hlp.2.2.1.1 h)⟩
    simp only [h3]
    exact ⟨by simp, hu.2.2.2.2.1 h3⟩

theorem conn_list_del_reports_unlink_witness :
    (sr_shmmain_conn_list_add exEnv exWorld 7).world.conn_list = [{ cid := 7, lock_fd := 3 }] ∧
    (sr_shmmain_conn_list_del { unlink_fails := true }
      (sr_shmmain_conn_list_add exEnv exWorld 7).world 7).err = some SrErr.Sys :=
  ⟨rfl, (conn_list_del_reports_unlink { unlink_fails := true }
    (sr_shmmain_conn_list_add exEnv exWorld 7).world 7 rfl
    (fun item h => by cases h; decide) rfl rfl).2.2.2.1 (Or.inl rfl)⟩

/-- The form of `sr_shmmain_conn_new_lockfile` when `F_SETLK` fails: the
descriptor is closed, the lockfile is left where it is. -/
theorem conn_new_lockfile_locked {env : ConnEnv} {w : ConnWorld} {c : Nat}
    (hp : env.path_fails = false) (ho : env.open_refused = false)
    (hlk : env.fcntl_fails = true ∨ ∃ p, w.lockfile c = some (some p) ∧ p ≠ w.pid) :
    ∃ w1, sr_shmmain_conn_new_lockfile env w c = .error (SrErr.Sys, w1) ∧
      w1.conn_list = w.conn_list ∧ w1.lockfile c ≠ none ∧ w1.pid = w.pid ∧
      w1.log = w.log ++ [FsOp.opn c, FsOp.write env.new_fd, FsOp.setlk env.new_fd,
        FsOp.close env.new_fd] := by
  have h3 : env.fcntl_fails = true ∨ ∃ p, (w.lockfile c).getD none = some p ∧ p ≠ w.pid := by
    rcases hlk with h | ⟨p, h1, h2⟩
    · exact Or.inl h
    · exact Or.inr ⟨p, by rw [h1]; rfl, h2⟩
  unfold sr_shmmain_conn_new_lockfile
  simp only [hp, ho, if_false, Bool.false_eq_true]
  rw [if_pos h3]
  refine ⟨_, rfl, rfl, ?_, rfl, ?_⟩
  · unfold ConnWorld.close
    simp only [if_true]
    cases h : (w.lockfile c).getD none with
    | none => simp
    | some p =>
      simp only
      split <;> simp
  · simp [ConnWorld.close, ConnWorld.logOp]

/-- The form of `sr_shmmain_conn_new_lockfile` when it succeeds. -/
theorem conn_new_lockfile_ok {env : ConnEnv} {w : ConnWorld} {c : Nat}
    (hp : env.path_fails = false) (ho : env.open_refused = false)
    (hf : env.fcntl_fails = false) (hlk : ∀ p, w.lockfile c = some (some p) → p = w.pid) :
    ∃ w1, sr_shmmain_conn_new_lockfile env w c = .ok (env.new_fd, w1) ∧
      w1.conn_list = w.conn_list ∧ w1.lockfile c = some (some w.pid) ∧ w1.pid = w.pid ∧
      w1.log = w.log ++ [FsOp.opn c, FsOp.write env.new_fd, FsOp.setlk env.new_fd] := by
  have h3 : ¬ (env.fcntl_fails = true ∨ ∃ p, (w.lockfile c).getD none = some p ∧ p ≠ w.pid) := by
    rintro (h | ⟨p, h1, h2⟩)
    · rw [hf] at h; simp at h
    · apply h2
      apply hlk
      cases h4 : w.lockfile c with
      | none => rw [h4] at h1; simp at h1
      | some x => rw [h4] at h1; simp at h1; rw [h1]
  unfold sr_shmmain_conn_new_lockfile
  simp only [hp, ho, if_false, Bool.false_eq_true]
  rw [if_neg h3]
  refine ⟨_, rfl, rfl, ?_, rfl, ?_⟩
  · simp
  · simp [ConnWorld.logOp]

/-- C25: if `F_SETLK` on the lockfile cannot be acquired during
`sr_shmmain_conn_list_add(c)` (the path was built and the lockfile opened;
`fcntl` fails, as it does when another process holds the lock on
`<c>.lock`), the call returns a System error and the connection list of the
process is exactly what it was before the call. -/
theorem conn_list_add_locked (env : ConnEnv) (w : ConnWorld) (c : Nat)
    (hp : env.path_fails = false) (ho : env.open_refused = false)
    (hlk : env.fcntl_fails = true ∨ ∃ p, w.lockfile c = some (some p) ∧ p ≠ w.pid) :
    (sr_shmmain_conn_list_add env w c).err = some SrErr.Sys ∧
    (sr_shmmain_conn_list_add env w c).world.conn_list = w.conn_list := by
  obtain ⟨w1, h1, h2, _⟩ := conn_new_lockfile_locked hp ho hlk
  unfold sr_shmmain_conn_list_add
  rw [h1]
  exact ⟨rfl, h2⟩

theorem conn_list_add_locked_witness :
    exWorldOther.lockfile 7 = some (some 200) ∧ exWorldOther.pid = 100 ∧
    (sr_shmmain_conn_list_add exEnv exWorldOther 7).err = some SrErr.Sys ∧
    (sr_shmmain_conn_list_add exEnv exWorldOther 7).world.conn_list = exWorldOther.conn_list :=
  ⟨by decide, rfl,
    conn_list_add_locked exEnv exWorldOther 7 rfl rfl (Or.inr ⟨200, by decide, by decide⟩)⟩

/-- C26, a case where it fails: process 200 holds the lock on `7.lock`, so
`F_SETLK` fails in `sr_shmmain_conn_list_add(7)` of process 100.  The call
returns a System error after closing descriptor 3, and `unlink` is not
called: the lockfile is still there, locked by process 200. -/
theorem conn_add_locked_example :
    (sr_shmmain_conn_list_add exEnv exWorldOther 7).err = some SrErr.Sys ∧
    (sr_shmmain_conn_list_add exEnv exWorldOther 7).world.log
      = [FsOp.opn 7, FsOp.write 3, FsOp.setlk 3, FsOp.close 3] ∧
    (sr_shmmain_conn_list_add exEnv exWorldOther 7).world.lockfile 7 = some (some 200) := by
  decide

/-- C26 (as amended): with the lockfile opened in
`sr_shmmain_conn_list_add(c)`, if acquiring the lock fails, the opened
descriptor is closed and the error returned, and the lockfile is left in
place (`unlink` is not called); if allocating the list item or taking the
list mutex fails, the opened descriptor is closed and `unlink` is called on
`<c>.lock` (its path built again) before the error is returned, after which
the lockfile is gone unless that `unlink` fails.  In both cases the list is
as before. -/
theorem conn_list_add_cleanup (env : ConnEnv) (w : ConnWorld) (c : Nat)
    (hp : env.path_fails = false) (ho : env.open_refused = false) :
    ((env.fcntl_fails = true ∨ ∃ p, w.lockfile c = some (some p) ∧ p ≠ w.pid) →
      (sr_shmmain_conn_list_add env w c).err = some SrErr.Sys ∧
      (sr_shmmain_conn_list_add env w c).world.log
        = w.log ++ [FsOp.opn c, FsOp.write env.new_fd, FsOp.setlk env.new_fd,
            FsOp.close env.new_fd] ∧
      (sr_shmmain_conn_list_add env w c).world.lockfile c ≠ none ∧
      (sr_shmmain_conn_list_add env w c).world.conn_list = w.conn_list) ∧
    (env.fcntl_fails = false → (∀ p, w.lockfile c = some (some p) → p = w.pid) →
      (env.calloc_fails = true ∨ env.mlock_err ≠ none) → env.path_fails_again = false →
      (sr_shmmain_conn_list_add env w c).err
        = (if env.calloc_fails then some SrErr.NoMem else env.mlock_err) ∧
      (sr_shmmain_conn_list_add env w c).world.log
        = w.log ++ [FsOp.opn c, FsOp.write env.new_fd, FsOp.setlk env.new_fd,
            FsOp.close env.new_fd, FsOp.unlink c] ∧
      (env.unlink_fails = false → (sr_shmmain_conn_list_add env w c).world.lockfile c = none) ∧
      (sr_shmmain_conn_list_add env w c).world.conn_list = w.conn_list) := by
  constructor
  · intro hlk
    obtain ⟨w1, h1, h2, h3, _, h5⟩ := conn_new_lockfile_locked hp ho hlk
    unfold sr_shmmain_conn_list_add
    rw [h1]
    exact ⟨rfl, h5, h3, h2⟩
  · intro hf hlk hfail hpa
    obtain ⟨w1, h1, h2, h3, _, h5⟩ := conn_new_lockfile_ok hp ho hf hlk
    have herr : ∀ e, (conn_list_add_error env w1 c env.new_fd e).err = some e ∧
        (conn_list_add_error env w1 c env.new_fd e).world.log
          = w.log ++ [FsOp.opn c, FsOp.write env.new_fd, FsOp.setlk env.new_fd,
              FsOp.close env.new_fd, FsOp.unlink c] ∧
        (env.unlink_fails = false →
          (conn_list_add_error env w1 c env.new_fd e).world.lockfile c = none) ∧
        (conn_list_add_error env w1 c env.new_fd e).world.conn_list = w.conn_list := by
      intro e
      unfold conn_list_add_error
      simp only [hpa, if_false, Bool.false_eq_true]
      have hu := conn_unlink_facts env (w1.close env.new_fd c) c
      have hcl := conn_close_list w1 env.new_fd c
      refine ⟨trivial, ?_, ?_, ?_⟩
      · rw [hu.2.2.1, hcl.2.2.1, h5]
        simp
      · intro hun
        apply hu.2.2.2.2.1
        apply hu.2.2.2.1.2
        refine ⟨hun, fun h => ?_⟩
        have := hcl.2.2.2.1.1 h
        rw [h3] at this
        simp at this
      · rw [hu.1, hcl.1, h2]
    unfold sr_shmmain_conn_list_add
    rw [h1]
    simp only
    by_cases h4 : env.calloc_fails = true
    · rw [if_pos h4, if_pos h4]
      exact herr _
    · rw [if_neg h4, if_neg h4]
      cases h6 : env.mlock_err with
      | none =>
        rcases hfail with h | h
        · exact absurd h h4
        · exact absurd h6 h
      | some e => exact herr e

theorem conn_list_add_cleanup_witness :
    (sr_shmmain_conn_list_add { calloc_fails := true } exWorld 7).err = some SrErr.NoMem ∧
    (sr_shmmain_conn_list_add { calloc_fails := true } exWorld 7).world.log
      = [FsOp.opn 7, FsOp.write 3, FsOp.setlk 3, FsOp.close 3, FsOp.unlink 7] ∧
    (sr_shmmain_conn_list_add exEnv exWorldOther 7).world.lockfile 7 ≠ none :=
  ⟨by decide, by decide,
    ((conn_list_add_cleanup exEnv exWorldOther 7 rfl rfl).1
      (Or.inr ⟨200, by decide, by decide⟩)).2.2.1⟩

/-! ## Flags of modules and subscriptions -/

theorem replay_support_loop_spec (v : Nat) : ∀ (n i : Nat) (shm : Shm),
    AgreeOff i (i + n) shm (replay_support_loop v n i shm) ∧
    ∀ j, i ≤ j → j < i + n →
      (replay_support_loop v n i shm).mods j = { shm.mods j with replay_supp := v } := by
  intro n
  induction n with
  | zero =>
    intro i shm
    exact ⟨⟨rfl, rfl, fun _ _ => rfl, rfl, rfl, rfl, rfl, rfl⟩, fun j h1 h2 => by omega⟩
  | succ n ih =>
    intro i shm
    unfold replay_support_loop
    obtain ⟨h1, h2⟩ := ih (i + 1)
      (shm.updMod i fun shm_mod => { shm_mod with replay_supp := v })
    have hne : ∀ j, j ≠ i →
        (shm.updMod i fun shm_mod => { shm_mod with replay_supp := v }).mods j = shm.mods j := by
      intro j hj
      simp [Shm.updMod, Shm.setMod, hj]
    have heq : (shm.updMod i fun shm_mod => { shm_mod with replay_supp := v }).mods i
        = { shm.mods i with replay_supp := v } := by
      simp [Shm.updMod, Shm.setMod]
    constructor
    · refine ⟨h1.size, h1.main, ?_, h1.str, h1.off, h1.dep, h1.rpc, h1.notif⟩
      intro j hj
      rw [h1.mods j (by omega), hne j (by omega)]
    · intro j hj1 hj2
      by_cases hji : j = i
      · subst hji
        rw [h1.mods j (Or.inl (by omega)), heq]
      · rw [h2 j (by omega) (by omega), hne j hji]

/-- C27: `sr_shmmain_update_replay_support(main_shm, name, v)` with the name
of an existing module succeeds, sets `replay_supp` of that module (the first
record with the name) to `v` and leaves its other members, every other
module record and everything else in the arena unchanged; with
`name == NULL` it succeeds and sets `replay_supp` to `v` in all `mod_count`
module records, changing nothing else; with a name that no module has it
returns an Internal error and the arena is as before. -/
theorem update_replay_support_spec (shm : Shm) (v : Nat) :
    (∀ name, HasName shm name →
      ∃ i s2, i < shm.main.mod_count ∧ shm.str (shm.mods i).name = name ∧
        (∀ j, j < i → shm.str (shm.mods j).name ≠ name) ∧
        sr_shmmain_update_replay_support shm (some name) v = .ok s2 ∧
        s2.mods i = { shm.mods i with replay_supp := v } ∧ AgreeOff i (i + 1) shm s2) ∧
    (∃ s2, sr_shmmain_update_replay_support shm none v = .ok s2 ∧
      (∀ j, j < shm.main.mod_count → s2.mods j = { shm.mods j with replay_supp := v }) ∧
      AgreeOff 0 shm.main.mod_count shm s2) ∧
    (∀ name, ¬ HasName shm name →
      sr_shmmain_update_replay_support shm (some name) v = .error (SrErr.Internal, shm)) := by
  refine ⟨?_, ?_, ?_⟩
  · intro name ⟨k, hk1, hk2⟩
    cases hf : sr_shmmain_find_module shm name with
    | none => exact absurd hk2 (find_module_none hf k hk1)
    | some i =>
      obtain ⟨g1, g2, g3⟩ := find_module_some hf
      refine ⟨i, shm.updMod i (fun shm_mod => { shm_mod with replay_supp := v }), g1, g2, g3,
        ?_, ?_, ?_⟩
      · unfold sr_shmmain_update_replay_support
        simp only [hf]
      · simp [Shm.updMod, Shm.setMod]
      · refine ⟨rfl, rfl, ?_, rfl, rfl, rfl, rfl, rfl⟩
        intro j hj
        have : j ≠ i := by omega
        simp [Shm.updMod, Shm.setMod, this]
  · obtain ⟨h1, h2⟩ := replay_support_loop_spec v shm.main.mod_count 0 shm
    refine ⟨replay_support_loop v shm.main.mod_count 0 shm, rfl, ?_, ?_⟩
    · intro j hj
      exact h2 j (Nat.zero_le _) (by omega)
    · simpa using h1
  · intro name hn
    cases hf : sr_shmmain_find_module shm name with
    | none =>
      unfold sr_shmmain_update_replay_support
      simp only [hf]
    | some i => exact absurd (HasName_of_find hf) hn

theorem notif_sub_loop_spec (ext_sub : Nat → SrModNotifSub) (shm_sub sub_size sub_id : Nat) :
    ∀ (n i : Nat),
      i ≤ notif_sub_loop ext_sub shm_sub sub_size sub_id n i ∧
      notif_sub_loop ext_sub shm_sub sub_size sub_id n i ≤ i + n ∧
      (∀ j, i ≤ j → j < notif_sub_loop ext_sub shm_sub sub_size sub_id n i →
        (ext_sub (shm_sub + j * sub_size)).sub_id ≠ sub_id) ∧
      (notif_sub_loop ext_sub shm_sub sub_size sub_id n i < i + n →
        (ext_sub (shm_sub + notif_sub_loop ext_sub shm_sub sub_size sub_id n i * sub_size)).sub_id
          = sub_id) := by
  intro n
  induction n with
  | zero =>
    intro i
    unfold notif_sub_loop
    exact ⟨le_refl _, le_refl _, fun j h1 h2 => by omega, fun h => by omega⟩
  | succ n ih =>
    intro i
    unfold notif_sub_loop
    by_cases h : (ext_sub (shm_sub + i * sub_size)).sub_id = sub_id
    · rw [if_pos h]
      exact ⟨le_refl _, by omega, fun j h1 h2 => by omega, fun _ => h⟩
    · rw [if_neg h]
      obtain ⟨h1, h2, h3, h4⟩ := ih (i + 1)
      refine ⟨by omega, by omega, ?_, fun h5 => h4 (by omega)⟩
      intro j hj1 hj2
      by_cases hji : j = i
      · rw [hji]; exact h
      · exact h3 j (by omega) hj2

theorem notif_sub_loop_congr {e1 e2 : Nat → SrModNotifSub} (shm_sub sub_size sub_id : Nat)
    (h : ∀ a, (e2 a).sub_id = (e1 a).sub_id) :
    ∀ (n i : Nat), notif_sub_loop e2 shm_sub sub_size sub_id n i
      = notif_sub_loop e1 shm_sub sub_size sub_id n i := by
  intro n
  induction n with
  | zero => intro i; rfl
  | succ n ih =>
    intro i
    unfold notif_sub_loop
    rw [h, ih]

/-- The form of `sr_shmmain_update_notif_suspend` once the module and the
subscription are found and the lock is taken. -/
theorem update_notif_suspend_form {sub_size : Nat} {conn : SrConn} {name : String}
    {m sub_id i : Nat} (suspend : Nat)
    (hmod : sr_shmmain_find_module conn.main_shm name = some m)
    (hi : notif_sub_loop conn.ext_sub (conn.main_shm.mods m).notif_subs sub_size sub_id
      (conn.main_shm.mods m).notif_sub_count 0 = i)
    (hlt : i < (conn.main_shm.mods m).notif_sub_count) :
    sr_shmmain_update_notif_suspend sub_size none conn (some name) sub_id suspend =
      if suspend ≠ 0 ∧
          (conn.ext_sub ((conn.main_shm.mods m).notif_subs + i * sub_size)).suspended ≠ 0 then
        (some SrErr.Unsupported, conn)
      else if suspend = 0 ∧
          (conn.ext_sub ((conn.main_shm.mods m).notif_subs + i * sub_size)).suspended = 0 then
        (some SrErr.Unsupported, conn)
      else
        (none,
          { conn with
            ext_sub := fun a =>
              if a = (conn.main_shm.mods m).notif_subs + i * sub_size then
                { conn.ext_sub ((conn.main_shm.mods m).notif_subs + i * sub_size) with
                  suspended := suspend }
              else conn.ext_sub a }) := by
  unfold sr_shmmain_update_notif_suspend
  simp only [hmod, hi]
  rw [if_neg (by omega)]

theorem ext_store_sub_id (e : Nat → SrModNotifSub) (cell v a : Nat) :
    ((fun x => if x = cell then { e cell with suspended := v } else e x) a).sub_id
      = (e a).sub_id := by
  simp only
  split
  · next h => rw [h]
  · rfl

/-- After a store of the target the same call finds the flag at the target. -/
theorem update_notif_suspend_again {sub_size : Nat} {conn : SrConn} {name : String}
    {m sub_id i : Nat} (suspend : Nat)
    (hmod : sr_shmmain_find_module conn.main_shm name = some m)
    (hi : notif_sub_loop conn.ext_sub (conn.main_shm.mods m).notif_subs sub_size sub_id
      (conn.main_shm.mods m).notif_sub_count 0 = i)
    (hlt : i < (conn.main_shm.mods m).notif_sub_count) :
    sr_shmmain_update_notif_suspend sub_size none
        { conn with
          ext_sub := fun a =>
            if a = (conn.main_shm.mods m).notif_subs + i * sub_size then
              { conn.ext_sub ((conn.main_shm.mods m).notif_subs + i * sub_size) with
                suspended := suspend }
            else conn.ext_sub a }
        (some name) sub_id suspend
      = (some SrErr.Unsupported,
        { conn with
          ext_sub := fun a =>
            if a = (conn.main_shm.mods m).notif_subs + i * sub_size then
              { conn.ext_sub ((conn.main_shm.mods m).notif_subs + i * sub_size) with
                suspended := suspend }
            else conn.ext_sub a }) := by
  generalize hc : ({ conn with
          ext_sub := fun a =>
            if a = (conn.main_shm.mods m).notif_subs + i * sub_size then
              { conn.ext_sub ((conn.main_shm.mods m).notif_subs + i * sub_size) with
                suspended := suspend }
            else conn.ext_sub a } : SrConn) = conn2
  have hm2 : conn2.main_shm = conn.main_shm := by rw [← hc]
  have he2 : ∀ a, (conn2.ext_sub a).sub_id = (conn.ext_sub a).sub_id := by
    intro a
    rw [← hc]
    exact ext_store_sub_id conn.ext_sub _ suspend a
  have hflag : (conn2.ext_sub ((conn2.main_shm.mods m).notif_subs + i * sub_size)).suspended
      = suspend := by
    rw [hm2, ← hc]
    simp
  have hmod2 : sr_shmmain_find_module conn2.main_shm name = some m := by rw [hm2]; exact hmod
  have hi2 : notif_sub_loop conn2.ext_sub (conn2.main_shm.mods m).notif_subs sub_size sub_id
      (conn2.main_shm.mods m).notif_sub_count 0 = i := by
    rw [hm2]
    exact (notif_sub_loop_congr _ _ _ he2 _ _).trans hi
  have hlt2 : i < (conn2.main_shm.mods m).notif_sub_count := by rw [hm2]; exact hlt
  rw [update_notif_suspend_form suspend hmod2 hi2 hlt2, hflag]
  by_cases hs : suspend = 0
  · simp [hs]
  · simp [hs]

/-- C28: for an existing notification subscription (the module is found,
one of its subscription records has the `sub_id`; the ext lock is taken)
`sr_shmmain_update_notif_suspend` works on the first record `i` with the
`sub_id`.  It succeeds exactly when the `suspended` flag of that record is
not already at the target state, and then stores the target in it, changing
no other record and nothing in the main SHM.  When the flag is already at
the target it returns Unsupported and leaves the connection as it is.  After
a success the same call again returns Unsupported and changes nothing. -/
theorem update_notif_suspend_guard (sub_size : Nat) (conn : SrConn) (name : String)
    (m sub_id suspend : Nat)
    (hmod : sr_shmmain_find_module conn.main_shm name = some m)
    (hsub : ∃ k, k < (conn.main_shm.mods m).notif_sub_count ∧
      (conn.ext_sub (subCell sub_size conn m k)).sub_id = sub_id) :
    ∃ i, i < (conn.main_shm.mods m).notif_sub_count ∧
      (conn.ext_sub (subCell sub_size conn m i)).sub_id = sub_id ∧
      (∀ j, j < i → (conn.ext_sub (subCell sub_size conn m j)).sub_id ≠ sub_id) ∧
      ((sr_shmmain_update_notif_suspend sub_size none conn (some name) sub_id suspend).1 = none ↔
        ¬ ((conn.ext_sub (subCell sub_size conn m i)).suspended ≠ 0 ↔ suspend ≠ 0)) ∧
      ((sr_shmmain_update_notif_suspend sub_size none conn (some name) sub_id suspend).1 = none →
        ((sr_shmmain_update_notif_suspend sub_size none conn (some name) sub_id suspend).2.ext_sub
          (subCell sub_size conn m i)).suspended = suspend ∧
        ((sr_shmmain_update_notif_suspend sub_size none conn (some name) sub_id suspend).2.ext_sub
          (subCell sub_size conn m i)).sub_id = sub_id ∧
        (∀ a, a ≠ subCell sub_size conn m i →
          (sr_shmmain_update_notif_suspend sub_size none conn (some name) sub_id
            suspend).2.ext_sub a = conn.ext_sub a) ∧
        (sr_shmmain_update_notif_suspend sub_size none conn (some name) sub_id
          suspend).2.main_shm = conn.main_shm ∧
        sr_shmmain_update_notif_suspend sub_size none
          (sr_shmmain_update_notif_suspend sub_size none conn (some name) sub_id suspend).2
          (some name) sub_id suspend
          = (some SrErr.Unsupported,
            (sr_shmmain_update_notif_suspend sub_size none conn (some name) sub_id suspend).2)) ∧
      (((conn.ext_sub (subCell sub_size conn m i)).suspended ≠ 0 ↔ suspend ≠ 0) →
        sr_shmmain_update_notif_suspend sub_size none conn (some name) sub_id suspend
          = (some SrErr.Unsupported, conn)) := by
  obtain ⟨k, hk1, hk2⟩ := hsub
  obtain ⟨_, h2, h3, h4⟩ := notif_sub_loop_spec conn.ext_sub (conn.main_shm.mods m).notif_subs
    sub_size sub_id (conn.main_shm.mods m).notif_sub_count 0
  generalize hi : notif_sub_loop conn.ext_sub (conn.main_shm.mods m).notif_subs sub_size sub_id
    (conn.main_shm.mods m).notif_sub_count 0 = i at h2 h3 h4
  have hlt : i < (conn.main_shm.mods m).notif_sub_count := by
    by_contra hge
    exact h3 k (Nat.zero_le _) (by omega) hk2
  have hid : (conn.ext_sub (subCell sub_size conn m i)).sub_id = sub_id := h4 (by omega)
  have hform := update_notif_suspend_form suspend hmod hi hlt
  refine ⟨i, hlt, hid, fun j hj => h3 j (Nat.zero_le _) hj, ?_⟩
  rw [hform]
  show (_ ↔ ¬ ((conn.ext_sub (subCell sub_size conn m i)).suspended ≠ 0 ↔ suspend ≠ 0)) ∧ _
  unfold subCell at hid ⊢
  by_cases hs : suspend = 0
  · by_cases hf : (conn.ext_sub ((conn.main_shm.mods m).notif_subs + i * sub_size)).suspended = 0
    · simp [hs, hf]
    · rw [if_neg (by simp [hs]), if_neg (by simp [hf])]
      refine ⟨by simp [hs, hf], ?_, fun h => absurd h (by simp [hs, hf])⟩
      intro _
      refine ⟨by simp, by simpa using hid, fun a ha => by simp [ha], rfl, ?_⟩
      exact update_notif_suspend_again suspend hmod hi hlt
  · by_cases hf : (conn.ext_sub ((conn.main_shm.mods m).notif_subs + i * sub_size)).suspended = 0
    · rw [if_neg (by simp [hf]), if_neg (by simp [hs])]
      refine ⟨by simp [hs, hf], ?_, fun h => absurd h (by simp [hs, hf])⟩
      intro _
      refine ⟨by simp, by simpa using hid, fun a ha => by simp [ha], rfl, ?_⟩
      exact update_notif_suspend_again suspend hmod hi hlt
    · simp [hs, hf]

theorem update_notif_suspend_guard_witness :
    (sr_shmmain_update_notif_suspend 16 none exConn (some "M2") 5 1).1 = none ∧
    ∃ i, i < (exConn.main_shm.mods 1).notif_sub_count ∧
      (exConn.ext_sub (subCell 16 exConn 1 i)).sub_id = 5 ∧
      (∀ j, j < i → (exConn.ext_sub (subCell 16 exConn 1 j)).sub_id ≠ 5) ∧
      ((sr_shmmain_update_notif_suspend 16 none exConn (some "M2") 5 1).1 = none ↔
        ¬ ((exConn.ext_sub (subCell 16 exConn 1 i)).suspended ≠ 0 ↔ 1 ≠ 0)) ∧
      ((sr_shmmain_update_notif_suspend 16 none exConn (some "M2") 5 1).1 = none →
        ((sr_shmmain_update_notif_suspend 16 none exConn (some "M2") 5 1).2.ext_sub
          (subCell 16 exConn 1 i)).suspended = 1 ∧
        ((sr_shmmain_update_notif_suspend 16 none exConn (some "M2") 5 1).2.ext_sub
          (subCell 16 exConn 1 i)).sub_id = 5 ∧
        (∀ a, a ≠ subCell 16 exConn 1 i →
          (sr_shmmain_update_notif_suspend 16 none exConn (some "M2") 5 1).2.ext_sub a
            = exConn.ext_sub a) ∧
        (sr_shmmain_update_notif_suspend 16 none exConn (some "M2") 5 1).2.main_shm
          = exConn.main_shm ∧
        sr_shmmain_update_notif_suspend 16 none
          (sr_shmmain_update_notif_suspend 16 none exConn (some "M2") 5 1).2 (some "M2") 5 1
          = (some SrErr.Unsupported,
            (sr_shmmain_update_notif_suspend 16 none exConn (some "M2") 5 1).2)) ∧
      (((exConn.ext_sub (subCell 16 exConn 1 i)).suspended ≠ 0 ↔ 1 ≠ 0) →
        sr_shmmain_update_notif_suspend 16 none exConn (some "M2") 5 1
          = (some SrErr.Unsupported, exConn)) :=
  ⟨by decide, update_notif_suspend_guard 16 exConn "M2" 1 5 1 (by decide)
    ⟨0, by decide, by decide⟩⟩

/-! ## The getters of `sysrepo::Data` -/

theorem SrData.read_little (d : SrData) : ∀ k, d.read false k = d.mem % 256 ^ k := by
  intro k
  induction k with
  | zero => simp [SrData.read, Nat.mod_one]
  | succ k ih =>
    unfold SrData.read
    simp only [Bool.false_eq_true, if_false]
    rw [ih, Nat.mod_pow_succ, SrData.byte, Nat.mul_comm]

theorem toSigned_mod (w x : Nat) : toSigned w (x % 2 ^ w) = toSigned w x := by
  unfold toSigned
  rw [Nat.mod_mod]

/-- On a target with the least significant byte first, the member
`uint32_val` converted to `int16_t` is the member `int16_val`. -/
theorem SrData.uint32_as_int16_little (d : SrData) :
    toSigned 16 (d.uint32_val false) = d.int16_val false := by
  unfold SrData.uint32_val SrData.int16_val
  rw [SrData.read_little, SrData.read_little, ← toSigned_mod 16 (d.mem % 256 ^ 4),
    ← toSigned_mod 16 (d.mem % 256 ^ 2)]
  have h1 : d.mem % 256 ^ 4 % 2 ^ 16 = d.mem % 2 ^ 16 :=
    Nat.mod_mod_of_dvd _ (by norm_num)
  have h2 : d.mem % 256 ^ 2 % 2 ^ 16 = d.mem % 2 ^ 16 :=
    Nat.mod_mod_of_dvd _ (by norm_num)
  rw [h1, h2]

/-- C29: every typed getter of `sysrepo::Data` throws Unsupported when the
type tag is not the tag of its type.  When the tag is the tag of its type,
each getter but `get_int16` returns the union member of its own type;
`get_int16` returns the member `uint32_val` converted to `int16_t`.  With the
least significant byte first that value is the member `int16_val`; with the
most significant byte first it is not: for the storage bytes `00 05` the
member `int16_val` is 5 and `get_int16` returns 0. -/
theorem data_getters (big : Bool) (d : Data) :
    d.get_binary big = (if d._t = SrType.SR_BINARY_T then .ok (d._d.binary_val big)
      else .error SrErr.Unsupported) ∧
    d.get_bits big = (if d._t = SrType.SR_BITS_T then .ok (d._d.bits_val big)
      else .error SrErr.Unsupported) ∧
    d.get_bool = (if d._t = SrType.SR_BOOL_T then .ok d._d.bool_val
      else .error SrErr.Unsupported) ∧
    d.get_decimal64 big = (if d._t = SrType.SR_DECIMAL64_T then .ok (d._d.decimal64_val big)
      else .error SrErr.Unsupported) ∧
    d.get_enum big = (if d._t = SrType.SR_ENUM_T then .ok (d._d.enum_val big)
      else .error SrErr.Unsupported) ∧
    d.get_identityref big = (if d._t = SrType.SR_IDENTITYREF_T then
      .ok (d._d.identityref_val big) else .error SrErr.Unsupported) ∧
    d.get_instanceid big = (if d._t = SrType.SR_INSTANCEID_T then
      .ok (d._d.instanceid_val big) else .error SrErr.Unsupported) ∧
    d.get_int8 big = (if d._t = SrType.SR_INT8_T then .ok (d._d.int8_val big)
      else .error SrErr.Unsupported) ∧
    d.get_int32 big = (if d._t = SrType.SR_INT32_T then .ok (d._d.int32_val big)
      else .error SrErr.Unsupported) ∧
    d.get_int64 big = (if d._t = SrType.SR_INT64_T then .ok (d._d.int64_val big)
      else .error SrErr.Unsupported) ∧
    d.get_string big = (if d._t = SrType.SR_STRING_T then .ok (d._d.string_val big)
      else .error SrErr.Unsupported) ∧
    d.get_uint8 big = (if d._t = SrType.SR_UINT8_T then .ok (d._d.uint8_val big)
      else .error SrErr.Unsupported) ∧
    d.get_uint16 big = (if d._t = SrType.SR_UINT16_T then .ok (d._d.uint16_val big)
      else .error SrErr.Unsupported) ∧
    d.get_uint32 big = (if d._t = SrType.SR_UINT32_T then .ok (d._d.uint32_val big)
      else .error SrErr.Unsupported) ∧
    d.get_uint64 big = (if d._t = SrType.SR_UINT64_T then .ok (d._d.uint64_val big)
      else .error SrErr.Unsupported) ∧
    d.get_int16 big = (if d._t = SrType.SR_INT16_T then
      .ok (toSigned 16 (d._d.uint32_val big)) else .error SrErr.Unsupported) ∧
    d.get_int16 false = (if d._t = SrType.SR_INT16_T then .ok (d._d.int16_val false)
      else .error SrErr.Unsupported) ∧
    (exDataInt16._t = SrType.SR_INT16_T ∧ exDataInt16._d.int16_val true = 5 ∧
      exDataInt16._d.uint32_val true = 0x50000 ∧ exDataInt16.get_int16 true = .ok 0) := by
  refine ⟨?_, ?_, ?_, ?_, ?_, ?_, ?_, ?_, ?_, ?_, ?_, ?_, ?_, ?_, ?_, ?_, ?_, rfl, by decide,
    by decide, rfl⟩
  · unfold Data.get_binary; split <;> simp_all
  · unfold Data.get_bits; split <;> simp_all
  · unfold Data.get_bool; split <;> simp_all
  · unfold Data.get_decimal64; split <;> simp_all
  · unfold Data.get_enum; split <;> simp_all
  · unfold Data.get_identityref; split <;> simp_all
  · unfold Data.get_instanceid; split <;> simp_all
  · unfold Data.get_int8; split <;> simp_all
  · unfold Data.get_int32; split <;> simp_all
  · unfold Data.get_int64; split <;> simp_all
  · unfold Data.get_string; split <;> simp_all
  · unfold Data.get_uint8; split <;> simp_all
  · unfold Data.get_uint16; split <;> simp_all
  · unfold Data.get_uint32; split <;> simp_all
  · unfold Data.get_uint64; split <;> simp_all
  · unfold Data.get_int16; split <;> simp_all
  · unfold Data.get_int16
    rw [SrData.uint32_as_int16_little]
    split <;> simp_all

/-! ## Allocation through `Vals_Holder` -/

theorem holder_allocate_done {h : Vals_Holder} (o : Except SrErr Nat) (n : Nat)
    (hf : h._allocate = false) : h.allocate o n = .error (SrErr.Exists, h) := by
  unfold Vals_Holder.allocate
  rw [if_pos hf]

theorem holder_allocate_zero {h : Vals_Holder} (o : Except SrErr Nat)
    (hf : h._allocate = true) : h.allocate o 0 = .ok (none, h) := by
  unfold Vals_Holder.allocate
  rw [if_neg (by simp [hf]), if_pos rfl]

theorem holder_allocate_fail {h : Vals_Holder} (e : SrErr) {n : Nat}
    (hf : h._allocate = true) (hn : n ≠ 0) : h.allocate (.error e) n = .error (e, h) := by
  unfold Vals_Holder.allocate
  rw [if_neg (by simp [hf]), if_neg hn]

theorem holder_allocate_ok {h : Vals_Holder} (a : Nat) {n : Nat}
    (hf : h._allocate = true) (hn : n ≠ 0) :
    h.allocate (.ok a) n =
      .ok (some { _vals := some a, _cnt := n },
        { p_vals := some a, p_cnt := n, _allocate := false,
          p_Vals := some { _vals := some a, _cnt := n } }) := by
  unfold Vals_Holder.allocate
  rw [if_neg (by simp [hf]), if_neg hn]
  simp [Vals.from_pointers]

/-- One call keeps the flag `_allocate` the negation of whether an
allocation has succeeded. -/
theorem holder_call_flag (h : Vals_Holder) (c : HolderCall) (done : Bool)
    (hinv : h._allocate = !done) :
    (h.call c).holder._allocate =
      !(done ||
        (match c with
        | .allocate _ n => (h.call c).returned && decide (0 < n)
        | .reallocate _ _ n => (h.call c).returned && decide (0 < n) && !done)) := by
  cases done with
  | true =>
    have hf : h._allocate = false := by simpa using hinv
    cases c with
    | allocate o n =>
      simp only [Vals_Holder.call, holder_allocate_done o n hf, HolderRes.holder]
      simp [hf]
    | reallocate o o2 n =>
      simp only [Vals_Holder.call, Vals_Holder.reallocate, hf, Bool.false_eq_true, if_false]
      cases hv : h.p_Vals with
      | none => simp [HolderRes.holder, hf]
      | some v =>
        cases o2 with
        | error e => simp [Vals.reallocate, HolderRes.holder, hf]
        | ok p => simp [Vals.reallocate, HolderRes.holder, hf]
  | false =>
    have hf : h._allocate = true := by simpa using hinv
    have key : ∀ (o : Except SrErr Nat) (n : Nat),
        (h.allocate o n).holder._allocate
          = !((h.allocate o n).returned && decide (0 < n)) := by
      intro o n
      by_cases hn : n = 0
      · subst hn
        rw [holder_allocate_zero o hf]
        simp [HolderRes.holder, HolderRes.returned, hf]
      · cases o with
        | error e =>
          rw [holder_allocate_fail e hf hn]
          simp [HolderRes.holder, HolderRes.returned, hf]
        | ok a =>
          rw [holder_allocate_ok a hf hn]
          simp [HolderRes.holder, HolderRes.returned]
          omega
    cases c with
    | allocate o n =>
      simp only [Vals_Holder.call, Bool.false_or]
      exact key o n
    | reallocate o o2 n =>
      simp only [Vals_Holder.call, Vals_Holder.reallocate, hf, if_true, Bool.false_or,
        Bool.not_false, Bool.and_true]
      exact key o n

/-- After any calls the flag `_allocate` is off exactly when an allocation
has succeeded. -/
theorem holder_run_flag : ∀ (cs : List HolderCall) (h : Vals_Holder) (done : Bool),
    h._allocate = (!done) → (h.run cs)._allocate = !(allocated done h cs) := by
  intro cs
  induction cs with
  | nil => intro h done hinv; exact hinv
  | cons c cs ih =>
    intro h done hinv
    unfold Vals_Holder.run allocated
    exact ih _ _ (holder_call_flag h c done hinv)

theorem holder_create_flag {vals : Option (Option Nat)} {cnt : Option Nat} {h0 : Vals_Holder}
    (hnew : Vals_Holder.create vals cnt = .ok h0) : h0._allocate = true := by
  unfold Vals_Holder.create at hnew
  split at hnew
  · split at hnew
    · cases hnew
    · cases hnew
      rfl
  · cases hnew

/-- C30: on a holder made by the constructor and used through any calls of
`allocate` and `reallocate`, a further `allocate(n)` throws Exists if and
only if an earlier allocation with `n > 0` through the holder (`allocate`,
or `reallocate` acting as the first allocation) has succeeded
(`sr_new_values` itself not failing with Exists).  While none has,
`allocate(0)` returns null and leaves the holder, with `*p_vals`, `*p_cnt`
and its one allocation, as it is. -/
theorem holder_allocate_exists (vals : Option (Option Nat)) (cnt : Option Nat)
    (h0 : Vals_Holder) (hnew : Vals_Holder.create vals cnt = .ok h0) (cs : List HolderCall)
    (o : Except SrErr Nat) (n : Nat) (ho : o ≠ .error SrErr.Exists) :
    ((∃ h, (h0.run cs).allocate o n = .error (SrErr.Exists, h)) ↔
      allocated false h0 cs = true) ∧
    (allocated false h0 cs = true →
      (h0.run cs).allocate o n = .error (SrErr.Exists, h0.run cs)) ∧
    (allocated false h0 cs = false →
      (h0.run cs).allocate o 0 = .ok (none, h0.run cs) ∧
      ((h0.run cs).run [HolderCall.allocate o 0]) = h0.run cs ∧
      allocated false h0 (cs ++ [HolderCall.allocate o 0]) = false) := by
  have hflag := holder_run_flag cs h0 false (by rw [holder_create_flag hnew]; rfl)
  refine ⟨⟨?_, ?_⟩, ?_, ?_⟩
  · rintro ⟨h, hh⟩
    cases ha : allocated false h0 cs with
    | true => rfl
    | false =>
      rw [ha] at hflag
      have hf : (h0.run cs)._allocate = true := by simpa using hflag
      by_cases hn : n = 0
      · subst hn
        rw [holder_allocate_zero o hf] at hh
        cases hh
      · cases o with
        | error e =>
          rw [holder_allocate_fail e hf hn] at hh
          cases hh
          exact absurd rfl ho
        | ok a =>
          rw [holder_allocate_ok a hf hn] at hh
          cases hh
  · intro ha
    rw [ha] at hflag
    exact ⟨_, holder_allocate_done o n (by simpa using hflag)⟩
  · intro ha
    rw [ha] at hflag
    exact holder_allocate_done o n (by simpa using hflag)
  · intro ha
    rw [ha] at hflag
    have hf : (h0.run cs)._allocate = true := by simpa using hflag
    have hz := holder_allocate_zero o hf
    refine ⟨hz, ?_, ?_⟩
    · simp [Vals_Holder.run, Vals_Holder.call, hz, HolderRes.holder]
    · have happ : ∀ (l : List HolderCall) (h : Vals_Holder) (done : Bool) (c : HolderCall),
          allocated done h (l ++ [c]) = allocated (allocated done h l) (h.run l) [c] := by
        intro l
        induction l with
        | nil => intro h done c; rfl
        | cons x l ih =>
          intro h done c
          simp only [List.cons_append, allocated, Vals_Holder.run]
          exact ih _ _ _
      rw [happ, ha]
      simp [allocated, Vals_Holder.call, hz, HolderRes.returned]

theorem holder_allocate_exists_witness :
    allocated false exHolder [HolderCall.allocate (.ok 4096) 1] = true ∧
    allocated false exHolder [HolderCall.allocate (.ok 4096) 0] = false ∧
    (((∃ h, (exHolder.run [HolderCall.allocate (.ok 4096) 1]).allocate (.ok 64) 2
        = .error (SrErr.Exists, h)) ↔
      allocated false exHolder [HolderCall.allocate (.ok 4096) 1] = true) ∧
    (allocated false exHolder [HolderCall.allocate (.ok 4096) 1] = true →
      (exHolder.run [HolderCall.allocate (.ok 4096) 1]).allocate (.ok 64) 2
        = .error (SrErr.Exists, exHolder.run [HolderCall.allocate (.ok 4096) 1])) ∧
    (allocated false exHolder [HolderCall.allocate (.ok 4096) 1] = false →
      (exHolder.run [HolderCall.allocate (.ok 4096) 1]).allocate (.ok 64) 0
        = .ok (none, exHolder.run [HolderCall.allocate (.ok 4096) 1]) ∧
      ((exHolder.run [HolderCall.allocate (.ok 4096) 1]).run [HolderCall.allocate (.ok 64) 0])
        = exHolder.run [HolderCall.allocate (.ok 4096) 1] ∧
      allocated false exHolder
        ([HolderCall.allocate (.ok 4096) 1] ++ [HolderCall.allocate (.ok 64) 0]) = false)) :=
  ⟨rfl, rfl, holder_allocate_exists (some none) (some 0) exHolder rfl
    [HolderCall.allocate (.ok 4096) 1] (.ok 64) 2 (fun h => by cases h)⟩

/-! ## The list after an unregistration -/

theorem conn_list_take_split (c : Nat) (l : List ConnItem) (h : conn_list_has c l = true) :
    ∃ pre item post, l = pre ++ item :: post ∧ item.cid = c ∧ (∀ x, x ∈ pre → x.cid ≠ c) ∧
      conn_list_take c l = (pre ++ post, some item) := by
  induction l with
  | nil => simp [conn_list_has] at h
  | cons it rest ih =>
    unfold conn_list_has at h
    unfold conn_list_take
    by_cases h1 : c = it.cid
    · rw [if_pos h1]
      exact ⟨[], it, rest, rfl, h1.symm, fun x hx => by simp at hx, rfl⟩
    · rw [if_neg h1] at h ⊢
      obtain ⟨pre, item, post, h2, h3, h4, h5⟩ := ih h
      refine ⟨it :: pre, item, post, by rw [h2]; rfl, h3, ?_, by rw [h5]; rfl⟩
      intro x hx
      rcases List.mem_cons.1 hx with hx | hx
      · rw [hx]; exact fun e => h1 e.symm
      · exact h4 x hx

/-- Once the mutex is taken the list is what the loop leaves, whatever
happens to the lockfile afterwards. -/
theorem conn_list_del_list {env : ConnEnv} {w : ConnWorld} {c : Nat}
    (hm : env.mlock_err = none) :
    (sr_shmmain_conn_list_del env w c).world.conn_list = (conn_list_take c w.conn_list).1 := by
  unfold sr_shmmain_conn_list_del
  rw [hm]
  simp only
  by_cases hp : env.path_fails = true
  · rw [if_pos hp]
    exact (conn_list_del_loop_facts w c).1
  · rw [if_neg hp]
    exact ((conn_unlink_facts env _ c).1).trans (conn_list_del_loop_facts w c).1

/-- C36: with the list mutex taken, `sr_shmmain_conn_list_del(c)` removes
exactly one item from the list, the first one whose `cid` is `c`, and leaves
every other item, with its `cid` and `lock_fd`, in the same order; when no
item matches, the list is unchanged.  The first matching item is the most
recently added one: after a successful `sr_shmmain_conn_list_add(c)` the
removal gives back the list as it was before the addition. -/
theorem conn_list_del_frame (env : ConnEnv) (w : ConnWorld) (c : Nat)
    (hm : env.mlock_err = none) :
    (conn_list_has c w.conn_list = true →
      ∃ pre item post, w.conn_list = pre ++ item :: post ∧ item.cid = c ∧
        (∀ x, x ∈ pre → x.cid ≠ c) ∧
        (sr_shmmain_conn_list_del env w c).world.conn_list = pre ++ post) ∧
    (conn_list_has c w.conn_list = false →
      (sr_shmmain_conn_list_del env w c).world.conn_list = w.conn_list) ∧
    (∀ env0 w0, (sr_shmmain_conn_list_add env0 w0 c).err = none →
      w = (sr_shmmain_conn_list_add env0 w0 c).world →
      (sr_shmmain_conn_list_del env w c).world.conn_list = w0.conn_list) := by
  rw [conn_list_del_list hm]
  refine ⟨?_, ?_, ?_⟩
  · intro h
    obtain ⟨pre, item, post, h1, h2, h3, h4⟩ := conn_list_take_split c w.conn_list h
    exact ⟨pre, item, post, h1, h2, h3, by rw [h4]⟩
  · intro h
    rw [conn_list_take_absent c _ h]
  · intro env0 w0 hadd hw
    rw [hw, (conn_list_add_ok hadd).1]
    unfold conn_list_take
    rw [if_pos rfl]

theorem conn_list_del_frame_witness :
    exWorldTwice.conn_list = [{ cid := 7, lock_fd := 4 }, { cid := 7, lock_fd := 3 }] ∧
    (sr_shmmain_conn_list_del exEnv exWorldTwice 7).world.conn_list
      = [{ cid := 7, lock_fd := 3 }] ∧
    (sr_shmmain_conn_list_del exEnv exWorldTwice 9).world.conn_list = exWorldTwice.conn_list :=
  ⟨by decide, by decide,
    (conn_list_del_frame exEnv exWorldTwice 9 rfl).2.1 (by decide)⟩

/-! ## Size of the arena during a build -/

/-- C34, a case where it fails: the arena built from `exTreeFull` has 696
bytes; a second `sr_shmmain_store_modules` on it with the same tree starts
with the remap to `hdr + 2 * mod = 464` bytes, less than the size of the
arena at that moment, and that remap succeeds and leaves 464 bytes. -/
theorem rebuild_shrinks_example :
    ∃ s1 r, sr_shmmain_store_modules exLayout exShm exTreeFull = .ok s1 ∧ s1.size = 696 ∧
      exLayout.hdr + count_modules exTreeFull * exLayout.mod = 464 ∧
      sr_shm_remap exLayout s1 (exLayout.hdr + count_modules exTreeFull * exLayout.mod) = .ok r ∧
      r.size = 464 ∧ sr_shmmain_store_modules exLayout s1 exTreeFull = .ok s1 :=
  ⟨_, _, rfl, rfl, rfl, rfl, rfl,
    @store_modules_again exLayout exLayout_ok exShm _ exTreeFull rfl⟩

/-- C34 (as amended): the first remap of `sr_shmmain_store_modules` requests
exactly `hdr + N * mod` bytes, whatever the size of the arena then; from
there on the size never shrinks: every step of the two loops
(`sr_shmmain_fill_module`, `sr_shmmain_add_module_deps`,
`sr_shmmain_add_module_rpcs`, `sr_shmmain_add_module_notifs`, each with its
one remap), run on any non-empty arena, leaves an arena that is not smaller,
whether it succeeds or fails, and so do the loops and the whole call after
the first remap.  On an arena of at most `hdr + N * mod` bytes the size
never shrinks during the call. -/
theorem store_modules_size_monotone {L : Layout} (hL : LayoutOK L) (s0 : Shm)
    (t : List LydNode) :
    (∀ s1, sr_shm_remap L s0 (L.hdr + count_modules t * L.mod) = .ok s1 →
      s1.size = L.hdr + count_modules t * L.mod ∧
      L.hdr + count_modules t * L.mod ≤ (arenaOf id (sr_shmmain_store_modules L s0 t)).size) ∧
    (∀ (m : LydNode) (i : Nat) (s : Shm), 0 < s.size →
      s.size ≤ (arenaOf id (sr_shmmain_fill_module L m i s)).size ∧
      s.size ≤ (arenaOf id (sr_shmmain_add_module_deps L m i s)).size ∧
      s.size ≤ (arenaOf id (sr_shmmain_add_module_rpcs L m i s)).size ∧
      s.size ≤ (arenaOf id (sr_shmmain_add_module_notifs L m i s)).size) ∧
    (∀ (mc : Nat) (ms : List LydNode) (i : Nat) (s : Shm), 0 < s.size →
      s.size ≤ (arenaOf id (store_modules_fill L mc ms i s)).size ∧
      s.size ≤ (arenaOf id (store_modules_deps L mc ms i s)).size) ∧
    (s0.size ≤ L.hdr + count_modules t * L.mod →
      s0.size ≤ (arenaOf id (sr_shmmain_store_modules L s0 t)).size) := by
  obtain ⟨ha1, ha2⟩ := store_modules_arena hL s0 t
  refine ⟨fun s1 h1 => ⟨(ha2 s1 h1).1, (ha2 s1 h1).2.2⟩, ?_, ?_, ?_⟩
  · intro m i s hs
    exact ⟨(fill_module_grown L m i s hs).2, (add_module_deps_grown L m i s hs).2,
      (add_module_rpcs_grown L m i s hs).2, (add_module_notifs_grown L m i s hs).2⟩
  · intro mc ms i s hs
    exact ⟨(store_modules_fill_grown L mc ms i s hs).2,
      (store_modules_deps_grown L mc ms i s hs).2⟩
  · intro hle
    cases hr : sr_shm_remap L s0 (L.hdr + count_modules t * L.mod) with
    | error y =>
      obtain ⟨h1, h2⟩ := ha1 y hr
      rw [h1]
      obtain ⟨e, st⟩ := y
      show s0.size ≤ st.size
      simp only at h2
      rw [h2]
    | ok s1 => exact Nat.le_trans hle (ha2 s1 hr).2.2

theorem store_modules_size_monotone_witness :
    exShm.size ≤ exLayout.hdr + count_modules exTreeFull * exLayout.mod ∧
    exShm.size ≤ (arenaOf id (sr_shmmain_store_modules exLayout exShm exTreeFull)).size :=
  ⟨by decide, (store_modules_size_monotone exLayout_ok exShm exTreeFull).2.2.2 (by decide)⟩

/-! ## The loops over the sibling list -/

theorem fill_deps_nofault {L : Layout} {s : Shm} {p : LydNode} {base di e : Nat} {x : SrErr}
    {st : Shm} (h : sr_shmmain_fill_deps L s p base di e = .error (x, st)) :
    x ≠ SrErr.Fault := by
  unfold sr_shmmain_fill_deps at h
  split at h
  · simp only [Except.error.injEq, Prod.mk.injEq] at h
    rw [← h.1]; decide
  · rcases fill_deps_loop_err _ _ _ _ _ _ _ _ h with h1 | h1 <;> rw [h1] <;> decide

theorem add_module_deps_fill_nofault (L : Layout) (dbase ibase : Nat) :
    ∀ (cs : List LydNode) (s : Shm) (di ii e : Nat) (x : SrErr) (st : Shm),
      add_module_deps_fill L dbase ibase cs s di ii e = .error (x, st) →
      x ≠ SrErr.Fault := by
  intro cs
  induction cs with
  | nil => intro s di ii e x st h; simp [add_module_deps_fill] at h
  | cons c cs ih =>
    intro s di ii e x st h
    unfold add_module_deps_fill at h
    split at h
    · split at h
      · next y hy =>
        obtain ⟨y1, y2⟩ := y
        simp only [Except.error.injEq, Prod.mk.injEq] at h
        rw [← h.1]
        exact fill_deps_nofault hy
      · exact ih _ _ _ _ _ _ h
    · split at h
      · split at h
        · simp only [Except.error.injEq, Prod.mk.injEq] at h
          rw [← h.1]; decide
        · exact ih _ _ _ _ _ _ h
      · exact ih _ _ _ _ _ _ h

theorem add_module_rpcs_op_nofault (L : Layout) (cell : Nat) :
    ∀ (ops : List LydNode) (s : Shm) (e : Nat) (x : SrErr) (st : Shm),
      add_module_rpcs_op L cell ops s e = .error (x, st) → x ≠ SrErr.Fault := by
  intro ops
  induction ops with
  | nil => intro s e x st h; simp [add_module_rpcs_op] at h
  | cons op ops ih =>
    intro s e x st h
    unfold add_module_rpcs_op at h
    split at h
    · exact ih _ _ _ _ h
    · split at h
      · simp only at h
        split at h
        · next y hy =>
          obtain ⟨y1, y2⟩ := y
          simp only [Except.error.injEq, Prod.mk.injEq] at h
          rw [← h.1]
          exact fill_deps_nofault hy
        · split at h
          · simp only [Except.error.injEq, Prod.mk.injEq] at h
            rw [← h.1]; decide
          · exact ih _ _ _ _ h
      · split at h
        · simp only at h
          split at h
          · next y hy =>
            obtain ⟨y1, y2⟩ := y
            simp only [Except.error.injEq, Prod.mk.injEq] at h
            rw [← h.1]
            exact fill_deps_nofault hy
          · split at h
            · simp only [Except.error.injEq, Prod.mk.injEq] at h
              rw [← h.1]; decide
            · exact ih _ _ _ _ h
        · exact ih _ _ _ _ h

theorem add_module_rpcs_fill_nofault (L : Layout) (base : Nat) :
    ∀ (cs : List LydNode) (s : Shm) (ri e : Nat) (x : SrErr) (st : Shm),
      add_module_rpcs_fill L base cs s ri e = .error (x, st) → x ≠ SrErr.Fault := by
  intro cs
  induction cs with
  | nil => intro s ri e x st h; simp [add_module_rpcs_fill] at h
  | cons c cs ih =>
    intro s ri e x st h
    unfold add_module_rpcs_fill at h
    split at h
    · split at h
      · next y hy =>
        obtain ⟨y1, y2⟩ := y
        simp only [Except.error.injEq, Prod.mk.injEq] at h
        rw [← h.1]
        exact add_module_rpcs_op_nofault _ _ _ _ _ _ _ hy
      · exact ih _ _ _ _ _ h
    · exact ih _ _ _ _ _ h

theorem add_module_notifs_op_nofault (L : Layout) (cell : Nat) :
    ∀ (ops : List LydNode) (s : Shm) (e : Nat) (x : SrErr) (st : Shm),
      add_module_notifs_op L cell ops s e = .error (x, st) → x ≠ SrErr.Fault := by
  intro ops
  induction ops with
  | nil => intro s e x st h; simp [add_module_notifs_op] at h
  | cons op ops ih =>
    intro s e x st h
    unfold add_module_notifs_op at h
    split at h
    · exact ih _ _ _ _ h
    · split at h
      · simp only at h
        split at h
        · next y hy =>
          obtain ⟨y1, y2⟩ := y
          simp only [Except.error.injEq, Prod.mk.injEq] at h
          rw [← h.1]
          exact fill_deps_nofault hy
        · split at h
          · simp only [Except.error.injEq, Prod.mk.injEq] at h
            rw [← h.1]; decide
          · exact ih _ _ _ _ h
      · exact ih _ _ _ _ h

theorem add_module_notifs_fill_nofault (L : Layout) (base : Nat) :
    ∀ (cs : List LydNode) (s : Shm) (ri e : Nat) (x : SrErr) (st : Shm),
      add_module_notifs_fill L base cs s ri e = .error (x, st) → x ≠ SrErr.Fault := by
  intro cs
  induction cs with
  | nil => intro s ri e x st h; simp [add_module_notifs_fill] at h
  | cons c cs ih =>
    intro s ri e x st h
    unfold add_module_notifs_fill at h
    split at h
    · split at h
      · next y hy =>
        obtain ⟨y1, y2⟩ := y
        simp only [Except.error.injEq, Prod.mk.injEq] at h
        rw [← h.1]
        exact add_module_notifs_op_nofault _ _ _ _ _ _ _ hy
      · exact ih _ _ _ _ _ h
    · exact ih _ _ _ _ _ h


theorem add_module_deps_nofault {L : Layout} {m : LydNode} {idx : Nat} {s : Shm} {x : SrErr}
    {st : Shm} (h : sr_shmmain_add_module_deps L m idx s = .error (x, st)) :
    x ≠ SrErr.Fault := by
  unfold sr_shmmain_add_module_deps at h
  split at h
  · simp only [Except.error.injEq, Prod.mk.injEq] at h
    rw [← h.1]; decide
  · simp only at h
    split at h
    · next y hy =>
      obtain ⟨y1, y2⟩ := y
      simp only [Except.error.injEq, Prod.mk.injEq] at h
      rw [← h.1, remap_err hy]; decide
    · split at h
      · next y hy =>
        obtain ⟨y1, y2⟩ := y
        simp only [Except.error.injEq, Prod.mk.injEq] at h
        rw [← h.1]
        exact add_module_deps_fill_nofault _ _ _ _ _ _ _ _ _ _ hy
      · split at h
        · simp only [Except.error.injEq, Prod.mk.injEq] at h
          rw [← h.1]; decide
        · split at h
          · simp only [Except.error.injEq, Prod.mk.injEq] at h
            rw [← h.1]; decide
          · split at h
            · simp only [Except.error.injEq, Prod.mk.injEq] at h
              rw [← h.1]; decide
            · cases h

theorem add_module_rpcs_nofault {L : Layout} {m : LydNode} {idx : Nat} {s : Shm} {x : SrErr}
    {st : Shm} (h : sr_shmmain_add_module_rpcs L m idx s = .error (x, st)) :
    x ≠ SrErr.Fault := by
  unfold sr_shmmain_add_module_rpcs at h
  split at h
  · simp only [Except.error.injEq, Prod.mk.injEq] at h
    rw [← h.1]; decide
  · simp only at h
    split at h
    · next y hy =>
      obtain ⟨y1, y2⟩ := y
      simp only [Except.error.injEq, Prod.mk.injEq] at h
      rw [← h.1, remap_err hy]; decide
    · split at h
      · next y hy =>
        obtain ⟨y1, y2⟩ := y
        simp only [Except.error.injEq, Prod.mk.injEq] at h
        rw [← h.1]
        exact add_module_rpcs_fill_nofault _ _ _ _ _ _ _ _ hy
      · split at h
        · simp only [Except.error.injEq, Prod.mk.injEq] at h
          rw [← h.1]; decide
        · split at h
          · simp only [Except.error.injEq, Prod.mk.injEq] at h
            rw [← h.1]; decide
          · cases h

theorem add_module_notifs_nofault {L : Layout} {m : LydNode} {idx : Nat} {s : Shm} {x : SrErr}
    {st : Shm} (h : sr_shmmain_add_module_notifs L m idx s = .error (x, st)) :
    x ≠ SrErr.Fault := by
  unfold sr_shmmain_add_module_notifs at h
  split at h
  · simp only [Except.error.injEq, Prod.mk.injEq] at h
    rw [← h.1]; decide
  · simp only at h
    split at h
    · next y hy =>
      obtain ⟨y1, y2⟩ := y
      simp only [Except.error.injEq, Prod.mk.injEq] at h
      rw [← h.1, remap_err hy]; decide
    · split at h
      · next y hy =>
        obtain ⟨y1, y2⟩ := y
        simp only [Except.error.injEq, Prod.mk.injEq] at h
        rw [← h.1]
        exact add_module_notifs_fill_nofault _ _ _ _ _ _ _ _ hy
      · split at h
        · simp only [Except.error.injEq, Prod.mk.injEq] at h
          rw [← h.1]; decide
        · split at h
          · simp only [Except.error.injEq, Prod.mk.injEq] at h
            rw [← h.1]; decide
          · cases h

theorem fill_module_nofault {L : Layout} {m : LydNode} {idx : Nat} {s : Shm} {x : SrErr}
    {st : Shm} (h : sr_shmmain_fill_module L m idx s = .error (x, st)) :
    x ≠ SrErr.Fault := by
  unfold sr_shmmain_fill_module at h
  simp only at h
  split at h
  · next y hy =>
    obtain ⟨r, hr⟩ := fill_module_scan_ok L idx m.child (s.setMod idx { ver := 1 }) none 0
    rw [hr] at hy
    cases hy
  · simp only [Except.error.injEq, Prod.mk.injEq] at h
    rw [← h.1]; decide
  · split at h
    · next y hy =>
      obtain ⟨y1, y2⟩ := y
      simp only [Except.error.injEq, Prod.mk.injEq] at h
      rw [← h.1, remap_err hy]; decide
    · split at h
      · simp only [Except.error.injEq, Prod.mk.injEq] at h
        rw [← h.1]; decide
      · split at h
        · simp only [Except.error.injEq, Prod.mk.injEq] at h
          rw [← h.1]; decide
        · cases h

theorem indexed_fst : ∀ (ms : List LydNode) (i : Nat),
    (indexed i ms).map Prod.fst = List.range' i ms.length := by
  intro ms
  induction ms with
  | nil => intro i; rfl
  | cons m ms ih =>
    intro i
    simp only [indexed, List.map_cons, List.length_cons, List.range'_succ, ih]

theorem indexed_snd : ∀ (ms : List LydNode) (i : Nat), (indexed i ms).map Prod.snd = ms := by
  intro ms
  induction ms with
  | nil => intro i; rfl
  | cons m ms ih =>
    intro i
    simp only [indexed, List.map_cons, ih]

theorem count_modules_zero_nil : ∀ (ms : List LydNode), count_modules ms = 0 →
    childrenNamed "module" ms = [] := by
  intro ms h
  rw [count_modules_eq] at h
  exact List.length_eq_zero.1 h

theorem store_modules_fill_visits (L : Layout) (mc : Nat) :
    ∀ (ms : List LydNode) (i : Nat) (s : Shm), i + count_modules ms = mc →
      store_modules_fill L mc ms i s = visit_fill L (indexed i (childrenNamed "module" ms)) s := by
  intro ms
  induction ms with
  | nil =>
    intro i s h
    unfold store_modules_fill
    simp only [count_modules, Nat.add_zero] at h
    rw [if_neg (by omega)]
    rfl
  | cons m ms ih =>
    intro i s h
    unfold store_modules_fill
    unfold count_modules at h
    by_cases hm : m.name = "module"
    · rw [if_pos hm] at h
      rw [if_pos (by omega), if_pos hm, childrenNamed_cons_eq ms hm]
      unfold indexed visit_fill
      cases hr : sr_shmmain_fill_module L m i s with
      | error x => rfl
      | ok s1 => exact ih (i + 1) s1 (by omega)
    · rw [if_neg hm] at h
      rw [if_neg hm, childrenNamed_cons_ne ms hm]
      by_cases hi : i < mc
      · rw [if_pos hi]
        exact ih i s (by omega)
      · rw [if_neg hi, count_modules_zero_nil ms (by omega)]
        rfl

theorem store_modules_deps_visits (L : Layout) (mc : Nat) :
    ∀ (ms : List LydNode) (i : Nat) (s : Shm), i + count_modules ms = mc →
      store_modules_deps L mc ms i s = visit_deps L (indexed i (childrenNamed "module" ms)) s := by
  intro ms
  induction ms with
  | nil =>
    intro i s h
    unfold store_modules_deps
    simp only [count_modules, Nat.add_zero] at h
    rw [if_neg (by omega)]
    rfl
  | cons m ms ih =>
    intro i s h
    unfold store_modules_deps
    unfold count_modules at h
    by_cases hm : m.name = "module"
    · rw [if_pos hm] at h
      rw [if_pos (by omega), if_pos hm, childrenNamed_cons_eq ms hm]
      unfold indexed visit_deps
      cases hr : sr_shmmain_add_module_deps L m i s with
      | error x => rfl
      | ok s1 =>
        simp only
        cases hr2 : sr_shmmain_add_module_rpcs L m i s1 with
        | error x => rfl
        | ok s2 =>
          simp only
          cases hr3 : sr_shmmain_add_module_notifs L m i s2 with
          | error x => rfl
          | ok s3 => exact ih (i + 1) s3 (by omega)
    · rw [if_neg hm] at h
      rw [if_neg hm, childrenNamed_cons_ne ms hm]
      by_cases hi : i < mc
      · rw [if_pos hi]
        exact ih i s (by omega)
      · rw [if_neg hi, count_modules_zero_nil ms (by omega)]
        rfl

theorem visit_fill_nofault (L : Layout) : ∀ (ps : List (Nat × LydNode)) (s : Shm) (x : SrErr)
    (st : Shm), visit_fill L ps s = .error (x, st) → x ≠ SrErr.Fault := by
  intro ps
  induction ps with
  | nil => intro s x st h; simp [visit_fill] at h
  | cons p ps ih =>
    intro s x st h
    obtain ⟨i, m⟩ := p
    unfold visit_fill at h
    split at h
    · next y hy =>
      obtain ⟨y1, y2⟩ := y
      simp only [Except.error.injEq, Prod.mk.injEq] at h
      rw [← h.1]
      exact fill_module_nofault hy
    · exact ih _ _ _ h

theorem visit_deps_nofault (L : Layout) : ∀ (ps : List (Nat × LydNode)) (s : Shm) (x : SrErr)
    (st : Shm), visit_deps L ps s = .error (x, st) → x ≠ SrErr.Fault := by
  intro ps
  induction ps with
  | nil => intro s x st h; simp [visit_deps] at h
  | cons p ps ih =>
    intro s x st h
    obtain ⟨i, m⟩ := p
    unfold visit_deps at h
    split at h
    · next y hy =>
      obtain ⟨y1, y2⟩ := y
      simp only [Except.error.injEq, Prod.mk.injEq] at h
      rw [← h.1]
      exact add_module_deps_nofault hy
    · split at h
      · next y hy =>
        obtain ⟨y1, y2⟩ := y
        simp only [Except.error.injEq, Prod.mk.injEq] at h
        rw [← h.1]
        exact add_module_rpcs_nofault hy
      · split at h
        · next y hy =>
          obtain ⟨y1, y2⟩ := y
          simp only [Except.error.injEq, Prod.mk.injEq] at h
          rw [← h.1]
          exact add_module_notifs_nofault hy
        · exact ih _ _ _ h

/-- C35: for every sibling list `t`, with `mod_count` the number of its
`module` nodes as the first loop counts it, each of the two index-driven
loops of `sr_shmmain_store_modules` is the sequence of visits of exactly the
nodes named `module`, in list order, with the indices `0 .. N-1`, up to the
first failing step; the loops end without ever reaching the end of the list
while `i < mod_count` (the fault of a NULL `sr_mod` does not occur), in the
loops and in the whole call. -/
theorem store_modules_loops (L : Layout) (t : List LydNode) (s : Shm) :
    store_modules_fill L (count_modules t) t 0 s
      = visit_fill L (indexed 0 (childrenNamed "module" t)) s ∧
    store_modules_deps L (count_modules t) t 0 s
      = visit_deps L (indexed 0 (childrenNamed "module" t)) s ∧
    (indexed 0 (childrenNamed "module" t)).map Prod.fst = List.range (count_modules t) ∧
    (indexed 0 (childrenNamed "module" t)).map Prod.snd
      = t.filter (fun n => decide (n.name = "module")) ∧
    (∀ st, store_modules_fill L (count_modules t) t 0 s ≠ .error (SrErr.Fault, st)) ∧
    (∀ st, store_modules_deps L (count_modules t) t 0 s ≠ .error (SrErr.Fault, st)) ∧
    (∀ st, sr_shmmain_store_modules L s t ≠ .error (SrErr.Fault, st)) := by
  have hf := fun s => store_modules_fill_visits L (count_modules t) t 0 s (Nat.zero_add _)
  have hd := fun s => store_modules_deps_visits L (count_modules t) t 0 s (Nat.zero_add _)
  refine ⟨hf s, hd s, ?_, ?_, ?_, ?_, ?_⟩
  · rw [indexed_fst, count_modules_eq, List.range_eq_range']
  · rw [indexed_snd]
    rfl
  · intro st h
    rw [hf] at h
    exact visit_fill_nofault L _ _ _ _ h rfl
  · intro st h
    rw [hd] at h
    exact visit_deps_nofault L _ _ _ _ h rfl
  · intro st h
    unfold sr_shmmain_store_modules at h
    simp only at h
    split at h
    · next y hy =>
      obtain ⟨y1, y2⟩ := y
      simp only [Except.error.injEq, Prod.mk.injEq] at h
      have := remap_err hy
      rw [h.1] at this
      cases this
    · split at h
      · next y hy =>
        obtain ⟨y1, y2⟩ := y
        simp only [Except.error.injEq, Prod.mk.injEq] at h
        rw [hf] at hy
        exact visit_fill_nofault L _ _ _ _ hy h.1
      · rw [hd] at h
        exact visit_deps_nofault L _ _ _ _ h rfl

/-! ## Errors of the build -/

/-- An assertion can stop a build before its count check.  A module whose
`deps` container holds an empty `inst-id` node and then a child that is no
dependency: the count is 2 and one slot would be filled, and the assertion
on the `inst-id` record fails first, which ends the process. -/
theorem count_mismatch_abort_example :
    (∃ m c, m ∈ childrenNamed "module" exTreeAbort ∧ c ∈ modDepChildren m ∧
      c.name ≠ "module" ∧ c.name ≠ "inst-id") ∧
    (∃ st, sr_shmmain_store_modules exLayout exShm exTreeAbort
      = .error (SrErr.Assert AssertId.dep_set, st)) ∧
    ¬ ∃ st, sr_shmmain_store_modules exLayout exShm exTreeAbort
      = .error (SrErr.Internal, st) :=
  ⟨⟨_, leaf "bogus" "", List.Mem.head _, List.Mem.tail _ (List.Mem.head _),
     by decide, by decide⟩,
   ⟨_, rfl⟩, fun ⟨_, h⟩ => by cases h⟩

/-- An assertion can stop a build before the lookup of a missing module.  A
module whose `deps` container holds an empty `inst-id` node and then a
`module` leaf naming `Z`, which is no module of the tree: the assertion on
the `inst-id` record fails before `Z` is looked up, which ends the process. -/
theorem missing_module_abort_example :
    (∃ m v, m ∈ childrenNamed "module" exTreeMissingAbort ∧ v ∈ modRefs m ∧
      v ∉ treeNames exTreeMissingAbort) ∧
    (∃ st, sr_shmmain_store_modules exLayout exShm exTreeMissingAbort
      = .error (SrErr.Assert AssertId.dep_set, st)) ∧
    ¬ ∃ st, sr_shmmain_store_modules exLayout exShm exTreeMissingAbort
      = .error (SrErr.Internal, st) :=
  ⟨⟨_, "Z", List.Mem.head _, by decide, by decide⟩, ⟨_, rfl⟩, fun ⟨_, h⟩ => by cases h⟩

theorem storeBytes_lt (big : Bool) : ∀ (k x : Nat), storeBytes big k x < 256 ^ k := by
  intro k
  induction k with
  | zero => intro x; simp [storeBytes]
  | succ k ih =>
    intro x
    unfold storeBytes
    have hp : 256 ^ (k + 1) = 256 * 256 ^ k := by rw [pow_succ, Nat.mul_comm]
    rw [hp]
    cases big with
    | true =>
      simp only [if_true]
      have h1 := ih (x / 256)
      have h2 : x % 256 * 256 ^ k ≤ 255 * 256 ^ k :=
        Nat.mul_le_mul_right _ (by omega)
      omega
    | false =>
      simp only [Bool.false_eq_true, if_false]
      have h1 := ih x
      have h2 : x / 256 ^ k % 256 * 256 ^ k ≤ 255 * 256 ^ k :=
        Nat.mul_le_mul_right _ (by omega)
      omega

/-- A byte below offset `k` does not depend on what is stored from offset
`k` on. -/
theorem byte_low (s y : Nat) {i k : Nat} (hi : i < k) :
    (y * 256 ^ k + s) / 256 ^ i % 256 = s / 256 ^ i % 256 := by
  have hk : 256 ^ k = 256 ^ (k - i - 1) * 256 * 256 ^ i := by
    rw [← pow_succ, ← pow_add]
    congr 1
    omega
  have hpos : 0 < 256 ^ i := Nat.pow_pos (by norm_num)
  rw [hk, ← Nat.mul_assoc, ← Nat.mul_assoc, Nat.add_comm, Nat.add_mul_div_right _ _ hpos,
    Nat.add_mul_mod_self_right]

/-- The byte at offset `k` above `k` stored bytes. -/
theorem byte_high {s : Nat} (b : Nat) {k : Nat} (hs : s < 256 ^ k) :
    (s + b * 256 ^ k) / 256 ^ k % 256 = b % 256 := by
  have hpos : 0 < 256 ^ k := Nat.pow_pos (by norm_num)
  rw [Nat.add_mul_div_right _ _ hpos, Nat.div_eq_of_lt hs, Nat.zero_add]

theorem storeBytes_succ_big (k x : Nat) :
    storeBytes true (k + 1) x = storeBytes true k (x / 256) + x % 256 * 256 ^ k := by
  simp [storeBytes]

theorem storeBytes_succ_little (k x : Nat) :
    storeBytes false (k + 1) x = storeBytes false k x + x / 256 ^ k % 256 * 256 ^ k := by
  simp [storeBytes]

theorem SrData.read_congr (big : Bool) (d d2 : SrData) : ∀ (k : Nat),
    (∀ i, i < k → d.byte i = d2.byte i) → d.read big k = d2.read big k := by
  intro k
  induction k with
  | zero => intro _; rfl
  | succ k ih =>
    intro h
    unfold SrData.read
    rw [ih (fun i hi => h i (by omega)), h k (by omega)]

theorem SrData.read_storeBytes (big : Bool) : ∀ (k x : Nat),
    SrData.read big { mem := storeBytes big k x } k = x % 256 ^ k := by
  intro k
  induction k with
  | zero => intro x; simp [SrData.read, Nat.mod_one]
  | succ k ih =>
    intro x
    cases big with
    | true =>
      have hlow : SrData.read true { mem := storeBytes true (k + 1) x } k
          = (x / 256) % 256 ^ k := by
        rw [← ih (x / 256)]
        apply SrData.read_congr
        intro i hi
        unfold SrData.byte
        simp only
        rw [storeBytes_succ_big, Nat.add_comm]
        exact byte_low _ _ hi
      have hhigh : SrData.byte { mem := storeBytes true (k + 1) x } k = x % 256 := by
        unfold SrData.byte
        simp only
        rw [storeBytes_succ_big, byte_high _ (storeBytes_lt true k (x / 256))]
        exact Nat.mod_mod _ _
      unfold SrData.read
      simp only [if_true]
      rw [hlow, hhigh, pow_succ, Nat.mul_comm (256 ^ k) 256, Nat.mod_mul]
      omega
    | false =>
      have hlow : SrData.read false { mem := storeBytes false (k + 1) x } k = x % 256 ^ k := by
        rw [← ih x]
        apply SrData.read_congr
        intro i hi
        unfold SrData.byte
        simp only
        rw [storeBytes_succ_little, Nat.add_comm]
        exact byte_low _ _ hi
      have hhigh : SrData.byte { mem := storeBytes false (k + 1) x } k = x / 256 ^ k % 256 := by
        unfold SrData.byte
        simp only
        rw [storeBytes_succ_little, byte_high _ (storeBytes_lt false k x)]
        exact Nat.mod_mod _ _
      unfold SrData.read
      simp only [Bool.false_eq_true, if_false]
      rw [hlow, hhigh, Nat.mod_pow_succ, Nat.mul_comm]

/-- A member reads back what was assigned to it, reduced to its width. -/
theorem SrData.read_write (big : Bool) (d : SrData) (k x : Nat) :
    (d.write big k x).read big k = x % 256 ^ k := by
  rw [← SrData.read_storeBytes big k x]
  apply SrData.read_congr
  intro i hi
  unfold SrData.byte SrData.write
  exact byte_low _ _ hi

theorem SrData.read_one (big : Bool) (d : SrData) : d.read big 1 = d.byte 0 := by
  unfold SrData.read SrData.read
  cases big <;> simp

theorem toUnsigned_lt (w : Nat) (v : Int) : toUnsigned w v < 2 ^ w := by
  unfold toUnsigned
  have hpos : (0 : Int) < ((2 ^ w : Nat) : Int) := by
    have : 0 < 2 ^ w := Nat.pow_pos (by norm_num)
    exact_mod_cast this
  have h1 := Int.emod_nonneg v (ne_of_gt hpos)
  have h2 := Int.emod_lt_of_pos v hpos
  omega

theorem signed_pattern (M H : Nat) (v : Int) (hM : M = 2 * H) (hlo : -((H : Nat) : Int) ≤ v)
    (hhi : v < ((H : Nat) : Int)) :
    (if (v % ((M : Nat) : Int)).toNat % M < H then
        (((v % ((M : Nat) : Int)).toNat % M : Nat) : Int)
      else (((v % ((M : Nat) : Int)).toNat % M : Nat) : Int) - ((M : Nat) : Int)) = v := by
  by_cases hv : 0 ≤ v
  · rw [Int.emod_eq_of_lt hv (by omega)]
    have h1 : v.toNat % M = v.toNat := Nat.mod_eq_of_lt (by omega)
    rw [h1, if_pos (by omega)]
    omega
  · have h0 : v % ((M : Nat) : Int) = v + ((M : Nat) : Int) := by
      rw [← Int.add_mul_emod_self_left v ((M : Nat) : Int) 1, Int.mul_one,
        Int.emod_eq_of_lt (by omega) (by omega)]
    rw [h0]
    have h1 : (v + ((M : Nat) : Int)).toNat % M = (v + ((M : Nat) : Int)).toNat :=
      Nat.mod_eq_of_lt (by omega)
    rw [h1, if_neg (by omega)]
    omega

/-- A value in the range of the signed type of `w` bits is read back from
its bit pattern. -/
theorem toSigned_toUnsigned {w : Nat} (hw : 0 < w) {v : Int}
    (hlo : -(((2 ^ (w - 1) : Nat) : Int)) ≤ v) (hhi : v < ((2 ^ (w - 1) : Nat) : Int)) :
    toSigned w (toUnsigned w v) = v := by
  have hM : 2 ^ w = 2 * 2 ^ (w - 1) := by
    rw [← pow_succ']
    congr 1
    omega
  unfold toSigned toUnsigned
  exact signed_pattern (2 ^ w) (2 ^ (w - 1)) v hM hlo hhi

/-! ## The wrapper `sysrepo::Val` -/

theorem valStore_same (mem : ValMem) (a : Nat) (f : SrVal → SrVal) :
    valStore mem a f a = f (mem a) := by
  simp [valStore]

theorem valStore_other (mem : ValMem) {a b : Nat} (f : SrVal → SrVal) (h : b ≠ a) :
    valStore mem a f b = mem b := by
  simp [valStore, h]

/-- What a returning `xpath_set` has done. -/
theorem val_xpath_set_ok {o : Option SrErr} {mem mem1 : ValMem} {self : Val}
    {xpath : Option String} (h : self.xpath_set o mem xpath = .ok mem1) :
    ∃ a, self._val = some a ∧ (mem1 a).data = (mem a).data ∧ (mem1 a).type = (mem a).type ∧
      (mem1 a).dflt = (mem a).dflt ∧ (∀ b, b ≠ a → mem1 b = mem b) ∧
      (∀ x, xpath = some x → (mem1 a).xpath = some x) ∧ (xpath = none → mem1 = mem) := by
  unfold Val.xpath_set at h
  cases hv : self._val with
  | none => rw [hv] at h; cases h
  | some a =>
    rw [hv] at h
    simp only at h
    split at h
    · cases h
    · cases xpath with
      | none =>
        simp only [Except.ok.injEq] at h
        subst h
        exact ⟨a, rfl, rfl, rfl, rfl, fun _ _ => rfl, fun x hx => (by cases hx), fun _ => rfl⟩
      | some x =>
        simp only at h
        cases o with
        | some ret => cases h
        | none =>
          simp only [Except.ok.injEq] at h
          subst h
          refine ⟨a, rfl, ?_, ?_, ?_, fun b hb => valStore_other _ _ hb, ?_, fun hx => (by cases hx)⟩
          · rw [valStore_same]
          · rw [valStore_same]
          · rw [valStore_same]
          · intro y hy
            cases hy
            rw [valStore_same]

/-- C32: `Val::xpath_set(xpath)` throws OperationFailed if and only if the
wrapped value is null, or `xpath` is null while the value already carries an
xpath (`sr_val_set_xpath`, which is defined outside the sources, not failing
with that code itself).  With a null `xpath` on a value without xpath it
changes nothing; with a non-null `xpath`, `sr_val_set_xpath` succeeding, the
xpath of the value is the argument afterwards and nothing else has changed.
`Val::xpath()`, `type()`, `dflt()` and `dflt_set()` throw OperationFailed
exactly when the wrapped value is null, and return otherwise. -/
theorem val_xpath_guard (o : Option SrErr) (ho : o ≠ some SrErr.OperationFailed)
    (mem : ValMem) (self : Val) (xpath : Option String) :
    ((∃ m, self.xpath_set o mem xpath = .error (SrErr.OperationFailed, m)) ↔
      (self._val = none ∨
        ∃ a, self._val = some a ∧ xpath = none ∧ (mem a).xpath ≠ none)) ∧
    (∀ a, self._val = some a → xpath = none → (mem a).xpath = none →
      self.xpath_set o mem xpath = .ok mem) ∧
    (∀ a x, self._val = some a → xpath = some x → o = none →
      ∃ mem2, self.xpath_set o mem xpath = .ok mem2 ∧ (mem2 a).xpath = some x ∧
        (mem2 a).type = (mem a).type ∧ (mem2 a).data = (mem a).data ∧
        (mem2 a).dflt = (mem a).dflt ∧ ∀ b, b ≠ a → mem2 b = mem b) ∧
    (self.xpath mem = .error SrErr.OperationFailed ↔ self._val = none) ∧
    (self.type mem = .error SrErr.OperationFailed ↔ self._val = none) ∧
    (self.dflt mem = .error SrErr.OperationFailed ↔ self._val = none) ∧
    (∀ data, (∃ m, self.dflt_set mem data = .error (SrErr.OperationFailed, m)) ↔
      self._val = none) ∧
    (∀ a, self._val = some a →
      self.xpath mem = .ok (mem a).xpath ∧ self.type mem = .ok (mem a).type ∧
      self.dflt mem = .ok (mem a).dflt ∧
      ∀ data, ∃ m, self.dflt_set mem data = .ok m ∧ (m a).dflt = data) := by
  cases hv : self._val with
  | none =>
    refine ⟨?_, ?_, ?_, ?_, ?_, ?_, ?_, ?_⟩
    · simp [Val.xpath_set, hv]
    · intro a h; cases h
    · intro a x h; cases h
    · simp [Val.xpath, hv]
    · simp [Val.type, hv]
    · simp [Val.dflt, hv]
    · intro data; simp [Val.dflt_set, hv]
    · intro a h; cases h
  | some a =>
    refine ⟨?_, ?_, ?_, ?_, ?_, ?_, ?_, ?_⟩
    · unfold Val.xpath_set
      rw [hv]
      simp only
      by_cases hc : xpath = none ∧ (mem a).xpath ≠ none
      · rw [if_pos hc]
        exact ⟨fun _ => Or.inr ⟨a, rfl, hc.1, hc.2⟩, fun _ => ⟨mem, rfl⟩⟩
      · rw [if_neg hc]
        constructor
        · rintro ⟨m, hm⟩
          cases xpath with
          | none => cases hm
          | some x =>
            simp only at hm
            cases o with
            | none => cases hm
            | some ret =>
              simp only [Except.error.injEq, Prod.mk.injEq] at hm
              exact absurd (congrArg some hm.1) ho
        · rintro (h | ⟨b, hb, h1, h2⟩)
          · cases h
          · cases hb
            exact absurd ⟨h1, h2⟩ hc
    · intro b hb h1 h2
      cases hb
      unfold Val.xpath_set
      rw [hv, h1]
      simp [h2]
    · intro b x hb h1 h2
      cases hb
      refine ⟨valStore mem a fun v => { v with xpath := some x }, ?_, ?_, ?_, ?_, ?_,
        fun c hc => valStore_other _ _ hc⟩
      · unfold Val.xpath_set
        rw [hv, h1, h2]
        simp
      · rw [valStore_same]
      · rw [valStore_same]
      · rw [valStore_same]
      · rw [valStore_same]
    · simp [Val.xpath, hv]
    · simp [Val.type, hv]
    · simp [Val.dflt, hv]
    · intro data; simp [Val.dflt_set, hv]
    · intro b hb
      cases hb
      refine ⟨by simp [Val.xpath, hv], by simp [Val.type, hv], by simp [Val.dflt, hv], ?_⟩
      intro data
      exact ⟨valStore mem a fun v => { v with dflt := data }, by simp [Val.dflt_set, hv],
        by rw [valStore_same]⟩

theorem val_xpath_guard_witness :
    (∃ m, exVal.xpath_set none exValMem none = .error (SrErr.OperationFailed, m)) ∧
    (exValMem 64).xpath = some "/a:x" :=
  ⟨(val_xpath_guard none (by decide) exValMem exVal none).1.2
    (Or.inr ⟨64, rfl, rfl, by decide⟩), by decide⟩

/-- The integer overload once `xpath_set` has returned and the type is not
an integer type. -/
theorem val_set_int64_mismatch {env : ValEnv} {mem mem1 : ValMem} {self : Val}
    {xpath : Option String} (v : Int) {type : SrType}
    (hx : self.xpath_set env.sr_val_set_xpath mem xpath = .ok mem1)
    (ht : isIntType type = false) :
    self.set_int64 env mem xpath v type = .error (SrErr.InvalArg, mem1) := by
  obtain ⟨a, ha, _⟩ := val_xpath_set_ok hx
  unfold Val.set_int64
  rw [hx]
  simp only [ha]
  cases type <;> first | (simp [isIntType] at ht; done) | rfl

/-- C31, the failing input: on a wrapper made by `Val::Val()`, whose value
is null, the integer overload called with the type tag of a string throws
OperationFailed, raised by the `xpath_set` it starts with; so it does on a
value that carries an xpath when the `xpath` argument is null.  The boolean
overload called in the same two ways throws InvalArg: it tests the type
first. -/
theorem val_set_null_example :
    (∃ m, Val.null.set_int64 exEnvLittle exValMem (some "/b:y") 5 SrType.SR_STRING_T
      = .error (SrErr.OperationFailed, m)) ∧
    (exValMem 64).xpath = some "/a:x" ∧
    (∃ m, exVal.set_int64 exEnvLittle exValMem none 5 SrType.SR_STRING_T
      = .error (SrErr.OperationFailed, m)) ∧
    (∃ m, Val.null.set_bool exEnvLittle exValMem (some "/b:y") true SrType.SR_STRING_T
      = .error (SrErr.InvalArg, m)) ∧
    (∃ m, exVal.set_bool exEnvLittle exValMem none true SrType.SR_STRING_T
      = .error (SrErr.InvalArg, m)) :=
  ⟨⟨_, rfl⟩, rfl, ⟨_, rfl⟩, ⟨_, rfl⟩, ⟨_, rfl⟩⟩

/-- C31: `set(xpath, string, type)` throws InvalArg when `type` is LIST,
CONTAINER, CONTAINER_PRESENCE or LEAF_EMPTY and the string is non-empty, and
when `type` is UNKNOWN, ANYXML, NOTIFICATION, ANYDATA or any unlisted tag;
`set(xpath, bool, type)` throws InvalArg when `type` is not BOOL; both test
the type first, and nothing has been changed.  Constructing a `Val` from a
null pointer throws InvalArg.  `set(xpath, int64, type)` with `type` not one
of the eight integer types throws InvalArg when the `xpath_set(xpath)` it
runs before the test of the type returns; where `xpath_set` throws, the
overload diverges from the other two and throws that error. -/
theorem val_set_mismatch (env : ValEnv) (mem : ValMem) (self : Val) (xpath : Option String) :
    (∀ (value : String) (type : SrType),
      (type = SrType.SR_LIST_T ∨ type = SrType.SR_CONTAINER_T ∨
        type = SrType.SR_CONTAINER_PRESENCE_T ∨ type = SrType.SR_LEAF_EMPTY_T) →
      value ≠ "" →
      self.set_str env mem xpath (some value) type = .error (SrErr.InvalArg, mem)) ∧
    (∀ (value : Option String) (type : SrType),
      (type = SrType.SR_UNKNOWN_T ∨ type = SrType.SR_ANYXML_T ∨
        type = SrType.SR_NOTIFICATION_T ∨ type = SrType.SR_ANYDATA_T ∨
        ∃ tag, type = SrType.other tag) →
      self.set_str env mem xpath value type = .error (SrErr.InvalArg, mem)) ∧
    (∀ (bool_val : Bool) (type : SrType), type ≠ SrType.SR_BOOL_T →
      self.set_bool env mem xpath bool_val type = .error (SrErr.InvalArg, mem)) ∧
    (∀ (v : Int) (type : SrType), isIntType type = false →
      (∀ mem1, self.xpath_set env.sr_val_set_xpath mem xpath = .ok mem1 →
        self.set_int64 env mem xpath v type = .error (SrErr.InvalArg, mem1)) ∧
      (∀ e, self.xpath_set env.sr_val_set_xpath mem xpath = .error e →
        self.set_int64 env mem xpath v type = .error e)) ∧
    Val.wrap none = .error SrErr.InvalArg := by
  refine ⟨?_, ?_, ?_, ?_, rfl⟩
  · intro value type ht hv
    have hc : (some value : Option String) ≠ none ∧ (some value : Option String) ≠ some "" :=
      ⟨by simp, by simpa using hv⟩
    rcases ht with h | h | h | h <;> subst h <;> simp only [Val.set_str] <;> rw [if_pos hc]
  · intro value type ht
    rcases ht with h | h | h | h | ⟨tag, h⟩ <;> subst h <;> rfl
  · intro b type ht
    unfold Val.set_bool
    rw [if_pos ht]
  · intro v type ht
    refine ⟨fun mem1 hx => val_set_int64_mismatch v hx ht, ?_⟩
    intro e he
    unfold Val.set_int64
    rw [he]

/-- C39, the failing input: the value at address 64 has the xpath `/a:x`;
the integer overload called on it with the xpath `/b:y` and the type tag of
a string throws InvalArg, and the xpath of the value is `/b:y` afterwards.
The boolean overload called in the same way throws InvalArg and leaves the
xpath `/a:x`. -/
theorem val_set_int64_xpath_example :
    (exValMem 64).xpath = some "/a:x" ∧
    (∃ m, exVal.set_int64 exEnvLittle exValMem (some "/b:y") 5 SrType.SR_STRING_T
        = .error (SrErr.InvalArg, m) ∧
      (m 64).xpath = some "/b:y") ∧
    ∃ m, exVal.set_bool exEnvLittle exValMem (some "/b:y") true SrType.SR_STRING_T
        = .error (SrErr.InvalArg, m) ∧
      (m 64).xpath = some "/a:x" :=
  ⟨rfl, ⟨_, rfl, rfl⟩, _, rfl, rfl⟩

/-- C39: when `Val::set(xpath, int64, type)` throws InvalArg because `type`
is not an integer type (`xpath_set(xpath)`, which it runs before the test of
the type, has returned), the data, the type tag and the default flag of the
wrapped value, and every other value, are the same as before the call.  The
xpath is the same only with a null `xpath` argument: with a non-null one the
overload diverges from the boolean overload, and the value carries the new
xpath at the throw. -/
theorem val_set_int64_failed (env : ValEnv) (mem mem1 : ValMem) (self : Val)
    (xpath : Option String) (v : Int) (type : SrType)
    (hx : self.xpath_set env.sr_val_set_xpath mem xpath = .ok mem1)
    (ht : isIntType type = false) :
    self.set_int64 env mem xpath v type = .error (SrErr.InvalArg, mem1) ∧
    ∃ a, self._val = some a ∧ (mem1 a).data = (mem a).data ∧ (mem1 a).type = (mem a).type ∧
      (mem1 a).dflt = (mem a).dflt ∧ (∀ b, b ≠ a → mem1 b = mem b) ∧
      (∀ x, xpath = some x → (mem1 a).xpath = some x) ∧ (xpath = none → mem1 = mem) :=
  ⟨val_set_int64_mismatch v hx ht, val_xpath_set_ok hx⟩

theorem val_set_int64_failed_witness :
    (exValMem 64).xpath = some "/a:x" ∧
    ∃ m, exVal.xpath_set exEnvLittle.sr_val_set_xpath exValMem (some "/b:y") = .ok m ∧
      exVal.set_int64 exEnvLittle exValMem (some "/b:y") 5 SrType.SR_STRING_T
        = .error (SrErr.InvalArg, m) ∧
      (m 64).xpath = some "/b:y" :=
  ⟨rfl, _, rfl,
    (@val_set_int64_failed exEnvLittle exValMem _ exVal (some "/b:y") 5 SrType.SR_STRING_T rfl
      rfl).1, rfl⟩

/-! ## Access to the values of `sysrepo::Vals` -/

/-- The method `val` on an object with a non-null array. -/
theorem vals_val_of_array (val_size : Nat) {v : Vals} {a : Nat} (ha : v._vals = some a)
    (i : Nat) :
    (v._cnt ≤ i → v.val val_size i = .error SrErr.OutOfRange) ∧
    (i < v._cnt → v.val val_size i = .ok { _val := some (a + i * val_size) }) := by
  unfold Vals.val
  constructor
  · intro h
    rw [if_pos h]
  · intro h
    rw [if_neg (by omega), ha]
    rfl

/-- C33: a `Vals` constructed with count `c` holds `c` values, and so does
one after `reallocate(c)` (`sr_new_values` and `sr_realloc_values`, which
are defined outside the sources, giving an array when they succeed with a
non-zero count): `val(i)` returns a wrapper of the `i`-th value, the one at
`_vals + i * sizeof(sr_val_t)`, for every `i < c`, and throws out_of_range
for every `i >= c`; after `reallocate(n)` the count is `n`.  So for
`Vals(7)` the calls `val(0)` to `val(6)` return, and after `allocate(1)`
through a holder and `reallocate(2)` on the result `val(1)` returns. -/
theorem vals_val_bounds (val_size : Nat) :
    (∀ (o : Except SrErr Nat) (c : Nat) (v : Vals), Vals.create o c = .ok v →
      v._cnt = c ∧
      (∀ i, c ≤ i → v.val val_size i = .error SrErr.OutOfRange) ∧
      (∀ i, i < c →
        ∃ a, v._vals = some a ∧ v.val val_size i = .ok { _val := some (a + i * val_size) })) ∧
    (∀ (v0 v : Vals) (n : Nat) (p q : Option Nat), (n = 0 ∨ p ≠ none) →
      v0.reallocate (.ok p) n = .ok (q, v) →
      v._cnt = n ∧ q = p ∧ v._vals = p ∧
      (∀ i, n ≤ i → v.val val_size i = .error SrErr.OutOfRange) ∧
      (∀ i, i < n →
        ∃ a, v._vals = some a ∧ v.val val_size i = .ok { _val := some (a + i * val_size) })) ∧
    (∃ v, Vals.create (.ok 4096) 7 = .ok v ∧
      ∀ i, i < 7 → v.val val_size i = .ok { _val := some (4096 + i * val_size) }) ∧
    (∃ v1 h1 v2, exHolder.allocate (.ok 4096) 1 = .ok (some v1, h1) ∧
      v1.reallocate (.ok (some 8192)) 2 = .ok (some 8192, v2) ∧
      v2.val val_size 1 = .ok { _val := some (8192 + 1 * val_size) } ∧
      v2.val val_size 2 = .error SrErr.OutOfRange) := by
  refine ⟨?_, ?_, ?_, ?_⟩
  · intro o c v h
    unfold Vals.create at h
    by_cases hc : c = 0
    · subst hc
      simp only [ne_eq, not_true_eq_false, if_false, Except.ok.injEq] at h
      subst h
      refine ⟨rfl, ?_, fun i hi => by omega⟩
      intro i _
      unfold Vals.val
      rw [if_pos (Nat.zero_le _)]
    · rw [if_pos hc] at h
      cases o with
      | error e => cases h
      | ok a =>
        simp only [Except.ok.injEq] at h
        subst h
        exact ⟨rfl, fun i hi => (vals_val_of_array val_size rfl i).1 hi,
          fun i hi => ⟨a, rfl, (vals_val_of_array val_size rfl i).2 hi⟩⟩
  · intro v0 v n p q hp h
    unfold Vals.reallocate at h
    simp only [Except.ok.injEq, Prod.mk.injEq] at h
    obtain ⟨hq, hv⟩ := h
    subst hv
    refine ⟨rfl, hq.symm, rfl, ?_, ?_⟩
    · intro i hi
      unfold Vals.val
      rw [if_pos hi]
    · intro i hi
      cases p with
      | none =>
        rcases hp with hp | hp
        · omega
        · exact absurd rfl hp
      | some a => exact ⟨a, rfl, (vals_val_of_array val_size rfl i).2 hi⟩
  · refine ⟨{ _vals := some 4096, _cnt := 7 }, rfl, ?_⟩
    intro i hi
    exact (vals_val_of_array val_size rfl i).2 hi
  · refine ⟨{ _vals := some 4096, _cnt := 1 }, _, { _vals := some 8192, _cnt := 2 }, rfl, rfl,
      ?_, ?_⟩
    · exact (vals_val_of_array val_size rfl 1).2 (by decide)
    · exact (vals_val_of_array val_size rfl 2).1 (by decide)

/-! ## Setting a scalar and reading it back -/

/-- What a returning assignment of a scalar leaves: the type tag, and the
member reading back the bit pattern reduced to the width of the member. -/
theorem val_assign_ok {env : ValEnv} {mem mem2 : ValMem} {self : Val} {xpath : Option String}
    {k x : Nat} {T : SrType} (h : self.assign env mem xpath k x T = .ok mem2) :
    self.type mem2 = .ok T ∧
    ∃ d, self.data mem2 = .ok d ∧ d._t = T ∧ d._d.read env.big k = x % 256 ^ k := by
  unfold Val.assign at h
  cases hx : self.xpath_set env.sr_val_set_xpath mem xpath with
  | error e => rw [hx] at h; cases h
  | ok mem1 =>
    rw [hx] at h
    cases hv : self._val with
    | none => rw [hv] at h; cases h
    | some a =>
      rw [hv] at h
      simp only [Except.ok.injEq] at h
      subst h
      refine ⟨?_, { _d := (mem1 a).data.write env.big k x, _t := T }, ?_, rfl,
        SrData.read_write _ _ _ _⟩
      · unfold Val.type
        rw [hv]
        simp only [valStore_same]
      · unfold Val.data
        rw [hv]
        simp only [valStore_same]

theorem toUnsigned_of_range (w : Nat) {v : Int} (h0 : 0 ≤ v) (h1 : v < ((2 ^ w : Nat) : Int)) :
    ((toUnsigned w v : Nat) : Int) = v := by
  unfold toUnsigned
  rw [Int.emod_eq_of_lt h0 h1]
  omega

theorem toUnsigned_natCast (w x : Nat) (h : x < 2 ^ w) : toUnsigned w (x : Int) = x := by
  have h1 := toUnsigned_of_range w (Int.natCast_nonneg x) (by exact_mod_cast h)
  exact_mod_cast h1

/-- C37: after a returning `set(xpath, v)` of a scalar overload the type of
the value is the matching tag, and for the overloads of bool, int8, int32,
uint8, uint16, uint32 and uint64 the matching getter on `data()` returns
`v`, for every `v` of the type.  After `set(xpath, int16 v)` the member
`int16_val` is `v`, and `get_int16` returns the member `uint32_val`
converted to `int16_t`: that is `v` where the least significant byte comes
first, and it is not `v` where the most significant byte comes first, where
after `set(xpath, int16_t{5})` on a zeroed value `get_int16` returns 0. -/
theorem val_set_get_round_trip (env : ValEnv) (mem : ValMem) (self : Val)
    (xpath : Option String) :
    (∀ (v : Bool) (mem2 : ValMem),
      self.set_bool env mem xpath v SrType.SR_BOOL_T = .ok mem2 →
      self.type mem2 = .ok SrType.SR_BOOL_T ∧
      ∃ d, self.data mem2 = .ok d ∧ d.get_bool = .ok v) ∧
    (∀ (v : Int) (mem2 : ValMem), -128 ≤ v → v < 128 →
      self.set_int8 env mem xpath v = .ok mem2 →
      self.type mem2 = .ok SrType.SR_INT8_T ∧
      ∃ d, self.data mem2 = .ok d ∧ d.get_int8 env.big = .ok v) ∧
    (∀ (v : Int) (mem2 : ValMem), -2147483648 ≤ v → v < 2147483648 →
      self.set_int32 env mem xpath v = .ok mem2 →
      self.type mem2 = .ok SrType.SR_INT32_T ∧
      ∃ d, self.data mem2 = .ok d ∧ d.get_int32 env.big = .ok v) ∧
    (∀ (v : Nat) (mem2 : ValMem), v < 256 →
      self.set_uint8 env mem xpath v = .ok mem2 →
      self.type mem2 = .ok SrType.SR_UINT8_T ∧
      ∃ d, self.data mem2 = .ok d ∧ d.get_uint8 env.big = .ok v) ∧
    (∀ (v : Nat) (mem2 : ValMem), v < 65536 →
      self.set_uint16 env mem xpath v = .ok mem2 →
      self.type mem2 = .ok SrType.SR_UINT16_T ∧
      ∃ d, self.data mem2 = .ok d ∧ d.get_uint16 env.big = .ok v) ∧
    (∀ (v : Nat) (mem2 : ValMem), v < 4294967296 →
      self.set_uint32 env mem xpath v = .ok mem2 →
      self.type mem2 = .ok SrType.SR_UINT32_T ∧
      ∃ d, self.data mem2 = .ok d ∧ d.get_uint32 env.big = .ok v) ∧
    (∀ (v : Nat) (mem2 : ValMem), v < 18446744073709551616 →
      self.set_uint64 env mem xpath v = .ok mem2 →
      self.type mem2 = .ok SrType.SR_UINT64_T ∧
      ∃ d, self.data mem2 = .ok d ∧ d.get_uint64 env.big = .ok v) ∧
    (∀ (v : Int) (mem2 : ValMem), -32768 ≤ v → v < 32768 →
      self.set_int16 env mem xpath v = .ok mem2 →
      self.type mem2 = .ok SrType.SR_INT16_T ∧
      ∃ d, self.data mem2 = .ok d ∧ d._d.int16_val env.big = v ∧
        d.get_int16 env.big = .ok (toSigned 16 (d._d.uint32_val env.big)) ∧
        (env.big = false → d.get_int16 env.big = .ok v)) ∧
    (∃ m d, (exValMem 128).data = { mem := 0 } ∧
      ({ _val := some 128 } : Val).set_int16 exEnvBig exValMem (some "/b:y") 5 = .ok m ∧
      ({ _val := some 128 } : Val).type m = .ok SrType.SR_INT16_T ∧
      ({ _val := some 128 } : Val).data m = .ok d ∧
      d._d.int16_val true = 5 ∧ d._d.uint32_val true = 0x50000 ∧ d.get_int16 true = .ok 0) := by
  refine ⟨?_, ?_, ?_, ?_, ?_, ?_, ?_, ?_, ?_⟩
  · intro v mem2 h
    unfold Val.set_bool at h
    rw [if_neg (by simp)] at h
    obtain ⟨h1, d, h2, h3, h4⟩ := val_assign_ok h
    refine ⟨h1, d, h2, ?_⟩
    unfold Data.get_bool SrData.bool_val
    rw [if_neg (by simp [h3]), ← SrData.read_one env.big, h4]
    cases v <;> simp
  · intro v mem2 hlo hhi h
    obtain ⟨h1, d, h2, h3, h4⟩ := val_assign_ok h
    refine ⟨h1, d, h2, ?_⟩
    unfold Data.get_int8 SrData.int8_val
    rw [if_neg (by simp [h3]), h4, show (256 : Nat) ^ 1 = 2 ^ 8 from by norm_num, toSigned_mod,
      toSigned_toUnsigned (by norm_num) (by norm_num; omega) (by norm_num; omega)]
  · intro v mem2 hlo hhi h
    obtain ⟨h1, d, h2, h3, h4⟩ := val_assign_ok h
    refine ⟨h1, d, h2, ?_⟩
    unfold Data.get_int32 SrData.int32_val
    rw [if_neg (by simp [h3]), h4, show (256 : Nat) ^ 4 = 2 ^ 32 from by norm_num, toSigned_mod,
      toSigned_toUnsigned (by norm_num) (by norm_num; omega) (by norm_num; omega)]
  · intro v mem2 hv h
    obtain ⟨h1, d, h2, h3, h4⟩ := val_assign_ok h
    refine ⟨h1, d, h2, ?_⟩
    unfold Data.get_uint8 SrData.uint8_val
    rw [if_neg (by simp [h3]), h4, Nat.mod_eq_of_lt (by norm_num; omega)]
  · intro v mem2 hv h
    obtain ⟨h1, d, h2, h3, h4⟩ := val_assign_ok h
    refine ⟨h1, d, h2, ?_⟩
    unfold Data.get_uint16 SrData.uint16_val
    rw [if_neg (by simp [h3]), h4, Nat.mod_eq_of_lt (by norm_num; omega)]
  · intro v mem2 hv h
    obtain ⟨h1, d, h2, h3, h4⟩ := val_assign_ok h
    refine ⟨h1, d, h2, ?_⟩
    unfold Data.get_uint32 SrData.uint32_val
    rw [if_neg (by simp [h3]), h4, Nat.mod_eq_of_lt (by norm_num; omega)]
  · intro v mem2 hv h
    obtain ⟨h1, d, h2, h3, h4⟩ := val_assign_ok h
    refine ⟨h1, d, h2, ?_⟩
    unfold Data.get_uint64 SrData.uint64_val
    rw [if_neg (by simp [h3]), h4, Nat.mod_eq_of_lt (by norm_num; omega)]
  · intro v mem2 hlo hhi h
    obtain ⟨h1, d, h2, h3, h4⟩ := val_assign_ok h
    have hm : d._d.int16_val env.big = v := by
      unfold SrData.int16_val
      rw [h4, show (256 : Nat) ^ 2 = 2 ^ 16 from by norm_num, toSigned_mod,
        toSigned_toUnsigned (by norm_num) (by norm_num; omega) (by norm_num; omega)]
    have hg : d.get_int16 env.big = .ok (toSigned 16 (d._d.uint32_val env.big)) := by
      unfold Data.get_int16
      rw [if_neg (by simp [h3])]
    refine ⟨h1, d, h2, hm, hg, ?_⟩
    intro hb
    rw [hg]
    rw [hb] at hm ⊢
    rw [SrData.uint32_as_int16_little, hm]
  · exact ⟨_, _, rfl, rfl, rfl, rfl, by decide, by decide, rfl⟩

/-! ## The integer overload of `Val::set` -/

/-- For an integer type the overload is the assignment of the bit pattern
of the width of the type to the member of the type. -/
theorem val_set_int64_assign {env : ValEnv} {mem : ValMem} {self : Val}
    {xpath : Option String} (v : Int) {T : SrType} (ht : isIntType T = true) :
    self.set_int64 env mem xpath v T
      = self.assign env mem xpath (intWidth T / 8) (toUnsigned (intWidth T) v) T := by
  unfold Val.set_int64 Val.assign
  cases hx : self.xpath_set env.sr_val_set_xpath mem xpath with
  | error e => rfl
  | ok mem1 =>
    cases hv : self._val with
    | none => rfl
    | some a => cases T <;> first | (simp [isIntType] at ht; done) | rfl

theorem toUnsigned_eq_emod (w : Nat) (v : Int) :
    ((toUnsigned w v : Nat) : Int) = v % ((2 ^ w : Nat) : Int) := by
  unfold toUnsigned
  have hpos : (0 : Int) < ((2 ^ w : Nat) : Int) := by
    have : 0 < 2 ^ w := Nat.pow_pos (by norm_num)
    exact_mod_cast this
  have h1 := Int.emod_nonneg v (ne_of_gt hpos)
  omega

/-- The stored value and the argument differ by a multiple of `2 ^ w`. -/
theorem reduceTo_congr (T : SrType) (v : Int) :
    (reduceTo T v - v) % ((2 ^ intWidth T : Nat) : Int) = 0 := by
  have hu := toUnsigned_eq_emod (intWidth T) v
  have hlt := toUnsigned_lt (intWidth T) v
  have e1 : v % ((2 ^ intWidth T : Nat) : Int) - v
      = ((2 ^ intWidth T : Nat) : Int) * (-(v / ((2 ^ intWidth T : Nat) : Int))) := by
    rw [Int.emod_def]; ring
  unfold reduceTo
  split
  · unfold toSigned
    rw [Nat.mod_eq_of_lt hlt]
    split
    · rw [hu, e1]
      exact Int.mul_emod_right _ _
    · rw [hu]
      have e2 : v % ((2 ^ intWidth T : Nat) : Int) - ((2 ^ intWidth T : Nat) : Int) - v
          = ((2 ^ intWidth T : Nat) : Int) * (-(v / ((2 ^ intWidth T : Nat) : Int)) - 1) := by
        rw [Int.emod_def]; ring
      rw [e2]
      exact Int.mul_emod_right _ _
  · rw [hu, e1]
    exact Int.mul_emod_right _ _

/-- The integer overload on an integer type: the tag, the member and the
getter of the type. -/
theorem val_set_int64_ok {env : ValEnv} {mem mem2 : ValMem} {self : Val}
    {xpath : Option String} {v : Int} {T : SrType} (ht : isIntType T = true)
    (h : self.set_int64 env mem xpath v T = .ok mem2) :
    self.type mem2 = .ok T ∧
    ∃ d, self.data mem2 = .ok d ∧ d._t = T ∧
      memberOf env.big T d._d = reduceTo T v ∧
      ((T ≠ SrType.SR_INT16_T ∨ env.big = false) →
        getterOf env.big T d = .ok (reduceTo T v)) ∧
      (inRangeOf T v → reduceTo T v = v) := by
  rw [val_set_int64_assign v ht] at h
  obtain ⟨h1, d, h2, h3, h4⟩ := val_assign_ok h
  refine ⟨h1, d, h2, h3, ?_⟩
  cases T <;> first | (simp [isIntType] at ht; done) | skip
  · have hr : d._d.read env.big 1 = toUnsigned 8 v := by
      have hlt : toUnsigned 8 v < 256 ^ 1 := by
        have := toUnsigned_lt 8 v
        norm_num at this ⊢
        exact this
      exact h4.trans (Nat.mod_eq_of_lt hlt)
    refine ⟨?_, ?_, ?_⟩
    · show toSigned 8 (d._d.read env.big 1) = toSigned 8 (toUnsigned 8 v)
      rw [hr]
    · intro _
      show d.get_int8 env.big = .ok (toSigned 8 (toUnsigned 8 v))
      unfold Data.get_int8 SrData.int8_val
      rw [if_neg (by simp [h3]), hr]
    · intro hin
      have hin2 : -(((2 ^ (8 - 1) : Nat) : Int)) ≤ v ∧ v < ((2 ^ (8 - 1) : Nat) : Int) := hin
      show toSigned 8 (toUnsigned 8 v) = v
      exact toSigned_toUnsigned (by norm_num) hin2.1 hin2.2
  · have hr : d._d.read env.big 2 = toUnsigned 16 v := by
      have hlt : toUnsigned 16 v < 256 ^ 2 := by
        have := toUnsigned_lt 16 v
        norm_num at this ⊢
        exact this
      exact h4.trans (Nat.mod_eq_of_lt hlt)
    refine ⟨?_, ?_, ?_⟩
    · show toSigned 16 (d._d.read env.big 2) = toSigned 16 (toUnsigned 16 v)
      rw [hr]
    · intro hb
      rcases hb with hb | hb
      · exact absurd rfl hb
      · show d.get_int16 env.big = .ok (toSigned 16 (toUnsigned 16 v))
        unfold Data.get_int16
        rw [if_neg (by simp [h3])]
        rw [hb] at hr ⊢
        rw [SrData.uint32_as_int16_little]
        unfold SrData.int16_val
        rw [hr]
    · intro hin
      have hin2 : -(((2 ^ (16 - 1) : Nat) : Int)) ≤ v ∧ v < ((2 ^ (16 - 1) : Nat) : Int) := hin
      show toSigned 16 (toUnsigned 16 v) = v
      exact toSigned_toUnsigned (by norm_num) hin2.1 hin2.2
  · have hr : d._d.read env.big 4 = toUnsigned 32 v := by
      have hlt : toUnsigned 32 v < 256 ^ 4 := by
        have := toUnsigned_lt 32 v
        norm_num at this ⊢
        exact this
      exact h4.trans (Nat.mod_eq_of_lt hlt)
    refine ⟨?_, ?_, ?_⟩
    · show toSigned 32 (d._d.read env.big 4) = toSigned 32 (toUnsigned 32 v)
      rw [hr]
    · intro _
      show d.get_int32 env.big = .ok (toSigned 32 (toUnsigned 32 v))
      unfold Data.get_int32 SrData.int32_val
      rw [if_neg (by simp [h3]), hr]
    · intro hin
      have hin2 : -(((2 ^ (32 - 1) : Nat) : Int)) ≤ v ∧ v < ((2 ^ (32 - 1) : Nat) : Int) := hin
      show toSigned 32 (toUnsigned 32 v) = v
      exact toSigned_toUnsigned (by norm_num) hin2.1 hin2.2
  · have hr : d._d.read env.big 8 = toUnsigned 64 v := by
      have hlt : toUnsigned 64 v < 256 ^ 8 := by
        have := toUnsigned_lt 64 v
        norm_num at this ⊢
        exact this
      exact h4.trans (Nat.mod_eq_of_lt hlt)
    refine ⟨?_, ?_, ?_⟩
    · show toSigned 64 (d._d.read env.big 8) = toSigned 64 (toUnsigned 64 v)
      rw [hr]
    · intro _
      show d.get_int64 env.big = .ok (toSigned 64 (toUnsigned 64 v))
      unfold Data.get_int64 SrData.int64_val
      rw [if_neg (by simp [h3]), hr]
    · intro hin
      have hin2 : -(((2 ^ (64 - 1) : Nat) : Int)) ≤ v ∧ v < ((2 ^ (64 - 1) : Nat) : Int) := hin
      show toSigned 64 (toUnsigned 64 v) = v
      exact toSigned_toUnsigned (by norm_num) hin2.1 hin2.2
  · have hr : d._d.read env.big 1 = toUnsigned 8 v := by
      have hlt : toUnsigned 8 v < 256 ^ 1 := by
        have := toUnsigned_lt 8 v
        norm_num at this ⊢
        exact this
      exact h4.trans (Nat.mod_eq_of_lt hlt)
    refine ⟨?_, ?_, ?_⟩
    · show ((d._d.read env.big 1 : Nat) : Int) = ((toUnsigned 8 v : Nat) : Int)
      rw [hr]
    · intro _
      show (d.get_uint8 env.big).map (fun (x : Nat) => (x : Int))
        = .ok ((toUnsigned 8 v : Nat) : Int)
      unfold Data.get_uint8 SrData.uint8_val
      rw [if_neg (by simp [h3]), hr]
      rfl
    · intro hin
      have hin2 : 0 ≤ v ∧ v < ((2 ^ 8 : Nat) : Int) := hin
      show ((toUnsigned 8 v : Nat) : Int) = v
      exact toUnsigned_of_range 8 hin2.1 hin2.2
  · have hr : d._d.read env.big 2 = toUnsigned 16 v := by
      have hlt : toUnsigned 16 v < 256 ^ 2 := by
        have := toUnsigned_lt 16 v
        norm_num at this ⊢
        exact this
      exact h4.trans (Nat.mod_eq_of_lt hlt)
    refine ⟨?_, ?_, ?_⟩
    · show ((d._d.read env.big 2 : Nat) : Int) = ((toUnsigned 16 v : Nat) : Int)
      rw [hr]
    · intro _
      show (d.get_uint16 env.big).map (fun (x : Nat) => (x : Int))
        = .ok ((toUnsigned 16 v : Nat) : Int)
      unfold Data.get_uint16 SrData.uint16_val
      rw [if_neg (by simp [h3]), hr]
      rfl
    · intro hin
      have hin2 : 0 ≤ v ∧ v < ((2 ^ 16 : Nat) : Int) := hin
      show ((toUnsigned 16 v : Nat) : Int) = v
      exact toUnsigned_of_range 16 hin2.1 hin2.2
  · have hr : d._d.read env.big 4 = toUnsigned 32 v := by
      have hlt : toUnsigned 32 v < 256 ^ 4 := by
        have := toUnsigned_lt 32 v
        norm_num at this ⊢
        exact this
      exact h4.trans (Nat.mod_eq_of_lt hlt)
    refine ⟨?_, ?_, ?_⟩
    · show ((d._d.read env.big 4 : Nat) : Int) = ((toUnsigned 32 v : Nat) : Int)
      rw [hr]
    · intro _
      show (d.get_uint32 env.big).map (fun (x : Nat) => (x : Int))
        = .ok ((toUnsigned 32 v : Nat) : Int)
      unfold Data.get_uint32 SrData.uint32_val
      rw [if_neg (by simp [h3]), hr]
      rfl
    · intro hin
      have hin2 : 0 ≤ v ∧ v < ((2 ^ 32 : Nat) : Int) := hin
      show ((toUnsigned 32 v : Nat) : Int) = v
      exact toUnsigned_of_range 32 hin2.1 hin2.2
  · have hr : d._d.read env.big 8 = toUnsigned 64 v := by
      have hlt : toUnsigned 64 v < 256 ^ 8 := by
        have := toUnsigned_lt 64 v
        norm_num at this ⊢
        exact this
      exact h4.trans (Nat.mod_eq_of_lt hlt)
    refine ⟨?_, ?_, ?_⟩
    · show ((d._d.read env.big 8 : Nat) : Int) = ((toUnsigned 64 v : Nat) : Int)
      rw [hr]
    · intro _
      show (d.get_uint64 env.big).map (fun (x : Nat) => (x : Int))
        = .ok ((toUnsigned 64 v : Nat) : Int)
      unfold Data.get_uint64 SrData.uint64_val
      rw [if_neg (by simp [h3]), hr]
      rfl
    · intro hin
      have hin2 : 0 ≤ v ∧ v < ((2 ^ 64 : Nat) : Int) := hin
      show ((toUnsigned 64 v : Nat) : Int) = v
      exact toUnsigned_of_range 64 hin2.1 hin2.2

/-- C38: `Val::set(xpath, int64 v, type T)` with `T` one of the eight
integer types, when it returns, has stored `v` reduced modulo `2 ^ w` (`w`
the bit width of `T`, two's complement for a signed `T`) in the member of
`T` and set the type tag to `T`; for `v` within the range of `T` the stored
value is `v`, for `v` outside it the value is truncated, not rejected (300
as uint8 is stored as 44).  The getter of `T` returns the stored value for
every `T` but int16, and for int16 where the least significant byte comes
first; where the most significant byte comes first, after
`set(xpath, 5, SR_INT16_T)` on a zeroed value the member `int16_val` is 5
and `get_int16` returns 0. -/
theorem val_set_int64_modular (env : ValEnv) (mem : ValMem) (self : Val)
    (xpath : Option String) :
    (∀ (v : Int) (T : SrType) (mem2 : ValMem), isIntType T = true →
      self.set_int64 env mem xpath v T = .ok mem2 →
      self.type mem2 = .ok T ∧
      ∃ d, self.data mem2 = .ok d ∧ d._t = T ∧
        memberOf env.big T d._d = reduceTo T v ∧
        ((T ≠ SrType.SR_INT16_T ∨ env.big = false) →
          getterOf env.big T d = .ok (reduceTo T v)) ∧
        (inRangeOf T v → reduceTo T v = v) ∧
        (reduceTo T v - v) % ((2 ^ intWidth T : Nat) : Int) = 0) ∧
    (∃ m d, exVal.set_int64 exEnvLittle exValMem (some "/b:y") 300 SrType.SR_UINT8_T = .ok m ∧
      exVal.data m = .ok d ∧ d.get_uint8 false = .ok 44) ∧
    (∃ m d, (exValMem 128).data = { mem := 0 } ∧
      ({ _val := some 128 } : Val).set_int64 exEnvBig exValMem (some "/b:y") 5
        SrType.SR_INT16_T = .ok m ∧
      ({ _val := some 128 } : Val).data m = .ok d ∧ d._t = SrType.SR_INT16_T ∧
      memberOf true SrType.SR_INT16_T d._d = 5 ∧
      getterOf true SrType.SR_INT16_T d = .ok 0) := by
  refine ⟨?_, ⟨_, _, rfl, rfl, rfl⟩, ⟨_, _, rfl, rfl, rfl, rfl, by decide, rfl⟩⟩
  intro v T mem2 ht h
  obtain ⟨h1, d, h2, h3, h4, h5, h6⟩ := val_set_int64_ok ht h
  exact ⟨h1, d, h2, h3, h4, h5, h6, reduceTo_congr T v⟩

end Sysrepo
